import Mathlib

set_option autoImplicit false

/-!
# Scope resolution of the QML/JS compiler (`ScanFunctions`)

A shallow embedding of `src/qml/compiler/qv4compilerscanfunctions.cpp`.

* Pointers to `Context` objects are indices into the arena `Module.contexts`;
  the module's `contextMap` (syntax node ↦ context) is a list of pairs whose
  order is the iteration order of the map.
* Syntax nodes that own a context carry a number standing for their address.
* `Codegen::throwSyntaxError` returns to its caller (the scanner keeps running
  after the call), so it is a state update that records the raised error.
-/

namespace QV4
namespace Compiler

/-! ## Syntax tree (the part of `QQmlJS::AST` the scanner looks at) -/

/-- A token position in the source text (`QQmlJS::AST::SourceLocation`). -/
structure SourceLocation where
  offset : Nat
  length : Nat
  deriving DecidableEq, Repr

/-- The scope keyword of a declaration (`QQmlJS::AST::VariableScope`). -/
inductive VariableScope where
  | Var
  | Let
  | Const
  deriving DecidableEq, Repr

/-- Modelled from the spec: `isLexicallyScoped()` of members and pattern elements is
declared outside the files at hand; a binding is lexically scoped when it is
introduced by `let` or `const`. -/
def VariableScope.isLexicallyScoped : VariableScope → Bool
  | .Var => false
  | .Let => true
  | .Const => true

mutual
/-- Expressions. -/
inductive ExpressionNode where
  | IdentifierExpression (name : String) (identifierToken : SourceLocation)
  | StringLiteral (literalToken : SourceLocation)
  | NumericLiteral (value : Nat)
  | ThisExpression
  | CallExpression (base : ExpressionNode) (arguments : List ExpressionNode)
  | NewMemberExpression (base : ExpressionNode) (arguments : List ExpressionNode)
  | BinaryExpression (left : ExpressionNode) (right : ExpressionNode)
  | ArrayPattern (elements : List PatternElementList) (elision : Nat)
  | ObjectPattern (properties : List PatternElement)
  | FunctionExpression (f : FunctionNode)
/-- One binding or pattern entry. `boundNames` is what `boundNames()` reports for
the element, `isVariableDeclaration` what `isVariableDeclaration()` reports. -/
inductive PatternElement where
  | mk (identifierToken : SourceLocation) (bindingIdentifier : String)
      (boundNames : List String) (bindingTarget : Option ExpressionNode)
      (initializer : Option ExpressionNode) (scope : VariableScope)
      (isVariableDeclaration : Bool) (isRest : Bool)
/-- One entry of an array literal: the elisions in front of it and the element. -/
inductive PatternElementList where
  | mk (elision : Nat) (element : PatternElement)
/-- A function expression or declaration. `id` stands for the node address; an
empty `formals` list is the null pointer. -/
inductive FunctionNode where
  | mk (id : Nat) (name : String) (functionToken : SourceLocation)
      (identifierToken : SourceLocation) (isArrowFunction : Bool) (isGenerator : Bool)
      (formals : List PatternElement) (body : Option (List Statement))
/-- Statements. -/
inductive Statement where
  | ExpressionStatement (expression : ExpressionNode) (firstSourceLocation : SourceLocation)
  | VariableStatement (declarations : List PatternElement)
  | FunctionDeclaration (f : FunctionNode)
  | Block (id : Nat) (statements : List Statement)
  | TryStatement (statement : Statement) (catchBlock : Option Statement)
      (finallyBlock : Option Statement)
  | WithStatement (withToken : SourceLocation) (expression : ExpressionNode)
      (statement : Statement)
  | DoWhileStatement (statement : Statement) (expression : ExpressionNode)
  | ForStatement (initialiser : Option ExpressionNode) (condition : Option ExpressionNode)
      (expression : Option ExpressionNode) (statement : Statement)
  | LocalForStatement (declarations : List PatternElement)
      (condition : Option ExpressionNode) (expression : Option ExpressionNode)
      (statement : Statement)
  | ForEachStatement (initialiser : ExpressionNode) (expression : ExpressionNode)
      (statement : Statement)
  | LocalForEachStatement (declaration : PatternElement) (expression : ExpressionNode)
      (statement : Statement)
end

/-- A whole program: its node address and its statement list. -/
structure Program where
  id : Nat
  statements : List Statement

namespace PatternElement

def identifierToken : PatternElement → SourceLocation
  | .mk t _ _ _ _ _ _ _ => t

def bindingIdentifier : PatternElement → String
  | .mk _ b _ _ _ _ _ _ => b

def boundNames : PatternElement → List String
  | .mk _ _ n _ _ _ _ _ => n

def bindingTarget : PatternElement → Option ExpressionNode
  | .mk _ _ _ t _ _ _ _ => t

def initializer : PatternElement → Option ExpressionNode
  | .mk _ _ _ _ i _ _ _ => i

def scope : PatternElement → VariableScope
  | .mk _ _ _ _ _ s _ _ => s

def isVariableDeclaration : PatternElement → Bool
  | .mk _ _ _ _ _ _ v _ => v

def isRest : PatternElement → Bool
  | .mk _ _ _ _ _ _ _ r => r

def isLexicallyScoped (e : PatternElement) : Bool :=
  e.scope.isLexicallyScoped

end PatternElement

namespace FunctionNode

def id : FunctionNode → Nat
  | .mk i _ _ _ _ _ _ _ => i

def name : FunctionNode → String
  | .mk _ n _ _ _ _ _ _ => n

def functionToken : FunctionNode → SourceLocation
  | .mk _ _ t _ _ _ _ _ => t

def identifierToken : FunctionNode → SourceLocation
  | .mk _ _ _ t _ _ _ _ => t

def isArrowFunction : FunctionNode → Bool
  | .mk _ _ _ _ a _ _ _ => a

def isGenerator : FunctionNode → Bool
  | .mk _ _ _ _ _ g _ _ => g

def formals : FunctionNode → List PatternElement
  | .mk _ _ _ _ _ _ f _ => f

def body : FunctionNode → Option (List Statement)
  | .mk _ _ _ _ _ _ _ b => b

end FunctionNode

/-- A formal parameter list; the empty list is the null pointer. -/
abbrev FormalParameterList := List PatternElement

namespace FormalParameterList

/-- Modelled from the spec: `FormalParameterList::boundNames` is declared outside the
files at hand; every name bound by the parameter list, in order. -/
def boundNames (formals : FormalParameterList) : List String :=
  formals.flatMap PatternElement.boundNames

/-- Modelled from the spec: `FormalParameterList::formals` is declared outside the
files at hand; the ordered list of formal parameter names. -/
def formals (formals : FormalParameterList) : List String :=
  formals.map PatternElement.bindingIdentifier

/-- Modelled from the spec: `FormalParameterList::containsName` is declared outside
the files at hand; whether the parameter list binds the name. -/
def containsName (formals : FormalParameterList) (name : String) : Bool :=
  decide (name ∈ boundNames formals)

/-- Modelled from the spec: `FormalParameterList::isSimpleParameterList` is declared
outside the files at hand; a list is simple when it contains no defaults, no rest
element and no destructuring. -/
def isSimpleParameterList (formals : FormalParameterList) : Bool :=
  formals.all fun e =>
    e.initializer.isNone && !e.isRest && e.bindingTarget.isNone

/-- The position reported for errors about the parameter list. -/
def firstSourceLocation (formals : FormalParameterList) : SourceLocation :=
  match formals with
  | [] => ⟨0, 0⟩
  | e :: _ => e.identifierToken

end FormalParameterList

/-! ## Contexts and the module (`qv4compilercontext_p.h`) -/

/-- Modelled from the spec: the declaration of `ContextType` is outside the files at
hand; the context kinds the data model lists. -/
inductive ContextType where
  | Global
  | Function
  | Block
  | Catch
  | With
  | Eval
  deriving DecidableEq, Repr

/-- Modelled from the spec: the declaration of `Context::MemberType` is outside the
files at hand; the member kinds the data model lists, under the names the scanner
uses for them. -/
inductive MemberType where
  | ThisFunctionName
  | VariableDefinition
  | VariableDeclaration
  | FunctionDefinition
  deriving DecidableEq, Repr

/-- The tri-state `Context::UsesArgumentsObject`. -/
inductive UsesArgumentsObject where
  | ArgumentsObjectUnknown
  | ArgumentsObjectUsed
  | ArgumentsObjectNotUsed
  deriving DecidableEq, Repr

/-- A declared name of a context (`Context::Member`); `function` is the address of
the function node of a function definition. -/
structure Member where
  type : MemberType
  scope : VariableScope := .Var
  canEscape : Bool := false
  function : Option Nat := none
  deriving DecidableEq, Repr

def Member.isLexicallyScoped (m : Member) : Bool :=
  m.scope.isLexicallyScoped

/-- One lexical scope (`Context`). `parent` is an index into the module's arena,
`formals` the parameter list the context was entered with. -/
structure Context where
  parent : Option Nat
  contextType : ContextType
  name : String := ""
  isStrict : Bool := false
  members : List (String × Member) := []
  usedVariables : List String := []
  formals : FormalParameterList := []
  arguments : List String := []
  hasDirectEval : Bool := false
  hasWith : Bool := false
  hasTry : Bool := false
  hasNestedFunctions : Bool := false
  usesArgumentsObject : UsesArgumentsObject := .ArgumentsObjectUnknown
  usesThis : Bool := false
  isArrowFunction : Bool := false
  isGenerator : Bool := false
  argumentsCanEscape : Bool := false
  requiresExecutionContext : Bool := false
  maxNumberOfArguments : Int := 0

namespace Context

/-- The member registered under `name`, if any (`members.find` / `memberInfo`). -/
def memberInfo (c : Context) (name : String) : Option Member :=
  c.members.lookup name

/-- Modelled from the spec: `Context::findArgument` is declared outside the files at
hand; the position of `name` among the context's formal parameter names, `-1` when
it is not a formal parameter. -/
def findArgument (c : Context) (name : String) : Int :=
  if name ∈ c.arguments then (c.arguments.indexOf name : Int) else -1

/-- Modelled from the spec: `Context::addUsedVariable` is declared outside the files
at hand; the used names form a set. -/
def addUsedVariable (c : Context) (name : String) : Context :=
  if name ∈ c.usedVariables then c else { c with usedVariables := c.usedVariables ++ [name] }

/-- Modelled from the spec: `Context::addLocalVar` is declared outside the files at
hand. A member name is unique within one context; redeclaring a lexically scoped
binding over an existing binding, or any binding over a lexically scoped one, is
refused (`false`); declaring the same `var`-like binding again is accepted and
resolves to the one member already there; a new name is registered. -/
def addLocalVar (c : Context) (name : String) (type : MemberType) (scope : VariableScope)
    (function : Option Nat := none) : Bool × Context :=
  match c.members.lookup name with
  | some m =>
    if scope.isLexicallyScoped || m.isLexicallyScoped then (false, c) else (true, c)
  | none =>
    (true, { c with members := c.members ++
      [(name, { type := type, scope := scope, canEscape := false, function := function })] })

/-- Set `canEscape` on the member registered under `name` (`it->canEscape = true`). -/
def markEscaping (c : Context) (name : String) : Context :=
  { c with members := c.members.map fun p =>
      (p.1, if p.1 == name then { p.2 with canEscape := true } else p.2) }

/-- Set `canEscape` on every member (`for (auto &m : c->members) m.canEscape = true`). -/
def markAllEscaping (c : Context) : Context :=
  { c with members := c.members.map fun p => (p.1, { p.2 with canEscape := true }) }

end Context

/-- The compilation unit's contexts (`Module`): the arena of contexts, the map from
syntax nodes to contexts in its iteration order, and the debug-mode toggle. -/
structure Module where
  contexts : List Context := []
  contextMap : List (Nat × Nat) := []
  debugMode : Bool := false

namespace Module

/-- Dereference a context pointer. -/
def context? (m : Module) (i : Nat) : Option Context :=
  m.contexts[i]?

/-- Write through a context pointer. -/
def modify (m : Module) (i : Nat) (f : Context → Context) : Module :=
  match m.contexts[i]? with
  | some c => { m with contexts := m.contexts.set i (f c) }
  | none => m

/-- The contexts in the iteration order of `contextMap`. -/
def order (m : Module) : List Nat :=
  m.contextMap.map Prod.snd

end Module

/-! ## The escape-analysis sweep (`ScanFunctions::calcEscapingVariables`) -/

namespace ScanFunctions

/-- The `while (c)` walk of the sweep for one used variable `var` of `inner`,
started at context `c`: the first context on the parent chain that has `var` as a
member, or else as a formal parameter, is marked when it is not `inner` itself.
`fuel` bounds the number of contexts visited. -/
def markUse (inner : Nat) (var : String) : Nat → Option Nat → Module → Module
  | 0, _, m => m
  | _ + 1, none, m => m
  | fuel + 1, some c, m =>
    match m.context? c with
    | none => m
    | some ctx =>
      if (ctx.memberInfo var).isSome then
        if c ≠ inner then
          m.modify c fun x => { x.markEscaping var with requiresExecutionContext := true }
        else m
      else if ctx.findArgument var ≠ -1 then
        if c ≠ inner then
          m.modify c fun x => { x with argumentsCanEscape := true, requiresExecutionContext := true }
        else m
      else markUse inner var fuel ctx.parent m

/-- The loop `c->hasDirectEval |= inner->hasDirectEval; c->hasWith |= inner->hasWith`
over the ancestors of `inner`, started at `c`. -/
def propagateFlags (inner : Nat) : Nat → Option Nat → Module → Module
  | 0, _, m => m
  | _ + 1, none, m => m
  | fuel + 1, some c, m =>
    match m.context? inner, m.context? c with
    | some i, some ctx =>
      propagateFlags inner fuel ctx.parent
        (m.modify c fun x => { x with hasDirectEval := x.hasDirectEval || i.hasDirectEval,
                                      hasWith := x.hasWith || i.hasWith })
    | _, _ => m

/-- The loop `while (f->contextType == ContextType::Block) f = f->parent`, started at
`f`: the nearest context that is not a block. The source dereferences `f` without a
null check; graphs built by the scanner give every block such an ancestor. -/
def enclosingNonBlock (m : Module) : Nat → Option Nat → Option Nat
  | 0, _ => none
  | _ + 1, none => none
  | fuel + 1, some f =>
    match m.context? f with
    | none => none
    | some ctx =>
      if ctx.contextType = .Block then enclosingNonBlock m fuel ctx.parent else some f

/-- The hand-over of a block's use of `arguments` to its enclosing non-block context. -/
def liftArgumentsUse (m : Module) (inner : Nat) : Module :=
  match m.context? inner with
  | none => m
  | some ic =>
    if ic.contextType = .Block ∧ ic.usesArgumentsObject = .ArgumentsObjectUsed then
      match enclosingNonBlock m m.contexts.length ic.parent with
      | some f =>
        (m.modify f fun x => { x with usesArgumentsObject := .ArgumentsObjectUsed }).modify inner
          fun x => { x with usesArgumentsObject := .ArgumentsObjectNotUsed }
      | none => m
    else m

/-- The body of the first loop of the sweep for the context `inner`. -/
def sweepInner (m : Module) (inner : Nat) : Module :=
  match m.context? inner with
  | none => m
  | some ic =>
    let m1 := ic.usedVariables.foldl
      (fun acc var => markUse inner var acc.contexts.length (some inner) acc) m
    let m2 := propagateFlags inner m1.contexts.length ic.parent m1
    liftArgumentsUse m2 inner

/-- The `allVarsEscape` decision of the second loop. -/
def allVarsEscape (debugMode : Bool) (c : Context) : Bool :=
  let a := c.hasWith || c.hasTry || c.hasDirectEval
  let a := if a && c.contextType == .Block && c.members.isEmpty then false else a
  if debugMode then true else a

/-- `if (allVarsEscape) { c->requiresExecutionContext = true; c->argumentsCanEscape = true; }` -/
def applyAllVarsEscape (all : Bool) (c : Context) : Context :=
  if all then { c with requiresExecutionContext := true, argumentsCanEscape := true } else c

/-- `if (c->contextType == ContextType::Global) c->requiresExecutionContext = false;` -/
def clearGlobalRequirement (c : Context) : Context :=
  if c.contextType = .Global then { c with requiresExecutionContext := false } else c

/-- `if (c->contextType == ContextType::Eval && c->isStrict) c->requiresExecutionContext = true;` -/
def requireStrictEval (c : Context) : Context :=
  if c.contextType = .Eval ∧ c.isStrict = true then { c with requiresExecutionContext := true }
  else c

/-- `if (!c->parent || c->usesArgumentsObject == Context::ArgumentsObjectUnknown)
c->usesArgumentsObject = Context::ArgumentsObjectNotUsed;` -/
def settleArgumentsObject (c : Context) : Context :=
  if c.parent.isNone = true ∨ c.usesArgumentsObject = .ArgumentsObjectUnknown then
    { c with usesArgumentsObject := .ArgumentsObjectNotUsed }
  else c

/-- The injection of the synthetic `arguments` member when the arguments object is
used, with its consequences for a context that is not strict. -/
def injectArguments (c : Context) : Context :=
  if c.usesArgumentsObject = .ArgumentsObjectUsed then
    let c1 := (c.addLocalVar "arguments" .VariableDeclaration .Var).2
    if c1.isStrict = false then
      { c1 with argumentsCanEscape := true, requiresExecutionContext := true }
    else c1
  else c

/-- `if (allVarsEscape) { for (auto &m : c->members) m.canEscape = true; }` -/
def escapeAllMembers (all : Bool) (c : Context) : Context :=
  if all then c.markAllEscaping else c

/-- The body of the second loop of the sweep, which reads and writes one context:
its statements in order. -/
def finalizeContext (debugMode : Bool) (c : Context) : Context :=
  let all := allVarsEscape debugMode c
  escapeAllMembers all (injectArguments (settleArgumentsObject (requireStrictEval
    (clearGlobalRequirement (applyAllVarsEscape all c)))))

/-- The second loop of the sweep at the context `c`. -/
def sweepContext (m : Module) (c : Nat) : Module :=
  m.modify c (finalizeContext m.debugMode)

/-- The whole sweep `ScanFunctions::calcEscapingVariables`. -/
def calcEscapingVariables (m : Module) : Module :=
  let m1 := m.order.foldl sweepInner m
  m1.order.foldl sweepContext m1

end ScanFunctions

/-! ## The scanner (`ScanFunctions`) -/

/-- A static error handed to `Codegen::throwSyntaxError`. -/
structure SyntaxError where
  loc : SourceLocation
  message : String
  deriving DecidableEq, Repr

/-- The state of a `ScanFunctions` object together with the code generator state it
writes to: the module, the code generator's strict-mode default and the errors
raised so far (oldest first). `contextStack` has its top at the head. `noted` is not
a variable of the source: it lists, oldest first, the counts handed to
`qMax(_context->maxNumberOfArguments, ...)` so far, each with the context that was
current. -/
structure ScanFunctions where
  module : Module := {}
  strictMode : Bool := false
  errors : List SyntaxError := []
  sourceCode : String := ""
  contextStack : List Nat := []
  context : Option Nat := none
  allowFuncDecls : Bool := true
  defaultProgramType : ContextType := .Global
  noted : List (Nat × Int) := []

namespace Module

/-- Modelled from the spec: `Module::newContext` is declared outside the files at hand;
entering a scope creates a new context chained to the current one and files it under
the syntax node; the new context starts with the strictness of the context it is
chained to. -/
def newContext (m : Module) (node : Nat) (parent : Option Nat) (contextType : ContextType) :
    Nat × Module :=
  let strict := match parent.bind m.context? with
    | some p => p.isStrict
    | none => false
  (m.contexts.length,
    { m with contexts := m.contexts ++ [{ parent := parent, contextType := contextType,
                                          isStrict := strict }],
             contextMap := m.contextMap ++ [(node, m.contexts.length)] })

end Module

namespace ScanFunctions

/-- Modelled from the spec: `Codegen::throwSyntaxError` is declared outside the files
at hand; it raises a static error identifying the token location and carrying the
message. The scanner's code goes on after the call, so raising is recording. -/
def throwSyntaxError (s : ScanFunctions) (loc : SourceLocation) (detail : String) :
    ScanFunctions :=
  { s with errors := s.errors ++ [⟨loc, detail⟩] }

/-- The errors raised on the way from state `s` to state `s'`. -/
def raisedSince (s s' : ScanFunctions) : List SyntaxError :=
  s'.errors.drop s.errors.length

/-- The current context `*_context`. -/
def current (s : ScanFunctions) : Option Context :=
  s.context.bind s.module.context?

/-- Write through `_context`. -/
def modifyContext (s : ScanFunctions) (f : Context → Context) : ScanFunctions :=
  match s.context with
  | some i => { s with module := s.module.modify i f }
  | none => s

/-- Write through a pointer to the context `o`. -/
def modifyAt (s : ScanFunctions) (o : Nat) (f : Context → Context) : ScanFunctions :=
  { s with module := s.module.modify o f }

/-- `o->addLocalVar(...)` for a pointer to the context `o`: the answer and the state
after the call. -/
def addLocalVarAt (s : ScanFunctions) (o : Nat) (name : String) (type : MemberType)
    (scope : VariableScope) (function : Option Nat) : Bool × ScanFunctions :=
  match s.module.context? o with
  | some c =>
    let r := c.addLocalVar name type scope function
    (r.1, s.modifyAt o fun _ => r.2)
  | none => (true, s)

/-- `_context->isStrict`. -/
def isStrict (s : ScanFunctions) : Bool :=
  match s.current with
  | some c => c.isStrict
  | none => false

/-- `_context->addLocalVar(...)` : the answer and the state after the call. -/
def addLocalVar (s : ScanFunctions) (name : String) (type : MemberType) (scope : VariableScope)
    (function : Option Nat := none) : Bool × ScanFunctions :=
  match s.current with
  | some c =>
    let r := c.addLocalVar name type scope function
    (r.1, s.modifyContext fun _ => r.2)
  | none => (true, s)

/-- `ScanFunctions::enterEnvironment`. -/
def enterEnvironment (s : ScanFunctions) (node : Nat) (compilationMode : ContextType) :
    ScanFunctions :=
  let (c, m) := match s.module.contextMap.lookup node with
    | some c => (c, s.module)
    | none => s.module.newContext node s.context compilationMode
  let m := m.modify c fun x => if !x.isStrict then { x with isStrict := s.strictMode } else x
  { s with module := m, contextStack := c :: s.contextStack, context := some c }

/-- `ScanFunctions::leaveEnvironment`. -/
def leaveEnvironment (s : ScanFunctions) : ScanFunctions :=
  let stack := s.contextStack.tail
  { s with contextStack := stack, context := stack.head? }

/-- `QString::midRef(position, n)` on the source text. -/
def midRef (source : String) (position n : Nat) : String :=
  ⟨(source.data.drop position).take n⟩

/-- `ScanFunctions::checkDirectivePrologue`. -/
def checkDirectivePrologue (s : ScanFunctions) : List Statement → ScanFunctions
  | [] => s
  | .ExpressionStatement (.StringLiteral literalToken) _ :: rest =>
    if literalToken.length < 2 then checkDirectivePrologue s rest
    else if midRef s.sourceCode (literalToken.offset + 1) (literalToken.length - 2) = "use strict"
    then checkDirectivePrologue (s.modifyContext fun c => { c with isStrict := true }) rest
    else checkDirectivePrologue s rest
  | _ :: _ => s

/-- The strict-mode reserved words of `ScanFunctions::checkName`. -/
def isStrictReservedWord (name : String) : Bool :=
  name == "implements" || name == "interface" || name == "let" || name == "package"
    || name == "private" || name == "protected" || name == "public" || name == "static"
    || name == "yield"

/-- `ScanFunctions::checkName`. -/
def checkName (s : ScanFunctions) (name : String) (loc : SourceLocation) : ScanFunctions :=
  if s.isStrict then
    if isStrictReservedWord name then
      s.throwSyntaxError loc "Unexpected strict mode reserved word"
    else s
  else s

/-- `ScanFunctions::visit(Program *)`. -/
def visitProgram (s : ScanFunctions) (ast : Program) : Bool × ScanFunctions :=
  let s := s.enterEnvironment ast.id s.defaultProgramType
  (true, s.checkDirectivePrologue ast.statements)

/-- `_context->maxNumberOfArguments = qMax(_context->maxNumberOfArguments, argc)`. -/
def noteArgumentCount (s : ScanFunctions) (argc : Int) : ScanFunctions :=
  let s' := s.modifyContext fun c =>
    { c with maxNumberOfArguments := max c.maxNumberOfArguments argc }
  match s.context with
  | some i =>
    if (s.module.context? i).isSome then { s' with noted := s.noted ++ [(i, argc)] } else s'
  | none => s'

/-- `ScanFunctions::visit(CallExpression *)`. -/
def visitCallExpression (s : ScanFunctions) (base : ExpressionNode)
    (arguments : List ExpressionNode) : Bool × ScanFunctions :=
  let s :=
    match s.current with
    | some c =>
      if !c.hasDirectEval then
        match base with
        | .IdentifierExpression name _ =>
          if name = "eval" then
            let s := s.modifyContext fun c =>
              if c.usesArgumentsObject = UsesArgumentsObject.ArgumentsObjectUnknown then
                { c with usesArgumentsObject := .ArgumentsObjectUsed } else c
            s.modifyContext fun c => { c with hasDirectEval := true }
          else s
        | _ => s
      else s
    | none => s
  (true, s.noteArgumentCount arguments.length)

/-- `ScanFunctions::visit(NewMemberExpression *)`. -/
def visitNewMemberExpression (s : ScanFunctions) (arguments : List ExpressionNode) :
    Bool × ScanFunctions :=
  (true, s.noteArgumentCount arguments.length)

/-- The slot count `ScanFunctions::visit(ArrayPattern *)` computes: every element
with the elisions in front of it, and the trailing elisions but the first. -/
def arrayPatternSlots (elements : List PatternElementList) (elision : Nat) : Nat :=
  (elements.map fun | .mk e _ => e + 1).sum + (elision - 1)

/-- `ScanFunctions::visit(ArrayPattern *)`. -/
def visitArrayPattern (s : ScanFunctions) (elements : List PatternElementList)
    (elision : Nat) : Bool × ScanFunctions :=
  (true, s.noteArgumentCount (arrayPatternSlots elements elision))

/-- The body of the loop over the bound names in `ScanFunctions::visit(PatternElement *)`
for one name: `false` when the visit returns from inside the loop. -/
def declareName (s : ScanFunctions) (ast : PatternElement) (name : String) :
    Bool × ScanFunctions :=
  let s := if s.isStrict && (name == "eval" || name == "arguments") then
      s.throwSyntaxError ast.identifierToken
        "Variable name may not be eval or arguments in strict mode"
    else s
  let s := s.checkName name ast.identifierToken
  let s := if name = "arguments" then
      s.modifyContext fun c => { c with usesArgumentsObject := .ArgumentsObjectNotUsed }
    else s
  if ast.scope = .Const ∧ ast.initializer.isNone = true then
    (false, s.throwSyntaxError ast.identifierToken "Missing initializer in const declaration")
  else
    let clash := match s.current.bind fun c => c.memberInfo name with
      | some m => m.isLexicallyScoped || ast.isLexicallyScoped
      | none => false
    if clash then
      (false, s.throwSyntaxError ast.identifierToken
        ("Identifier " ++ name ++ " has already been declared"))
    else
      let r := s.addLocalVar name
        (if ast.initializer.isSome then .VariableDefinition else .VariableDeclaration) ast.scope
      if !r.1 then
        (false, r.2.throwSyntaxError ast.identifierToken
          ("Identifier " ++ ast.bindingIdentifier ++ " has already been declared"))
      else (true, r.2)

/-- The loop over the bound names in `ScanFunctions::visit(PatternElement *)`. -/
def declareNames (ast : PatternElement) : List String → ScanFunctions → Bool × ScanFunctions
  | [], s => (true, s)
  | name :: rest, s =>
    let r := declareName s ast name
    if r.1 then declareNames ast rest r.2 else (false, r.2)

/-- `ScanFunctions::visit(PatternElement *)`. -/
def visitPatternElement (s : ScanFunctions) (ast : PatternElement) : Bool × ScanFunctions :=
  if !ast.isVariableDeclaration then (true, s)
  else declareNames ast ast.boundNames s

/-- `ScanFunctions::visit(IdentifierExpression *)`. -/
def visitIdentifierExpression (s : ScanFunctions) (name : String)
    (identifierToken : SourceLocation) : Bool × ScanFunctions :=
  let s := s.checkName name identifierToken
  let s := s.modifyContext fun c =>
    if c.usesArgumentsObject = .ArgumentsObjectUnknown ∧ name = "arguments" then
      { c with usesArgumentsObject := .ArgumentsObjectUsed } else c
  (true, s.modifyContext fun c => c.addUsedVariable name)

/-- `ScanFunctions::visit(TryStatement *)`. -/
def visitTryStatement (s : ScanFunctions) : Bool × ScanFunctions :=
  (true, s.modifyContext fun c => { c with hasTry := true })

/-- `ScanFunctions::visit(WithStatement *)`. -/
def visitWithStatement (s : ScanFunctions) (withToken : SourceLocation) :
    Bool × ScanFunctions :=
  if s.isStrict then
    (false, s.throwSyntaxError withToken "'with' statement is not allowed in strict mode")
  else
    (true, s.modifyContext fun c => { c with hasWith := true })

/-- `ScanFunctions::visit(ThisExpression *)`. -/
def visitThisExpression (s : ScanFunctions) : Bool × ScanFunctions :=
  (false, s.modifyContext fun c => { c with usesThis := true })

/-- The body of the loop over the bound names of the formal parameters in
`ScanFunctions::enterFunction` for the name `arg`, with `later` the names behind it
(`boundNames.indexOf(arg, i + 1) != -1` asks whether `arg` is among them): `false`
when `enterFunction` returns `false` from inside the loop. -/
def checkParameter (s : ScanFunctions) (formals : FormalParameterList)
    (isSimpleParameterList : Bool) (arg : String) (later : List String) :
    Bool × ScanFunctions :=
  let duplicate := decide (arg ∈ later)
  if (s.isStrict || !isSimpleParameterList) && duplicate then
    (false, s.throwSyntaxError formals.firstSourceLocation
      ("Duplicate parameter name '" ++ arg ++ "' is not allowed."))
  else if s.isStrict && (arg == "eval" || arg == "arguments") then
    (false, s.throwSyntaxError formals.firstSourceLocation
      ("'" ++ arg ++ "' cannot be used as parameter name in strict mode"))
  else
    let inArguments := match s.current with
      | some c => decide (arg ∈ c.arguments)
      | none => false
    if !inArguments then (true, (s.addLocalVar arg .VariableDefinition .Var).2)
    else (true, s)

/-- The loop `for (int i = 0; i < boundNames.size(); ++i)` of
`ScanFunctions::enterFunction` over the bound names still to be checked. -/
def checkParameters (formals : FormalParameterList) (isSimpleParameterList : Bool) :
    List String → ScanFunctions → Bool × ScanFunctions
  | [], s => (true, s)
  | arg :: later, s =>
    let r := checkParameter s formals isSimpleParameterList arg later
    if r.1 then checkParameters formals isSimpleParameterList later r.2
    else (false, r.2)

/-- The part of `ScanFunctions::enterFunction` under `if (outerContext)`, for the
outer context `o`: `false` when `enterFunction` returns `false` from it. -/
def enterFunctionOuter (s : ScanFunctions) (o : Nat) (ast : FunctionNode) (name : String)
    (enterName : Bool) : Bool × ScanFunctions :=
  let s := s.modifyAt o fun c => { c with hasNestedFunctions := true }
  if enterName && !(s.addLocalVarAt o name .FunctionDefinition .Var (some ast.id)).1 then
    (false, (s.addLocalVarAt o name .FunctionDefinition .Var (some ast.id)).2.throwSyntaxError
      ast.functionToken ("Identifier " ++ name ++ " has already been declared"))
  else
    let s := if enterName then
        ((s.addLocalVarAt o name .FunctionDefinition .Var (some ast.id)).2.addLocalVarAt o name
          .FunctionDefinition .Var (some ast.id)).2
      else s
    let s := if name = "arguments" then
        s.modifyAt o fun c => { c with usesArgumentsObject := .ArgumentsObjectNotUsed }
      else s
    (true, s)

/-- `_context->name = name;` -/
def setFunctionName (s : ScanFunctions) (name : String) : ScanFunctions :=
  s.modifyContext fun c => { c with name := name }

/-- `if (formals && formals->containsName("arguments"))
_context->usesArgumentsObject = Context::ArgumentsObjectNotUsed;` -/
def noteArgumentsParameter (s : ScanFunctions) (formals : FormalParameterList) :
    ScanFunctions :=
  if formals.containsName "arguments" then
    s.modifyContext fun c => { c with usesArgumentsObject := .ArgumentsObjectNotUsed }
  else s

/-- `if (expr->isArrowFunction) _context->isArrowFunction = true;
else if (expr->isGenerator) _context->isGenerator = true;` -/
def noteFunctionKind (s : ScanFunctions) (ast : FunctionNode) : ScanFunctions :=
  if ast.isArrowFunction then s.modifyContext fun c => { c with isArrowFunction := true }
  else if ast.isGenerator then s.modifyContext fun c => { c with isGenerator := true }
  else s

/-- `if (!name.isEmpty() && (!formals || !formals->containsName(name)))
_context->addLocalVar(name, Context::ThisFunctionName, VariableScope::Var);` -/
def bindOwnName (s : ScanFunctions) (name : String) (formals : FormalParameterList) :
    ScanFunctions :=
  if !name.isEmpty && !formals.containsName name then
    (s.addLocalVar name .ThisFunctionName .Var).2
  else s

/-- `_context->formals = formals;` -/
def setFormals (s : ScanFunctions) (formals : FormalParameterList) : ScanFunctions :=
  s.modifyContext fun c => { c with formals := formals }

/-- `if (body && !_context->isStrict) checkDirectivePrologue(body);` -/
def checkBodyDirectives (s : ScanFunctions) (body : Option (List Statement)) :
    ScanFunctions :=
  match body with
  | some b => if !s.isStrict then s.checkDirectivePrologue b else s
  | none => s

/-- `_context->arguments = formals ? formals->formals() : QStringList();` -/
def setArguments (s : ScanFunctions) (formals : FormalParameterList) : ScanFunctions :=
  s.modifyContext fun c => { c with arguments := formals.formals }

/-- The statements of `ScanFunctions::enterFunction` between the part about the outer
context and the loop over the bound names, in order. -/
def prepareFunctionContext (s : ScanFunctions) (ast : FunctionNode) (name : String)
    (formals : FormalParameterList) (body : Option (List Statement)) : ScanFunctions :=
  setArguments (checkBodyDirectives (setFormals (bindOwnName (noteFunctionKind
    (noteArgumentsParameter (setFunctionName s name) formals) ast) name formals) formals) body)
    formals

/-- `ScanFunctions::enterFunction(Node *, const QString &, FormalParameterList *,
StatementList *, bool)`; `ast` is the function node the context is filed under. -/
def enterFunction (s : ScanFunctions) (ast : FunctionNode) (name : String)
    (formals : FormalParameterList) (body : Option (List Statement)) (enterName : Bool) :
    Bool × ScanFunctions :=
  let outerContext := s.context
  let s := s.enterEnvironment ast.id .Function
  let r : Bool × ScanFunctions := match outerContext with
    | some o => s.enterFunctionOuter o ast name enterName
    | none => (true, s)
  if !r.1 then r
  else
    checkParameters formals (!formals.isEmpty && formals.isSimpleParameterList)
      formals.boundNames (prepareFunctionContext r.2 ast name formals body)

/-- `ScanFunctions::enterFunction(FunctionExpression *, bool)`. -/
def enterFunctionExpression (s : ScanFunctions) (ast : FunctionNode) (enterName : Bool) :
    Bool × ScanFunctions :=
  let s := if s.isStrict && (ast.name == "eval" || ast.name == "arguments") then
      s.throwSyntaxError ast.identifierToken
        "Function name may not be eval or arguments in strict mode"
    else s
  s.enterFunction ast ast.name ast.formals ast.body enterName

end ScanFunctions

/-! ## The walk (`Node::accept` with the scanner as visitor)

`accept` calls `visit`, descends into the children when `visit` answers `true`, and
calls `endVisit` in either case. -/

namespace ScanFunctions

mutual

/-- `Node::accept` on an expression. -/
def acceptExpression : ExpressionNode → ScanFunctions → ScanFunctions
  | .IdentifierExpression name identifierToken, s =>
    (s.visitIdentifierExpression name identifierToken).2
  | .StringLiteral _, s => s
  | .NumericLiteral _, s => s
  | .ThisExpression, s => s.visitThisExpression.2
  | .CallExpression base arguments, s =>
    let s := (s.visitCallExpression base arguments).2
    acceptExpressions arguments (acceptExpression base s)
  | .NewMemberExpression base arguments, s =>
    let s := (s.visitNewMemberExpression arguments).2
    acceptExpressions arguments (acceptExpression base s)
  | .BinaryExpression left right, s =>
    acceptExpression right (acceptExpression left s)
  | .ArrayPattern elements elision, s =>
    let s := (s.visitArrayPattern elements elision).2
    acceptPatternElementList elements s
  | .ObjectPattern properties, s =>
    -- `visit(ObjectPattern *)` walks the properties itself with function
    -- declarations allowed, and answers `false`
    let old := s.allowFuncDecls
    let s := acceptPatternProperties properties { s with allowFuncDecls := true }
    { s with allowFuncDecls := old }
  | .FunctionExpression f, s =>
    -- `visit(FunctionExpression *)`, the children, `endVisit(FunctionExpression *)`
    let r := s.enterFunctionExpression f false
    let s := if r.1 then acceptFunctionChildren f r.2 else r.2
    s.leaveEnvironment

/-- The formal parameters and the body of a function. -/
def acceptFunctionChildren : FunctionNode → ScanFunctions → ScanFunctions
  | .mk _ _ _ _ _ _ formals body, s =>
    acceptBody body (acceptPatternElements formals s)

/-- `Node::accept` on an optional statement list. -/
def acceptBody : Option (List Statement) → ScanFunctions → ScanFunctions
  | none, s => s
  | some b, s => acceptStatements b s

/-- `Node::accept` on an argument list. -/
def acceptExpressions : List ExpressionNode → ScanFunctions → ScanFunctions
  | [], s => s
  | e :: es, s => acceptExpressions es (acceptExpression e s)

/-- `Node::accept` on an expression that may be absent. -/
def acceptOptionalExpression : Option ExpressionNode → ScanFunctions → ScanFunctions
  | none, s => s
  | some e, s => acceptExpression e s

/-- `Node::accept` on a pattern element: `visit(PatternElement *)`, then the binding
target and the initializer. -/
def acceptPatternElement : PatternElement → ScanFunctions → ScanFunctions
  | .mk identifierToken bindingIdentifier boundNames bindingTarget initializer scope
      isVariableDeclaration isRest, s =>
    let r := s.visitPatternElement
      (.mk identifierToken bindingIdentifier boundNames bindingTarget initializer scope
        isVariableDeclaration isRest)
    if r.1 then acceptOptionalExpression initializer (acceptOptionalExpression bindingTarget r.2)
    else r.2

/-- `Node::accept` on a list of declarations or formal parameters. -/
def acceptPatternElements : List PatternElement → ScanFunctions → ScanFunctions
  | [], s => s
  | e :: es, s => acceptPatternElements es (acceptPatternElement e s)

/-- `Node::accept` on the entries of an array literal. -/
def acceptPatternElementList : List PatternElementList → ScanFunctions → ScanFunctions
  | [], s => s
  | .mk _ element :: es, s => acceptPatternElementList es (acceptPatternElement element s)

/-- `Node::accept` on the properties of an object literal: `visit(PatternProperty *)`
answers `true` and changes nothing, so the binding target and the initializer of
each property are walked. -/
def acceptPatternProperties : List PatternElement → ScanFunctions → ScanFunctions
  | [], s => s
  | .mk _ _ _ bindingTarget initializer _ _ _ :: es, s =>
    acceptPatternProperties es
      (acceptOptionalExpression initializer (acceptOptionalExpression bindingTarget s))

/-- `Node::accept` on a statement. -/
def acceptStatement : Statement → ScanFunctions → ScanFunctions
  | .ExpressionStatement (.FunctionExpression f) _, s =>
    let s := if !s.allowFuncDecls then
        s.throwSyntaxError f.functionToken "conditional function or closure declaration"
      else s
    let r := s.enterFunctionExpression f true
    if !r.1 then r.2
    else (acceptFunctionChildren f r.2).leaveEnvironment
  | .ExpressionStatement expression firstSourceLocation, s =>
    let s := if midRef s.sourceCode firstSourceLocation.offset firstSourceLocation.length
        = "function" then s.throwSyntaxError firstSourceLocation "unexpected token"
      else s
    acceptExpression expression s
  | .VariableStatement declarations, s => acceptPatternElements declarations s
  | .FunctionDeclaration f, s =>
    let r := s.enterFunctionExpression f true
    let s := if r.1 then acceptFunctionChildren f r.2 else r.2
    s.leaveEnvironment
  | .Block id statements, s =>
    let old := s.allowFuncDecls
    let s := { s with allowFuncDecls := if s.isStrict then false else s.allowFuncDecls }
    let s := s.enterEnvironment id .Block
    let s := s.modifyContext fun c => { c with name := "Block" }
    let s := acceptStatements statements s
    let s := { s with allowFuncDecls := old }
    s.leaveEnvironment
  | .TryStatement statement catchBlock finallyBlock, s =>
    let s := s.visitTryStatement.2
    acceptOptionalStatement finallyBlock
      (acceptOptionalStatement catchBlock (acceptStatement statement s))
  | .WithStatement withToken expression statement, s =>
    let r := s.visitWithStatement withToken
    if r.1 then acceptStatement statement (acceptExpression expression r.2) else r.2
  | .DoWhileStatement statement expression, s =>
    let old := s.allowFuncDecls
    let s := acceptStatement statement { s with allowFuncDecls := !s.isStrict }
    let s := { s with allowFuncDecls := old }
    acceptExpression expression s
  | .ForStatement initialiser condition expression statement, s =>
    let s := acceptOptionalExpression initialiser s
    let s := acceptOptionalExpression condition s
    let s := acceptOptionalExpression expression s
    let old := s.allowFuncDecls
    let s := acceptStatement statement { s with allowFuncDecls := !s.isStrict }
    { s with allowFuncDecls := old }
  | .LocalForStatement declarations condition expression statement, s =>
    let s := acceptPatternElements declarations s
    let s := acceptOptionalExpression condition s
    let s := acceptOptionalExpression expression s
    let old := s.allowFuncDecls
    let s := acceptStatement statement { s with allowFuncDecls := !s.isStrict }
    { s with allowFuncDecls := old }
  | .ForEachStatement initialiser expression statement, s =>
    let s := acceptExpression initialiser s
    let s := acceptExpression expression s
    let old := s.allowFuncDecls
    let s := acceptStatement statement { s with allowFuncDecls := !s.isStrict }
    { s with allowFuncDecls := old }
  | .LocalForEachStatement declaration expression statement, s =>
    let s := acceptPatternElement declaration s
    let s := acceptExpression expression s
    let old := s.allowFuncDecls
    let s := acceptStatement statement { s with allowFuncDecls := !s.isStrict }
    { s with allowFuncDecls := old }

/-- `Node::accept` on a statement that may be absent. -/
def acceptOptionalStatement : Option Statement → ScanFunctions → ScanFunctions
  | none, s => s
  | some st, s => acceptStatement st s

/-- `Node::accept` on a statement list. -/
def acceptStatements : List Statement → ScanFunctions → ScanFunctions
  | [], s => s
  | st :: sts, s => acceptStatements sts (acceptStatement st s)

end

/-- `Node::accept` on a program: `visit(Program *)`, the statements,
`endVisit(Program *)`. -/
def acceptProgram (s : ScanFunctions) (ast : Program) : ScanFunctions :=
  let r := s.visitProgram ast
  (acceptStatements ast.statements r.2).leaveEnvironment

/-- `ScanFunctions::operator()` on a program: the walk, then the sweep over the
module. -/
def run (s : ScanFunctions) (ast : Program) : ScanFunctions :=
  let s := s.acceptProgram ast
  { s with module := calcEscapingVariables s.module }

end ScanFunctions

/-! ## Notions the statements below are phrased in -/

/-- The context has `v` as a member or as a formal parameter. -/
def Context.declares (c : Context) (v : String) : Bool :=
  (c.memberInfo v).isSome || c.findArgument v != -1

/-- `NearestDeclaring m v c d`: on the chain `c, parent(c), parent(parent(c)), ...` of
the module `m`, `d` is the first context that has `v` as a member or as a formal
parameter. -/
inductive NearestDeclaring (m : Module) (v : String) : Nat → Nat → Prop where
  | here (c : Nat) (ctx : Context) :
      m.context? c = some ctx → ctx.declares v = true → NearestDeclaring m v c c
  | up (c p d : Nat) (ctx : Context) :
      m.context? c = some ctx → ctx.declares v = false → ctx.parent = some p →
      NearestDeclaring m v p d → NearestDeclaring m v c d

/-- The chain behind `NearestDeclaring`, with the contexts it passes through. -/
inductive DeclChain (m : Module) (v : String) : Nat → Nat → List Nat → Prop where
  | here (c : Nat) (ctx : Context) :
      m.context? c = some ctx → ctx.declares v = true → DeclChain m v c c [c]
  | up (c p d : Nat) (ctx : Context) (l : List Nat) :
      m.context? c = some ctx → ctx.declares v = false → ctx.parent = some p →
      DeclChain m v p d l → DeclChain m v c d (c :: l)

/-- A relation between the contexts of two modules, index by index. -/
structure Module.Rel (R : Context → Context → Prop) (m m' : Module) : Prop where
  length : m'.contexts.length = m.contexts.length
  contextMap : m'.contextMap = m.contextMap
  debugMode : m'.debugMode = m.debugMode
  context : ∀ i c, m.context? i = some c → ∃ c', m'.context? i = some c' ∧ R c c'

/-- What every step of the sweep keeps of a context: its place in the graph, its
kind, strictness, parameters and used names; registered members stay registered;
escape marks are never taken back, and the heap-frame requirement is taken back
only from a Global context. -/
structure Context.Grows (c c' : Context) : Prop where
  parent : c'.parent = c.parent
  contextType : c'.contextType = c.contextType
  isStrict : c'.isStrict = c.isStrict
  arguments : c'.arguments = c.arguments
  usedVariables : c'.usedVariables = c.usedVariables
  member : ∀ n mem, c.memberInfo n = some mem →
    ∃ mem', c'.memberInfo n = some mem' ∧ (mem.canEscape = true → mem'.canEscape = true)
  argumentsCanEscape : c.argumentsCanEscape = true → c'.argumentsCanEscape = true
  requires : c.requiresExecutionContext = true → c.contextType ≠ .Global →
    c'.requiresExecutionContext = true

/-- What the steps of the first loop of the sweep keep in addition: the registered
names, the `try` flag, the heap-frame requirement; and the use of the arguments
object is never handed to a block. -/
structure Context.Marks (c c' : Context) : Prop where
  grows : c.Grows c'
  keys : c'.members.map Prod.fst = c.members.map Prod.fst
  hasTry : c'.hasTry = c.hasTry
  requires : c.requiresExecutionContext = true → c'.requiresExecutionContext = true
  usesArguments : c'.usesArgumentsObject = .ArgumentsObjectUsed →
    c.usesArgumentsObject = .ArgumentsObjectUsed ∨ c.contextType ≠ .Block

/-- The mark the sweep leaves on the declaring context `c'` (which was `c` before the
sweep) for an outer use of `v`. -/
def Context.MarkedFor (c : Context) (v : String) (c' : Context) : Prop :=
  ((c.memberInfo v).isSome → ∃ mem, c'.memberInfo v = some mem ∧ mem.canEscape = true) ∧
  (c.memberInfo v = none → c'.argumentsCanEscape = true) ∧
  (c'.contextType ≠ .Global → c'.requiresExecutionContext = true)

/-- What the statements of the second loop before the final marking keep of a
context: its kind and its `with` / `try` / direct-eval flags; they never turn the use
of the arguments object on, and they touch the members only to inject `arguments`
when it is used. -/
structure Context.Settles (c c' : Context) : Prop where
  contextType : c'.contextType = c.contextType
  hasWith : c'.hasWith = c.hasWith
  hasTry : c'.hasTry = c.hasTry
  hasDirectEval : c'.hasDirectEval = c.hasDirectEval
  usesArguments : c'.usesArgumentsObject = .ArgumentsObjectUsed →
    c.usesArgumentsObject = .ArgumentsObjectUsed
  members : c.usesArgumentsObject ≠ .ArgumentsObjectUsed → c'.members = c.members

/-- A block never holds the use of the arguments object. -/
def Context.BlockSettled (c : Context) : Prop :=
  c.contextType = .Block → c.usesArgumentsObject ≠ .ArgumentsObjectUsed

/-- The state of a context after the second loop has visited it: with one of the
`with` / `try` / direct-eval flags set, all its members escape, unless it is a block
without members. -/
def Context.AllEscape (c : Context) : Prop :=
  (c.hasWith = true ∨ c.hasTry = true ∨ c.hasDirectEval = true) →
  ¬ (c.contextType = .Block ∧ c.members = []) →
  ∀ n mem, (n, mem) ∈ c.members → mem.canEscape = true

/-- A step that leaves the heap-frame requirement of every context as it was. -/
def Context.KeepsRequirement (c c' : Context) : Prop :=
  c'.requiresExecutionContext = c.requiresExecutionContext

/-- No context of the module requires a heap frame. -/
def Module.NoRequirement (m : Module) : Prop :=
  ∀ x ∈ m.contexts, x.requiresExecutionContext = false

/-- The errors the strict-mode name checks at the head of the declaration loop raise
for the name `name`: the `eval` / `arguments` check, then `checkName`. -/
def nameCheckErrors (strict : Bool) (loc : SourceLocation) (name : String) :
    List SyntaxError :=
  (if strict && (name == "eval" || name == "arguments") then
    [⟨loc, "Variable name may not be eval or arguments in strict mode"⟩] else []) ++
  (if strict && ScanFunctions.isStrictReservedWord name then
    [⟨loc, "Unexpected strict mode reserved word"⟩] else [])

/-- The names `checkName` rejects in a strict context, as the specification lists
them. -/
def strictReservedWords : List String :=
  ["implements", "interface", "let", "package", "private", "protected", "public", "static",
    "yield"]

/-- The error `enterFunction` raises for a repeated parameter name. -/
abbrev duplicateParameterError (loc : SourceLocation) (arg : String) : SyntaxError :=
  ⟨loc, "Duplicate parameter name '" ++ arg ++ "' is not allowed."⟩

/-- The error `enterFunction` raises for a parameter named `eval` or `arguments`. -/
abbrev parameterNameError (loc : SourceLocation) (arg : String) : SyntaxError :=
  ⟨loc, "'" ++ arg ++ "' cannot be used as parameter name in strict mode"⟩

/-- The error raised when a name cannot be declared again. -/
abbrev alreadyDeclaredError (loc : SourceLocation) (name : String) : SyntaxError :=
  ⟨loc, "Identifier " ++ name ++ " has already been declared"⟩

/-! ## Sample inputs -/

/-- A token position for the samples. -/
def exToken : SourceLocation := ⟨0, 0⟩

/-- The declaration of one name: `var n`, `let n`, `const n`, with an initializer
(`= 1`) or without. -/
def exDeclaration (scope : VariableScope) (n : String) (withInitializer : Bool) :
    PatternElement :=
  .mk exToken n [n] none (if withInitializer then some (.NumericLiteral 1) else none) scope
    true false

/-- A plain formal parameter `n`. -/
def exParameter (n : String) : PatternElement :=
  .mk exToken n [n] none none .Var false false

/-- A destructuring formal parameter `[n]`. -/
def exPatternParameter (n : String) : PatternElement :=
  .mk exToken "" [n] (some (.ArrayPattern [] 0)) none .Var false false

/-- A scanner standing in the single context `c`. -/
def exScanner (c : Context) : ScanFunctions :=
  { module := { contexts := [c], contextMap := [(0, 0)] }, contextStack := [0],
    context := some 0 }

/-- A function context that has declared `x` with the given scope. -/
def exContextWithX (scope : VariableScope) (strict : Bool) : Context :=
  { parent := none, contextType := .Function, isStrict := strict,
    members := [("x", { type := .VariableDeclaration, scope := scope })] }

/-- An empty function context. -/
def exEmptyContext (strict : Bool) : Context :=
  { parent := none, contextType := .Function, isStrict := strict }

/-- A strict function context that has declared `var eval`. -/
def exStrictContextWithEval : Context :=
  { parent := none, contextType := .Function, isStrict := true,
    members := [("eval", { type := .VariableDeclaration })] }

/-- The source text `'use strict'` of the samples with a directive. -/
def exStrictSource : String := "'use strict'"

/-- The expression statement `'use strict'` at the start of `exStrictSource`. -/
def exUseStrict : Statement :=
  .ExpressionStatement (.StringLiteral ⟨0, 12⟩) ⟨0, 12⟩

/-- A scanner standing in an empty, non-strict function context, over the source text
of the samples. -/
def exSourceScanner : ScanFunctions :=
  { exScanner (exEmptyContext false) with sourceCode := exStrictSource }

/-- The function `function f(formals) { body }`, filed under node 7. -/
def exFunction (formals : List PatternElement) (body : List Statement) : FunctionNode :=
  .mk 7 "f" exToken exToken false false formals (some body)

/-- The outer function context of `exModule`: it declares `x`, has the parameter `p`
and contains a `try` statement. -/
def exOuterContext : Context :=
  { parent := some 0, contextType := .Function, name := "f",
    members := [("x", { type := .VariableDeclaration })], arguments := ["p"], hasTry := true,
    hasNestedFunctions := true }

/-- The inner function context of `exModule`: it uses `x` and `p` of the outer
function. -/
def exInnerContext : Context :=
  { parent := some 1, contextType := .Function, name := "g", usedVariables := ["x", "p"] }

/-- The context graph of `function f(p) { var x; try {} finally {}; function g() { x; p } }`
as the walk leaves it. -/
def exModule : Module :=
  { contexts := [{ parent := none, contextType := .Global }, exOuterContext, exInnerContext],
    contextMap := [(1, 0), (2, 1), (3, 2)] }

/-- An expression statement referring to the name `n`. -/
def exReference (n : String) : Statement :=
  .ExpressionStatement (.IdentifierExpression n exToken) exToken

/-- The program `function f() { { arguments; } }`. -/
def exProgramBlockArguments : Program :=
  ⟨1, [.FunctionDeclaration (.mk 2 "f" exToken exToken false false []
    (some [.Block 3 [exReference "arguments"]]))]⟩

/-- The program `function f() { try {} finally {} }`. -/
def exProgramTry : Program :=
  ⟨1, [.FunctionDeclaration (.mk 2 "f" exToken exToken false false []
    (some [.TryStatement (.Block 3 []) none (some (.Block 4 []))]))]⟩

/-- The program `function f() { var arguments; { arguments; } }`. -/
def exProgramShadowedInBlock : Program :=
  ⟨1, [.FunctionDeclaration (.mk 2 "f" exToken exToken false false []
    (some [.VariableStatement [exDeclaration .Var "arguments" false],
      .Block 3 [exReference "arguments"]]))]⟩

/-- The program `function f() { var arguments; arguments; }`. -/
def exProgramShadowed : Program :=
  ⟨1, [.FunctionDeclaration (.mk 2 "f" exToken exToken false false []
    (some [.VariableStatement [exDeclaration .Var "arguments" false],
      exReference "arguments"]))]⟩

/-- The program `function f(arguments) { { arguments; } }`. -/
def exProgramParameterInBlock : Program :=
  ⟨1, [.FunctionDeclaration (.mk 2 "f" exToken exToken false false [exParameter "arguments"]
    (some [.Block 3 [exReference "arguments"]]))]⟩

/-- The program `function f(let) { 'use strict' }` over the source text
`exStrictSource`. -/
def exProgramReservedParameter : Program :=
  ⟨1, [.FunctionDeclaration (.mk 2 "f" exToken exToken false false [exParameter "let"]
    (some [exUseStrict]))]⟩

/-- A fresh scanner over the source text of the samples. -/
def exFreshScanner : ScanFunctions :=
  { sourceCode := exStrictSource }

/-- The context of `f` as the walk over `exProgramShadowed` leaves it. -/
def exWalkedShadowed : Context :=
  { parent := some 0, contextType := .Function, name := "f",
    members := [("f", { type := .ThisFunctionName }),
      ("arguments", { type := .VariableDeclaration })],
    usedVariables := ["arguments"], usesArgumentsObject := .ArgumentsObjectNotUsed }

/-! ## Induction over the walk -/

namespace ScanFunctions

/-- A property of the scanner state that every step of the visitor keeps. -/
structure WalkInvariant (P : ScanFunctions → Prop) : Prop where
  identifier : ∀ s n t, P s → P (visitIdentifierExpression s n t).2
  thisExpression : ∀ s, P s → P (visitThisExpression s).2
  call : ∀ s b a, P s → P (visitCallExpression s b a).2
  newMember : ∀ s a, P s → P (visitNewMemberExpression s a).2
  arrayPattern : ∀ s e n, P s → P (visitArrayPattern s e n).2
  allowFuncDecls : ∀ (s : ScanFunctions) b, P s → P { s with allowFuncDecls := b }
  enterFunction : ∀ s f b, P s → P (enterFunctionExpression s f b).2
  leave : ∀ s, P s → P (leaveEnvironment s)
  patternElement : ∀ s e, P s → P (visitPatternElement s e).2
  raise : ∀ s l d, P s → P (throwSyntaxError s l d)
  enterBlock : ∀ s id, P s →
    P ((enterEnvironment s id .Block).modifyContext fun c => { c with name := "Block" })
  tryStatement : ∀ s, P s → P (visitTryStatement s).2
  withStatement : ∀ s t, P s → P (visitWithStatement s t).2

end ScanFunctions
/-! ## Notions for the propagation of the `with` / direct-eval flags -/

/-- `m.Ancestor c a`: in the module `m`, `a` is the parent of `c`, or the parent of its
parent, and so on up the chain. -/
inductive Module.Ancestor (m : Module) : Nat → Nat → Prop where
  | parent (c a : Nat) (ctx : Context) :
      m.context? c = some ctx → ctx.parent = some a → Module.Ancestor m c a
  | up (c p a : Nat) (ctx : Context) :
      m.context? c = some ctx → ctx.parent = some p → Module.Ancestor m p a →
      Module.Ancestor m c a

/-- The chain `c, parent(c), ..., a` of the module `m`, with the contexts it passes
through. -/
inductive Module.Path (m : Module) : Nat → Nat → List Nat → Prop where
  | here (a : Nat) (ctx : Context) : m.context? a = some ctx → Module.Path m a a [a]
  | up (c p a : Nat) (ctx : Context) (l : List Nat) :
      m.context? c = some ctx → ctx.parent = some p → Module.Path m p a l →
      Module.Path m c a (c :: l)

/-- A step that keeps the parent of a context and never clears its direct-eval and
`with` flags. -/
structure Context.Widens (c c' : Context) : Prop where
  parent : c'.parent = c.parent
  hasDirectEval : c.hasDirectEval = true → c'.hasDirectEval = true
  hasWith : c.hasWith = true → c'.hasWith = true

/-- A step that keeps the parent of a context and its direct-eval and `with` flags. -/
structure Context.KeepsFlags (c c' : Context) : Prop where
  parent : c'.parent = c.parent
  hasDirectEval : c'.hasDirectEval = c.hasDirectEval
  hasWith : c'.hasWith = c.hasWith

/-- Every direct-eval or `with` flag set in `m'` stems from the walk: the context
itself, or a context of the map below it, had the flag in `m`. -/
def Module.FlagsStem (m m' : Module) : Prop :=
  ∀ a a1, m'.context? a = some a1 →
    (a1.hasDirectEval = true → ∃ c c0, (c = a ∨ (c ∈ m.order ∧ m.Ancestor c a)) ∧
      m.context? c = some c0 ∧ c0.hasDirectEval = true) ∧
    (a1.hasWith = true → ∃ c c0, (c = a ∨ (c ∈ m.order ∧ m.Ancestor c a)) ∧
      m.context? c = some c0 ∧ c0.hasWith = true)
/-! ## Further sample inputs -/

/-- The innermost context of `exModuleEval`: a function that calls `eval` directly and
contains a `with` statement. -/
def exEvalContext : Context :=
  { parent := some 1, contextType := .Function, name := "g", hasDirectEval := true,
    hasWith := true, usesArgumentsObject := .ArgumentsObjectUsed }

/-- The middle context of `exModuleEval`. -/
def exMiddleContext : Context :=
  { parent := some 0, contextType := .Function, name := "f", hasNestedFunctions := true }

/-- The context graph of `function f() { function g() { with (o) eval("") } }` as the
walk leaves it. -/
def exModuleEval : Module :=
  { contexts := [{ parent := none, contextType := .Global }, exMiddleContext, exEvalContext],
    contextMap := [(1, 0), (2, 1), (3, 2)] }

/-- A function context that refers to `arguments`, as the walk leaves it. -/
def exArgumentsContext : Context :=
  { parent := some 0, contextType := .Function, name := "f", usedVariables := ["arguments"],
    usesArgumentsObject := .ArgumentsObjectUsed }

/-- The context graph of `function f() { arguments }` as the walk leaves it. -/
def exModuleArguments : Module :=
  { contexts := [{ parent := none, contextType := .Global }, exArgumentsContext],
    contextMap := [(1, 0), (2, 1)] }

/-- The context of `f` in `exModuleArguments` after the sweep. -/
def exSweptArgumentsContext : Context :=
  { exArgumentsContext with
    members := [("arguments", { type := .VariableDeclaration })],
    argumentsCanEscape := true, requiresExecutionContext := true }

/-- The program `function f() { let arguments = 1; { arguments; } }`. -/
def exProgramLetArguments : Program :=
  ⟨1, [.FunctionDeclaration (.mk 2 "f" exToken exToken false false []
    (some [.VariableStatement [exDeclaration .Let "arguments" true],
      .Block 3 [exReference "arguments"]]))]⟩

/-- A function context in which `arguments` has been declared: the use of the arguments
object is settled as not used. -/
def exDeclaredArgumentsContext : Context :=
  { parent := none, contextType := .Function,
    members := [("arguments", { type := .VariableDeclaration })],
    usesArgumentsObject := .ArgumentsObjectNotUsed }

/-- The callee `eval`. -/
def exEvalCallee : ExpressionNode :=
  .IdentifierExpression "eval" exToken

/-! ## Notions for the directive prologue -/

/-- The maximal leading run of string-literal expression statements of a statement
list: the tokens of the literals, in order. -/
def leadingStringLiterals : List Statement → List SourceLocation
  | .ExpressionStatement (.StringLiteral literalToken) _ :: rest =>
    literalToken :: leadingStringLiterals rest
  | _ => []

/-- The raw source text of a string literal between its quotes, without escape
processing; a token of less than two characters has no quotes to be between. -/
def rawText (source : String) (literalToken : SourceLocation) : Option String :=
  if literalToken.length < 2 then none
  else some ⟨(source.data.drop (literalToken.offset + 1)).take (literalToken.length - 2)⟩

/-! ## Notions for the walk as a relation between states -/

namespace ScanFunctions

/-- A step that leaves the control variables of the scanner alone: the permission for
function declarations, the context stack and the current context; the errors raised
before it stay, in their order. -/
structure SameFrame (s s' : ScanFunctions) : Prop where
  allowFuncDecls : s'.allowFuncDecls = s.allowFuncDecls
  contextStack : s'.contextStack = s.contextStack
  context : s'.context = s.context
  errors : ∃ tail, s'.errors = s.errors ++ tail

/-- A step that enters an environment: it pushes a context, which is the current one
then, and leaves the permission for function declarations and the errors raised before
alone. -/
structure Entered (s s' : ScanFunctions) : Prop where
  allowFuncDecls : s'.allowFuncDecls = s.allowFuncDecls
  pushed : ∃ i, s'.contextStack = i :: s.contextStack ∧ s'.context = some i
  errors : ∃ tail, s'.errors = s.errors ++ tail

/-- What the walk over a node makes of the control variables: the permission for
function declarations is what it was, the errors raised before stay, and when the walk
has raised no error the context stack is what it was. -/
structure Balanced (s s' : ScanFunctions) : Prop where
  allowFuncDecls : s'.allowFuncDecls = s.allowFuncDecls
  errors : ∃ tail, s'.errors = s.errors ++ tail
  contextStack : s'.errors = s.errors → s'.contextStack = s.contextStack

/-- A relation between the state before and the state after that every step of the
visitor respects, and the brackets of the walk with it: the temporary assignment to
`_allowFuncDecls`, the walk over a function, and the walk over a block. -/
structure WalkRelation (R : ScanFunctions → ScanFunctions → Prop) : Prop where
  refl : ∀ s, R s s
  trans : ∀ a b c, R a b → R b c → R a c
  identifier : ∀ s n t, R s (visitIdentifierExpression s n t).2
  thisExpression : ∀ s, R s (visitThisExpression s).2
  call : ∀ s b a, R s (visitCallExpression s b a).2
  newMember : ∀ s a, R s (visitNewMemberExpression s a).2
  arrayPattern : ∀ s e n, R s (visitArrayPattern s e n).2
  patternElement : ∀ s e, R s (visitPatternElement s e).2
  raise : ∀ s l d, R s (throwSyntaxError s l d)
  tryStatement : ∀ s, R s (visitTryStatement s).2
  withStatement : ∀ s t, R s (visitWithStatement s t).2
  temporary : ∀ (s s' : ScanFunctions) b, R { s with allowFuncDecls := b } s' →
    R s { s' with allowFuncDecls := s.allowFuncDecls }
  function : ∀ s f b s', R (enterFunctionExpression s f b).2 s' → R s (leaveEnvironment s')
  functionFails : ∀ s f, (enterFunctionExpression s f true).1 = false →
    R s (enterFunctionExpression s f true).2
  block : ∀ s id s',
    R ((enterEnvironment s id .Block).modifyContext fun c => { c with name := "Block" }) s' →
    R s (leaveEnvironment s')

end ScanFunctions

/-- The statement `do function f() {} while (0)`. -/
def exLoopWithFunction : Statement :=
  .DoWhileStatement (.ExpressionStatement (.FunctionExpression (exFunction [] [])) exToken)
    (.NumericLiteral 0)

/-! ## Notions for the argument counts -/

namespace ScanFunctions

/-- The counts noted so far for the context `i`, oldest first. -/
def notedFor (s : ScanFunctions) (i : Nat) : List Int :=
  (s.noted.filter fun p => p.1 = i).map Prod.snd

/-- The value of `maxNumberOfArguments` the context `i` starts the walk with: the value
it has in the module the walk starts from; a context made during the walk starts
with 0. -/
def initialCount (m : Module) (i : Nat) : Int :=
  match m.context? i with
  | some c => c.maxNumberOfArguments
  | none => 0

/-- A step that notes no count: it leaves `maxNumberOfArguments` of every context as it
is, and a context it makes has the value 0. -/
structure KeepsCounts (s s' : ScanFunctions) : Prop where
  noted : s'.noted = s.noted
  length : s.module.contexts.length ≤ s'.module.contexts.length
  old : ∀ i c, s.module.context? i = some c →
    ∃ c', s'.module.context? i = some c' ∧ c'.maxNumberOfArguments = c.maxNumberOfArguments
  new : ∀ i c', s'.module.context? i = some c' → s.module.context? i = none →
    c'.maxNumberOfArguments = 0

/-- In the state `s` of a walk that started from the module `m`, `maxNumberOfArguments`
of every context is the maximum of the value it started with and the counts noted for
it. -/
structure CountsNoted (m : Module) (s : ScanFunctions) : Prop where
  length : m.contexts.length ≤ s.module.contexts.length
  bound : ∀ p ∈ s.noted, p.1 < s.module.contexts.length
  counts : ∀ i c, s.module.context? i = some c →
    c.maxNumberOfArguments = (s.notedFor i).foldl max (initialCount m i)

end ScanFunctions

/-- The program `g(1, 2); [,];`. -/
def exProgramCall : Program :=
  ⟨1, [.ExpressionStatement
      (.CallExpression (.IdentifierExpression "g" exToken) [.NumericLiteral 1, .NumericLiteral 2])
      exToken,
    .ExpressionStatement (.ArrayPattern [] 1) exToken]⟩


/-! ## The first loop of the sweep as a list of writes -/

namespace ScanFunctions

/-- What the writes of the first loop of the sweep to one context come to: the names
whose member is marked escaping, the flags that are set, and the value the tri-state
for the arguments object is set to, if it is set. -/
structure Effect where
  escaping : List String := []
  requiresExecutionContext : Bool := false
  argumentsCanEscape : Bool := false
  hasDirectEval : Bool := false
  hasWith : Bool := false
  usesArgumentsObject : Option UsesArgumentsObject := none

namespace Effect

/-- The context after the writes. -/
def apply (e : Effect) (c : Context) : Context :=
  { c with
    members := c.members.map fun p =>
      (p.1, if p.1 ∈ e.escaping then { p.2 with canEscape := true } else p.2)
    requiresExecutionContext := c.requiresExecutionContext || e.requiresExecutionContext
    argumentsCanEscape := c.argumentsCanEscape || e.argumentsCanEscape
    hasDirectEval := c.hasDirectEval || e.hasDirectEval
    hasWith := c.hasWith || e.hasWith
    usesArgumentsObject := e.usesArgumentsObject.getD c.usesArgumentsObject }

/-- The writes of `e`, and then those of `e'`. -/
def andThen (e e' : Effect) : Effect :=
  { escaping := e.escaping ++ e'.escaping
    requiresExecutionContext := e.requiresExecutionContext || e'.requiresExecutionContext
    argumentsCanEscape := e.argumentsCanEscape || e'.argumentsCanEscape
    hasDirectEval := e.hasDirectEval || e'.hasDirectEval
    hasWith := e.hasWith || e'.hasWith
    usesArgumentsObject :=
      match e'.usesArgumentsObject with
      | some u => some u
      | none => e.usesArgumentsObject }

end Effect

/-- The writes of a list, each to the context it names, in order. -/
def applyWrites (writes : List (Nat × Effect)) (m : Module) : Module :=
  writes.foldl (fun acc w => acc.modify w.1 w.2.apply) m

/-- What the writes of a list to the context `x` come to. -/
def effectAt (writes : List (Nat × Effect)) (x : Nat) : Effect :=
  writes.foldl (fun e w => if w.1 = x then e.andThen w.2 else e) {}

/-- The context the `while (c)` walk of the sweep for a used variable stops at, started
at the context `c`, and whether it has the variable as a member (or else as a formal
parameter). -/
def markTarget (m : Module) (var : String) : Nat → Option Nat → Option (Nat × Bool)
  | 0, _ => none
  | _ + 1, none => none
  | fuel + 1, some c =>
    match m.context? c with
    | none => none
    | some ctx =>
      if (ctx.memberInfo var).isSome then some (c, true)
      else if ctx.findArgument var ≠ -1 then some (c, false)
      else markTarget m var fuel ctx.parent

/-- The write of that walk for the used variable `var` of `inner`, for the context the
walk stops at: none when the walk finds no context, or stops at `inner` itself. -/
def targetWrite (inner : Nat) (var : String) : Option (Nat × Bool) → List (Nat × Effect)
  | some (d, true) =>
    if d ≠ inner then [(d, { escaping := [var], requiresExecutionContext := true })] else []
  | some (d, false) =>
    if d ≠ inner then [(d, { argumentsCanEscape := true, requiresExecutionContext := true })]
    else []
  | none => []

/-- The write of that walk for the used variable `var` of `inner`, if it makes one. -/
def markWrite (m : Module) (inner : Nat) (var : String) : List (Nat × Effect) :=
  targetWrite inner var (markTarget m var m.contexts.length (some inner))

/-- The contexts the loop over the ancestors passes, started at `c`. -/
def ancestors (m : Module) : Nat → Option Nat → List Nat
  | 0, _ => []
  | _ + 1, none => []
  | fuel + 1, some c =>
    match m.context? c with
    | none => []
    | some ctx => c :: ancestors m fuel ctx.parent

/-- The writes of the hand-over of the use of `arguments` by the block `inner`. -/
def liftWrites (m : Module) (inner : Nat) (ic : Context) : List (Nat × Effect) :=
  if ic.contextType = .Block ∧ ic.usesArgumentsObject = .ArgumentsObjectUsed then
    match enclosingNonBlock m m.contexts.length ic.parent with
    | some f =>
      [(f, { usesArgumentsObject := some .ArgumentsObjectUsed }),
        (inner, { usesArgumentsObject := some .ArgumentsObjectNotUsed })]
    | none => []
  else []

/-- The writes of the body of the first loop of the sweep for the context `inner`. -/
def writesOf (m : Module) (inner : Nat) : List (Nat × Effect) :=
  match m.context? inner with
  | none => []
  | some ic =>
    ic.usedVariables.flatMap (markWrite m inner) ++
      (ancestors m m.contexts.length ic.parent).map
        (fun c => (c, { hasDirectEval := ic.hasDirectEval, hasWith := ic.hasWith })) ++
      liftWrites m inner ic

/-- A write of the walk for a used variable: it leaves the direct-eval flag, the `with`
flag and the tri-state alone. -/
def Effect.IsMark (e : Effect) : Prop :=
  e.hasDirectEval = false ∧ e.hasWith = false ∧ e.usesArgumentsObject = none

/-- A write of the loop over the ancestors: it sets nothing but the direct-eval flag and
the `with` flag. -/
def Effect.IsFlag (e : Effect) : Prop :=
  e.escaping = [] ∧ e.requiresExecutionContext = false ∧ e.argumentsCanEscape = false ∧
    e.usesArgumentsObject = none

/-- A write of the hand-over: it sets nothing but the tri-state. -/
def Effect.IsLift (e : Effect) : Prop :=
  e.escaping = [] ∧ e.requiresExecutionContext = false ∧ e.argumentsCanEscape = false ∧
    e.hasDirectEval = false ∧ e.hasWith = false

/-- Two effects that come to the same for every context. -/
structure Effect.Same (e e' : Effect) : Prop where
  escaping : ∀ v, v ∈ e.escaping ↔ v ∈ e'.escaping
  requiresExecutionContext : e.requiresExecutionContext = e'.requiresExecutionContext
  argumentsCanEscape : e.argumentsCanEscape = e'.argumentsCanEscape
  hasDirectEval : e.hasDirectEval = e'.hasDirectEval
  hasWith : e.hasWith = e'.hasWith
  usesArgumentsObject : e.usesArgumentsObject = e'.usesArgumentsObject

end ScanFunctions

/-! ## A second run of the sweep -/

/-- A member as it was, or with its escape mark set. -/
def Member.AddsMark (p p' : String × Member) : Prop :=
  p'.1 = p.1 ∧ (p'.2 = p.2 ∨ p'.2 = { p.2 with canEscape := true })

/-- What a step that only adds escape marks keeps of a context, its heap-frame
requirement apart: the members are the same in the same order, each as it was or with
its escape mark set, `argumentsCanEscape` is not taken back, and everything else is as
it was. -/
structure Context.Loose (c c' : Context) : Prop where
  rest : c' = { c with
    members := c'.members
    argumentsCanEscape := c'.argumentsCanEscape
    requiresExecutionContext := c'.requiresExecutionContext }
  members : List.Forall₂ Member.AddsMark c.members c'.members
  argumentsCanEscape : c.argumentsCanEscape = true → c'.argumentsCanEscape = true

/-- What a second run of the sweep changes of a context at most: it marks further
members escaping and sets `argumentsCanEscape` and `requiresExecutionContext`; it takes
none of these back, and everything else is as it was. -/
structure Context.AddsMarks (c c' : Context) : Prop where
  rest : c' = { c with
    members := c'.members
    argumentsCanEscape := c'.argumentsCanEscape
    requiresExecutionContext := c'.requiresExecutionContext }
  members : List.Forall₂ Member.AddsMark c.members c'.members
  argumentsCanEscape : c.argumentsCanEscape = true → c'.argumentsCanEscape = true
  requiresExecutionContext :
    c.requiresExecutionContext = true → c'.requiresExecutionContext = true

/-- What holds of a context the second loop of the sweep has visited: the use of the
arguments object is settled, as not used when the context has no parent; when it is
used the context has a member `arguments`; and a Global context requires a heap frame
only where it uses the arguments object and is not strict. -/
structure Context.Finalized (c : Context) : Prop where
  settled : c.usesArgumentsObject ≠ .ArgumentsObjectUnknown
  root : c.parent = none → c.usesArgumentsObject = .ArgumentsObjectNotUsed
  arguments : c.usesArgumentsObject = .ArgumentsObjectUsed →
    (c.members.lookup "arguments").isSome = true
  global : c.contextType = .Global → c.requiresExecutionContext = true →
    c.usesArgumentsObject = .ArgumentsObjectUsed ∧ c.isStrict = false

/-- The module after the walk over `function f() { { arguments; } }`, before the sweep. -/
def exWalkedBlockArguments : Module :=
  (ScanFunctions.acceptProgram {} exProgramBlockArguments).module

/-- The module after the walk over `function f() { { arguments; } }` and one run of the
sweep. -/
def exSweptBlockArguments : Module :=
  (ScanFunctions.run {} exProgramBlockArguments).module
end Compiler

/-! # The bytecode interpreter (`VME::exec`)

A shallow embedding of `src/qml/jsruntime/qv4vme_moth.cpp`.

* A pointer to a `Value` is an array (`region`) and an offset into it; the memory of
  the engine maps such pointers to values.
* A pointer into the instruction stream is the index of an instruction: every
  instruction has size 1, and the address of its `offset` field is its own address.
* The runtime entry points (`Runtime::method_*`, the lookup getters and setters, the
  coercions of `Value`) are a parameter of the interpreter: a function from the entry
  point, its arguments and the engine to a result and the engine after the call.
* The labels `catchException` and `functionExit` of `VME::exec` are outcomes of the
  body of an instruction; behaviour the source leaves undefined (a null or dangling
  pointer dereferenced, a jump out of the stream) is the outcome `fault`.
* Assertions (`Q_ASSERT`) and tracing (`TRACE`) are left out.
-/

namespace Moth

/-- A value (`QV4::Value`, `QV4::ReturnedValue`): the kinds the interpreter itself
tells apart, and `managed` for everything else. -/
inductive Value where
  | undefined
  | empty
  | boolean (b : Bool)
  | integer (i : Int)
  | managed (p : Nat)
  deriving DecidableEq, Repr

namespace Value

/-- `Value::booleanValue()`. -/
def booleanValue : Value → Bool
  | .boolean b => b
  | _ => false

/-- `Value::integerValue()`. -/
def integerValue : Value → Int
  | .integer i => i
  | _ => 0

end Value

/-- The conversion `(int)` of a 64-bit intermediate result, and the result of arithmetic
on `int`: wrap-around to 32 bits. -/
def toInt32 (x : Int) : Int :=
  (x + 2147483648) % 4294967296 - 2147483648

/-- `QV4::Encode(int)`. -/
def encodeInt (x : Int) : Value :=
  .integer (toInt32 x)

/-- A pointer to a value slot (`QV4::Value *`): an array and an offset into it. -/
structure ValuePtr where
  region : Nat
  offset : Nat
  deriving DecidableEq, Repr

/-- Pointer arithmetic `p + n`. -/
def ValuePtr.add (p : ValuePtr) (n : Nat) : ValuePtr :=
  ⟨p.region, p.offset + n⟩

/-- The value slots of the engine. -/
abbrev Memory := ValuePtr → Value

/-- `*p = v`. -/
def Memory.store (m : Memory) (p : ValuePtr) (v : Value) : Memory :=
  fun q => if q = p then v else m q

/-- A function of the engine (`QV4::Function`), as far as the debugger hooks look at
it. -/
structure Function where
  sourceFile : String := ""
  name : Option String := none
  deriving DecidableEq, Repr

/-- A compilation unit (`CompiledData::CompilationUnit`), as far as the interpreter
looks at it. -/
structure CompilationUnit where
  constants : Option ValuePtr := none
  runtimeStrings : List Value := []
  runtimeRegularExpressions : List Value := []
  deriving DecidableEq, Repr

/-- The kinds of execution context (`Heap::ExecutionContext::ContextType`). -/
inductive ExecutionContextType where
  | Type_GlobalContext
  | Type_CatchContext
  | Type_WithContext
  | Type_QmlContext
  | Type_SimpleCallContext
  | Type_CallContext
  deriving DecidableEq, Repr

/-- An execution context on the heap (`Heap::ExecutionContext`, `Heap::CallContext`):
`outer` is a pointer into the engine's contexts, `args` stands for `callData->args`
and `locals` for `locals.values` of a call context, `function` for what
`getFunction()` answers. -/
structure ExecutionContext where
  type : ExecutionContextType := .Type_GlobalContext
  outer : Option Nat := none
  lineNumber : Int := 0
  compilationUnit : CompilationUnit := {}
  args : Option ValuePtr := none
  locals : Option ValuePtr := none
  function : Option Function := none
  thisObject : Value := .undefined
  deriving DecidableEq, Repr

/-- What a debugger attached to the engine is told (`QV4::Debugging::Debugger`). -/
inductive DebuggerEvent where
  | enteringFunction
  | leavingFunction (returnValue : Value)
  | maybeBreakAtInstruction
  deriving DecidableEq, Repr

/-- Modelled from the spec: `QV4::Debugging::Debugger` is declared outside the files at
hand; its hooks are cooperative notifications, recorded here in the order they are
made. -/
structure Debugger where
  pauseAtNextOpportunity : Bool := false
  events : List DebuggerEvent := []
  deriving DecidableEq, Repr

/-- Modelled from the spec: `CppStackFrame` is declared outside the files at hand. A
frame of the native stack: a pointer to the frame below it, the invocation record of
the frame on the JS stack, and the function the frame runs. -/
structure CppStackFrame where
  parent : Option Nat := none
  jsFrame : Option ValuePtr := none
  v4Function : Option Function := none
  deriving DecidableEq, Repr

/-- The engine (`QV4::ExecutionEngine`), as far as the interpreter looks at it:
the pending exception, the write-barrier toggle, the current execution context and the
contexts on the heap, the value slots, the top of the JS stack, the global code and the
attached debugger. `heap` is the state of the object model behind the runtime entry
points; the interpreter hands it on and never looks at it. `currentStackFrame` points at
the top frame of the native stack; `nativeStack` holds the frames such pointers point
at, each at its address. -/
structure ExecutionEngine where
  hasException : Bool := false
  exceptionValue : Value := .undefined
  writeBarrierActive : Bool := false
  current : Option Nat := none
  contexts : List ExecutionContext := []
  memory : Memory := fun _ => .undefined
  jsStackTop : ValuePtr := ⟨0, 0⟩
  globalCode : Function := {}
  debugger : Option Debugger := none
  heap : Nat := 0
  currentStackFrame : Option Nat := none
  nativeStack : List CppStackFrame := []

namespace ExecutionEngine

/-- `*engine->current`. -/
def currentContext (e : ExecutionEngine) : Option ExecutionContext :=
  e.current.bind fun i => e.contexts[i]?

/-- `engine->current->lineNumber = lineNumber`. -/
def setLineNumber (e : ExecutionEngine) (lineNumber : Int) : ExecutionEngine :=
  match e.current with
  | some i =>
    match e.contexts[i]? with
    | some c => { e with contexts := e.contexts.set i { c with lineNumber := lineNumber } }
    | none => e
  | none => e

/-- Modelled from the spec: `Scope::alloc` is declared outside the files at hand; it
allocates `size` value slots from the caller-scoped region, the JS stack of the
engine. -/
def alloc (e : ExecutionEngine) (size : Nat) : ValuePtr × ExecutionEngine :=
  (e.jsStackTop, { e with jsStackTop := e.jsStackTop.add size })

/-- A notification of the attached debugger, if there is one. -/
def notify (e : ExecutionEngine) (event : DebuggerEvent) : ExecutionEngine :=
  match e.debugger with
  | some d => { e with debugger := some { d with events := d.events ++ [event] } }
  | none => e

end ExecutionEngine

/-! ## The runtime entry points -/

/-- The entry points the interpreter calls into: the methods of `Runtime`, the getters
and setters of the lookups, the binary operations of the `runtimeMethods` table, and
the coercions of `Value` that may run code. -/
inductive RuntimeMethod where
  | closure
  | getActivationProperty
  | globalGetter
  | setActivationProperty
  | getElement
  | indexedGetter
  | setElement
  | indexedSetter
  | getProperty
  | getter
  | setProperty
  | setter
  | setQmlScopeObjectProperty
  | getQmlScopeObjectProperty
  | setQmlContextObjectProperty
  | getQmlContextObjectProperty
  | getQmlIdObject
  | callValue
  | callProperty
  | callPropertyLookup
  | callElement
  | callActivationProperty
  | callGlobalLookup
  | throwException
  | unwindException
  | pushCatchScope
  | pushWithScope
  | popScope
  | foreachIterator
  | foreachNextPropertyName
  | deleteMember
  | deleteElement
  | deleteName
  | typeofName
  | typeofValue
  | declareVar
  | arrayLiteral
  | objectLiteral
  | setupArgumentsObject
  | convertThisToObject
  | constructValue
  | constructProperty
  | constructPropertyLookup
  | constructActivationProperty
  | constructGlobalLookup
  | toBoolean
  | strictEqual
  | toInt32
  | uNot
  | uPlus
  | uMinus
  | complement
  | preIncrement
  | preDecrement
  | postIncrement
  | postDecrement
  | binaryOperation
  | add
  | bitAnd
  | bitOr
  | bitXor
  | mul
  | sub
  | binaryOperationContext
  | getQmlContext
  | getQmlImportedScripts
  | getQmlSingleton
  deriving DecidableEq, Repr

/-- An argument handed to a runtime entry point: a value, a number or flag of the
instruction, or a pointer to value slots. -/
inductive Argument where
  | value (v : Value)
  | number (n : Int)
  | flag (b : Bool)
  | pointer (p : ValuePtr)
  deriving DecidableEq, Repr

/-- The runtime: what an entry point answers and what it leaves of the engine. -/
abbrev Runtime := RuntimeMethod → List Argument → ExecutionEngine → Value × ExecutionEngine

/-! ## The interface to the native debugger -/

/-- `class Breakpoint`. -/
structure Breakpoint where
  bpNumber : Int := 0
  lineNumber : Int := -1
  fullName : String := ""
  engineName : String := ""
  condition : String := ""
  deriving DecidableEq, Repr

/-- `Breakpoint::matches`. -/
def Breakpoint.matches (bp : Breakpoint) (file : String) (line : Int) : Bool :=
  bp.fullName == file && bp.lineNumber == line

/-- The static variables of the debugger interface; `triggered` records the calls of
`qt_v4TriggeredBreakpointHook`, each with the breakpoint that was the last stop when
the hook was called. -/
structure NativeDebugger where
  qt_v4BreakpointCount : Int := 0
  qt_v4IsDebugging : Bool := true
  qt_v4IsStepping : Bool := false
  qt_v4Breakpoints : List Breakpoint := []
  qt_v4LastStop : Breakpoint := {}
  triggered : List Breakpoint := []
  deriving DecidableEq, Repr

/-- `qt_v4ExtractFunction`. -/
def qt_v4ExtractFunction (context : ExecutionContext) (globalCode : Function) : Function :=
  match context.function with
  | some function => function
  | none => globalCode

/-- `qt_v4TriggerBreakpoint`. -/
def qt_v4TriggerBreakpoint (g : NativeDebugger) (bp : Breakpoint) : NativeDebugger :=
  { g with qt_v4LastStop := bp, triggered := g.triggered ++ [bp] }

/-- The loop over the breakpoints in `qt_v4CheckForBreak`, from the last one to the
first. -/
def triggerMatching (lineNumber : Int) (engineName : String) (g : NativeDebugger) :
    NativeDebugger :=
  g.qt_v4Breakpoints.reverse.foldl
    (fun acc bp =>
      if bp.lineNumber != lineNumber then acc
      else if bp.engineName != engineName then acc
      else qt_v4TriggerBreakpoint acc bp) g

/-- `qt_v4CheckForBreak`. -/
def qt_v4CheckForBreak (g : NativeDebugger) (context : ExecutionContext)
    (globalCode : Function) : NativeDebugger :=
  if !g.qt_v4IsStepping && g.qt_v4Breakpoints.length == 0 then g
  else
    let lineNumber := context.lineNumber
    let function := qt_v4ExtractFunction context globalCode
    let engineName := function.sourceFile
    if engineName.isEmpty then g
    else if g.qt_v4IsStepping &&
        (g.qt_v4LastStop.lineNumber != lineNumber || g.qt_v4LastStop.engineName != engineName)
    then
      qt_v4TriggerBreakpoint { g with qt_v4IsStepping := false }
        { bpNumber := 0, lineNumber := lineNumber, engineName := engineName }
    else triggerMatching lineNumber engineName g

/-! ## Instructions and the state of `VME::exec` -/

/-- An operand of an instruction (`Param`): a scope of the scope table and a slot in
it. -/
structure Param where
  scope : Nat
  index : Nat
  deriving DecidableEq, Repr

/-- An entry of the scope table (`struct Scopes`): `base` is non-null if a write
barrier is required. -/
structure Scopes where
  values : Option ValuePtr := none
  base : Option Nat := none
  deriving DecidableEq, Repr

/-- Modelled from the spec: `CallData` is declared outside the files at hand. An
invocation record holds the tag discriminator and the argument count (together one
slot wide), the callee reference, the context reference `ScopedStackFrame` writes, the
`this` value and the argument values, in this order. -/
structure CallDataLayout where
  function : Nat := 1
  context : Nat := 2
  thisObject : Nat := 3
  args : Nat := 4

/-- The layout of `CallData`. -/
def callDataLayout : CallDataLayout := {}

/-- The instructions of `VME::exec`, with the fields each reads. -/
inductive Instr where
  | Move (result source : Param)
  | LoadRuntimeString (result : Param) (stringId : Nat)
  | LoadRegExp (result : Param) (regExpId : Nat)
  | LoadClosure (result : Param) (value : Int)
  | LoadName (result : Param) (name : Int)
  | GetGlobalLookup (result : Param) (index : Int)
  | StoreName (name : Int) (source : Param)
  | LoadElement (result base index : Param)
  | LoadElementLookup (result : Param) (lookup : Int) (base index : Param)
  | StoreElement (base index source : Param)
  | StoreElementLookup (lookup : Int) (base index source : Param)
  | LoadProperty (result base : Param) (name : Int)
  | GetLookup (result : Param) (index : Int) (base : Param)
  | StoreProperty (base : Param) (name : Int) (source : Param)
  | SetLookup (index : Int) (base source : Param)
  | StoreScopeObjectProperty (base : Param) (propertyIndex : Int) (source : Param)
  | LoadScopeObjectProperty (result base : Param) (propertyIndex : Int)
      (captureRequired : Bool)
  | StoreContextObjectProperty (base : Param) (propertyIndex : Int) (source : Param)
  | LoadContextObjectProperty (result base : Param) (propertyIndex : Int)
      (captureRequired : Bool)
  | LoadIdObject (result base : Param) (index : Int)
  | InitStackFrame (value : Nat)
  | CallValue (result : Param) (callData : Nat) (dest : Param)
  | CallProperty (result : Param) (name : Int) (callData : Nat) (base : Param)
  | CallPropertyLookup (result : Param) (lookupIndex : Int) (callData : Nat) (argc : Int)
      (base : Param)
  | CallElement (result base index : Param) (callData : Nat)
  | CallActivationProperty (result : Param) (name : Int) (callData : Nat)
  | CallGlobalLookup (result : Param) (index : Int) (callData : Nat)
  | SetExceptionHandler (offset : Int)
  | CallBuiltinThrow (arg : Param)
  | GetException (result : Param)
  | SetException (exception : Param)
  | CallBuiltinUnwindException (result : Param)
  | CallBuiltinPushCatchScope (name : Int)
  | CallBuiltinPushScope (arg : Param)
  | CallBuiltinPopScope
  | CallBuiltinForeachIteratorObject (result arg : Param)
  | CallBuiltinForeachNextPropertyName (result arg : Param)
  | CallBuiltinDeleteMember (result base : Param) (member : Int)
  | CallBuiltinDeleteSubscript (result base index : Param)
  | CallBuiltinDeleteName (result : Param) (name : Int)
  | CallBuiltinTypeofName (result : Param) (name : Int)
  | CallBuiltinTypeofValue (result value : Param)
  | CallBuiltinDeclareVar (isDeletable : Bool) (varName : Int)
  | CallBuiltinDefineArray (result : Param) (args : Nat) (argc : Int)
  | CallBuiltinDefineObjectLiteral (result : Param) (args : Nat) (internalClassId : Int)
      (arrayValueCount : Int) (arrayGetterSetterCountAndFlags : Int)
  | CallBuiltinSetupArgumentsObject (result : Param)
  | CallBuiltinConvertThisToObject
  | CreateValue (result : Param) (callData : Nat) (func : Param)
  | CreateProperty (result : Param) (callData : Nat) (argc : Int) (base : Param) (name : Int)
  | ConstructPropertyLookup (result : Param) (callData : Nat) (argc : Int) (base : Param)
      (index : Int)
  | CreateActivationProperty (result : Param) (callData : Nat) (argc : Int) (name : Int)
  | ConstructGlobalLookup (result : Param) (callData : Nat) (argc : Int) (index : Int)
  | Jump (offset : Int)
  | JumpEq (offset : Int) (condition : Param)
  | JumpNe (offset : Int) (condition : Param)
  | JumpStrictEqual (offset : Int) (lhs rhs : Param)
  | JumpStrictNotEqual (offset : Int) (lhs rhs : Param)
  | UNot (result source : Param)
  | UNotBool (result source : Param)
  | UPlus (result source : Param)
  | UMinus (result source : Param)
  | UCompl (result source : Param)
  | UComplInt (result source : Param)
  | PreIncrement (result source : Param)
  | PreDecrement (result source : Param)
  | PostIncrement (result source : Param)
  | PostDecrement (result source : Param)
  | Binop (result : Param) (alu : Int) (lhs rhs : Param)
  | Add (result lhs rhs : Param)
  | BitAnd (result lhs rhs : Param)
  | BitOr (result lhs rhs : Param)
  | BitXor (result lhs rhs : Param)
  | Shr (result lhs rhs : Param)
  | Shl (result lhs rhs : Param)
  | BitAndConst (result lhs : Param) (rhs : Int)
  | BitOrConst (result lhs : Param) (rhs : Int)
  | BitXorConst (result lhs : Param) (rhs : Int)
  | ShrConst (result lhs : Param) (rhs : Int)
  | ShlConst (result lhs : Param) (rhs : Int)
  | Mul (result lhs rhs : Param)
  | Sub (result lhs rhs : Param)
  | BinopContext (result : Param) (alu : Int) (lhs rhs : Param)
  | Ret (result : Param)
  | Debug (lineNumber : Int)
  | Line (lineNumber : Int)
  | LoadThis (result : Param)
  | LoadQmlContext (result : Param)
  | LoadQmlImportedScripts (result : Param)
  | LoadQmlSingleton (result : Param) (name : Int)
  deriving Repr

/-- A call of the write-barrier entry point `WriteBarrier::write(engine, base, slot,
value)`. -/
structure BarrierCall where
  base : Nat
  slot : ValuePtr
  value : Value
  deriving DecidableEq, Repr

/-- The state of one activation of `VME::exec`: the engine, the instruction stream
and the local variables of the function (`code`, `returnValue`, `stack`, `stackSize`,
`exceptionHandler`, `scopes`, and the mark of the `Scope`), the static variables of the
debugger interface, and the calls of the write-barrier entry point made so far. -/
structure State where
  engine : ExecutionEngine := {}
  instructions : List Instr := []
  code : Int := 0
  returnValue : Value := .undefined
  stack : Option ValuePtr := none
  stackSize : Nat := 0
  exceptionHandler : Option Int := none
  scopes : List Scopes := []
  mark : ValuePtr := ⟨0, 0⟩
  debugging : NativeDebugger := {}
  barrierCalls : List BarrierCall := []

/-- Where the body of an instruction leaves control: at `MOTH_END_INSTR` (the loop goes
on at `code`), at the label `catchException`, at the label `functionExit`; or nowhere
the source defines. -/
inductive Outcome where
  | next (s : State)
  | catchException (s : State)
  | functionExit (s : State)
  | fault

namespace State

/-- `VALUEPTR(param)`: `scopes[param.scope].values + param.index`. -/
def valuePtr (s : State) (param : Param) : Option ValuePtr :=
  match s.scopes[param.scope]? with
  | some scope => scope.values.map fun values => values.add param.index
  | none => none

/-- Go on with `VALUE(param)`. -/
def read (s : State) (param : Param) (k : Value → Outcome) : Outcome :=
  match s.valuePtr param with
  | some p => k (s.engine.memory p)
  | none => .fault

/-- Go on with `*engine->current`. -/
def withCurrent (s : State) (k : ExecutionContext → Outcome) : Outcome :=
  match s.engine.currentContext with
  | some c => k c
  | none => .fault

/-- Go on with `stack + offset`. -/
def withStack (s : State) (offset : Nat) (k : ValuePtr → Outcome) : Outcome :=
  match s.stack with
  | some stack => k (stack.add offset)
  | none => .fault

/-- `*p = v`. -/
def poke (s : State) (p : ValuePtr) (v : Value) : State :=
  { s with engine := { s.engine with memory := s.engine.memory.store p v } }

/-- `VALUE(param) = v;` followed by `MOTH_END_INSTR`. -/
def assign (s : State) (param : Param) (v : Value) : Outcome :=
  match s.valuePtr param with
  | some p => .next (s.poke p v)
  | none => .fault

/-- Modelled from the spec: `WriteBarrier::write` is declared outside the files at
hand; the barrier call informs the collector of the new reference and commits the
store. The call is recorded. -/
def writeBarrier (s : State) (base : Nat) (slot : ValuePtr) (v : Value) : State :=
  { s.poke slot v with barrierCalls := s.barrierCalls ++ [⟨base, slot, v⟩] }

/-- `STOREVALUE(param, value)` followed by `MOTH_END_INSTR`; `value` is the answer of
the right-hand side and the engine it leaves. -/
def storeValue (s : State) (param : Param) (value : Value × ExecutionEngine) : Outcome :=
  let tmp := value.1
  let s := { s with engine := value.2 }
  if s.engine.hasException then .catchException s
  else
    match s.scopes[param.scope]? with
    | none => .fault
    | some scope =>
      match scope.values with
      | none => .fault
      | some values =>
        match scope.base with
        | none => .next (s.poke (values.add param.index) tmp)
        | some base =>
          if !s.engine.writeBarrierActive then .next (s.poke (values.add param.index) tmp)
          else .next (s.writeBarrier base (values.add param.index) tmp)

/-- A runtime call without a result, followed by `CHECK_EXCEPTION` and
`MOTH_END_INSTR`. -/
def checkException (s : State) (value : Value × ExecutionEngine) : Outcome :=
  let s := { s with engine := value.2 }
  if s.engine.hasException then .catchException s else .next s

/-- A runtime call without a result and without a check, followed by
`MOTH_END_INSTR`. -/
def unchecked (s : State) (value : Value × ExecutionEngine) : Outcome :=
  .next { s with engine := value.2 }

/-- `callData->tag = quint32(Value::ValueTypeInternal::Integer); callData->argc = argc;`
the two fields make up the first slot of the record, which then reads as the integer
`argc`. -/
def setTagAndArgc (s : State) (callData : ValuePtr) (argc : Int) : State :=
  s.poke callData (.integer argc)

/-- `callData->thisObject = v`. -/
def setThisObject (s : State) (callData : ValuePtr) (v : Value) : State :=
  s.poke (callData.add callDataLayout.thisObject) v

/-- `Value::toInt32()` on `VALUE(param)`, then go on with the number and the state the
coercion leaves. -/
def readInt32 (rt : Runtime) (s : State) (param : Param) (k : Int → State → Outcome) :
    Outcome :=
  s.read param fun v =>
    let r := rt .toInt32 [.value v] s.engine
    k r.1.integerValue { s with engine := r.2 }

/-- `code = ((const uchar *)&instr.offset) + instr.offset`, for the instruction at
`address`. -/
def jump (s : State) (address : Int) (offset : Int) : State :=
  { s with code := address + offset }

end State

/-! ## The bodies of the instructions -/

/-- `debug_slowPath`. -/
def debug_slowPath (s : State) (lineNumber : Int) : State :=
  let e := s.engine.setLineNumber lineNumber
  let e := match e.debugger with
    | some d => if d.pauseAtNextOpportunity then e.notify .maybeBreakAtInstruction else e
    | none => e
  let g := if s.debugging.qt_v4IsDebugging then
      match e.currentContext with
      | some c => qt_v4CheckForBreak s.debugging c e.globalCode
      | none => s.debugging
    else s.debugging
  { s with engine := e, debugging := g }

/-- The body of the instruction `instr` found at `address`, run in the state `s` in
which `code` has been advanced past the instruction (`MOTH_BEGIN_INSTR`). -/
def body (rt : Runtime) (address : Int) (s : State) : Instr → Outcome
  | .Move result source =>
    s.read source fun v => s.assign result v
  | .LoadRuntimeString result stringId =>
    s.withCurrent fun c =>
      match c.compilationUnit.runtimeStrings[stringId]? with
      | some v => s.assign result v
      | none => .fault
  | .LoadRegExp result regExpId =>
    s.withCurrent fun c =>
      match c.compilationUnit.runtimeRegularExpressions[regExpId]? with
      | some v => s.assign result v
      | none => .fault
  | .LoadClosure result value =>
    s.storeValue result (rt .closure [.number value] s.engine)
  | .LoadName result name =>
    s.storeValue result (rt .getActivationProperty [.number name] s.engine)
  | .GetGlobalLookup result index =>
    s.withCurrent fun _ => s.storeValue result (rt .globalGetter [.number index] s.engine)
  | .StoreName name source =>
    s.read source fun v =>
      s.checkException (rt .setActivationProperty [.number name, .value v] s.engine)
  | .LoadElement result base index =>
    s.read base fun b => s.read index fun i =>
      s.storeValue result (rt .getElement [.value b, .value i] s.engine)
  | .LoadElementLookup result lookup base index =>
    s.withCurrent fun _ => s.read base fun b => s.read index fun i =>
      s.storeValue result (rt .indexedGetter [.number lookup, .value b, .value i] s.engine)
  | .StoreElement base index source =>
    s.read base fun b => s.read index fun i => s.read source fun v =>
      s.checkException (rt .setElement [.value b, .value i, .value v] s.engine)
  | .StoreElementLookup lookup base index source =>
    s.withCurrent fun _ => s.read base fun b => s.read index fun i => s.read source fun v =>
      s.checkException
        (rt .indexedSetter [.number lookup, .value b, .value i, .value v] s.engine)
  | .LoadProperty result base name =>
    s.read base fun b =>
      s.storeValue result (rt .getProperty [.value b, .number name] s.engine)
  | .GetLookup result index base =>
    s.withCurrent fun _ => s.read base fun b =>
      s.storeValue result (rt .getter [.number index, .value b] s.engine)
  | .StoreProperty base name source =>
    s.read base fun b => s.read source fun v =>
      s.checkException (rt .setProperty [.value b, .number name, .value v] s.engine)
  | .SetLookup index base source =>
    s.withCurrent fun _ => s.read base fun b => s.read source fun v =>
      s.checkException (rt .setter [.number index, .value b, .value v] s.engine)
  | .StoreScopeObjectProperty base propertyIndex source =>
    s.read base fun b => s.read source fun v =>
      s.checkException
        (rt .setQmlScopeObjectProperty [.value b, .number propertyIndex, .value v] s.engine)
  | .LoadScopeObjectProperty result base propertyIndex captureRequired =>
    s.read base fun b =>
      s.storeValue result (rt .getQmlScopeObjectProperty
        [.value b, .number propertyIndex, .flag captureRequired] s.engine)
  | .StoreContextObjectProperty base propertyIndex source =>
    s.read base fun b => s.read source fun v =>
      s.checkException
        (rt .setQmlContextObjectProperty [.value b, .number propertyIndex, .value v] s.engine)
  | .LoadContextObjectProperty result base propertyIndex captureRequired =>
    s.read base fun b =>
      s.storeValue result (rt .getQmlContextObjectProperty
        [.value b, .number propertyIndex, .flag captureRequired] s.engine)
  | .LoadIdObject result base index =>
    s.read base fun b =>
      s.storeValue result (rt .getQmlIdObject [.value b, .number index] s.engine)
  | .InitStackFrame value =>
    let r := s.engine.alloc value
    .next { s with engine := r.2, stackSize := value, stack := some r.1,
                   scopes := s.scopes.modify (fun scope => { scope with values := some r.1 }) 1 }
  | .CallValue result callData dest =>
    s.withStack callData fun cd => s.read dest fun d =>
      s.storeValue result (rt .callValue [.value d, .pointer cd] s.engine)
  | .CallProperty result name callData base =>
    s.withStack callData fun cd => s.read base fun b =>
      let s := s.setThisObject cd b
      s.storeValue result (rt .callProperty [.number name, .pointer cd] s.engine)
  | .CallPropertyLookup result lookupIndex callData argc base =>
    s.withStack callData fun cd =>
      let s := s.setTagAndArgc cd argc
      s.read base fun b =>
        let s := s.setThisObject cd b
        s.storeValue result
          (rt .callPropertyLookup [.number lookupIndex, .pointer cd] s.engine)
  | .CallElement result base index callData =>
    s.withStack callData fun cd => s.read base fun b =>
      let s := s.setThisObject cd b
      s.read index fun i =>
        s.storeValue result (rt .callElement [.value i, .pointer cd] s.engine)
  | .CallActivationProperty result name callData =>
    s.withStack callData fun cd =>
      s.storeValue result (rt .callActivationProperty [.number name, .pointer cd] s.engine)
  | .CallGlobalLookup result index callData =>
    s.withStack callData fun cd =>
      s.storeValue result (rt .callGlobalLookup [.number index, .pointer cd] s.engine)
  | .SetExceptionHandler offset =>
    .next { s with exceptionHandler := if offset ≠ 0 then some (address + offset) else none }
  | .CallBuiltinThrow arg =>
    s.read arg fun v => s.checkException (rt .throwException [.value v] s.engine)
  | .GetException result =>
    match s.valuePtr result with
    | some p =>
      let s := s.poke p (if s.engine.hasException then s.engine.exceptionValue else .empty)
      .next { s with engine := { s.engine with hasException := false } }
    | none => .fault
  | .SetException exception =>
    s.read exception fun v =>
      .next { s with engine := { s.engine with exceptionValue := v, hasException := true } }
  | .CallBuiltinUnwindException result =>
    s.storeValue result (rt .unwindException [] s.engine)
  | .CallBuiltinPushCatchScope name =>
    s.unchecked (rt .pushCatchScope [.number name] s.engine)
  | .CallBuiltinPushScope arg =>
    s.read arg fun v => s.checkException (rt .pushWithScope [.value v] s.engine)
  | .CallBuiltinPopScope =>
    s.unchecked (rt .popScope [] s.engine)
  | .CallBuiltinForeachIteratorObject result arg =>
    s.read arg fun v => s.storeValue result (rt .foreachIterator [.value v] s.engine)
  | .CallBuiltinForeachNextPropertyName result arg =>
    s.read arg fun v =>
      s.storeValue result (rt .foreachNextPropertyName [.value v] s.engine)
  | .CallBuiltinDeleteMember result base member =>
    s.read base fun b =>
      s.storeValue result (rt .deleteMember [.value b, .number member] s.engine)
  | .CallBuiltinDeleteSubscript result base index =>
    s.read base fun b => s.read index fun i =>
      s.storeValue result (rt .deleteElement [.value b, .value i] s.engine)
  | .CallBuiltinDeleteName result name =>
    s.storeValue result (rt .deleteName [.number name] s.engine)
  | .CallBuiltinTypeofName result name =>
    s.storeValue result (rt .typeofName [.number name] s.engine)
  | .CallBuiltinTypeofValue result value =>
    s.read value fun v => s.storeValue result (rt .typeofValue [.value v] s.engine)
  | .CallBuiltinDeclareVar isDeletable varName =>
    s.unchecked (rt .declareVar [.flag isDeletable, .number varName] s.engine)
  | .CallBuiltinDefineArray result args argc =>
    s.withStack args fun a =>
      s.storeValue result (rt .arrayLiteral [.pointer a, .number argc] s.engine)
  | .CallBuiltinDefineObjectLiteral result args internalClassId arrayValueCount
      arrayGetterSetterCountAndFlags =>
    s.withStack args fun a =>
      s.storeValue result (rt .objectLiteral [.pointer a, .number internalClassId,
        .number arrayValueCount, .number arrayGetterSetterCountAndFlags] s.engine)
  | .CallBuiltinSetupArgumentsObject result =>
    s.storeValue result (rt .setupArgumentsObject [] s.engine)
  | .CallBuiltinConvertThisToObject =>
    s.checkException (rt .convertThisToObject [] s.engine)
  | .CreateValue result callData func =>
    s.withStack callData fun cd => s.read func fun f =>
      s.storeValue result (rt .constructValue [.value f, .pointer cd] s.engine)
  | .CreateProperty result callData argc base name =>
    s.withStack callData fun cd =>
      let s := s.setTagAndArgc cd argc
      s.read base fun b =>
        let s := s.setThisObject cd b
        s.storeValue result (rt .constructProperty [.number name, .pointer cd] s.engine)
  | .ConstructPropertyLookup result callData argc base index =>
    s.withStack callData fun cd =>
      let s := s.setTagAndArgc cd argc
      s.read base fun b =>
        let s := s.setThisObject cd b
        s.storeValue result
          (rt .constructPropertyLookup [.number index, .pointer cd] s.engine)
  | .CreateActivationProperty result callData argc name =>
    s.withStack callData fun cd =>
      let s := (s.setTagAndArgc cd argc).setThisObject cd .undefined
      s.storeValue result
        (rt .constructActivationProperty [.number name, .pointer cd] s.engine)
  | .ConstructGlobalLookup result callData argc index =>
    s.withStack callData fun cd =>
      let s := (s.setTagAndArgc cd argc).setThisObject cd .undefined
      s.storeValue result (rt .constructGlobalLookup [.number index, .pointer cd] s.engine)
  | .Jump offset =>
    .next (s.jump address offset)
  | .JumpEq offset condition =>
    s.read condition fun v =>
      if (rt .toBoolean [.value v] s.engine).1.booleanValue then .next (s.jump address offset)
      else .next s
  | .JumpNe offset condition =>
    s.read condition fun v =>
      if !(rt .toBoolean [.value v] s.engine).1.booleanValue then
        .next (s.jump address offset)
      else .next s
  | .JumpStrictEqual offset lhs rhs =>
    s.read lhs fun a => s.read rhs fun b =>
      if (rt .strictEqual [.value a, .value b] s.engine).1.booleanValue then
        .next (s.jump address offset)
      else .next s
  | .JumpStrictNotEqual offset lhs rhs =>
    s.read lhs fun a => s.read rhs fun b =>
      if !(rt .strictEqual [.value a, .value b] s.engine).1.booleanValue then
        .next (s.jump address offset)
      else .next s
  | .UNot result source =>
    s.read source fun v => s.storeValue result (rt .uNot [.value v] s.engine)
  | .UNotBool result source =>
    s.read source fun v => s.assign result (.boolean (!v.booleanValue))
  | .UPlus result source =>
    s.read source fun v => s.storeValue result (rt .uPlus [.value v] s.engine)
  | .UMinus result source =>
    s.read source fun v => s.storeValue result (rt .uMinus [.value v] s.engine)
  | .UCompl result source =>
    s.read source fun v => s.storeValue result (rt .complement [.value v] s.engine)
  | .UComplInt result source =>
    s.read source fun v => s.assign result (encodeInt (-v.integerValue - 1))
  | .PreIncrement result source =>
    s.read source fun v => s.storeValue result (rt .preIncrement [.value v] s.engine)
  | .PreDecrement result source =>
    s.read source fun v => s.storeValue result (rt .preDecrement [.value v] s.engine)
  | .PostIncrement result source =>
    match s.valuePtr source with
    | some p => s.storeValue result (rt .postIncrement [.pointer p] s.engine)
    | none => .fault
  | .PostDecrement result source =>
    match s.valuePtr source with
    | some p => s.storeValue result (rt .postDecrement [.pointer p] s.engine)
    | none => .fault
  | .Binop result alu lhs rhs =>
    s.read lhs fun a => s.read rhs fun b =>
      s.storeValue result (rt .binaryOperation [.number alu, .value a, .value b] s.engine)
  | .Add result lhs rhs =>
    s.read lhs fun a => s.read rhs fun b =>
      s.storeValue result (rt .add [.value a, .value b] s.engine)
  | .BitAnd result lhs rhs =>
    s.read lhs fun a => s.read rhs fun b =>
      s.storeValue result (rt .bitAnd [.value a, .value b] s.engine)
  | .BitOr result lhs rhs =>
    s.read lhs fun a => s.read rhs fun b =>
      s.storeValue result (rt .bitOr [.value a, .value b] s.engine)
  | .BitXor result lhs rhs =>
    s.read lhs fun a => s.read rhs fun b =>
      s.storeValue result (rt .bitXor [.value a, .value b] s.engine)
  | .Shr result lhs rhs =>
    s.readInt32 rt lhs fun a s => s.readInt32 rt rhs fun b s =>
      s.storeValue result (encodeInt (a >>> (b % 32).toNat), s.engine)
  | .Shl result lhs rhs =>
    s.readInt32 rt lhs fun a s => s.readInt32 rt rhs fun b s =>
      s.storeValue result (encodeInt (a * 2 ^ (b % 32).toNat), s.engine)
  | .BitAndConst result lhs rhs =>
    s.readInt32 rt lhs fun a s => s.storeValue result (encodeInt (Int.land a rhs), s.engine)
  | .BitOrConst result lhs rhs =>
    s.readInt32 rt lhs fun a s => s.storeValue result (encodeInt (Int.lor a rhs), s.engine)
  | .BitXorConst result lhs rhs =>
    s.readInt32 rt lhs fun a s => s.storeValue result (encodeInt (Int.xor a rhs), s.engine)
  | .ShrConst result lhs rhs =>
    s.readInt32 rt lhs fun a s => s.storeValue result (encodeInt (a >>> rhs.toNat), s.engine)
  | .ShlConst result lhs rhs =>
    s.readInt32 rt lhs fun a s => s.storeValue result (encodeInt (a * 2 ^ rhs.toNat), s.engine)
  | .Mul result lhs rhs =>
    s.read lhs fun a => s.read rhs fun b =>
      s.storeValue result (rt .mul [.value a, .value b] s.engine)
  | .Sub result lhs rhs =>
    s.read lhs fun a => s.read rhs fun b =>
      s.storeValue result (rt .sub [.value a, .value b] s.engine)
  | .BinopContext result alu lhs rhs =>
    s.read lhs fun a => s.read rhs fun b =>
      s.storeValue result
        (rt .binaryOperationContext [.number alu, .value a, .value b] s.engine)
  | .Ret result =>
    s.read result fun v => .functionExit { s with returnValue := v }
  | .Debug lineNumber =>
    .next (debug_slowPath s lineNumber)
  | .Line lineNumber =>
    let e := s.engine.setLineNumber lineNumber
    let g := if s.debugging.qt_v4IsDebugging then
        match e.currentContext with
        | some c => qt_v4CheckForBreak s.debugging c e.globalCode
        | none => s.debugging
      else s.debugging
    .next { s with engine := e, debugging := g }
  | .LoadThis result =>
    s.withCurrent fun c => s.assign result c.thisObject
  | .LoadQmlContext result =>
    let r := rt .getQmlContext [] s.engine
    { s with engine := r.2 }.assign result r.1
  | .LoadQmlImportedScripts result =>
    let r := rt .getQmlImportedScripts [] s.engine
    { s with engine := r.2 }.assign result r.1
  | .LoadQmlSingleton result name =>
    let r := rt .getQmlSingleton [.number name] s.engine
    { s with engine := r.2 }.assign result r.1

/-! ## The loop, entry and exit of `VME::exec` -/

/-- The instruction the pointer `code` points at. -/
def State.fetch (s : State) : Option Instr :=
  if 0 ≤ s.code then s.instructions[s.code.toNat]? else none

/-- The block at the label `catchException`. -/
def catchException (s : State) : Outcome :=
  match s.exceptionHandler with
  | none => .functionExit { s with returnValue := .undefined }
  | some handler => .next { s with code := handler }

/-- One turn of the loop `for (;;)`: decode the instruction at `code`, advance `code`
past it, run its body, and handle the exception if the body leaves at
`catchException`. -/
def iterate (rt : Runtime) (s : State) : Outcome :=
  match s.fetch with
  | none => .fault
  | some instr =>
    match body rt s.code { s with code := s.code + 1 } instr with
    | .catchException s' => catchException s'
    | outcome => outcome

/-- What `VME::exec` hands back: the returned value, the engine and the static
variables of the debugger interface as the activation leaves them, and the calls of
the write-barrier entry point it made. -/
structure Result where
  returnValue : Value
  engine : ExecutionEngine
  debugging : NativeDebugger
  barrierCalls : List BarrierCall

/-- The block at the label `functionExit`, and the destructor of the `Scope`, which
gives the slots allocated by the activation back. -/
def functionExit (s : State) : Result :=
  { returnValue := s.returnValue,
    engine := { s.engine.notify (.leavingFunction s.returnValue) with jsStackTop := s.mark },
    debugging := s.debugging,
    barrierCalls := s.barrierCalls }

/-- The loop `for (;;)`, for at most `fuel` instructions: `none` when the activation
has not left the loop by then, or has left what the source defines. -/
def run (rt : Runtime) : Nat → State → Option Result
  | 0, _ => none
  | fuel + 1, s =>
    match iterate rt s with
    | .next s' => run rt fuel s'
    | .functionExit s' => some (functionExit s')
    | _ => none

/-- The entries of the scope table for the execution contexts from `scope` outwards;
`fuel` bounds the number of contexts looked at. -/
def scopeEntries (e : ExecutionEngine) : Nat → Option Nat → List Scopes
  | 0, _ => []
  | _ + 1, none => []
  | fuel + 1, some i =>
    match e.contexts[i]? with
    | none => []
    | some scope =>
      (match scope.type with
        | .Type_SimpleCallContext => [⟨scope.args, none⟩, ⟨none, none⟩]
        | .Type_CallContext => [⟨scope.args, some i⟩, ⟨scope.locals, some i⟩]
        | _ => [⟨none, none⟩, ⟨none, none⟩]) ++ scopeEntries e fuel scope.outer

/-- The state in which `VME::exec` enters its loop: the local variables initialised,
the line number of the current context reset, the scope table set up, the debugger
told; `none` when there is no current context. -/
def enter (engine : ExecutionEngine) (debugging : NativeDebugger) (instructions : List Instr)
    (code : Int) : Option State :=
  match engine.currentContext with
  | none => none
  | some current =>
    let e := engine.setLineNumber (-1)
    some { engine := e.notify .enteringFunction,
           instructions := instructions,
           code := code,
           returnValue := .undefined,
           stack := none,
           stackSize := 0,
           exceptionHandler := none,
           scopes := [⟨current.compilationUnit.constants, none⟩, ⟨none, none⟩] ++
             scopeEntries e e.contexts.length e.current,
           mark := engine.jsStackTop,
           debugging := debugging,
           barrierCalls := [] }

/-- How the body of an instruction ends: in `STOREVALUE(result, ...)`; in a call
followed by `CHECK_EXCEPTION`; in the plain store `VALUE(result) = ...`; in the store
and the reset of `GetException`; in `goto functionExit`; or in none of these. -/
inductive Ending where
  | storeValue (result : Param)
  | checkException
  | assign (result : Param)
  | getException (result : Param)
  | functionExit
  | plain
  deriving DecidableEq, Repr

/-- The ending of the body of each instruction of `VME::exec`. -/
def Instr.ending : Instr → Ending
  | .Move result _ => .assign result
  | .LoadRuntimeString result _ => .assign result
  | .LoadRegExp result _ => .assign result
  | .LoadClosure result _ => .storeValue result
  | .LoadName result _ => .storeValue result
  | .GetGlobalLookup result _ => .storeValue result
  | .StoreName _ _ => .checkException
  | .LoadElement result _ _ => .storeValue result
  | .LoadElementLookup result _ _ _ => .storeValue result
  | .StoreElement _ _ _ => .checkException
  | .StoreElementLookup _ _ _ _ => .checkException
  | .LoadProperty result _ _ => .storeValue result
  | .GetLookup result _ _ => .storeValue result
  | .StoreProperty _ _ _ => .checkException
  | .SetLookup _ _ _ => .checkException
  | .StoreScopeObjectProperty _ _ _ => .checkException
  | .LoadScopeObjectProperty result _ _ _ => .storeValue result
  | .StoreContextObjectProperty _ _ _ => .checkException
  | .LoadContextObjectProperty result _ _ _ => .storeValue result
  | .LoadIdObject result _ _ => .storeValue result
  | .InitStackFrame _ => .plain
  | .CallValue result _ _ => .storeValue result
  | .CallProperty result _ _ _ => .storeValue result
  | .CallPropertyLookup result _ _ _ _ => .storeValue result
  | .CallElement result _ _ _ => .storeValue result
  | .CallActivationProperty result _ _ => .storeValue result
  | .CallGlobalLookup result _ _ => .storeValue result
  | .SetExceptionHandler _ => .plain
  | .CallBuiltinThrow _ => .checkException
  | .GetException result => .getException result
  | .SetException _ => .plain
  | .CallBuiltinUnwindException result => .storeValue result
  | .CallBuiltinPushCatchScope _ => .plain
  | .CallBuiltinPushScope _ => .checkException
  | .CallBuiltinPopScope => .plain
  | .CallBuiltinForeachIteratorObject result _ => .storeValue result
  | .CallBuiltinForeachNextPropertyName result _ => .storeValue result
  | .CallBuiltinDeleteMember result _ _ => .storeValue result
  | .CallBuiltinDeleteSubscript result _ _ => .storeValue result
  | .CallBuiltinDeleteName result _ => .storeValue result
  | .CallBuiltinTypeofName result _ => .storeValue result
  | .CallBuiltinTypeofValue result _ => .storeValue result
  | .CallBuiltinDeclareVar _ _ => .plain
  | .CallBuiltinDefineArray result _ _ => .storeValue result
  | .CallBuiltinDefineObjectLiteral result _ _ _ _ => .storeValue result
  | .CallBuiltinSetupArgumentsObject result => .storeValue result
  | .CallBuiltinConvertThisToObject => .checkException
  | .CreateValue result _ _ => .storeValue result
  | .CreateProperty result _ _ _ _ => .storeValue result
  | .ConstructPropertyLookup result _ _ _ _ => .storeValue result
  | .CreateActivationProperty result _ _ _ => .storeValue result
  | .ConstructGlobalLookup result _ _ _ => .storeValue result
  | .Jump _ => .plain
  | .JumpEq _ _ => .plain
  | .JumpNe _ _ => .plain
  | .JumpStrictEqual _ _ _ => .plain
  | .JumpStrictNotEqual _ _ _ => .plain
  | .UNot result _ => .storeValue result
  | .UNotBool result _ => .assign result
  | .UPlus result _ => .storeValue result
  | .UMinus result _ => .storeValue result
  | .UCompl result _ => .storeValue result
  | .UComplInt result _ => .assign result
  | .PreIncrement result _ => .storeValue result
  | .PreDecrement result _ => .storeValue result
  | .PostIncrement result _ => .storeValue result
  | .PostDecrement result _ => .storeValue result
  | .Binop result _ _ _ => .storeValue result
  | .Add result _ _ => .storeValue result
  | .BitAnd result _ _ => .storeValue result
  | .BitOr result _ _ => .storeValue result
  | .BitXor result _ _ => .storeValue result
  | .Shr result _ _ => .storeValue result
  | .Shl result _ _ => .storeValue result
  | .BitAndConst result _ _ => .storeValue result
  | .BitOrConst result _ _ => .storeValue result
  | .BitXorConst result _ _ => .storeValue result
  | .ShrConst result _ _ => .storeValue result
  | .ShlConst result _ _ => .storeValue result
  | .Mul result _ _ => .storeValue result
  | .Sub result _ _ => .storeValue result
  | .BinopContext result _ _ _ => .storeValue result
  | .Ret _ => .functionExit
  | .Debug _ => .plain
  | .Line _ => .plain
  | .LoadThis result => .assign result
  | .LoadQmlContext result => .assign result
  | .LoadQmlImportedScripts result => .assign result
  | .LoadQmlSingleton result _ => .assign result

/-- The instruction checks the pending-exception flag after its effect: its body ends
in `STOREVALUE` or in `CHECK_EXCEPTION`. -/
def Instr.checksException (instr : Instr) : Bool :=
  match instr.ending with
  | .storeValue _ => true
  | .checkException => true
  | _ => false

/-- The operand slot the instruction stores its result to, if it stores one. -/
def Instr.resultOperand (instr : Instr) : Option Param :=
  match instr.ending with
  | .storeValue result => some result
  | .assign result => some result
  | .getException result => some result
  | _ => none

/-- The heap object backing the scope of the operand `param`, if there is one
(`scopes[param.scope].base`). -/
def State.base (s : State) (param : Param) : Option Nat :=
  (s.scopes[param.scope]?).bind fun scope => scope.base

/-- The state `s` with the engine `e` in place of its own. -/
def State.withEngine (s : State) (e : ExecutionEngine) : State :=
  { s with engine := e }

/-- What the body of an instruction that ends as `ending` comes to, seen from the
state `s` the body starts in: the outcome `o` is a fault, or the ending applied to `s`
with the engine the statements before it have left. For an instruction with a plain
ending, the loop goes on without a call of the write-barrier entry point. -/
def Ending.Describes (ending : Ending) (s : State) (o : Outcome) : Prop :=
  match ending with
  | .storeValue result =>
    o = .fault ∨ ∃ e value, o = (s.withEngine e).storeValue result value
  | .checkException =>
    o = .fault ∨ ∃ e value, o = (s.withEngine e).checkException value
  | .assign result =>
    o = .fault ∨ ∃ e v, o = (s.withEngine e).assign result v
  | .getException result =>
    o = .fault ∨ ∃ p, s.valuePtr result = some p ∧
      o = .next ((s.poke p (if s.engine.hasException then s.engine.exceptionValue
        else .empty)).withEngine
          { (s.poke p (if s.engine.hasException then s.engine.exceptionValue
              else .empty)).engine with hasException := false })
  | .functionExit =>
    o = .fault ∨ ∃ v, o = .functionExit { s with returnValue := v }
  | .plain =>
    o = .fault ∨ ∃ s', o = .next s' ∧ s'.barrierCalls = s.barrierCalls

/-- The state an outcome leaves control in, if it is one the source defines. -/
def Outcome.state? : Outcome → Option State
  | .next s => some s
  | .catchException s => some s
  | .functionExit s => some s
  | .fault => none

/-- The body of an instruction ends by handing over to the runtime entry point
`method`: its outcome `o` is what `STOREVALUE(result, ...)` makes of the answer of
`method` to the arguments `arguments`, and `record` holds of the value slots at the
moment the entry point is invoked. -/
def Outcome.Invokes (o : Outcome) (rt : Runtime) (result : Param) (method : RuntimeMethod)
    (arguments : List Argument) (record : Memory → Prop) : Prop :=
  ∃ s : State, o = s.storeValue result (rt method arguments s.engine) ∧ record s.engine.memory

/-! ## The right-hand side of `STOREVALUE` -/

/-- `VALUE(param)`, if the operand can be read. -/
def State.value? (s : State) (param : Param) : Option Value :=
  (s.valuePtr param).map fun p => s.engine.memory p

/-- `stack + offset`, if the stack frame is set up. -/
def State.stackPtr? (s : State) (offset : Nat) : Option ValuePtr :=
  s.stack.map fun stack => stack.add offset

/-- `Value::toInt32()` on `VALUE(param)`: the number, and the state the coercion
leaves. -/
def State.int32? (rt : Runtime) (s : State) (param : Param) : Option (Int × State) :=
  (s.value? param).map fun v =>
    let r := rt .toInt32 [.value v] s.engine
    (r.1.integerValue, { s with engine := r.2 })

/-- The second argument of the `STOREVALUE` that ends the body of an instruction, in
the state `s` the body starts in: the state in which `STOREVALUE` is reached (the
statements before it have been executed), and the answer of the right-hand side with
the engine it leaves. `none` for an instruction whose body has no `STOREVALUE`, and
when the body does not come to it. -/
def rightHandSide (rt : Runtime) (s : State) :
    Instr → Option (State × (Value × ExecutionEngine))
  | .LoadClosure _ value =>
    some (s, rt .closure [.number value] s.engine)
  | .LoadName _ name =>
    some (s, rt .getActivationProperty [.number name] s.engine)
  | .GetGlobalLookup _ index =>
    s.engine.currentContext.bind fun _ =>
      some (s, rt .globalGetter [.number index] s.engine)
  | .LoadElement _ base index =>
    (s.value? base).bind fun b => (s.value? index).bind fun i =>
      some (s, rt .getElement [.value b, .value i] s.engine)
  | .LoadElementLookup _ lookup base index =>
    s.engine.currentContext.bind fun _ =>
      (s.value? base).bind fun b => (s.value? index).bind fun i =>
        some (s, rt .indexedGetter [.number lookup, .value b, .value i] s.engine)
  | .LoadProperty _ base name =>
    (s.value? base).bind fun b =>
      some (s, rt .getProperty [.value b, .number name] s.engine)
  | .GetLookup _ index base =>
    s.engine.currentContext.bind fun _ => (s.value? base).bind fun b =>
      some (s, rt .getter [.number index, .value b] s.engine)
  | .LoadScopeObjectProperty _ base propertyIndex captureRequired =>
    (s.value? base).bind fun b =>
      some (s, rt .getQmlScopeObjectProperty
        [.value b, .number propertyIndex, .flag captureRequired] s.engine)
  | .LoadContextObjectProperty _ base propertyIndex captureRequired =>
    (s.value? base).bind fun b =>
      some (s, rt .getQmlContextObjectProperty
        [.value b, .number propertyIndex, .flag captureRequired] s.engine)
  | .LoadIdObject _ base index =>
    (s.value? base).bind fun b =>
      some (s, rt .getQmlIdObject [.value b, .number index] s.engine)
  | .CallValue _ callData dest =>
    (s.stackPtr? callData).bind fun cd => (s.value? dest).bind fun d =>
      some (s, rt .callValue [.value d, .pointer cd] s.engine)
  | .CallProperty _ name callData base =>
    (s.stackPtr? callData).bind fun cd => (s.value? base).bind fun b =>
      let s := s.setThisObject cd b
      some (s, rt .callProperty [.number name, .pointer cd] s.engine)
  | .CallPropertyLookup _ lookupIndex callData argc base =>
    (s.stackPtr? callData).bind fun cd =>
      let s := s.setTagAndArgc cd argc
      (s.value? base).bind fun b =>
        let s := s.setThisObject cd b
        some (s, rt .callPropertyLookup [.number lookupIndex, .pointer cd] s.engine)
  | .CallElement _ base index callData =>
    (s.stackPtr? callData).bind fun cd => (s.value? base).bind fun b =>
      let s := s.setThisObject cd b
      (s.value? index).bind fun i =>
        some (s, rt .callElement [.value i, .pointer cd] s.engine)
  | .CallActivationProperty _ name callData =>
    (s.stackPtr? callData).bind fun cd =>
      some (s, rt .callActivationProperty [.number name, .pointer cd] s.engine)
  | .CallGlobalLookup _ index callData =>
    (s.stackPtr? callData).bind fun cd =>
      some (s, rt .callGlobalLookup [.number index, .pointer cd] s.engine)
  | .CallBuiltinUnwindException _ =>
    some (s, rt .unwindException [] s.engine)
  | .CallBuiltinForeachIteratorObject _ arg =>
    (s.value? arg).bind fun v => some (s, rt .foreachIterator [.value v] s.engine)
  | .CallBuiltinForeachNextPropertyName _ arg =>
    (s.value? arg).bind fun v =>
      some (s, rt .foreachNextPropertyName [.value v] s.engine)
  | .CallBuiltinDeleteMember _ base member =>
    (s.value? base).bind fun b =>
      some (s, rt .deleteMember [.value b, .number member] s.engine)
  | .CallBuiltinDeleteSubscript _ base index =>
    (s.value? base).bind fun b => (s.value? index).bind fun i =>
      some (s, rt .deleteElement [.value b, .value i] s.engine)
  | .CallBuiltinDeleteName _ name =>
    some (s, rt .deleteName [.number name] s.engine)
  | .CallBuiltinTypeofName _ name =>
    some (s, rt .typeofName [.number name] s.engine)
  | .CallBuiltinTypeofValue _ value =>
    (s.value? value).bind fun v => some (s, rt .typeofValue [.value v] s.engine)
  | .CallBuiltinDefineArray _ args argc =>
    (s.stackPtr? args).bind fun a =>
      some (s, rt .arrayLiteral [.pointer a, .number argc] s.engine)
  | .CallBuiltinDefineObjectLiteral _ args internalClassId arrayValueCount
      arrayGetterSetterCountAndFlags =>
    (s.stackPtr? args).bind fun a =>
      some (s, rt .objectLiteral [.pointer a, .number internalClassId,
        .number arrayValueCount, .number arrayGetterSetterCountAndFlags] s.engine)
  | .CallBuiltinSetupArgumentsObject _ =>
    some (s, rt .setupArgumentsObject [] s.engine)
  | .CreateValue _ callData func =>
    (s.stackPtr? callData).bind fun cd => (s.value? func).bind fun f =>
      some (s, rt .constructValue [.value f, .pointer cd] s.engine)
  | .CreateProperty _ callData argc base name =>
    (s.stackPtr? callData).bind fun cd =>
      let s := s.setTagAndArgc cd argc
      (s.value? base).bind fun b =>
        let s := s.setThisObject cd b
        some (s, rt .constructProperty [.number name, .pointer cd] s.engine)
  | .ConstructPropertyLookup _ callData argc base index =>
    (s.stackPtr? callData).bind fun cd =>
      let s := s.setTagAndArgc cd argc
      (s.value? base).bind fun b =>
        let s := s.setThisObject cd b
        some (s, rt .constructPropertyLookup [.number index, .pointer cd] s.engine)
  | .CreateActivationProperty _ callData argc name =>
    (s.stackPtr? callData).bind fun cd =>
      let s := (s.setTagAndArgc cd argc).setThisObject cd .undefined
      some (s, rt .constructActivationProperty [.number name, .pointer cd] s.engine)
  | .ConstructGlobalLookup _ callData argc index =>
    (s.stackPtr? callData).bind fun cd =>
      let s := (s.setTagAndArgc cd argc).setThisObject cd .undefined
      some (s, rt .constructGlobalLookup [.number index, .pointer cd] s.engine)
  | .UNot _ source =>
    (s.value? source).bind fun v => some (s, rt .uNot [.value v] s.engine)
  | .UPlus _ source =>
    (s.value? source).bind fun v => some (s, rt .uPlus [.value v] s.engine)
  | .UMinus _ source =>
    (s.value? source).bind fun v => some (s, rt .uMinus [.value v] s.engine)
  | .UCompl _ source =>
    (s.value? source).bind fun v => some (s, rt .complement [.value v] s.engine)
  | .PreIncrement _ source =>
    (s.value? source).bind fun v => some (s, rt .preIncrement [.value v] s.engine)
  | .PreDecrement _ source =>
    (s.value? source).bind fun v => some (s, rt .preDecrement [.value v] s.engine)
  | .PostIncrement _ source =>
    (s.valuePtr source).bind fun p => some (s, rt .postIncrement [.pointer p] s.engine)
  | .PostDecrement _ source =>
    (s.valuePtr source).bind fun p => some (s, rt .postDecrement [.pointer p] s.engine)
  | .Binop _ alu lhs rhs =>
    (s.value? lhs).bind fun a => (s.value? rhs).bind fun b =>
      some (s, rt .binaryOperation [.number alu, .value a, .value b] s.engine)
  | .Add _ lhs rhs =>
    (s.value? lhs).bind fun a => (s.value? rhs).bind fun b =>
      some (s, rt .add [.value a, .value b] s.engine)
  | .BitAnd _ lhs rhs =>
    (s.value? lhs).bind fun a => (s.value? rhs).bind fun b =>
      some (s, rt .bitAnd [.value a, .value b] s.engine)
  | .BitOr _ lhs rhs =>
    (s.value? lhs).bind fun a => (s.value? rhs).bind fun b =>
      some (s, rt .bitOr [.value a, .value b] s.engine)
  | .BitXor _ lhs rhs =>
    (s.value? lhs).bind fun a => (s.value? rhs).bind fun b =>
      some (s, rt .bitXor [.value a, .value b] s.engine)
  | .Shr _ lhs rhs =>
    (s.int32? rt lhs).bind fun (a, s) => (s.int32? rt rhs).bind fun (b, s) =>
      some (s, (encodeInt (a >>> (b % 32).toNat), s.engine))
  | .Shl _ lhs rhs =>
    (s.int32? rt lhs).bind fun (a, s) => (s.int32? rt rhs).bind fun (b, s) =>
      some (s, (encodeInt (a * 2 ^ (b % 32).toNat), s.engine))
  | .BitAndConst _ lhs rhs =>
    (s.int32? rt lhs).bind fun (a, s) => some (s, (encodeInt (Int.land a rhs), s.engine))
  | .BitOrConst _ lhs rhs =>
    (s.int32? rt lhs).bind fun (a, s) => some (s, (encodeInt (Int.lor a rhs), s.engine))
  | .BitXorConst _ lhs rhs =>
    (s.int32? rt lhs).bind fun (a, s) => some (s, (encodeInt (Int.xor a rhs), s.engine))
  | .ShrConst _ lhs rhs =>
    (s.int32? rt lhs).bind fun (a, s) => some (s, (encodeInt (a >>> rhs.toNat), s.engine))
  | .ShlConst _ lhs rhs =>
    (s.int32? rt lhs).bind fun (a, s) =>
      some (s, (encodeInt (a * 2 ^ rhs.toNat), s.engine))
  | .Mul _ lhs rhs =>
    (s.value? lhs).bind fun a => (s.value? rhs).bind fun b =>
      some (s, rt .mul [.value a, .value b] s.engine)
  | .Sub _ lhs rhs =>
    (s.value? lhs).bind fun a => (s.value? rhs).bind fun b =>
      some (s, rt .sub [.value a, .value b] s.engine)
  | .BinopContext _ alu lhs rhs =>
    (s.value? lhs).bind fun a => (s.value? rhs).bind fun b =>
      some (s, rt .binaryOperationContext [.number alu, .value a, .value b] s.engine)
  | .Move _ _ | .LoadRuntimeString _ _ | .LoadRegExp _ _ | .StoreName _ _ |
    .StoreElement _ _ _ | .StoreElementLookup _ _ _ _ | .StoreProperty _ _ _ |
    .SetLookup _ _ _ | .StoreScopeObjectProperty _ _ _ | .StoreContextObjectProperty _ _ _ |
    .InitStackFrame _ | .SetExceptionHandler _ | .CallBuiltinThrow _ | .GetException _ |
    .SetException _ | .CallBuiltinPushCatchScope _ | .CallBuiltinPushScope _ |
    .CallBuiltinPopScope | .CallBuiltinDeclareVar _ _ | .CallBuiltinConvertThisToObject |
    .Jump _ | .JumpEq _ _ | .JumpNe _ _ | .JumpStrictEqual _ _ _ |
    .JumpStrictNotEqual _ _ _ | .UNotBool _ _ | .UComplInt _ _ | .Ret _ | .Debug _ |
    .Line _ | .LoadThis _ | .LoadQmlContext _ | .LoadQmlImportedScripts _ |
    .LoadQmlSingleton _ _ =>
    none

/-! ## Sample activations -/

/-- A runtime in which `throwException` makes its argument the pending exception and no
other entry point has an effect. -/
def exRuntime : Runtime := fun method arguments e =>
  match method, arguments with
  | .throwException, [.value v] =>
    (.undefined, { e with hasException := true, exceptionValue := v })
  | _, _ => (.undefined, e)

/-- An engine with the write barrier active whose current context is a heap-backed call
context; the first constant of its compilation unit is 7. -/
def exEngine : ExecutionEngine :=
  { writeBarrierActive := true, current := some 0,
    contexts := [{ type := .Type_CallContext, compilationUnit := { constants := some ⟨1, 0⟩ },
                   args := some ⟨2, 0⟩, locals := some ⟨3, 0⟩ }],
    memory := fun p => if p = ⟨1, 0⟩ then .integer 7 else .undefined }

/-- The program `throw 7` under a handler that fetches the exception and returns it. -/
def exProgram : List Instr :=
  [.InitStackFrame 2, .SetExceptionHandler 3, .CallBuiltinThrow ⟨0, 0⟩, .Ret ⟨0, 0⟩,
    .GetException ⟨1, 1⟩, .Ret ⟨1, 1⟩]

/-- The activation of `exProgram` on `exEngine` when the loop is about to execute
`CallBuiltinThrow`: the stack frame is set up and the handler is registered. -/
def exThrowState : State :=
  { engine := { exEngine with jsStackTop := ⟨0, 2⟩ },
    instructions := exProgram, code := 2, stack := some ⟨0, 0⟩, stackSize := 2,
    exceptionHandler := some 4,
    scopes := [⟨some ⟨1, 0⟩, none⟩, ⟨some ⟨0, 0⟩, none⟩, ⟨some ⟨2, 0⟩, some 0⟩,
      ⟨some ⟨3, 0⟩, some 0⟩] }

/-- The state `CallBuiltinThrow` leaves `exThrowState` in. -/
def exRaisedState : State :=
  { exThrowState with
    code := 3
    engine := { exThrowState.engine with hasException := true, exceptionValue := .integer 7 } }

/-- An activation about to execute `SetException` and then `Move`, with a handler
registered at offset 5. -/
def exSetExceptionState : State :=
  { exThrowState with
    instructions := [.SetException ⟨0, 0⟩, .Move ⟨1, 0⟩ ⟨0, 0⟩, .Ret ⟨1, 0⟩]
    code := 0
    exceptionHandler := some 5 }

/-- A simple call context whose outer context is at address 1. -/
def exSimpleCallContext : ExecutionContext :=
  { type := .Type_SimpleCallContext, outer := some 1,
    compilationUnit := { constants := some ⟨1, 0⟩ }, args := some ⟨2, 0⟩ }

/-- A global context. -/
def exGlobalContext : ExecutionContext :=
  { type := .Type_GlobalContext }

/-- An engine whose current context is a simple call context inside the global
context. -/
def exNestedEngine : ExecutionEngine :=
  { current := some 0, contexts := [exSimpleCallContext, exGlobalContext] }

/-- A runtime whose entry points answer what they find in the first slot (the tag and
the argument count) of the invocation record they are handed, and have no effect. -/
def exProbeRuntime : Runtime := fun _ arguments e =>
  match arguments with
  | [_, .pointer callData] => (e.memory callData, e)
  | _ => (.undefined, e)

/-- A runtime in which looking a name up fails: `getActivationProperty` raises an
exception, of value 1, and answers undefined; no other entry point has an effect. -/
def exFailingRuntime : Runtime := fun method _ e =>
  match method with
  | .getActivationProperty =>
    (.undefined, { e with hasException := true, exceptionValue := .integer 1 })
  | _ => (.undefined, e)

/-! ## The command interface of the native debugger (`qt_v4DebuggerHook`) -/

/-- The fields `qt_v4DebuggerHook` reads from the JSON object of a command: `command`
is `ob.value("command").toString().toUtf8()`, `version` and `lineNumber` are
`ob.value(...).toString().toInt()`, the names and the condition are
`ob.value(...).toString()`. A field the object lacks reads as the empty string, and as
the number 0. -/
structure Command where
  command : String := ""
  version : Int := 0
  lineNumber : Int := 0
  engineName : String := ""
  fullName : String := ""
  condition : String := ""
  deriving DecidableEq, Repr

/-- The loop `for (int i = 0; i + 1 < qt_v4Breakpoints.size(); ++i)` of
`removeBreakpoint`, run over the entries before the last one: the index of the first
entry that matches, counted from `i`. -/
def firstMatching (fullName : String) (lineNumber : Int) : List Breakpoint → Nat → Option Nat
  | [], _ => none
  | bp :: rest, i =>
    if bp.matches fullName lineNumber then some i
    else firstMatching fullName lineNumber rest (i + 1)

/-- `qt_v4DebuggerHook`: the value returned and the static variables after the call.
`none` where the source leaves the behaviour undefined: `qt_v4Breakpoints.last()` on an
empty vector (`QVector::last()` assumes that the vector is not empty). The counter
`qt_v4BreakpointCount` is an `int`: `++qt_v4BreakpointCount` is the sum reduced to 32
bits, so at `INT_MAX` it wraps around to `INT_MIN`. -/
def qt_v4DebuggerHook (g : NativeDebugger) (ob : Command) : Option (Int × NativeDebugger) :=
  let ProtocolVersion : Int := 1
  let Success : Int := 0
  let WrongProtocol : Int := 1
  let NoSuchCommand : Int := 2
  let NoSuchBreakpoint : Int := 3
  if ob.command = "protocolVersion" then some (ProtocolVersion, g)
  else if ob.version ≠ ProtocolVersion then some (-WrongProtocol, g)
  else if ob.command = "insertBreakpoint" then
    let count := toInt32 (g.qt_v4BreakpointCount + 1)
    let bp : Breakpoint :=
      { bpNumber := count
        lineNumber := ob.lineNumber
        engineName := ob.engineName
        fullName := ob.fullName
        condition := ob.condition }
    some (bp.bpNumber,
      { g with
        qt_v4BreakpointCount := count
        qt_v4Breakpoints := g.qt_v4Breakpoints ++ [bp] })
  else if ob.command = "removeBreakpoint" then
    let lineNumber := ob.lineNumber
    let fullName := ob.fullName
    match g.qt_v4Breakpoints.getLast? with
    | none => none
    | some last =>
      if last.matches fullName lineNumber then
        some (Success, { g with qt_v4Breakpoints := g.qt_v4Breakpoints.dropLast })
      else
        match firstMatching fullName lineNumber g.qt_v4Breakpoints.dropLast 0 with
        | some i =>
          some (Success, { g with qt_v4Breakpoints := g.qt_v4Breakpoints.dropLast.set i last })
        | none => some (-NoSuchBreakpoint, g)
  else if ob.command = "prepareStep" then
    some (Success, { g with qt_v4IsStepping := true })
  else some (-NoSuchCommand, g)

/-- What the debugger interface is driven by: a command through `qt_v4DebuggerHook`, or
a line check (`qt_v4CheckForBreak`) made by the interpreter in a context. -/
inductive Event where
  | command (ob : Command)
  | lineCheck (context : ExecutionContext) (globalCode : Function)
  deriving DecidableEq, Repr

/-- The static variables after a sequence of events, and the commands answered so far,
each with the value returned for it; `none` if one of the commands runs into undefined
behaviour. -/
def NativeDebugger.after (g : NativeDebugger) :
    List Event → Option (List (Command × Int) × NativeDebugger)
  | [] => some ([], g)
  | .command ob :: events =>
    match qt_v4DebuggerHook g ob with
    | none => none
    | some (r, g') =>
      match NativeDebugger.after g' events with
      | none => none
      | some (answers, g'') => some ((ob, r) :: answers, g'')
  | .lineCheck context globalCode :: events =>
    NativeDebugger.after (qt_v4CheckForBreak g context globalCode) events

/-- The number of `insertBreakpoint` commands with the protocol version among the
events: the commands that increment the breakpoint counter. -/
def insertions : List Event → Nat
  | [] => 0
  | .command ob :: events =>
    (if ob.command = "insertBreakpoint" ∧ ob.version = 1 then 1 else 0) + insertions events
  | .lineCheck _ _ :: events => insertions events

/-- The source location of a line check: the source file of the function of the
context, and the line number of the context. -/
def location (context : ExecutionContext) (globalCode : Function) : String × Int :=
  ((qt_v4ExtractFunction context globalCode).sourceFile, context.lineNumber)

/-- The source location a breakpoint stands for in a line check. -/
def Breakpoint.location (bp : Breakpoint) : String × Int :=
  (bp.engineName, bp.lineNumber)

/-- The static variables after line checks in the contexts of a list, in this order. -/
def lineChecks (g : NativeDebugger) (globalCode : Function) :
    List ExecutionContext → NativeDebugger
  | [] => g
  | context :: contexts => lineChecks (qt_v4CheckForBreak g context globalCode) globalCode contexts

/-! ## The chain of execution contexts -/

/-- The execution contexts from a context pointer outwards along `outer`, innermost
first, each with its address. -/
inductive ExecutionEngine.Chain (e : ExecutionEngine) :
    Option Nat → List (Nat × ExecutionContext) → Prop where
  | done : ExecutionEngine.Chain e none []
  | step (i : Nat) (scope : ExecutionContext) (rest : List (Nat × ExecutionContext)) :
      e.contexts[i]? = some scope → ExecutionEngine.Chain e scope.outer rest →
      ExecutionEngine.Chain e (some i) ((i, scope) :: rest)

/-- The two entries of the scope table for an execution context at address `i`. -/
def levelEntries (i : Nat) (scope : ExecutionContext) : List Scopes :=
  match scope.type with
  | .Type_SimpleCallContext => [⟨scope.args, none⟩, ⟨none, none⟩]
  | .Type_CallContext => [⟨scope.args, some i⟩, ⟨scope.locals, some i⟩]
  | _ => [⟨none, none⟩, ⟨none, none⟩]

/-- The entries of the scope table for the execution contexts of a chain, two for each
level. -/
def tableEntries : List (Nat × ExecutionContext) → List Scopes
  | [] => []
  | (i, scope) :: rest => levelEntries i scope ++ tableEntries rest

/-- What a state that an outcome leaves control in keeps of the scope table. -/
def Outcome.KeepsScopes (o : Outcome) (scopes : List Scopes) : Prop :=
  ∀ s, o.state? = some s → s.scopes = scopes

/-- The command `insertBreakpoint` for line 3 of `main.qml`, with the name of the file
and the name the engine knows it by. -/
def exInsertMain : Command :=
  { command := "insertBreakpoint", version := 1, lineNumber := 3,
    engineName := "qrc:/main.qml", fullName := "/opt/project/main.qml" }

/-- The command `insertBreakpoint` for line 5 of `other.qml`. -/
def exInsertOther : Command :=
  { command := "insertBreakpoint", version := 1, lineNumber := 5,
    engineName := "qrc:/other.qml", fullName := "/opt/project/other.qml" }

/-- The command `insertBreakpoint` for line 3 of `main.qml`, with the name of the file
alone. -/
def exInsertFullName : Command :=
  { command := "insertBreakpoint", version := 1, lineNumber := 3, fullName := "main.qml" }

/-- The command `removeBreakpoint` for line 3 of `main.qml`. -/
def exRemoveMain : Command :=
  { command := "removeBreakpoint", version := 1, lineNumber := 3,
    fullName := "/opt/project/main.qml" }

/-- The command `prepareStep`. -/
def exPrepareStep : Command :=
  { command := "prepareStep", version := 1 }

/-- The command `protocolVersion`, sent with another version. -/
def exProtocolVersion : Command :=
  { command := "protocolVersion", version := 7 }

/-- The first breakpoint `exInsertMain` registers. -/
def exBreakpoint1 : Breakpoint :=
  { bpNumber := 1, lineNumber := 3, fullName := "/opt/project/main.qml",
    engineName := "qrc:/main.qml" }

/-- The second breakpoint `exInsertMain` registers. -/
def exBreakpoint2 : Breakpoint :=
  { exBreakpoint1 with bpNumber := 2 }

/-- The breakpoint `exInsertOther` registers after them. -/
def exBreakpoint3 : Breakpoint :=
  { bpNumber := 3, lineNumber := 5, fullName := "/opt/project/other.qml",
    engineName := "qrc:/other.qml" }

/-- The static variables after `exInsertMain`, `exInsertMain` and `exInsertOther`. -/
def exThreeBreakpoints : NativeDebugger :=
  { qt_v4BreakpointCount := 3,
    qt_v4Breakpoints := [exBreakpoint1, exBreakpoint2, exBreakpoint3] }

/-- The static variables with the breakpoint counter at `INT_MAX` and no breakpoint
registered. -/
def exCounterAtMax : NativeDebugger :=
  { qt_v4BreakpointCount := 2147483647 }

/-- The static variables after `exInsertMain` in `exCounterAtMax`: the counter has
wrapped around. -/
def exCounterWrapped : NativeDebugger :=
  { qt_v4BreakpointCount := -2147483648,
    qt_v4Breakpoints := [{ exBreakpoint1 with bpNumber := -2147483648 }] }

/-- The static variables after `exInsertFullName`. -/
def exFullNameBreakpoint : NativeDebugger :=
  { qt_v4BreakpointCount := 1,
    qt_v4Breakpoints := [{ bpNumber := 1, lineNumber := 3, fullName := "main.qml" }] }

/-- A context at line 3 of a function of `qrc:/main.qml`. -/
def exMainContext : ExecutionContext :=
  { lineNumber := 3, function := some { sourceFile := "qrc:/main.qml" } }

/-- A context at line 4 of the same function. -/
def exNextLineContext : ExecutionContext :=
  { lineNumber := 4, function := some { sourceFile := "qrc:/main.qml" } }

/-- A context at line 3 of a function whose source file is `main.qml`. -/
def exFullNameContext : ExecutionContext :=
  { lineNumber := 3, function := some { sourceFile := "main.qml" } }

/-- A context at line 3 of a function without source file. -/
def exNoFileContext : ExecutionContext :=
  { lineNumber := 3, function := some { sourceFile := "" } }

end Moth

/-! # Invocation records and stack frames (`qv4jscall_p.h`)

A shallow embedding of `struct JSCall` and `struct ScopedStackFrame`. The `Scope` a
constructor is handed stands for its engine: `scope.alloc` allocates from the JS stack
of the engine, `scope.engine` is the engine. `ReservedArgumentCount` stands for the
constant `QV4::Global::ReservedArgumentCount`, which is declared outside the files at
hand.
-/

section Invocation

open Moth

/-- Modelled from the spec: `Scope::alloc(int)` is declared outside the files at hand.
With a count that is not negative it allocates that many value slots from the JS stack
of the engine (`ExecutionEngine.alloc`); of a negative count the spec says nothing, and
the result is `none`. -/
def Scope.alloc (scope : ExecutionEngine) (nValues : Int) :
    Option (ValuePtr × ExecutionEngine) :=
  if 0 ≤ nValues then some (scope.alloc nValues.toNat) else none

/-- `struct JSCall`: the pointer to the invocation record. -/
structure JSCall where
  ptr : ValuePtr
  deriving DecidableEq, Repr

namespace JSCall

/-- The local `int size` of the constructors:
`int(offsetof(QV4::CallData, args)/sizeof(QV4::Value)) + qMax(argc, int(QV4::Global::ReservedArgumentCount))`,
a sum of `int`s, which wraps around to 32 bits. -/
def size (ReservedArgumentCount : Nat) (argc : Int) : Int :=
  toInt32 ((callDataLayout.args : Int) + max argc (ReservedArgumentCount : Int))

/-- `JSCall(const Scope &scope, std::nullptr_t, int argc = 0)`: the record and the engine
after the construction. -/
def withoutFunction (ReservedArgumentCount : Nat) (scope : ExecutionEngine) (argc : Int) :
    Option (JSCall × ExecutionEngine) :=
  match Scope.alloc scope (size ReservedArgumentCount argc) with
  | none => none
  | some r =>
    let ptr := r.1
    let e := r.2
    let e := { e with memory := e.memory.store ptr (.integer argc) }
    some (⟨ptr⟩, e)

/-- `JSCall(const Scope &scope, const FunctionObject *function, int argc = 0)`; the
function object is a value slot, `*function` is the value in it. -/
def withFunctionObject (ReservedArgumentCount : Nat) (scope : ExecutionEngine)
    (function : ValuePtr) (argc : Int) : Option (JSCall × ExecutionEngine) :=
  match Scope.alloc scope (size ReservedArgumentCount argc) with
  | none => none
  | some r =>
    let ptr := r.1
    let e := r.2
    let e := { e with memory := e.memory.store ptr (.integer argc) }
    let e := { e with memory := e.memory.store (ptr.add callDataLayout.function)
                        (e.memory function) }
    some (⟨ptr⟩, e)

/-- `JSCall(const Scope &scope, Heap::FunctionObject *function, int argc = 0)`; the
function is an object on the heap, at the address `function`. -/
def withHeapFunctionObject (ReservedArgumentCount : Nat) (scope : ExecutionEngine)
    (function : Nat) (argc : Int) : Option (JSCall × ExecutionEngine) :=
  match Scope.alloc scope (size ReservedArgumentCount argc) with
  | none => none
  | some r =>
    let ptr := r.1
    let e := r.2
    let e := { e with memory := e.memory.store ptr (.integer argc) }
    let e := { e with memory := e.memory.store (ptr.add callDataLayout.function)
                        (.managed function) }
    some (⟨ptr⟩, e)

end JSCall

/-- The number of value slots a step allocates from the JS stack of the engine. -/
def slotsAllocated (before after : ExecutionEngine) : Int :=
  (after.jsStackTop.offset : Int) - (before.jsStackTop.offset : Int)

/-- `struct ScopedStackFrame`: the frame it holds, and the address of that frame. -/
structure ScopedStackFrame where
  address : Nat
  frame : CppStackFrame
  deriving DecidableEq, Repr

namespace ScopedStackFrame

/-- `ScopedStackFrame(Scope &scope, Heap::ExecutionContext *context)`: the object and
the engine after the construction. The frame is a new object of the native stack; with
a null `context` the constructor returns after it has set `frame.parent`, and the other
fields of the frame are left as they were made. `sizeof(CallData)/sizeof(Value)` is one
slot more than the offset of `args`. -/
def construct (scope : ExecutionEngine) (context : Option Nat) :
    ScopedStackFrame × ExecutionEngine :=
  let address := scope.nativeStack.length
  let frame : CppStackFrame := { parent := scope.currentStackFrame }
  match context with
  | none =>
    (⟨address, frame⟩, { scope with nativeStack := scope.nativeStack ++ [frame] })
  | some context =>
    let r := scope.alloc (callDataLayout.args + 1)
    let e := r.2
    let frame := { frame with jsFrame := some r.1 }
    let e := { e with memory := e.memory.store (r.1.add callDataLayout.context)
                        (.managed context) }
    let frame := { frame with
      v4Function := match frame.parent with
        | some parent => (e.nativeStack[parent]?).bind fun f => f.v4Function
        | none => none }
    (⟨address, frame⟩,
      { e with
        nativeStack := e.nativeStack ++ [frame]
        currentStackFrame := some address })

/-- `~ScopedStackFrame()`, run in the engine `engine`. -/
def destroy (this : ScopedStackFrame) (engine : ExecutionEngine) : ExecutionEngine :=
  { engine with currentStackFrame := this.frame.parent }

end ScopedStackFrame

/-- Frames constructed one inside the other for the contexts of a list, and destroyed
in the opposite order: for each frame, the innermost first, the value of
`currentStackFrame` when the frame was constructed and the value after the frame has
been destroyed; and the engine the destruction of the outermost frame leaves. -/
def nestedFrames (engine : ExecutionEngine) :
    List (Option Nat) → List (Option Nat × Option Nat) × ExecutionEngine
  | [] => ([], engine)
  | context :: contexts =>
    let r := ScopedStackFrame.construct engine context
    let inner := nestedFrames r.2 contexts
    let e := r.1.destroy inner.2
    (inner.1 ++ [(engine.currentStackFrame, e.currentStackFrame)], e)

/-- An engine with two frames on the native stack, the upper one current. -/
def exFrameEngine : ExecutionEngine :=
  { jsStackTop := ⟨0, 10⟩,
    currentStackFrame := some 1,
    nativeStack := [{ v4Function := some { sourceFile := "qrc:/main.qml" } },
                    { parent := some 0, v4Function := some { sourceFile := "qrc:/main.qml" } }] }

end Invocation

namespace Compiler

/-! ## Basic facts about the arena -/

namespace Module

theorem modify_length (m : Module) (i : Nat) (f : Context → Context) :
    (m.modify i f).contexts.length = m.contexts.length := by
  unfold modify
  split <;> simp

theorem modify_contextMap (m : Module) (i : Nat) (f : Context → Context) :
    (m.modify i f).contextMap = m.contextMap := by
  unfold modify
  split <;> rfl

theorem modify_debugMode (m : Module) (i : Nat) (f : Context → Context) :
    (m.modify i f).debugMode = m.debugMode := by
  unfold modify
  split <;> rfl

theorem context?_modify (m : Module) (i j : Nat) (f : Context → Context) :
    (m.modify i f).context? j = if i = j then (m.context? j).map f else m.context? j := by
  unfold modify context?
  by_cases hij : i = j
  · subst hij
    cases h : m.contexts[i]? with
    | none => simp [h]
    | some c =>
      have hlt : i < m.contexts.length := (List.getElem?_eq_some.mp h).1
      simp [h, List.getElem?_set, hlt]
  · cases h : m.contexts[i]? with
    | none => simp [hij]
    | some c => simp [hij, List.getElem?_set_ne hij]

theorem context?_lt {m : Module} {i : Nat} {c : Context} (h : m.context? i = some c) :
    i < m.contexts.length :=
  (List.getElem?_eq_some.mp h).1

end Module

namespace Module.Rel

theorem rel_reflexive {R : Context → Context → Prop} (hR : ∀ c, R c c) (m : Module) : Module.Rel R m m :=
  ⟨rfl, rfl, rfl, fun _ c h => ⟨c, h, hR c⟩⟩

theorem rel_transitive {R : Context → Context → Prop} (hR : ∀ a b c, R a b → R b c → R a c)
    {m1 m2 m3 : Module} (h12 : Module.Rel R m1 m2) (h23 : Module.Rel R m2 m3) :
    Module.Rel R m1 m3 := by
  refine ⟨h23.length.trans h12.length, h23.contextMap.trans h12.contextMap,
    h23.debugMode.trans h12.debugMode, ?_⟩
  intro i c h
  obtain ⟨c2, h2, r12⟩ := h12.context i c h
  obtain ⟨c3, h3, r23⟩ := h23.context i c2 h2
  exact ⟨c3, h3, hR _ _ _ r12 r23⟩

theorem rel_modify {R : Context → Context → Prop} (hR : ∀ c, R c c) (m : Module) (i : Nat)
    (f : Context → Context) (hf : ∀ c, R c (f c)) : Module.Rel R m (m.modify i f) := by
  refine ⟨Module.modify_length m i f, Module.modify_contextMap m i f,
    Module.modify_debugMode m i f, ?_⟩
  intro j c h
  rw [Module.context?_modify]
  by_cases hij : i = j
  · simp [hij, h, hf]
  · simp [hij, h, hR]

theorem rel_modify_at {R : Context → Context → Prop} (hR : ∀ c, R c c) (m : Module) (i : Nat)
    (f : Context → Context) (hf : ∀ c, m.context? i = some c → R c (f c)) :
    Module.Rel R m (m.modify i f) := by
  refine ⟨Module.modify_length m i f, Module.modify_contextMap m i f,
    Module.modify_debugMode m i f, ?_⟩
  intro j c h
  rw [Module.context?_modify]
  by_cases hij : i = j
  · subst hij
    simp [h, hf c h]
  · simp [hij, h, hR]

theorem rel_mono {R S : Context → Context → Prop} (hRS : ∀ a b, R a b → S a b) {m m' : Module}
    (h : Module.Rel R m m') : Module.Rel S m m' :=
  ⟨h.length, h.contextMap, h.debugMode, fun i c hc =>
    let ⟨c', h1, h2⟩ := h.context i c hc
    ⟨c', h1, hRS _ _ h2⟩⟩

theorem rel_foldl {R : Context → Context → Prop} (hR : ∀ c, R c c)
    (hT : ∀ a b c, R a b → R b c → R a c) {α : Type} (step : Module → α → Module)
    (hstep : ∀ m a, Module.Rel R m (step m a)) (l : List α) (m : Module) :
    Module.Rel R m (l.foldl step m) := by
  induction l generalizing m with
  | nil => exact rel_reflexive hR m
  | cons a l ih => exact rel_transitive hT (hstep m a) (ih (step m a))

end Module.Rel

/-- A property reached at one element of a fold and kept by every later step holds
at the end of the fold. -/
theorem foldl_reaches {α : Type} (step : Module → α → Module) (Q P : Module → Prop)
    (hQ : ∀ m a, Q m → Q (step m a)) (hP : ∀ m a, Q m → P m → P (step m a))
    (x : α) (hx : ∀ m, Q m → P (step m x)) (l : List α) (hmem : x ∈ l) (m : Module)
    (hm : Q m) : P (l.foldl step m) := by
  have keep : ∀ (l : List α) (m : Module), Q m → P m → P (l.foldl step m) := by
    intro l
    induction l with
    | nil => intro m _ h; exact h
    | cons a l ih => intro m hq hp; exact ih (step m a) (hQ m a hq) (hP m a hq hp)
  have pre : ∀ (l : List α) (m : Module), Q m → Q (l.foldl step m) := by
    intro l
    induction l with
    | nil => intro m h; exact h
    | cons a l ih => intro m hq; exact ih (step m a) (hQ m a hq)
  obtain ⟨s, t, rfl⟩ := List.append_of_mem hmem
  rw [List.foldl_append, List.foldl_cons]
  exact keep t _ (hQ _ x (pre s m hm)) (hx _ (pre s m hm))

/-! ## Members of a context -/

theorem lookup_isSome (l : List (String × Member)) (n : String) :
    (l.lookup n).isSome = decide (n ∈ l.map Prod.fst) := by
  induction l with
  | nil => simp
  | cons p l ih =>
    obtain ⟨k, b⟩ := p
    by_cases h : n = k
    · simp [List.lookup_cons, h]
    · have h' : (n == k) = false := by simpa using h
      simp [List.lookup_cons, h', ih, h]

theorem lookup_isSome_of_keys {l l' : List (String × Member)}
    (h : l'.map Prod.fst = l.map Prod.fst) (n : String) :
    (l'.lookup n).isSome = (l.lookup n).isSome := by
  rw [lookup_isSome, lookup_isSome, h]

theorem lookup_map_snd (F : String → Member → Member) (l : List (String × Member))
    (n : String) :
    (l.map fun p => (p.1, F p.1 p.2)).lookup n = (l.lookup n).map (F n) := by
  induction l with
  | nil => simp
  | cons p l ih =>
    obtain ⟨k, b⟩ := p
    by_cases h : n = k
    · subst h
      simp [List.lookup_cons]
    · have h' : (n == k) = false := by simpa using h
      simp only [List.map_cons, List.lookup_cons, h']
      exact ih

theorem lookup_mem {l : List (String × Member)} {n : String} {mem : Member}
    (h : (n, mem) ∈ l) : ∃ mem', l.lookup n = some mem' := by
  have : (l.lookup n).isSome = true := by
    rw [lookup_isSome]
    simp only [decide_eq_true_eq, List.mem_map]
    exact ⟨(n, mem), h, rfl⟩
  exact Option.isSome_iff_exists.mp this

namespace Context

theorem memberInfo_markEscaping (c : Context) (v n : String) :
    (c.markEscaping v).memberInfo n =
      (c.memberInfo n).map fun mem => if n == v then { mem with canEscape := true } else mem := by
  unfold markEscaping memberInfo
  exact lookup_map_snd (fun k mem => if k == v then { mem with canEscape := true } else mem)
    c.members n

theorem memberInfo_markAllEscaping (c : Context) (n : String) :
    (c.markAllEscaping).memberInfo n =
      (c.memberInfo n).map fun mem => { mem with canEscape := true } := by
  unfold markAllEscaping memberInfo
  exact lookup_map_snd (fun _ mem => { mem with canEscape := true }) c.members n

theorem keys_markEscaping (c : Context) (v : String) :
    (c.markEscaping v).members.map Prod.fst = c.members.map Prod.fst := by
  simp [markEscaping, List.map_map, Function.comp_def]

theorem grows_refl (c : Context) : c.Grows c :=
  ⟨rfl, rfl, rfl, rfl, rfl, fun _ mem h => ⟨mem, h, id⟩, id, fun h _ => h⟩

theorem grows_trans (a b c : Context) (h1 : a.Grows b) (h2 : b.Grows c) : a.Grows c := by
  refine ⟨h2.parent.trans h1.parent, h2.contextType.trans h1.contextType,
    h2.isStrict.trans h1.isStrict, h2.arguments.trans h1.arguments,
    h2.usedVariables.trans h1.usedVariables, ?_, fun h => h2.argumentsCanEscape
      (h1.argumentsCanEscape h), ?_⟩
  · intro n mem h
    obtain ⟨mem1, hm1, e1⟩ := h1.member n mem h
    obtain ⟨mem2, hm2, e2⟩ := h2.member n mem1 hm1
    exact ⟨mem2, hm2, fun hc => e2 (e1 hc)⟩
  · intro h hg
    exact h2.requires (h1.requires h hg) (by rw [h1.contextType]; exact hg)

theorem marks_refl (c : Context) : c.Marks c :=
  ⟨grows_refl c, rfl, rfl, id, Or.inl⟩

theorem marks_trans (a b c : Context) (h1 : a.Marks b) (h2 : b.Marks c) : a.Marks c := by
  refine ⟨grows_trans a b c h1.grows h2.grows, h2.keys.trans h1.keys,
    h2.hasTry.trans h1.hasTry, fun h => h2.requires (h1.requires h), ?_⟩
  intro h
  rcases h2.usesArguments h with hb | hb
  · exact h1.usesArguments hb
  · exact Or.inr (by rw [← h1.grows.contextType]; exact hb)

theorem marks_memberInfo_isSome {c c' : Context} (h : c.Marks c') (n : String) :
    (c'.memberInfo n).isSome = (c.memberInfo n).isSome :=
  lookup_isSome_of_keys h.keys n

theorem marks_declares {c c' : Context} (h : c.Marks c') (v : String) :
    c'.declares v = c.declares v := by
  unfold Context.declares Context.findArgument
  rw [marks_memberInfo_isSome h, h.grows.arguments]

/-- The update of the sweep at a declaring member keeps the shape of the context. -/
theorem marks_member (v : String) (c : Context) :
    c.Marks { c.markEscaping v with requiresExecutionContext := true } := by
  refine ⟨⟨rfl, rfl, rfl, rfl, rfl, ?_, id, fun _ _ => rfl⟩, keys_markEscaping c v, rfl,
    fun _ => rfl, Or.inl⟩
  intro n mem h
  have := memberInfo_markEscaping c v n
  simp only [memberInfo] at this h ⊢
  rw [h] at this
  refine ⟨_, this, ?_⟩
  intro hc
  split <;> simp [hc]

/-- The update of the sweep at a declaring parameter list keeps the shape of the
context. -/
theorem marks_arguments (c : Context) :
    c.Marks { c with argumentsCanEscape := true, requiresExecutionContext := true } :=
  ⟨⟨rfl, rfl, rfl, rfl, rfl, fun _ mem h => ⟨mem, h, id⟩, fun _ => rfl, fun _ _ => rfl⟩, rfl,
    rfl, fun _ => rfl, Or.inl⟩

theorem marks_flags (c : Context) (e w : Bool) :
    c.Marks { c with hasDirectEval := e, hasWith := w } :=
  ⟨⟨rfl, rfl, rfl, rfl, rfl, fun _ mem h => ⟨mem, h, id⟩, id, fun h _ => h⟩, rfl, rfl, id,
    Or.inl⟩

theorem marks_argumentsUsed (c : Context) (hc : c.contextType ≠ .Block) :
    c.Marks { c with usesArgumentsObject := .ArgumentsObjectUsed } :=
  ⟨⟨rfl, rfl, rfl, rfl, rfl, fun _ mem h => ⟨mem, h, id⟩, id, fun h _ => h⟩, rfl, rfl, id,
    fun _ => Or.inr hc⟩

theorem marks_argumentsNotUsed (c : Context) :
    c.Marks { c with usesArgumentsObject := .ArgumentsObjectNotUsed } :=
  ⟨⟨rfl, rfl, rfl, rfl, rfl, fun _ mem h => ⟨mem, h, id⟩, id, fun h _ => h⟩, rfl, rfl, id,
    fun h => by cases h⟩

end Context

/-! ## The first loop of the sweep keeps the shape of the graph -/

namespace ScanFunctions

theorem rel_refl (m : Module) : Module.Rel Context.Marks m m :=
  Module.Rel.rel_reflexive Context.marks_refl m

theorem rel_trans {m1 m2 m3 : Module} (h12 : Module.Rel Context.Marks m1 m2)
    (h23 : Module.Rel Context.Marks m2 m3) : Module.Rel Context.Marks m1 m3 :=
  Module.Rel.rel_transitive Context.marks_trans h12 h23

theorem markUse_rel (inner : Nat) (var : String) (fuel : Nat) (c : Option Nat) (m : Module) :
    Module.Rel Context.Marks m (markUse inner var fuel c m) := by
  induction fuel generalizing c with
  | zero => unfold markUse; exact rel_refl m
  | succ fuel ih =>
    cases c with
    | none => unfold markUse; exact rel_refl m
    | some c =>
      unfold markUse
      split
      · exact rel_refl m
      · split
        · split
          · exact Module.Rel.rel_modify Context.marks_refl m c _ (Context.marks_member var)
          · exact rel_refl m
        · split
          · split
            · exact Module.Rel.rel_modify Context.marks_refl m c _ Context.marks_arguments
            · exact rel_refl m
          · exact ih _

theorem propagateFlags_rel (inner : Nat) (fuel : Nat) (c : Option Nat) (m : Module) :
    Module.Rel Context.Marks m (propagateFlags inner fuel c m) := by
  induction fuel generalizing c m with
  | zero => unfold propagateFlags; exact rel_refl m
  | succ fuel ih =>
    cases c with
    | none => unfold propagateFlags; exact rel_refl m
    | some c =>
      unfold propagateFlags
      split
      · exact rel_trans
          (Module.Rel.rel_modify Context.marks_refl m c _ fun x => Context.marks_flags x _ _) (ih _ _)
      · exact rel_refl m

theorem enclosingNonBlock_spec (m : Module) (fuel : Nat) (p : Option Nat) (f : Nat)
    (h : enclosingNonBlock m fuel p = some f) :
    ∃ ctx, m.context? f = some ctx ∧ ctx.contextType ≠ .Block := by
  induction fuel generalizing p with
  | zero => unfold enclosingNonBlock at h; cases h
  | succ fuel ih =>
    cases p with
    | none => unfold enclosingNonBlock at h; cases h
    | some q =>
      unfold enclosingNonBlock at h
      cases hq : m.context? q with
      | none => simp [hq] at h
      | some ctx =>
        simp only [hq] at h
        by_cases hb : ctx.contextType = .Block
        · simp only [hb, if_true] at h
          exact ih _ h
        · simp only [hb, if_false, Option.some.injEq] at h
          subst h
          exact ⟨ctx, hq, hb⟩

theorem liftArgumentsUse_rel (m : Module) (inner : Nat) :
    Module.Rel Context.Marks m (liftArgumentsUse m inner) := by
  unfold liftArgumentsUse
  split
  · exact rel_refl m
  · split
    · split
      · next f hf =>
        obtain ⟨ctx, hctx, hnb⟩ := enclosingNonBlock_spec m _ _ f hf
        refine rel_trans (Module.Rel.rel_modify_at Context.marks_refl m f _ ?_)
          (Module.Rel.rel_modify Context.marks_refl _ _ _ fun x => Context.marks_argumentsNotUsed x)
        intro c hc
        rw [hctx] at hc
        cases hc
        exact Context.marks_argumentsUsed ctx hnb
      · exact rel_refl m
    · exact rel_refl m

theorem markUses_rel (inner : Nat) (vars : List String) (m : Module) :
    Module.Rel Context.Marks m
      (vars.foldl (fun acc var => markUse inner var acc.contexts.length (some inner) acc) m) :=
  Module.Rel.rel_foldl Context.marks_refl Context.marks_trans _
    (fun acc var => markUse_rel inner var _ _ acc) vars m

theorem sweepInner_rel (m : Module) (inner : Nat) :
    Module.Rel Context.Marks m (sweepInner m inner) := by
  unfold sweepInner
  split
  · exact rel_refl m
  · exact rel_trans (rel_trans (markUses_rel inner _ m) (propagateFlags_rel inner _ _ _))
      (liftArgumentsUse_rel _ inner)

theorem firstLoop_rel (l : List Nat) (m : Module) :
    Module.Rel Context.Marks m (l.foldl sweepInner m) :=
  Module.Rel.rel_foldl Context.marks_refl Context.marks_trans _ sweepInner_rel l m

/-! ## The second loop -/

theorem addLocalVar_frame (c : Context) (n : String) (t : MemberType) (s : VariableScope)
    (f : Option Nat) :
    ∃ ms, (c.addLocalVar n t s f).2 = { c with members := ms } ∧
      (∀ k mem, c.members.lookup k = some mem → ms.lookup k = some mem) := by
  unfold Context.addLocalVar
  split
  · split
    · exact ⟨c.members, rfl, fun _ _ h => h⟩
    · exact ⟨c.members, rfl, fun _ _ h => h⟩
  · refine ⟨_, rfl, ?_⟩
    intro k mem h
    simp [List.lookup_append, h]

theorem addLocalVar_grows (c : Context) (n : String) (t : MemberType) (s : VariableScope)
    (f : Option Nat) : c.Grows (c.addLocalVar n t s f).2 := by
  obtain ⟨ms, h, hk⟩ := addLocalVar_frame c n t s f
  rw [h]
  exact ⟨rfl, rfl, rfl, rfl, rfl, fun k mem hm => ⟨mem, hk k mem hm, id⟩, id, fun h _ => h⟩

theorem applyAllVarsEscape_grows (all : Bool) (c : Context) :
    c.Grows (applyAllVarsEscape all c) := by
  unfold applyAllVarsEscape
  split
  · exact ⟨rfl, rfl, rfl, rfl, rfl, fun _ mem h => ⟨mem, h, id⟩, fun _ => rfl, fun _ _ => rfl⟩
  · exact Context.grows_refl c

theorem clearGlobalRequirement_grows (c : Context) : c.Grows (clearGlobalRequirement c) := by
  unfold clearGlobalRequirement
  split
  · next hg =>
    exact ⟨rfl, rfl, rfl, rfl, rfl, fun _ mem h => ⟨mem, h, id⟩, id, fun _ hn => absurd hg hn⟩
  · exact Context.grows_refl c

theorem requireStrictEval_grows (c : Context) : c.Grows (requireStrictEval c) := by
  unfold requireStrictEval
  split
  · exact ⟨rfl, rfl, rfl, rfl, rfl, fun _ mem h => ⟨mem, h, id⟩, id, fun _ _ => rfl⟩
  · exact Context.grows_refl c

theorem settleArgumentsObject_grows (c : Context) : c.Grows (settleArgumentsObject c) := by
  unfold settleArgumentsObject
  split
  · exact ⟨rfl, rfl, rfl, rfl, rfl, fun _ mem h => ⟨mem, h, id⟩, id, fun h _ => h⟩
  · exact Context.grows_refl c

theorem injectArguments_grows (c : Context) : c.Grows (injectArguments c) := by
  unfold injectArguments
  split
  · have h := addLocalVar_grows c "arguments" .VariableDeclaration .Var none
    dsimp only
    split
    · exact ⟨h.parent, h.contextType, h.isStrict, h.arguments, h.usedVariables, h.member,
        fun _ => rfl, fun _ _ => rfl⟩
    · exact h
  · exact Context.grows_refl c

theorem escapeAllMembers_grows (all : Bool) (c : Context) :
    c.Grows (escapeAllMembers all c) := by
  unfold escapeAllMembers
  split
  · refine ⟨rfl, rfl, rfl, rfl, rfl, ?_, id, fun h _ => h⟩
    intro n mem h
    rw [Context.memberInfo_markAllEscaping, h]
    exact ⟨_, rfl, fun _ => rfl⟩
  · exact Context.grows_refl c

theorem finalizeContext_grows (debugMode : Bool) (c : Context) :
    c.Grows (finalizeContext debugMode c) := by
  unfold finalizeContext
  exact Context.grows_trans _ _ _ (Context.grows_trans _ _ _ (Context.grows_trans _ _ _
    (Context.grows_trans _ _ _ (Context.grows_trans _ _ _ (applyAllVarsEscape_grows _ c)
    (clearGlobalRequirement_grows _)) (requireStrictEval_grows _))
    (settleArgumentsObject_grows _)) (injectArguments_grows _)) (escapeAllMembers_grows _ _)

theorem sweepContext_grows (m : Module) (c : Nat) :
    Module.Rel Context.Grows m (sweepContext m c) :=
  Module.Rel.rel_modify Context.grows_refl m c _ (finalizeContext_grows m.debugMode)

theorem secondLoop_grows (l : List Nat) (m : Module) :
    Module.Rel Context.Grows m (l.foldl sweepContext m) :=
  Module.Rel.rel_foldl Context.grows_refl Context.grows_trans _ sweepContext_grows l m

end ScanFunctions

/-! ## The chain from a use to its declaring context -/

namespace DeclChain

theorem chain_of_nearest {m : Module} {v : String} {c d : Nat} (h : NearestDeclaring m v c d) :
    ∃ l, DeclChain m v c d l := by
  induction h with
  | here c ctx hc hd => exact ⟨[c], .here c ctx hc hd⟩
  | up c p d ctx hc hd hp _ ih =>
    obtain ⟨l, hl⟩ := ih
    exact ⟨c :: l, .up c p d ctx l hc hd hp hl⟩

theorem chain_length_pos {m : Module} {v : String} {c d : Nat} {l : List Nat}
    (h : DeclChain m v c d l) : 0 < l.length := by
  cases h <;> simp

theorem chain_lt_length {m : Module} {v : String} {c d : Nat} {l : List Nat}
    (h : DeclChain m v c d l) : ∀ x ∈ l, x < m.contexts.length := by
  induction h with
  | here c ctx hc _ =>
    intro x hx
    simp only [List.mem_singleton] at hx
    subst hx
    exact Module.context?_lt hc
  | up c p d ctx l hc _ _ _ ih =>
    intro x hx
    rcases List.mem_cons.mp hx with h | h
    · subst h
      exact Module.context?_lt hc
    · exact ih x h

theorem chain_unique {m : Module} {v : String} {c d d' : Nat} {l l' : List Nat}
    (h : DeclChain m v c d l) (h' : DeclChain m v c d' l') : l = l' := by
  induction h generalizing d' l' with
  | here c ctx hc hd =>
    cases h' with
    | here _ _ _ _ => rfl
    | up _ p _ ctx' _ hc' hd' _ _ =>
      rw [hc] at hc'
      cases hc'
      rw [hd] at hd'
      cases hd'
  | up c p d ctx l hc hd hp _ ih =>
    cases h' with
    | here _ ctx' hc' hd' =>
      rw [hc] at hc'
      cases hc'
      rw [hd] at hd'
      cases hd'
    | up _ p' _ ctx' l2 hc' _ hp' hl' =>
      rw [hc] at hc'
      cases hc'
      rw [hp] at hp'
      cases hp'
      rw [ih hl']

theorem chain_suffix {m : Module} {v : String} {c d : Nat} {l : List Nat}
    (h : DeclChain m v c d l) : ∀ x ∈ l, ∃ l', DeclChain m v x d l' ∧ l' <:+ l := by
  induction h with
  | here c ctx hc hd =>
    intro x hx
    simp only [List.mem_singleton] at hx
    subst hx
    exact ⟨[x], .here x ctx hc hd, List.suffix_refl _⟩
  | up c p d ctx l hc hd hp hl ih =>
    intro x hx
    rcases List.mem_cons.mp hx with h | h
    · subst h
      exact ⟨x :: l, .up x p d ctx l hc hd hp hl, List.suffix_refl _⟩
    · obtain ⟨l', h1, h2⟩ := ih x h
      exact ⟨l', h1, h2.trans (List.suffix_cons c l)⟩

theorem chain_nodup {m : Module} {v : String} {c d : Nat} {l : List Nat}
    (h : DeclChain m v c d l) : l.Nodup := by
  induction h with
  | here c ctx _ _ => simp
  | up c p d ctx l hc hd hp hl ih =>
    refine List.nodup_cons.mpr ⟨?_, ih⟩
    intro hmem
    obtain ⟨l', h1, h2⟩ := chain_suffix hl c hmem
    have heq : l' = c :: l := chain_unique h1 (.up c p d ctx l hc hd hp hl)
    have hlen := h2.length_le
    rw [heq] at hlen
    simp at hlen

/-- A chain passes through each context at most once, so it is no longer than the
arena. -/
theorem chain_length_le {m : Module} {v : String} {c d : Nat} {l : List Nat}
    (h : DeclChain m v c d l) : l.length ≤ m.contexts.length := by
  have hsub : l.toFinset ⊆ Finset.range m.contexts.length := by
    intro x hx
    exact Finset.mem_range.mpr (chain_lt_length h x (List.mem_toFinset.mp hx))
  have hcard := Finset.card_le_card hsub
  rw [List.toFinset_card_of_nodup (chain_nodup h), Finset.card_range] at hcard
  exact hcard

theorem chain_target {m : Module} {v : String} {c d : Nat} {l : List Nat}
    (h : DeclChain m v c d l) : ∃ ctx, m.context? d = some ctx ∧ ctx.declares v = true := by
  induction h with
  | here c ctx hc hd => exact ⟨ctx, hc, hd⟩
  | up _ _ _ _ _ _ _ _ _ ih => exact ih

/-- The chain is the same in every module of the same shape. -/
theorem chain_transfer {m m' : Module} (hrel : Module.Rel Context.Marks m m') {v : String}
    {c d : Nat} {l : List Nat} (h : DeclChain m v c d l) : DeclChain m' v c d l := by
  induction h with
  | here c ctx hc hd =>
    obtain ⟨ctx', hc', hm⟩ := hrel.context c ctx hc
    exact .here c ctx' hc' (by rw [Context.marks_declares hm, hd])
  | up c p d ctx l hc hd hp _ ih =>
    obtain ⟨ctx', hc', hm⟩ := hrel.context c ctx hc
    exact .up c p d ctx' l hc' (by rw [Context.marks_declares hm, hd]) (by rw [hm.grows.parent, hp]) ih

end DeclChain

namespace ScanFunctions

/-- With enough fuel for the chain, the walk for a use of `v` marks the declaring
context `d` when it is not the context of use. -/
theorem markUse_marks {m : Module} {v : String} {c d : Nat} {l : List Nat}
    (h : DeclChain m v c d l) (inner : Nat) (hd : d ≠ inner) (fuel : Nat)
    (hfuel : l.length ≤ fuel) :
    ∃ ctx ctx', m.context? d = some ctx ∧
      (markUse inner v fuel (some c) m).context? d = some ctx' ∧
      ((ctx.memberInfo v).isSome → ∃ mem, ctx'.memberInfo v = some mem ∧ mem.canEscape = true) ∧
      (ctx.memberInfo v = none → ctx'.argumentsCanEscape = true) ∧
      ctx'.requiresExecutionContext = true := by
  induction h generalizing fuel with
  | here c ctx hc hdecl =>
    obtain ⟨fuel, rfl⟩ : ∃ k, fuel = k + 1 := ⟨fuel - 1, by simp at hfuel; omega⟩
    by_cases hmem : (ctx.memberInfo v).isSome = true
    · have hres : markUse inner v (fuel + 1) (some c) m =
          m.modify c fun x => { x.markEscaping v with requiresExecutionContext := true } := by
        unfold markUse
        simp only [hc, hmem, if_true, hd, ne_eq, not_false_eq_true]
      rw [hres, Module.context?_modify]
      simp only [if_true, hc, Option.map_some']
      refine ⟨ctx, _, rfl, rfl, ?_, ?_, rfl⟩
      · intro _
        obtain ⟨mem, hmem'⟩ := Option.isSome_iff_exists.mp hmem
        refine ⟨{ mem with canEscape := true }, ?_, rfl⟩
        show (ctx.markEscaping v).memberInfo v = _
        rw [Context.memberInfo_markEscaping, hmem']
        simp
      · intro hnone
        rw [hnone] at hmem
        exact absurd hmem (by simp)
    · have harg : ctx.findArgument v ≠ -1 := by
        unfold Context.declares at hdecl
        simp only [Bool.or_eq_true, bne_iff_ne, ne_eq] at hdecl
        rcases hdecl with h1 | h1
        · exact absurd h1 hmem
        · exact h1
      have hres : markUse inner v (fuel + 1) (some c) m =
          m.modify c fun x =>
            { x with argumentsCanEscape := true, requiresExecutionContext := true } := by
        unfold markUse
        simp only [hc, hmem, harg, if_false, if_true, hd, ne_eq, not_false_eq_true,
          Bool.false_eq_true]
      rw [hres, Module.context?_modify]
      simp only [if_true, hc, Option.map_some']
      exact ⟨ctx, _, rfl, rfl, fun h1 => absurd h1 hmem, fun _ => rfl, rfl⟩
  | up c p d ctx l hc hdecl hp _ ih =>
    obtain ⟨fuel, rfl⟩ : ∃ k, fuel = k + 1 := ⟨fuel - 1, by simp at hfuel; omega⟩
    have hlen : l.length ≤ fuel := by simpa using hfuel
    unfold Context.declares at hdecl
    simp only [Bool.or_eq_false_iff, bne_eq_false_iff_eq] at hdecl
    obtain ⟨h1, h2⟩ := hdecl
    have h1' : ¬ ((ctx.memberInfo v).isSome = true) := by simp [h1]
    unfold markUse
    simp only [hc, h1', h2, if_false, hp, ne_eq, not_true_eq_false]
    exact ih hd fuel hlen

/-- A use whose own context declares the name marks nothing. -/
theorem markUse_self (s : Module) (inner : Nat) (v : String) (fuel : Nat) (cs : Context)
    (hc : s.context? inner = some cs) (hdecl : cs.declares v = true) :
    markUse inner v fuel (some inner) s = s := by
  cases fuel with
  | zero => unfold markUse; rfl
  | succ fuel =>
    unfold markUse
    simp only [hc]
    unfold Context.declares at hdecl
    simp only [Bool.or_eq_true, bne_iff_ne, ne_eq] at hdecl
    by_cases hmem : (cs.memberInfo v).isSome = true
    · simp [hmem]
    · rcases hdecl with h1 | h1
      · exact absurd h1 hmem
      · simp [hmem, h1]

end ScanFunctions

/-! ## Basic facts about the scanner state -/

namespace ScanFunctions

@[simp] theorem errors_throwSyntaxError (s : ScanFunctions) (loc : SourceLocation)
    (detail : String) : (s.throwSyntaxError loc detail).errors = s.errors ++ [⟨loc, detail⟩] :=
  rfl

@[simp] theorem module_throwSyntaxError (s : ScanFunctions) (loc : SourceLocation)
    (detail : String) : (s.throwSyntaxError loc detail).module = s.module :=
  rfl

@[simp] theorem context_throwSyntaxError (s : ScanFunctions) (loc : SourceLocation)
    (detail : String) : (s.throwSyntaxError loc detail).context = s.context :=
  rfl

@[simp] theorem current_throwSyntaxError (s : ScanFunctions) (loc : SourceLocation)
    (detail : String) : (s.throwSyntaxError loc detail).current = s.current :=
  rfl

@[simp] theorem isStrict_throwSyntaxError (s : ScanFunctions) (loc : SourceLocation)
    (detail : String) : (s.throwSyntaxError loc detail).isStrict = s.isStrict :=
  rfl

@[simp] theorem errors_modifyContext (s : ScanFunctions) (f : Context → Context) :
    (s.modifyContext f).errors = s.errors := by
  unfold modifyContext
  split <;> rfl

@[simp] theorem context_modifyContext (s : ScanFunctions) (f : Context → Context) :
    (s.modifyContext f).context = s.context := by
  unfold modifyContext
  split <;> rfl

@[simp] theorem current_modifyContext (s : ScanFunctions) (f : Context → Context) :
    (s.modifyContext f).current = s.current.map f := by
  unfold modifyContext current
  cases h : s.context with
  | none => simp [h]
  | some i => simp [h, Module.context?_modify]

theorem noteArgumentCount_module (s : ScanFunctions) (argc : Int) :
    (s.noteArgumentCount argc).module =
      (s.modifyContext fun c =>
        { c with maxNumberOfArguments := max c.maxNumberOfArguments argc }).module := by
  unfold noteArgumentCount
  split
  · split <;> rfl
  · rfl

theorem noteArgumentCount_current (s : ScanFunctions) (argc : Int) :
    (s.noteArgumentCount argc).current =
      s.current.map fun c =>
        { c with maxNumberOfArguments := max c.maxNumberOfArguments argc } := by
  rw [← current_modifyContext]
  unfold noteArgumentCount
  split
  · split <;> rfl
  · rfl

theorem isStrict_of_current {s : ScanFunctions} {c : Context} (h : s.current = some c) :
    s.isStrict = c.isStrict := by
  unfold isStrict
  rw [h]

theorem isStrict_modifyContext (s : ScanFunctions) (f : Context → Context)
    (hf : ∀ c, (f c).isStrict = c.isStrict) : (s.modifyContext f).isStrict = s.isStrict := by
  unfold isStrict
  rw [current_modifyContext]
  cases s.current with
  | none => rfl
  | some c => exact hf c

@[simp] theorem raisedSince_self (s : ScanFunctions) : raisedSince s s = [] := by
  simp [raisedSince]

theorem raisedSince_of_errors {s s' : ScanFunctions} {l : List SyntaxError}
    (h : s'.errors = s.errors ++ l) : raisedSince s s' = l := by
  simp [raisedSince, h]

@[simp] theorem errors_addLocalVar (s : ScanFunctions) (name : String) (type : MemberType)
    (scope : VariableScope) (function : Option Nat) :
    (s.addLocalVar name type scope function).2.errors = s.errors := by
  unfold addLocalVar
  split <;> simp

@[simp] theorem context_addLocalVar (s : ScanFunctions) (name : String) (type : MemberType)
    (scope : VariableScope) (function : Option Nat) :
    (s.addLocalVar name type scope function).2.context = s.context := by
  unfold addLocalVar
  split <;> simp

theorem current_addLocalVar (s : ScanFunctions) (name : String) (type : MemberType)
    (scope : VariableScope) (function : Option Nat) :
    (s.addLocalVar name type scope function).2.current =
      s.current.map fun c => (c.addLocalVar name type scope function).2 := by
  unfold addLocalVar
  cases h : s.current with
  | none => simp [h]
  | some c => simp [h]

theorem isStrict_addLocalVar (s : ScanFunctions) (name : String) (type : MemberType)
    (scope : VariableScope) (function : Option Nat) :
    (s.addLocalVar name type scope function).2.isStrict = s.isStrict := by
  unfold isStrict
  rw [current_addLocalVar]
  cases s.current with
  | none => rfl
  | some c => exact (addLocalVar_grows c name type scope function).isStrict

end ScanFunctions

/-! ## The declaration loop of `visit(PatternElement *)` -/

namespace ScanFunctions

theorem isStrictReservedWord_iff (name : String) :
    isStrictReservedWord name = true ↔ name ∈ strictReservedWords := by
  simp [isStrictReservedWord, strictReservedWords, or_assoc]

theorem checkName_errors (s : ScanFunctions) (name : String) (loc : SourceLocation) :
    (s.checkName name loc).errors = s.errors ++
      (if s.isStrict && isStrictReservedWord name then
        [⟨loc, "Unexpected strict mode reserved word"⟩] else []) := by
  unfold checkName
  cases s.isStrict <;> cases isStrictReservedWord name <;> simp

@[simp] theorem checkName_current (s : ScanFunctions) (name : String) (loc : SourceLocation) :
    (s.checkName name loc).current = s.current := by
  unfold checkName
  cases s.isStrict <;> cases isStrictReservedWord name <;> simp

@[simp] theorem checkName_context (s : ScanFunctions) (name : String) (loc : SourceLocation) :
    (s.checkName name loc).context = s.context := by
  unfold checkName
  cases s.isStrict <;> cases isStrictReservedWord name <;> simp

/-- The state of the declaration loop for one name after the name checks, and the
way the loop body goes on from it. -/
theorem declareName_spec (s : ScanFunctions) (ast : PatternElement) (name : String)
    (c : Context) (hc : s.current = some c) :
    ∃ s3 : ScanFunctions,
      s3.errors = s.errors ++ nameCheckErrors c.isStrict ast.identifierToken name ∧
      s3.current = some (if name = "arguments" then
        { c with usesArgumentsObject := .ArgumentsObjectNotUsed } else c) ∧
      s3.context = s.context ∧
      declareName s ast name =
        if ast.scope = .Const ∧ ast.initializer.isNone = true then
          (false, s3.throwSyntaxError ast.identifierToken
            "Missing initializer in const declaration")
        else if (match c.memberInfo name with
            | some m => m.isLexicallyScoped || ast.isLexicallyScoped
            | none => false) = true then
          (false, s3.throwSyntaxError ast.identifierToken
            ("Identifier " ++ name ++ " has already been declared"))
        else if (s3.addLocalVar name
            (if ast.initializer.isSome then .VariableDefinition else .VariableDeclaration)
            ast.scope).1 = false then
          (false, (s3.addLocalVar name
            (if ast.initializer.isSome then .VariableDefinition else .VariableDeclaration)
            ast.scope).2.throwSyntaxError ast.identifierToken
              ("Identifier " ++ ast.bindingIdentifier ++ " has already been declared"))
        else (true, (s3.addLocalVar name
            (if ast.initializer.isSome then .VariableDefinition else .VariableDeclaration)
            ast.scope).2) := by
  have hs := isStrict_of_current hc
  refine ⟨(if name = "arguments" then
      ((if s.isStrict && (name == "eval" || name == "arguments") then
          s.throwSyntaxError ast.identifierToken
            "Variable name may not be eval or arguments in strict mode"
        else s).checkName name ast.identifierToken).modifyContext fun c =>
          { c with usesArgumentsObject := .ArgumentsObjectNotUsed }
    else (if s.isStrict && (name == "eval" || name == "arguments") then
          s.throwSyntaxError ast.identifierToken
            "Variable name may not be eval or arguments in strict mode"
        else s).checkName name ast.identifierToken), ?_, ?_, ?_, ?_⟩
  · have h1 : ∀ t : ScanFunctions, (if name = "arguments" then
        t.modifyContext fun c => { c with usesArgumentsObject := .ArgumentsObjectNotUsed }
        else t).errors = t.errors := by
      intro t; split <;> simp
    rw [h1, checkName_errors, nameCheckErrors, hs]
    by_cases h2 : (c.isStrict && (name == "eval" || name == "arguments")) = true
    · simp only [h2, if_true, errors_throwSyntaxError, isStrict_throwSyntaxError, hs,
        List.append_assoc]
    · simp only [h2, if_false, hs, List.nil_append, Bool.false_eq_true]
  · by_cases h0 : name = "arguments"
    · simp only [h0, if_true, current_modifyContext, checkName_current]
      split <;> simp [hc]
    · simp only [h0, if_false, checkName_current]
      split <;> simp [hc]
  · by_cases h0 : name = "arguments"
    · simp only [h0, if_true, context_modifyContext, checkName_context]
      split <;> simp
    · simp only [h0, if_false, checkName_context]
      split <;> simp
  · have hcur : (if name = "arguments" then
        ((if s.isStrict && (name == "eval" || name == "arguments") then
            s.throwSyntaxError ast.identifierToken
              "Variable name may not be eval or arguments in strict mode"
          else s).checkName name ast.identifierToken).modifyContext fun c =>
            { c with usesArgumentsObject := .ArgumentsObjectNotUsed }
      else (if s.isStrict && (name == "eval" || name == "arguments") then
            s.throwSyntaxError ast.identifierToken
              "Variable name may not be eval or arguments in strict mode"
          else s).checkName name ast.identifierToken).current.bind
          (fun c => c.memberInfo name) = c.memberInfo name := by
      by_cases h0 : name = "arguments"
      · simp only [h0, if_true, current_modifyContext, checkName_current]
        split <;> simp [hc, Context.memberInfo]
      · simp only [h0, if_false, checkName_current]
        split <;> simp [hc]
    unfold declareName
    dsimp only
    rw [hcur]
    by_cases h1 : ast.scope = .Const ∧ ast.initializer.isNone = true
    · simp only [h1, and_self, if_true]
    · simp only [h1, if_false]
      by_cases h2 : (match c.memberInfo name with
          | some m => m.isLexicallyScoped || ast.isLexicallyScoped
          | none => false) = true
      · simp only [h2, if_true]
      · simp only [h2, if_false, Bool.false_eq_true, Bool.not_eq_true']

end ScanFunctions

namespace ScanFunctions

theorem head_append_literal (a x : String) (ch : Char) (rest : List Char)
    (ha : a.data = ch :: rest) : (a ++ x).data.head? = some ch := by
  rw [String.data_append, ha]
  rfl

theorem reserved_ne_identifier (x : String) :
    "Unexpected strict mode reserved word" ≠ "Identifier " ++ x ++ " has already been declared" := by
  intro h
  have h1 := congrArg (fun t : String => t.data.head?) h
  simp only [String.append_assoc] at h1
  rw [head_append_literal "Identifier " _ 'I' _ rfl] at h1
  exact absurd h1 (by decide)

/-- The errors the declaration loop raises for one name: the name checks, then at
most one error that ends the visit. -/
theorem declareName_raised (s : ScanFunctions) (ast : PatternElement) (name : String)
    (c : Context) (hc : s.current = some c) :
    ∃ tail : List SyntaxError,
      raisedSince s (declareName s ast name).2 =
        nameCheckErrors c.isStrict ast.identifierToken name ++ tail ∧
      (tail = [] ∨
        tail = [⟨ast.identifierToken, "Missing initializer in const declaration"⟩] ∨
        tail = [⟨ast.identifierToken, "Identifier " ++ name ++ " has already been declared"⟩] ∨
        tail = [⟨ast.identifierToken,
          "Identifier " ++ ast.bindingIdentifier ++ " has already been declared"⟩]) ∧
      ((declareName s ast name).1 = true ↔ tail = []) := by
  obtain ⟨s3, he, _, _, heq⟩ := declareName_spec s ast name c hc
  rw [heq]
  by_cases h1 : ast.scope = .Const ∧ ast.initializer.isNone = true
  · rw [if_pos h1]
    exact ⟨_, raisedSince_of_errors (by simp [he]), Or.inr (Or.inl rfl), by simp⟩
  · rw [if_neg h1]
    by_cases h2 : (match c.memberInfo name with
        | some m => m.isLexicallyScoped || ast.isLexicallyScoped
        | none => false) = true
    · rw [if_pos h2]
      exact ⟨_, raisedSince_of_errors (by simp [he]), Or.inr (Or.inr (Or.inl rfl)), by simp⟩
    · rw [if_neg h2]
      by_cases h3 : (s3.addLocalVar name
          (if ast.initializer.isSome then .VariableDefinition else .VariableDeclaration)
          ast.scope).1 = false
      · rw [if_pos h3]
        exact ⟨_, raisedSince_of_errors (by simp [he]), Or.inr (Or.inr (Or.inr rfl)), by simp⟩
      · rw [if_neg h3]
        exact ⟨[], raisedSince_of_errors (by simp [he]), Or.inl rfl, by simp⟩

theorem visitPatternElement_single (s : ScanFunctions) (ast : PatternElement) (n : String)
    (hdecl : ast.isVariableDeclaration = true) (hnames : ast.boundNames = [n]) :
    s.visitPatternElement ast = declareName s ast n := by
  unfold visitPatternElement
  simp only [hdecl, Bool.not_true, Bool.false_eq_true, if_false, hnames]
  unfold declareNames
  generalize declareName s ast n = r
  obtain ⟨b, t⟩ := r
  cases b
  · simp
  · simp [declareNames]

theorem visitPatternElement_cons (s : ScanFunctions) (ast : PatternElement) (n : String)
    (rest : List String) (hdecl : ast.isVariableDeclaration = true)
    (hnames : ast.boundNames = n :: rest) (hstop : (declareName s ast n).1 = false) :
    s.visitPatternElement ast = declareName s ast n := by
  unfold visitPatternElement
  simp only [hdecl, Bool.not_true, Bool.false_eq_true, if_false, hnames]
  unfold declareNames
  revert hstop
  generalize declareName s ast n = r
  obtain ⟨b, t⟩ := r
  intro hstop
  simp only at hstop
  subst hstop
  simp

theorem reserved_mem_nameCheckErrors (strict : Bool) (loc : SourceLocation) (name : String) :
    (⟨loc, "Unexpected strict mode reserved word"⟩ : SyntaxError) ∈
        nameCheckErrors strict loc name ↔
      strict = true ∧ name ∈ strictReservedWords := by
  rw [← isStrictReservedWord_iff]
  unfold nameCheckErrors
  cases strict <;> cases isStrictReservedWord name <;> simp

end ScanFunctions

/-! ## `enterFunction` -/

namespace ScanFunctions

@[simp] theorem errors_enterEnvironment (s : ScanFunctions) (node : Nat) (t : ContextType) :
    (s.enterEnvironment node t).errors = s.errors := by
  unfold enterEnvironment
  split
  rfl

@[simp] theorem errors_modifyAt (s : ScanFunctions) (o : Nat) (f : Context → Context) :
    (s.modifyAt o f).errors = s.errors :=
  rfl

@[simp] theorem errors_addLocalVarAt (s : ScanFunctions) (o : Nat) (name : String)
    (type : MemberType) (scope : VariableScope) (function : Option Nat) :
    (s.addLocalVarAt o name type scope function).2.errors = s.errors := by
  unfold addLocalVarAt
  split <;> rfl

@[simp] theorem errors_checkDirectivePrologue (s : ScanFunctions) (l : List Statement) :
    (s.checkDirectivePrologue l).errors = s.errors := by
  induction s, l using checkDirectivePrologue.induct with
  | case1 s => simp [checkDirectivePrologue]
  | case2 s tok loc rest h ih => simp [checkDirectivePrologue, h, ih]
  | case3 s tok loc rest h1 h2 ih => simp [checkDirectivePrologue, h1, h2, ih]
  | case4 s tok loc rest h1 h2 ih => simp [checkDirectivePrologue, h1, h2, ih]
  | case5 s st rest h =>
    unfold checkDirectivePrologue
    split
    · rfl
    · next heq =>
      cases heq
      exact absurd rfl (h _ _)
    · rfl

@[simp] theorem errors_prepareFunctionContext (s : ScanFunctions) (ast : FunctionNode)
    (name : String) (formals : FormalParameterList) (body : Option (List Statement)) :
    (prepareFunctionContext s ast name formals body).errors = s.errors := by
  have h1 : ∀ t : ScanFunctions, (setArguments t formals).errors = t.errors := by
    intro t; simp [setArguments]
  have h2 : ∀ t : ScanFunctions, (checkBodyDirectives t body).errors = t.errors := by
    intro t; unfold checkBodyDirectives; split <;> (try split) <;> simp
  have h3 : ∀ t : ScanFunctions, (setFormals t formals).errors = t.errors := by
    intro t; simp [setFormals]
  have h4 : ∀ t : ScanFunctions, (bindOwnName t name formals).errors = t.errors := by
    intro t; unfold bindOwnName; split <;> simp
  have h5 : ∀ t : ScanFunctions, (noteFunctionKind t ast).errors = t.errors := by
    intro t; unfold noteFunctionKind; split <;> (try split) <;> simp
  have h6 : ∀ t : ScanFunctions, (noteArgumentsParameter t formals).errors = t.errors := by
    intro t; unfold noteArgumentsParameter; split <;> simp
  have h7 : ∀ t : ScanFunctions, (setFunctionName t name).errors = t.errors := by
    intro t; simp [setFunctionName]
  unfold prepareFunctionContext
  rw [h1, h2, h3, h4, h5, h6, h7]

/-- The part of `enterFunction` that deals with the outer context raises the name
clash when it gives up, and nothing otherwise. -/
theorem enterFunctionOuter_errors (s : ScanFunctions) (o : Nat) (ast : FunctionNode)
    (name : String) (enterName : Bool) :
    ((s.enterFunctionOuter o ast name enterName).1 = false →
      enterName = true ∧
      (s.enterFunctionOuter o ast name enterName).2.errors = s.errors ++
        [⟨ast.functionToken, "Identifier " ++ name ++ " has already been declared"⟩]) ∧
    ((s.enterFunctionOuter o ast name enterName).1 = true →
      (s.enterFunctionOuter o ast name enterName).2.errors = s.errors) := by
  unfold enterFunctionOuter
  dsimp only
  split_ifs with h1 h2 h3 h3
  · simp only [Bool.and_eq_true] at h1
    simp [h1.1]
  all_goals simp

/-- `enterFunction` either gives up at the name clash in the outer context, or runs
the parameter loop from a state in which nothing has been raised yet. -/
theorem enterFunction_cases (s : ScanFunctions) (ast : FunctionNode) (name : String)
    (formals : FormalParameterList) (body : Option (List Statement)) (enterName : Bool) :
    (∃ sf, s.enterFunction ast name formals body enterName = (false, sf) ∧ enterName = true ∧
      sf.errors = s.errors ++
        [⟨ast.functionToken, "Identifier " ++ name ++ " has already been declared"⟩]) ∨
    (∃ sp, sp.errors = s.errors ∧
      s.enterFunction ast name formals body enterName =
        checkParameters formals (!formals.isEmpty && formals.isSimpleParameterList)
          formals.boundNames sp) := by
  unfold enterFunction
  dsimp only
  cases ho : s.context with
  | none =>
    right
    refine ⟨(s.enterEnvironment ast.id ContextType.Function).prepareFunctionContext ast name
      formals body, by simp, by simp⟩
  | some o =>
    simp only
    obtain ⟨hf, ht⟩ := enterFunctionOuter_errors (s.enterEnvironment ast.id .Function) o ast name
      enterName
    cases hr : ((s.enterEnvironment ast.id .Function).enterFunctionOuter o ast name enterName).1
    · left
      obtain ⟨h1, h2⟩ := hf hr
      refine ⟨((s.enterEnvironment ast.id ContextType.Function).enterFunctionOuter o ast name
        enterName).2, ?_, h1, ?_⟩
      · simp only [Bool.not_false, if_true]
        exact Prod.ext hr rfl
      · rw [h2]; simp
    · right
      refine ⟨((s.enterEnvironment ast.id ContextType.Function).enterFunctionOuter o ast name
        enterName).2.prepareFunctionContext ast name formals body, by simp [ht hr], by simp [hr]⟩

end ScanFunctions

/-! ## The parameter loop of `enterFunction` -/

namespace ScanFunctions

/-- What the loop over the bound names does: it keeps the strictness of the context;
it answers `true` without raising when no name is repeated (in a strict context or a
list that is not simple) and, in a strict context, none is `eval` or `arguments`; it
answers `false` having raised one error for one of the names otherwise. -/
theorem checkParameters_spec (formals : FormalParameterList) (simple : Bool)
    (names : List String) (st : ScanFunctions) :
    (checkParameters formals simple names st).2.isStrict = st.isStrict ∧
    ((checkParameters formals simple names st).1 = true →
      (checkParameters formals simple names st).2.errors = st.errors ∧
      ((st.isStrict = true ∨ simple = false) → names.Nodup) ∧
      (st.isStrict = true → "eval" ∉ names ∧ "arguments" ∉ names)) ∧
    ((checkParameters formals simple names st).1 = false →
      ∃ arg, arg ∈ names ∧
        (((checkParameters formals simple names st).2.errors =
            st.errors ++ [duplicateParameterError formals.firstSourceLocation arg] ∧
          (st.isStrict = true ∨ simple = false) ∧ ¬ names.Nodup) ∨
         ((checkParameters formals simple names st).2.errors =
            st.errors ++ [parameterNameError formals.firstSourceLocation arg] ∧
          st.isStrict = true ∧ (arg = "eval" ∨ arg = "arguments")))) := by
  induction names generalizing st with
  | nil =>
    unfold checkParameters
    simp
  | cons arg later ih =>
    unfold checkParameters
    dsimp only
    unfold checkParameter
    dsimp only
    by_cases hdup : ((st.isStrict || !simple) && decide (arg ∈ later)) = true
    · rw [if_pos hdup]
      simp only [Bool.false_eq_true, if_false, isStrict_throwSyntaxError, false_implies,
        true_and, true_implies]
      simp only [Bool.and_eq_true, Bool.or_eq_true, Bool.not_eq_true', decide_eq_true_eq] at hdup
      refine ⟨arg, List.mem_cons_self _ _, Or.inl ⟨rfl, hdup.1, ?_⟩⟩
      intro hn
      exact (List.nodup_cons.mp hn).1 hdup.2
    · rw [if_neg hdup]
      by_cases hname : (st.isStrict && (arg == "eval" || arg == "arguments")) = true
      · rw [if_pos hname]
        simp only [Bool.false_eq_true, if_false, isStrict_throwSyntaxError, false_implies,
          true_and, true_implies]
        simp only [Bool.and_eq_true, Bool.or_eq_true, beq_iff_eq] at hname
        exact ⟨arg, List.mem_cons_self _ _, Or.inr ⟨rfl, hname.1, hname.2⟩⟩
      · rw [if_neg hname]
        have hnext : ∃ st', ((if (!match st.current with
              | some c => decide (arg ∈ c.arguments)
              | none => false) = true then
              (true, (st.addLocalVar arg MemberType.VariableDefinition VariableScope.Var).2)
              else (true, st)) : Bool × ScanFunctions) = (true, st') ∧
            st'.isStrict = st.isStrict ∧ st'.errors = st.errors := by
          split
          · exact ⟨_, rfl, isStrict_addLocalVar _ _ _ _ _, errors_addLocalVar _ _ _ _ _⟩
          · exact ⟨_, rfl, rfl, rfl⟩
        obtain ⟨st', hst', hs', he'⟩ := hnext
        rw [hst']
        simp only [if_true]
        obtain ⟨ih1, ih2, ih3⟩ := ih st'
        have hdup' : (st.isStrict = true ∨ simple = false) → arg ∉ later := by
          intro hc hmem
          apply hdup
          simp only [Bool.and_eq_true, Bool.or_eq_true, Bool.not_eq_true', decide_eq_true_eq]
          exact ⟨hc, hmem⟩
        have hname' : st.isStrict = true → arg ≠ "eval" ∧ arg ≠ "arguments" := by
          intro hc
          constructor <;> intro h <;> apply hname <;> simp [hc, h]
        refine ⟨ih1.trans hs', ?_, ?_⟩
        · intro hr
          obtain ⟨h1, h2, h3⟩ := ih2 hr
          refine ⟨h1.trans he', ?_, ?_⟩
          · intro hc
            exact List.nodup_cons.mpr ⟨hdup' hc, h2 (by rw [hs']; exact hc)⟩
          · intro hc
            obtain ⟨h4, h5⟩ := h3 (by rw [hs']; exact hc)
            obtain ⟨h6, h7⟩ := hname' hc
            simp only [List.mem_cons, not_or]
            exact ⟨⟨fun h => h6 h.symm, h4⟩, ⟨fun h => h7 h.symm, h5⟩⟩
        · intro hr
          obtain ⟨a, ha, hcase⟩ := ih3 hr
          refine ⟨a, List.mem_cons_of_mem _ ha, ?_⟩
          rcases hcase with ⟨h1, h2, h3⟩ | ⟨h1, h2, h3⟩
          · refine Or.inl ⟨by rw [h1, he'], by rw [← hs']; exact h2, ?_⟩
            intro hn
            exact h3 (List.nodup_cons.mp hn).2
          · exact Or.inr ⟨by rw [h1, he'], by rw [← hs']; exact h2, h3⟩

end ScanFunctions

namespace ScanFunctions

/-- The four ways `enterFunction` can end, with the function context (the current
context on return) strict or not. -/
theorem enterFunction_outcome (s : ScanFunctions) (ast : FunctionNode) (name : String)
    (formals : FormalParameterList) (body : Option (List Statement)) (enterName : Bool) :
    ((s.enterFunction ast name formals body enterName).1 = true ∧
      raisedSince s (s.enterFunction ast name formals body enterName).2 = [] ∧
      (((s.enterFunction ast name formals body enterName).2.isStrict = true ∨
        (!formals.isEmpty && formals.isSimpleParameterList) = false) →
          formals.boundNames.Nodup) ∧
      ((s.enterFunction ast name formals body enterName).2.isStrict = true →
        "eval" ∉ formals.boundNames ∧ "arguments" ∉ formals.boundNames)) ∨
    ((s.enterFunction ast name formals body enterName).1 = false ∧ enterName = true ∧
      raisedSince s (s.enterFunction ast name formals body enterName).2 =
        [alreadyDeclaredError ast.functionToken name]) ∨
    ((s.enterFunction ast name formals body enterName).1 = false ∧
      ∃ arg, arg ∈ formals.boundNames ∧
        raisedSince s (s.enterFunction ast name formals body enterName).2 =
          [duplicateParameterError formals.firstSourceLocation arg] ∧
        ((s.enterFunction ast name formals body enterName).2.isStrict = true ∨
          (!formals.isEmpty && formals.isSimpleParameterList) = false) ∧
        ¬ formals.boundNames.Nodup) ∨
    ((s.enterFunction ast name formals body enterName).1 = false ∧
      ∃ arg, arg ∈ formals.boundNames ∧
        raisedSince s (s.enterFunction ast name formals body enterName).2 =
          [parameterNameError formals.firstSourceLocation arg] ∧
        (s.enterFunction ast name formals body enterName).2.isStrict = true ∧
        (arg = "eval" ∨ arg = "arguments")) := by
  rcases enterFunction_cases s ast name formals body enterName with
    ⟨sf, heq, hname, herr⟩ | ⟨sp, herr, heq⟩
  · right; left
    rw [heq]
    exact ⟨rfl, hname, raisedSince_of_errors herr⟩
  · rw [heq]
    obtain ⟨h1, h2, h3⟩ := checkParameters_spec formals
      (!formals.isEmpty && formals.isSimpleParameterList) formals.boundNames sp
    cases hr : (checkParameters formals (!formals.isEmpty && formals.isSimpleParameterList)
        formals.boundNames sp).1
    · obtain ⟨arg, harg, hcase⟩ := h3 hr
      rcases hcase with ⟨e1, e2, e3⟩ | ⟨e1, e2, e3⟩
      · right; right; left
        exact ⟨rfl, arg, harg, raisedSince_of_errors (by rw [e1, herr]),
          by rw [h1]; exact e2, e3⟩
      · right; right; right
        exact ⟨rfl, arg, harg, raisedSince_of_errors (by rw [e1, herr]),
          by rw [h1]; exact e2, e3⟩
    · left
      obtain ⟨e1, e2, e3⟩ := h2 hr
      exact ⟨rfl, raisedSince_of_errors (by rw [e1, herr]; simp),
        fun h => e2 (by rw [← h1]; exact h), fun h => e3 (by rw [← h1]; exact h)⟩

theorem duplicate_ne_alreadyDeclared (loc loc' : SourceLocation) (a n : String) :
    duplicateParameterError loc a ≠ alreadyDeclaredError loc' n := by
  intro h
  have h1 := congrArg (fun e : SyntaxError => e.message.data.head?) h
  simp only [String.append_assoc] at h1
  rw [head_append_literal "Duplicate parameter name '" _ 'D' _ rfl,
    head_append_literal "Identifier " _ 'I' _ rfl] at h1
  exact absurd h1 (by decide)

theorem duplicate_ne_parameterName (loc loc' : SourceLocation) (a n : String) :
    duplicateParameterError loc a ≠ parameterNameError loc' n := by
  intro h
  have h1 := congrArg (fun e : SyntaxError => e.message.data.head?) h
  simp only [String.append_assoc] at h1
  rw [head_append_literal "Duplicate parameter name '" _ 'D' _ rfl,
    head_append_literal "'" _ '\'' _ rfl] at h1
  exact absurd h1 (by decide)

end ScanFunctions

/-! ## C1: outer uses mark the declaring context -/

namespace ScanFunctions

theorem markedFor_grows {c a b : Context} {v : String} (h : c.MarkedFor v a) (hg : a.Grows b) :
    c.MarkedFor v b := by
  obtain ⟨h1, h2, h3⟩ := h
  refine ⟨?_, fun hn => hg.argumentsCanEscape (h2 hn), ?_⟩
  · intro hs
    obtain ⟨mem, hm, he⟩ := h1 hs
    obtain ⟨mem', hm', he'⟩ := hg.member v mem hm
    exact ⟨mem', hm', he' he⟩
  · intro hne
    have hne' : a.contextType ≠ .Global := by rw [← hg.contextType]; exact hne
    exact hg.requires (h3 hne') hne'

theorem marked_rel {c : Context} {v : String} {d : Nat} {s s' : Module}
    (h : ∃ c', s.context? d = some c' ∧ c.MarkedFor v c') (hrel : Module.Rel Context.Grows s s') :
    ∃ c', s'.context? d = some c' ∧ c.MarkedFor v c' := by
  obtain ⟨c1, hc1, hm⟩ := h
  obtain ⟨c2, hc2, hg⟩ := hrel.context d c1 hc1
  exact ⟨c2, hc2, markedFor_grows hm hg⟩

theorem marks_to_grows {s s' : Module} (h : Module.Rel Context.Marks s s') :
    Module.Rel Context.Grows s s' :=
  Module.Rel.rel_mono (fun _ _ h => h.grows) h

/-- The first loop marks the declaring context of every outer use. -/
theorem firstLoop_marks (m : Module) (I D : Nat) (v : String) (ctxI ctxD : Context)
    (hI : I ∈ m.order) (hctxI : m.context? I = some ctxI) (hv : v ∈ ctxI.usedVariables)
    (hD : NearestDeclaring m v I D) (hctxD : m.context? D = some ctxD) (hne : D ≠ I) :
    ∃ c', (m.order.foldl sweepInner m).context? D = some c' ∧ ctxD.MarkedFor v c' := by
  obtain ⟨l, hl⟩ := DeclChain.chain_of_nearest hD
  refine foldl_reaches sweepInner (fun s => Module.Rel Context.Marks m s)
    (fun s => ∃ c', s.context? D = some c' ∧ ctxD.MarkedFor v c') ?_ ?_ I ?_ m.order hI m
    (rel_refl m)
  · exact fun s a hs => rel_trans hs (sweepInner_rel s a)
  · exact fun s a _ hp => marked_rel hp (marks_to_grows (sweepInner_rel s a))
  · intro s hs
    obtain ⟨ic, hic, hmk⟩ := hs.context I ctxI hctxI
    have hv' : v ∈ ic.usedVariables := by rw [hmk.grows.usedVariables]; exact hv
    unfold sweepInner
    simp only [hic]
    refine marked_rel (marked_rel ?_ (marks_to_grows (propagateFlags_rel I _ _ _)))
      (marks_to_grows (liftArgumentsUse_rel _ I))
    refine foldl_reaches
      (fun acc var => markUse I var acc.contexts.length (some I) acc)
      (fun s' => Module.Rel Context.Marks m s')
      (fun s' => ∃ c', s'.context? D = some c' ∧ ctxD.MarkedFor v c') ?_ ?_ v ?_
      ic.usedVariables hv' s hs
    · exact fun s' a hs' => rel_trans hs' (markUse_rel I a _ _ s')
    · exact fun s' a _ hp => marked_rel hp (marks_to_grows (markUse_rel I a _ _ s'))
    · intro s' hs'
      have hl' := DeclChain.chain_transfer hs' hl
      obtain ⟨ctx, ctx', h1, h2, h3, h4, h5⟩ :=
        markUse_marks hl' I hne s'.contexts.length (DeclChain.chain_length_le hl')
      obtain ⟨ctx0, h0, hmk0⟩ := hs'.context D ctxD hctxD
      rw [h1] at h0
      cases h0
      refine ⟨ctx', h2, ?_, ?_, fun _ => h5⟩
      · intro hs
        exact h3 (by rw [Context.marks_memberInfo_isSome hmk0]; exact hs)
      · intro hn
        apply h4
        have := Context.marks_memberInfo_isSome hmk0 v
        rw [hn] at this
        simpa using this

end ScanFunctions

/-- C1. After `calcEscapingVariables`, for every context `I` of the module and every
name `v` among its used variables, with `D` the nearest context on the chain
`I, parent(I), ...` that has `v` as a member or as a formal parameter (in the graph
the sweep walks): if `D` is not `I`, then `D`'s member `v` has `canEscape` set (or, when
`v` is only a formal parameter of `D`, `D.argumentsCanEscape` is set) and
`D.requiresExecutionContext` is set unless `D` is a Global context; if `D` is `I`
itself, the walk for this use returns the module unchanged, in whatever state of the
sweep it runs. -/
theorem calcEscapingVariables_marks_outer_uses (m : Module) (I D : Nat) (v : String)
    (ctxI ctxD : Context) (hI : I ∈ m.order) (hctxI : m.context? I = some ctxI)
    (hv : v ∈ ctxI.usedVariables) (hD : NearestDeclaring m v I D)
    (hctxD : m.context? D = some ctxD) :
    (D ≠ I → ∃ ctxD',
      (ScanFunctions.calcEscapingVariables m).context? D = some ctxD' ∧
      ((ctxD.memberInfo v).isSome →
        ∃ mem, ctxD'.memberInfo v = some mem ∧ mem.canEscape = true) ∧
      (ctxD.memberInfo v = none → ctxD'.argumentsCanEscape = true) ∧
      (ctxD'.contextType ≠ .Global → ctxD'.requiresExecutionContext = true)) ∧
    (D = I → ∀ (s : Module) (cs : Context) (fuel : Nat), s.context? I = some cs →
      cs.members.map Prod.fst = ctxI.members.map Prod.fst → cs.arguments = ctxI.arguments →
      ScanFunctions.markUse I v fuel (some I) s = s) := by
  constructor
  · intro hne
    unfold ScanFunctions.calcEscapingVariables
    exact ScanFunctions.marked_rel
      (ScanFunctions.firstLoop_marks m I D v ctxI ctxD hI hctxI hv hD hctxD hne)
      (ScanFunctions.secondLoop_grows _ _)
  · intro heq s cs fuel hcs hkeys hargs
    subst heq
    obtain ⟨l, hl⟩ := DeclChain.chain_of_nearest hD
    obtain ⟨ctx, hctx, hdecl⟩ := DeclChain.chain_target hl
    rw [hctxI] at hctx
    cases hctx
    refine ScanFunctions.markUse_self s D v fuel cs hcs ?_
    unfold Context.declares Context.findArgument at hdecl ⊢
    unfold Context.memberInfo at hdecl ⊢
    rw [lookup_isSome_of_keys hkeys, hargs]
    exact hdecl

/-! ## C2: `with`, `try` and direct `eval` make every member escape -/

namespace ScanFunctions

theorem settles_refl (c : Context) : c.Settles c :=
  ⟨rfl, rfl, rfl, rfl, id, fun _ => rfl⟩

theorem settles_trans {a b c : Context} (h1 : a.Settles b) (h2 : b.Settles c) : a.Settles c :=
  ⟨h2.contextType.trans h1.contextType, h2.hasWith.trans h1.hasWith,
    h2.hasTry.trans h1.hasTry, h2.hasDirectEval.trans h1.hasDirectEval,
    fun h => h1.usesArguments (h2.usesArguments h),
    fun h => (h2.members fun hb => h (h1.usesArguments hb)).trans (h1.members h)⟩

theorem applyAllVarsEscape_settles (all : Bool) (c : Context) :
    c.Settles (applyAllVarsEscape all c) := by
  unfold applyAllVarsEscape
  split
  · exact ⟨rfl, rfl, rfl, rfl, id, fun _ => rfl⟩
  · exact settles_refl c

theorem clearGlobalRequirement_settles (c : Context) : c.Settles (clearGlobalRequirement c) := by
  unfold clearGlobalRequirement
  split
  · exact ⟨rfl, rfl, rfl, rfl, id, fun _ => rfl⟩
  · exact settles_refl c

theorem requireStrictEval_settles (c : Context) : c.Settles (requireStrictEval c) := by
  unfold requireStrictEval
  split
  · exact ⟨rfl, rfl, rfl, rfl, id, fun _ => rfl⟩
  · exact settles_refl c

theorem settleArgumentsObject_settles (c : Context) : c.Settles (settleArgumentsObject c) := by
  unfold settleArgumentsObject
  split
  · exact ⟨rfl, rfl, rfl, rfl, fun h => (by cases h), fun _ => rfl⟩
  · exact settles_refl c

theorem injectArguments_settles (c : Context) : c.Settles (injectArguments c) := by
  unfold injectArguments
  split
  · next hu =>
    obtain ⟨ms, h, _⟩ := addLocalVar_frame c "arguments" .VariableDeclaration .Var none
    dsimp only
    rw [h]
    split
    · exact ⟨rfl, rfl, rfl, rfl, id, fun hn => absurd hu hn⟩
    · exact ⟨rfl, rfl, rfl, rfl, id, fun hn => absurd hu hn⟩
  · exact settles_refl c

theorem allVarsEscape_of_flags (debugMode : Bool) (c : Context)
    (hf : c.hasWith = true ∨ c.hasTry = true ∨ c.hasDirectEval = true)
    (hb : ¬ (c.contextType = .Block ∧ c.members = [])) : allVarsEscape debugMode c = true := by
  unfold allVarsEscape
  dsimp only
  have ha : (c.hasWith || c.hasTry || c.hasDirectEval) = true := by
    rcases hf with h | h | h <;> simp [h]
  cases debugMode with
  | true => simp
  | false =>
    simp only [ha, Bool.true_and, Bool.false_eq_true, if_false]
    by_cases h1 : c.contextType = .Block
    · have h2 : c.members ≠ [] := fun h => hb ⟨h1, h⟩
      have h3 : c.members.isEmpty = false := by
        cases hm : c.members with
        | nil => exact absurd hm h2
        | cons _ _ => rfl
      simp [h3]
    · have : (c.contextType == ContextType.Block) = false := by simpa using h1
      simp [this]

/-- One visit of the second loop settles a context whose use of the arguments object
has been handed over. -/
theorem finalizeContext_allEscape (debugMode : Bool) (y : Context) (hy : y.BlockSettled) :
    (finalizeContext debugMode y).BlockSettled ∧ (finalizeContext debugMode y).AllEscape := by
  have hs : y.Settles (injectArguments (settleArgumentsObject (requireStrictEval
      (clearGlobalRequirement (applyAllVarsEscape (allVarsEscape debugMode y) y))))) :=
    settles_trans (settles_trans (settles_trans (settles_trans
      (applyAllVarsEscape_settles _ y) (clearGlobalRequirement_settles _))
      (requireStrictEval_settles _)) (settleArgumentsObject_settles _))
      (injectArguments_settles _)
  unfold finalizeContext
  dsimp only
  generalize injectArguments (settleArgumentsObject (requireStrictEval
      (clearGlobalRequirement (applyAllVarsEscape (allVarsEscape debugMode y) y)))) = y5 at hs
  have hblock : y5.BlockSettled := by
    intro hb hu
    exact hy (by rw [← hs.contextType]; exact hb) (hs.usesArguments hu)
  cases hall : allVarsEscape debugMode y with
  | true =>
    simp only [escapeAllMembers, if_true]
    refine ⟨hblock, ?_⟩
    intro _ _ n mem hmem
    simp only [Context.markAllEscaping, List.mem_map] at hmem
    obtain ⟨p, _, hp⟩ := hmem
    cases hp
    rfl
  | false =>
    simp only [escapeAllMembers, Bool.false_eq_true, if_false]
    refine ⟨hblock, ?_⟩
    intro hf hb
    exfalso
    have hf' : y.hasWith = true ∨ y.hasTry = true ∨ y.hasDirectEval = true := by
      rw [← hs.hasWith, ← hs.hasTry, ← hs.hasDirectEval]; exact hf
    have hb' : ¬ (y.contextType = .Block ∧ y.members = []) := by
      rintro ⟨h1, h2⟩
      apply hb
      refine ⟨by rw [hs.contextType]; exact h1, ?_⟩
      rw [hs.members (hy h1)]
      exact h2
    rw [allVarsEscape_of_flags debugMode y hf' hb'] at hall
    cases hall

theorem enclosingNonBlock_transfer {m s : Module} (hrel : Module.Rel Context.Marks m s)
    (fuel : Nat) (p : Option Nat) : enclosingNonBlock s fuel p = enclosingNonBlock m fuel p := by
  induction fuel generalizing p with
  | zero => unfold enclosingNonBlock; rfl
  | succ fuel ih =>
    cases p with
    | none => unfold enclosingNonBlock; rfl
    | some q =>
      unfold enclosingNonBlock
      cases hq : m.context? q with
      | none =>
        have : s.context? q = none := by
          unfold Module.context? at hq ⊢
          rw [List.getElem?_eq_none_iff] at hq ⊢
          rw [hrel.length]
          exact hq
        simp [this]
      | some ctx =>
        obtain ⟨ctx', hq', hm⟩ := hrel.context q ctx hq
        simp only [hq', hm.grows.contextType, hm.grows.parent]
        split
        · exact ih _
        · rfl

/-- The hand-over at a block leaves the block without the use of the arguments
object, when the block has an enclosing context that is not a block. -/
theorem liftArgumentsUse_settles (s : Module) (c : Nat) (y : Context)
    (hy : s.context? c = some y)
    (hf : (enclosingNonBlock s s.contexts.length y.parent).isSome = true) :
    ∃ y', (liftArgumentsUse s c).context? c = some y' ∧ y'.BlockSettled := by
  unfold liftArgumentsUse
  simp only [hy]
  split
  · next hbu =>
    obtain ⟨f, hf'⟩ := Option.isSome_iff_exists.mp hf
    simp only [hf']
    rw [Module.context?_modify, Module.context?_modify]
    simp only [if_true]
    by_cases hfc : f = c
    · simp only [hfc, if_true, hy, Option.map_some']
      exact ⟨_, rfl, fun _ h => by cases h⟩
    · simp only [hfc, if_false, hy, Option.map_some']
      exact ⟨_, rfl, fun _ h => by cases h⟩
  · next hbu =>
    refine ⟨y, hy, ?_⟩
    intro hb hu
    exact hbu ⟨hb, hu⟩

theorem blockSettled_marks {y y' : Context} (hy : y.BlockSettled) (h : y.Marks y') :
    y'.BlockSettled := by
  intro hb hu
  have hb' : y.contextType = .Block := by rw [← h.grows.contextType]; exact hb
  rcases h.usesArguments hu with h1 | h1
  · exact hy hb' h1
  · exact h1 hb'

theorem blockSettled_rel {c : Nat} {s s' : Module}
    (h : ∃ y, s.context? c = some y ∧ y.BlockSettled) (hrel : Module.Rel Context.Marks s s') :
    ∃ y, s'.context? c = some y ∧ y.BlockSettled := by
  obtain ⟨y, hy, hb⟩ := h
  obtain ⟨y', hy', hm⟩ := hrel.context c y hy
  exact ⟨y', hy', blockSettled_marks hb hm⟩

/-- After the first loop no visited block holds the use of the arguments object. -/
theorem firstLoop_blockSettled (m : Module) (c : Nat) (c0 : Context) (hc : c ∈ m.order)
    (hc0 : m.context? c = some c0)
    (hparent : c0.contextType = .Block → c0.usesArgumentsObject = .ArgumentsObjectUsed →
      (enclosingNonBlock m m.contexts.length c0.parent).isSome = true) :
    ∃ y, (m.order.foldl sweepInner m).context? c = some y ∧ y.BlockSettled := by
  by_cases hbu : c0.contextType = .Block ∧ c0.usesArgumentsObject = .ArgumentsObjectUsed
  · have hf := hparent hbu.1 hbu.2
    refine foldl_reaches sweepInner (fun s => Module.Rel Context.Marks m s)
      (fun s => ∃ y, s.context? c = some y ∧ y.BlockSettled) ?_ ?_ c ?_ m.order hc m (rel_refl m)
    · exact fun s a hs => rel_trans hs (sweepInner_rel s a)
    · exact fun s a _ hp => blockSettled_rel hp (sweepInner_rel s a)
    · intro s hs
      obtain ⟨ic, hic, hmk⟩ := hs.context c c0 hc0
      unfold sweepInner
      simp only [hic]
      have hrel2 : Module.Rel Context.Marks m
          (propagateFlags c
            (List.foldl (fun acc var => markUse c var acc.contexts.length (some c) acc) s
              ic.usedVariables).contexts.length ic.parent
            (List.foldl (fun acc var => markUse c var acc.contexts.length (some c) acc) s
              ic.usedVariables)) :=
        rel_trans hs (rel_trans (markUses_rel c _ s) (propagateFlags_rel c _ _ _))
      obtain ⟨y2, hy2, hm2⟩ := hrel2.context c c0 hc0
      refine liftArgumentsUse_settles _ c y2 hy2 ?_
      rw [enclosingNonBlock_transfer hrel2, hrel2.length, hm2.grows.parent]
      exact hf
  · obtain ⟨y, hy, hm⟩ := (firstLoop_rel m.order m).context c c0 hc0
    refine ⟨y, hy, blockSettled_marks ?_ hm⟩
    intro hb hu
    exact hbu ⟨hb, hu⟩

/-- The second loop settles every context it visits. -/
theorem secondLoop_allEscape (s : Module) (l : List Nat) (c : Nat) (hc : c ∈ l)
    (hs : ∃ y, s.context? c = some y ∧ y.BlockSettled) :
    ∃ x, (l.foldl sweepContext s).context? c = some x ∧ x.AllEscape := by
  have step : ∀ (P : Context → Prop), (∀ d y, P y → P (finalizeContext d y)) →
      ∀ (t : Module) (a : Nat), (∃ y, t.context? c = some y ∧ P y) →
        ∃ y, (sweepContext t a).context? c = some y ∧ P y := by
    intro P hP t a ⟨y, hy, hp⟩
    unfold sweepContext
    rw [Module.context?_modify]
    by_cases hac : a = c
    · simp only [hac, if_true, hy, Option.map_some']
      exact ⟨_, rfl, hP _ y hp⟩
    · simp only [hac, if_false]
      exact ⟨y, hy, hp⟩
  have h := foldl_reaches sweepContext (fun t => ∃ y, t.context? c = some y ∧ y.BlockSettled)
    (fun t => ∃ x, t.context? c = some x ∧ (x.BlockSettled ∧ x.AllEscape)) ?_ ?_ c ?_ l hc s hs
  · obtain ⟨x, hx, _, hx2⟩ := h
    exact ⟨x, hx, hx2⟩
  · exact fun t a ht => step _ (fun d y hy => (finalizeContext_allEscape d y hy).1) t a ht
  · exact fun t a _ hp =>
      step (fun x => x.BlockSettled ∧ x.AllEscape)
        (fun d y hy => finalizeContext_allEscape d y hy.1) t a hp
  · intro t ⟨y, hy, hb⟩
    unfold sweepContext
    rw [Module.context?_modify]
    simp only [if_true, hy, Option.map_some']
    exact ⟨_, rfl, finalizeContext_allEscape _ y hb⟩

end ScanFunctions

/-- C2. After `calcEscapingVariables`, every context `c` of the module whose
`hasWith`, `hasTry` or `hasDirectEval` flag is set has `canEscape` set on every
member (a synthetic `arguments` member included), unless `c` is a Block context with
no members. (The sweep looks for the enclosing non-block context of a block that uses
`arguments` without a null check; `hparent` says that the block has one.) -/
theorem calcEscapingVariables_all_members_escape (m : Module) (c : Nat) (c0 : Context)
    (hc : c ∈ m.order) (hc0 : m.context? c = some c0)
    (hparent : c0.contextType = .Block → c0.usesArgumentsObject = .ArgumentsObjectUsed →
      (ScanFunctions.enclosingNonBlock m m.contexts.length c0.parent).isSome = true) :
    ∃ c2, (ScanFunctions.calcEscapingVariables m).context? c = some c2 ∧
      ((c2.hasWith = true ∨ c2.hasTry = true ∨ c2.hasDirectEval = true) →
        ¬ (c2.contextType = .Block ∧ c2.members = []) →
        ∀ n mem, (n, mem) ∈ c2.members → mem.canEscape = true) := by
  unfold ScanFunctions.calcEscapingVariables
  have h1 := ScanFunctions.firstLoop_blockSettled m c c0 hc hc0 hparent
  have hord : (m.order.foldl ScanFunctions.sweepInner m).order = m.order :=
    congrArg (List.map Prod.snd) (ScanFunctions.firstLoop_rel m.order m).contextMap
  have h2 := ScanFunctions.secondLoop_allEscape _ (m.order.foldl ScanFunctions.sweepInner m).order
    c (by rw [hord]; exact hc) h1
  exact h2

/-! ## C3: when a context needs no heap frame -/

namespace ScanFunctions

theorem requires_escapeAllMembers (all : Bool) (c : Context) :
    (escapeAllMembers all c).requiresExecutionContext = c.requiresExecutionContext := by
  unfold escapeAllMembers; split <;> rfl

theorem uses_escapeAllMembers (all : Bool) (c : Context) :
    (escapeAllMembers all c).usesArgumentsObject = c.usesArgumentsObject := by
  unfold escapeAllMembers; split <;> rfl

theorem requires_injectArguments (c : Context) :
    (injectArguments c).requiresExecutionContext =
      if c.usesArgumentsObject = .ArgumentsObjectUsed ∧ c.isStrict = false then true
      else c.requiresExecutionContext := by
  unfold injectArguments
  by_cases hu : c.usesArgumentsObject = .ArgumentsObjectUsed
  · obtain ⟨ms, h, _⟩ := addLocalVar_frame c "arguments" .VariableDeclaration .Var none
    simp only [hu, if_true, true_and]
    rw [h]
    split <;> rfl
  · simp [hu]

theorem uses_injectArguments (c : Context) :
    (injectArguments c).usesArgumentsObject = c.usesArgumentsObject := by
  unfold injectArguments
  by_cases hu : c.usesArgumentsObject = .ArgumentsObjectUsed
  · obtain ⟨ms, h, _⟩ := addLocalVar_frame c "arguments" .VariableDeclaration .Var none
    simp only [hu, if_true]
    rw [h]
    split <;> simp [hu]
  · simp [hu]

theorem requires_settleArgumentsObject (c : Context) :
    (settleArgumentsObject c).requiresExecutionContext = c.requiresExecutionContext := by
  unfold settleArgumentsObject; split <;> rfl

theorem isStrict_settleArgumentsObject (c : Context) :
    (settleArgumentsObject c).isStrict = c.isStrict := by
  unfold settleArgumentsObject; split <;> rfl

/-- The first three statements of the second loop touch neither the parent link nor
the use of the arguments object, so the fourth sees them as they were. -/
theorem uses_settle_after (all : Bool) (c : Context) :
    (settleArgumentsObject (requireStrictEval (clearGlobalRequirement
      (applyAllVarsEscape all c)))).usesArgumentsObject =
      (settleArgumentsObject c).usesArgumentsObject := by
  have h1 : ∀ x : Context, (requireStrictEval x).usesArgumentsObject = x.usesArgumentsObject ∧
      (requireStrictEval x).parent = x.parent := by
    intro x; unfold requireStrictEval; split <;> exact ⟨rfl, rfl⟩
  have h2 : ∀ x : Context, (clearGlobalRequirement x).usesArgumentsObject = x.usesArgumentsObject ∧
      (clearGlobalRequirement x).parent = x.parent := by
    intro x; unfold clearGlobalRequirement; split <;> exact ⟨rfl, rfl⟩
  have h3 : ∀ x : Context, (applyAllVarsEscape all x).usesArgumentsObject = x.usesArgumentsObject ∧
      (applyAllVarsEscape all x).parent = x.parent := by
    intro x; unfold applyAllVarsEscape; split <;> exact ⟨rfl, rfl⟩
  have h4 : ∀ x y : Context, x.usesArgumentsObject = y.usesArgumentsObject → x.parent = y.parent →
      (settleArgumentsObject x).usesArgumentsObject =
        (settleArgumentsObject y).usesArgumentsObject := by
    intro x y hu hp
    unfold settleArgumentsObject
    rw [hu, hp]
    split
    · rfl
    · exact hu
  exact h4 _ _ (((h1 _).1.trans (h2 _).1).trans (h3 _).1) (((h1 _).2.trans (h2 _).2).trans (h3 _).2)

theorem finalizeContext_uses (debugMode : Bool) (c : Context) :
    (finalizeContext debugMode c).usesArgumentsObject =
      (settleArgumentsObject c).usesArgumentsObject := by
  unfold finalizeContext
  dsimp only
  rw [uses_escapeAllMembers, uses_injectArguments, uses_settle_after]

/-- One visit of the second loop leaves a context without heap-frame requirement
when nothing asks for one. -/
theorem finalizeContext_requires_false (debugMode : Bool) (y : Context)
    (hy : y.requiresExecutionContext = false)
    (hA : y.contextType = .Global ∨ allVarsEscape debugMode y = false)
    (hB : ¬ (y.contextType = .Eval ∧ y.isStrict = true))
    (hC : (finalizeContext debugMode y).usesArgumentsObject ≠ .ArgumentsObjectUsed ∨
      y.isStrict = true) :
    (finalizeContext debugMode y).requiresExecutionContext = false := by
  rw [finalizeContext_uses] at hC
  have g1 := applyAllVarsEscape_grows (allVarsEscape debugMode y) y
  have g2 := clearGlobalRequirement_grows (applyAllVarsEscape (allVarsEscape debugMode y) y)
  have g3 := requireStrictEval_grows (clearGlobalRequirement
    (applyAllVarsEscape (allVarsEscape debugMode y) y))
  have r1 : y.contextType ≠ .Global →
      (applyAllVarsEscape (allVarsEscape debugMode y) y).requiresExecutionContext = false := by
    intro hg
    rcases hA with h | h
    · exact absurd h hg
    · rw [h]; unfold applyAllVarsEscape; simpa using hy
  have r2 : (clearGlobalRequirement
      (applyAllVarsEscape (allVarsEscape debugMode y) y)).requiresExecutionContext = false := by
    unfold clearGlobalRequirement
    split
    · rfl
    · next hg => exact r1 (by rw [← g1.contextType]; exact hg)
  have r3 : (requireStrictEval (clearGlobalRequirement
      (applyAllVarsEscape (allVarsEscape debugMode y) y))).requiresExecutionContext = false := by
    unfold requireStrictEval
    split
    · next he =>
      exfalso
      apply hB
      rw [g2.contextType, g1.contextType, g2.isStrict, g1.isStrict] at he
      exact he
    · exact r2
  unfold finalizeContext
  dsimp only
  rw [requires_escapeAllMembers, requires_injectArguments, uses_settle_after,
    isStrict_settleArgumentsObject, g3.isStrict, g2.isStrict, g1.isStrict,
    requires_settleArgumentsObject, r3]
  rcases hC with h | h
  · simp [h]
  · simp [h]

/-- A walk for a use leaves every context alone that is not the declaring context of
the use. -/
theorem markUse_keeps (s : Module) (inner : Nat) (v : String) (c : Nat) (fuel : Nat)
    (start : Option Nat)
    (hno : ∀ i, start = some i → ¬ (NearestDeclaring s v i c ∧ c ≠ inner)) :
    (markUse inner v fuel start s).context? c = s.context? c := by
  induction fuel generalizing start with
  | zero => unfold markUse; rfl
  | succ fuel ih =>
    cases start with
    | none => unfold markUse; rfl
    | some i =>
      unfold markUse
      cases hi : s.context? i with
      | none => rfl
      | some ctx =>
        simp only
        have hne : ctx.declares v = true → i ≠ inner → i ≠ c := by
          intro hd hin hic
          subst hic
          exact hno i rfl ⟨.here i ctx hi hd, hin⟩
        by_cases hmem : (ctx.memberInfo v).isSome = true
        · simp only [hmem, if_true]
          split
          · next hin =>
            rw [Module.context?_modify, if_neg (hne (by simp [Context.declares, hmem]) hin)]
          · rfl
        · simp only [hmem, if_false, Bool.false_eq_true]
          by_cases harg : ctx.findArgument v ≠ -1
          · simp only [harg, if_true, ne_eq, not_false_eq_true]
            split
            · next hin =>
              rw [Module.context?_modify,
                if_neg (hne (by simp [Context.declares, harg]) hin)]
            · rfl
          · simp only [harg, if_false]
            apply ih
            intro p hp hnd
            apply hno i rfl
            refine ⟨.up i p c ctx hi ?_ hp hnd.1, hnd.2⟩
            simp only [Context.declares, Bool.or_eq_false_iff, bne_eq_false_iff_eq]
            simp only [ne_eq, not_not] at harg
            exact ⟨by simpa using hmem, harg⟩

end ScanFunctions

namespace ScanFunctions

theorem Module_Rel_context_rev {R : Context → Context → Prop} {m s : Module}
    (h : Module.Rel R m s) (i : Nat) (c' : Context) (hc : s.context? i = some c') :
    ∃ c, m.context? i = some c ∧ R c c' := by
  have hlt : i < m.contexts.length := by
    rw [← h.length]; exact Module.context?_lt hc
  obtain ⟨c, hcm⟩ : ∃ c, m.context? i = some c :=
    ⟨m.contexts[i], by unfold Module.context?; exact List.getElem?_eq_getElem hlt⟩
  obtain ⟨c'', h1, h2⟩ := h.context i c hcm
  rw [hc] at h1
  cases h1
  exact ⟨c, hcm, h2⟩

theorem nearestDeclaring_back {m s : Module} (hrel : Module.Rel Context.Marks m s)
    {v : String} {i d : Nat} (h : NearestDeclaring s v i d) : NearestDeclaring m v i d := by
  induction h with
  | here c ctx hc hd =>
    obtain ⟨ctx0, hc0, hm⟩ := Module_Rel_context_rev hrel c ctx hc
    exact .here c ctx0 hc0 (by rw [← Context.marks_declares hm, hd])
  | up c p d ctx hc hd hp _ ih =>
    obtain ⟨ctx0, hc0, hm⟩ := Module_Rel_context_rev hrel c ctx hc
    exact .up c p d ctx0 hc0 (by rw [← Context.marks_declares hm, hd]) (by rw [← hm.grows.parent, hp]) ih

theorem keeps_refl (c : Context) : c.KeepsRequirement c := rfl

theorem keeps_trans (a b c : Context) (h1 : a.KeepsRequirement b) (h2 : b.KeepsRequirement c) :
    a.KeepsRequirement c :=
  Eq.trans h2 h1

theorem propagateFlags_keeps (inner : Nat) (fuel : Nat) (c : Option Nat) (m : Module) :
    Module.Rel Context.KeepsRequirement m (propagateFlags inner fuel c m) := by
  induction fuel generalizing c m with
  | zero => unfold propagateFlags; exact Module.Rel.rel_reflexive keeps_refl m
  | succ fuel ih =>
    cases c with
    | none => unfold propagateFlags; exact Module.Rel.rel_reflexive keeps_refl m
    | some c =>
      unfold propagateFlags
      split
      · refine Module.Rel.rel_transitive keeps_trans ?_ (ih _ _)
        exact Module.Rel.rel_modify keeps_refl m c _ (fun _ => rfl)
      · exact Module.Rel.rel_reflexive keeps_refl m

theorem liftArgumentsUse_keeps (m : Module) (inner : Nat) :
    Module.Rel Context.KeepsRequirement m (liftArgumentsUse m inner) := by
  unfold liftArgumentsUse
  split
  · exact Module.Rel.rel_reflexive keeps_refl m
  · split
    · split
      · refine Module.Rel.rel_transitive keeps_trans (Module.Rel.rel_modify keeps_refl m _ _ ?_)
          (Module.Rel.rel_modify keeps_refl _ _ _ ?_)
        · intro _; rfl
        · intro _; rfl
      · exact Module.Rel.rel_reflexive keeps_refl m
    · exact Module.Rel.rel_reflexive keeps_refl m

theorem foldl_invariant {α : Type} (step : Module → α → Module) (Q : Module → Prop)
    (l : List α) (hQ : ∀ s a, a ∈ l → Q s → Q (step s a)) (m : Module) (hm : Q m) :
    Q (l.foldl step m) := by
  induction l generalizing m with
  | nil => exact hm
  | cons a l ih =>
    exact ih (fun s b hb => hQ s b (List.mem_cons_of_mem _ hb)) _
      (hQ m a (List.mem_cons_self _ _) hm)

/-- The first loop leaves a context without heap-frame requirement when no other
context uses a name it declares. -/
theorem firstLoop_requires_false (m : Module) (c : Nat) (c0 : Context)
    (hc0 : m.context? c = some c0) (hreq : c0.requiresExecutionContext = false)
    (huse : ∀ I ctxI v, I ∈ m.order → m.context? I = some ctxI → v ∈ ctxI.usedVariables →
      NearestDeclaring m v I c → I = c) :
    ∃ x, (m.order.foldl sweepInner m).context? c = some x ∧
      x.requiresExecutionContext = false := by
  have h := foldl_invariant sweepInner
    (fun s => Module.Rel Context.Marks m s ∧
      ∃ x, s.context? c = some x ∧ x.requiresExecutionContext = false) m.order ?_ m
    ⟨rel_refl m, c0, hc0, hreq⟩
  · exact h.2
  · intro s I hI ⟨hrel, x, hx, hxr⟩
    refine ⟨rel_trans hrel (sweepInner_rel s I), ?_⟩
    unfold sweepInner
    cases hic : s.context? I with
    | none => exact ⟨x, hx, hxr⟩
    | some ic =>
      simp only
      obtain ⟨ctxI, hctxI, hmk⟩ := Module_Rel_context_rev hrel I ic hic
      have h1 := foldl_invariant
        (fun acc var => markUse I var acc.contexts.length (some I) acc)
        (fun s' => Module.Rel Context.Marks m s' ∧
          ∃ x, s'.context? c = some x ∧ x.requiresExecutionContext = false)
        ic.usedVariables ?_ s ⟨hrel, x, hx, hxr⟩
      · obtain ⟨hrel1, x1, hx1, hxr1⟩ := h1
        obtain ⟨x2, hx2, hk2⟩ := (propagateFlags_keeps I
          (List.foldl (fun acc var => markUse I var acc.contexts.length (some I) acc) s
            ic.usedVariables).contexts.length ic.parent _).context c x1 hx1
        obtain ⟨x3, hx3, hk3⟩ := (liftArgumentsUse_keeps _ I).context c x2 hx2
        exact ⟨x3, hx3, by rw [hk3, hk2, hxr1]⟩
      · intro s' v hv ⟨hrel', x', hx', hxr'⟩
        refine ⟨rel_trans hrel' (markUse_rel I v _ _ s'), x', ?_, hxr'⟩
        rw [markUse_keeps s' I v c _ (some I), hx']
        intro i hi ⟨hnd, hne⟩
        cases hi
        have hv' : v ∈ ctxI.usedVariables := by rw [← hmk.grows.usedVariables]; exact hv
        exact hne (huse I ctxI v hI hctxI hv' (nearestDeclaring_back hrel' hnd)).symm

theorem debugMode_sweepContext (s : Module) (a : Nat) :
    (sweepContext s a).debugMode = s.debugMode := by
  unfold sweepContext
  exact Module.modify_debugMode _ _ _

/-- The second loop visits each context of a duplicate-free iteration order once. -/
theorem secondLoop_exact (l : List Nat) (s : Module) (c : Nat) (hl : l.Nodup) :
    (l.foldl sweepContext s).context? c =
      if c ∈ l then (s.context? c).map (finalizeContext s.debugMode) else s.context? c := by
  induction l generalizing s with
  | nil => simp
  | cons a l ih =>
    obtain ⟨ha, hl'⟩ := List.nodup_cons.mp hl
    rw [List.foldl_cons, ih _ hl', debugMode_sweepContext]
    unfold sweepContext
    rw [Module.context?_modify]
    by_cases hac : a = c
    · subst hac
      simp [ha]
    · have hca : ¬ c = a := fun h => hac h.symm
      simp only [hac, if_false, List.mem_cons, hca, false_or]

theorem finalizeContext_flags (debugMode : Bool) (y : Context) :
    (finalizeContext debugMode y).hasWith = y.hasWith ∧
    (finalizeContext debugMode y).hasTry = y.hasTry ∧
    (finalizeContext debugMode y).hasDirectEval = y.hasDirectEval := by
  have hs : y.Settles (injectArguments (settleArgumentsObject (requireStrictEval
      (clearGlobalRequirement (applyAllVarsEscape (allVarsEscape debugMode y) y))))) :=
    settles_trans (settles_trans (settles_trans (settles_trans
      (applyAllVarsEscape_settles _ y) (clearGlobalRequirement_settles _))
      (requireStrictEval_settles _)) (settleArgumentsObject_settles _))
      (injectArguments_settles _)
  unfold finalizeContext
  dsimp only
  generalize injectArguments (settleArgumentsObject (requireStrictEval
      (clearGlobalRequirement (applyAllVarsEscape (allVarsEscape debugMode y) y)))) = y5 at hs
  unfold escapeAllMembers
  split
  · exact ⟨hs.hasWith, hs.hasTry, hs.hasDirectEval⟩
  · exact ⟨hs.hasWith, hs.hasTry, hs.hasDirectEval⟩

theorem allVarsEscape_false (y : Context)
    (h : (y.hasWith = false ∧ y.hasTry = false ∧ y.hasDirectEval = false) ∨
      (y.contextType = .Block ∧ y.members = [])) : allVarsEscape false y = false := by
  unfold allVarsEscape
  rcases h with ⟨h1, h2, h3⟩ | ⟨h1, h2⟩
  · simp [h1, h2, h3]
  · simp [h1, h2]

end ScanFunctions

/-- The sweep leaves a context that came without heap-frame requirement without one
when nothing asks for it. -/
theorem calcEscapingVariables_requires_false (m : Module) (c : Nat) (c0 : Context)
    (hnodup : m.order.Nodup) (hc0 : m.context? c = some c0)
    (hreq : c0.requiresExecutionContext = false)
    (huse : ∀ I ctxI v, I ∈ m.order → m.context? I = some ctxI → v ∈ ctxI.usedVariables →
      NearestDeclaring m v I c → I = c) :
    ∃ c2, (ScanFunctions.calcEscapingVariables m).context? c = some c2 ∧
      ((c2.contextType = .Global ∨ (m.debugMode = false ∧
          ((c2.hasWith = false ∧ c2.hasTry = false ∧ c2.hasDirectEval = false) ∨
            (c2.contextType = .Block ∧ c0.members = [])))) →
        ¬ (c2.contextType = .Eval ∧ c2.isStrict = true) →
        (c2.usesArgumentsObject ≠ .ArgumentsObjectUsed ∨ c2.isStrict = true) →
        c2.requiresExecutionContext = false) := by
  obtain ⟨x, hx, hxr⟩ := ScanFunctions.firstLoop_requires_false m c c0 hc0 hreq huse
  have hrel := ScanFunctions.firstLoop_rel m.order m
  obtain ⟨x', hx', hmk⟩ := hrel.context c c0 hc0
  rw [hx] at hx'
  cases hx'
  have hord : (m.order.foldl ScanFunctions.sweepInner m).order = m.order :=
    congrArg (List.map Prod.snd) hrel.contextMap
  unfold ScanFunctions.calcEscapingVariables
  dsimp only
  rw [ScanFunctions.secondLoop_exact _ _ c (by rw [hord]; exact hnodup), hord, hx,
    hrel.debugMode]
  by_cases hmem : c ∈ m.order
  · simp only [hmem, if_true, Option.map_some']
    refine ⟨_, rfl, ?_⟩
    intro hA hB hC
    have hg := ScanFunctions.finalizeContext_grows m.debugMode x
    obtain ⟨f1, f2, f3⟩ := ScanFunctions.finalizeContext_flags m.debugMode x
    rw [hg.contextType, hg.isStrict] at hB
    rw [hg.isStrict] at hC
    rw [hg.contextType, f1, f2, f3] at hA
    refine ScanFunctions.finalizeContext_requires_false m.debugMode x hxr ?_ hB hC
    rcases hA with h | ⟨hd, h⟩
    · exact Or.inl h
    · right
      rw [hd]
      apply ScanFunctions.allVarsEscape_false
      rcases h with h | ⟨h1, h2⟩
      · exact Or.inl h
      · right
        refine ⟨h1, ?_⟩
        have hk := hmk.keys
        rw [h2] at hk
        simpa using hk
  · simp only [hmem, if_false]
    exact ⟨x, rfl, fun _ _ _ => hxr⟩

/-! ## Induction over the walk -/

namespace ScanFunctions

mutual

theorem acceptExpression_keeps {P : ScanFunctions → Prop} (hP : WalkInvariant P) :
    ∀ (e : ExpressionNode) (s : ScanFunctions), P s → P (acceptExpression e s)
  | .IdentifierExpression name tok, s, h => by
    rw [acceptExpression]; exact hP.identifier s name tok h
  | .StringLiteral _, s, h => by rw [acceptExpression]; exact h
  | .NumericLiteral _, s, h => by rw [acceptExpression]; exact h
  | .ThisExpression, s, h => by rw [acceptExpression]; exact hP.thisExpression s h
  | .CallExpression base arguments, s, h => by
    rw [acceptExpression]
    exact acceptExpressions_keeps hP arguments _
      (acceptExpression_keeps hP base _ (hP.call s base arguments h))
  | .NewMemberExpression base arguments, s, h => by
    rw [acceptExpression]
    exact acceptExpressions_keeps hP arguments _
      (acceptExpression_keeps hP base _ (hP.newMember s arguments h))
  | .BinaryExpression left right, s, h => by
    rw [acceptExpression]
    exact acceptExpression_keeps hP right _ (acceptExpression_keeps hP left _ h)
  | .ArrayPattern elements elision, s, h => by
    rw [acceptExpression]
    exact acceptPatternElementList_keeps hP elements _ (hP.arrayPattern s elements elision h)
  | .ObjectPattern properties, s, h => by
    rw [acceptExpression]
    exact hP.allowFuncDecls _ _
      (acceptPatternProperties_keeps hP properties _ (hP.allowFuncDecls s true h))
  | .FunctionExpression f, s, h => by
    rw [acceptExpression]
    apply hP.leave
    have h1 := hP.enterFunction s f false h
    split
    · exact acceptFunctionChildren_keeps hP f _ h1
    · exact h1

theorem acceptFunctionChildren_keeps {P : ScanFunctions → Prop} (hP : WalkInvariant P) :
    ∀ (f : FunctionNode) (s : ScanFunctions), P s → P (acceptFunctionChildren f s)
  | .mk _ _ _ _ _ _ formals body, s, h => by
    rw [acceptFunctionChildren]
    exact acceptBody_keeps hP body _ (acceptPatternElements_keeps hP formals _ h)

theorem acceptBody_keeps {P : ScanFunctions → Prop} (hP : WalkInvariant P) :
    ∀ (b : Option (List Statement)) (s : ScanFunctions), P s → P (acceptBody b s)
  | none, s, h => by rw [acceptBody]; exact h
  | some b, s, h => by rw [acceptBody]; exact acceptStatements_keeps hP b _ h

theorem acceptExpressions_keeps {P : ScanFunctions → Prop} (hP : WalkInvariant P) :
    ∀ (l : List ExpressionNode) (s : ScanFunctions), P s → P (acceptExpressions l s)
  | [], s, h => by rw [acceptExpressions]; exact h
  | e :: es, s, h => by
    rw [acceptExpressions]
    exact acceptExpressions_keeps hP es _ (acceptExpression_keeps hP e _ h)

theorem acceptOptionalExpression_keeps {P : ScanFunctions → Prop} (hP : WalkInvariant P) :
    ∀ (e : Option ExpressionNode) (s : ScanFunctions), P s → P (acceptOptionalExpression e s)
  | none, s, h => by rw [acceptOptionalExpression]; exact h
  | some e, s, h => by rw [acceptOptionalExpression]; exact acceptExpression_keeps hP e _ h

theorem acceptPatternElement_keeps {P : ScanFunctions → Prop} (hP : WalkInvariant P) :
    ∀ (e : PatternElement) (s : ScanFunctions), P s → P (acceptPatternElement e s)
  | .mk tok b n target initializer sc v r, s, h => by
    rw [acceptPatternElement]
    have h1 := hP.patternElement s (.mk tok b n target initializer sc v r) h
    split
    · exact acceptOptionalExpression_keeps hP initializer _
        (acceptOptionalExpression_keeps hP target _ h1)
    · exact h1

theorem acceptPatternElements_keeps {P : ScanFunctions → Prop} (hP : WalkInvariant P) :
    ∀ (l : List PatternElement) (s : ScanFunctions), P s → P (acceptPatternElements l s)
  | [], s, h => by rw [acceptPatternElements]; exact h
  | e :: es, s, h => by
    rw [acceptPatternElements]
    exact acceptPatternElements_keeps hP es _ (acceptPatternElement_keeps hP e _ h)

theorem acceptPatternElementList_keeps {P : ScanFunctions → Prop} (hP : WalkInvariant P) :
    ∀ (l : List PatternElementList) (s : ScanFunctions), P s →
      P (acceptPatternElementList l s)
  | [], s, h => by rw [acceptPatternElementList]; exact h
  | .mk _ element :: es, s, h => by
    rw [acceptPatternElementList]
    exact acceptPatternElementList_keeps hP es _ (acceptPatternElement_keeps hP element _ h)

theorem acceptPatternProperties_keeps {P : ScanFunctions → Prop} (hP : WalkInvariant P) :
    ∀ (l : List PatternElement) (s : ScanFunctions), P s → P (acceptPatternProperties l s)
  | [], s, h => by rw [acceptPatternProperties]; exact h
  | .mk _ _ _ target initializer _ _ _ :: es, s, h => by
    rw [acceptPatternProperties]
    exact acceptPatternProperties_keeps hP es _
      (acceptOptionalExpression_keeps hP initializer _
        (acceptOptionalExpression_keeps hP target _ h))

theorem acceptStatement_keeps {P : ScanFunctions → Prop} (hP : WalkInvariant P) :
    ∀ (st : Statement) (s : ScanFunctions), P s → P (acceptStatement st s)
  | .ExpressionStatement (.FunctionExpression f) _, s, h => by
    rw [acceptStatement]
    have h0 : P (if (!s.allowFuncDecls) = true then
        s.throwSyntaxError f.functionToken "conditional function or closure declaration"
        else s) := by
      split
      · exact hP.raise _ _ _ h
      · exact h
    revert h0
    generalize (if (!s.allowFuncDecls) = true then
        s.throwSyntaxError f.functionToken "conditional function or closure declaration"
        else s) = s0
    intro h0
    have h1 := hP.enterFunction s0 f true h0
    split
    · exact h1
    · exact hP.leave _ (acceptFunctionChildren_keeps hP f _ h1)
  | .ExpressionStatement (.IdentifierExpression n t) loc, s, h => by
    rw [acceptStatement]
    · apply acceptExpression_keeps hP
      split
      · exact hP.raise _ _ _ h
      · exact h
    · intro f hf; cases hf
  | .ExpressionStatement (.StringLiteral t) loc, s, h => by
    rw [acceptStatement]
    · apply acceptExpression_keeps hP
      split
      · exact hP.raise _ _ _ h
      · exact h
    · intro f hf; cases hf
  | .ExpressionStatement (.NumericLiteral t) loc, s, h => by
    rw [acceptStatement]
    · apply acceptExpression_keeps hP
      split
      · exact hP.raise _ _ _ h
      · exact h
    · intro f hf; cases hf
  | .ExpressionStatement .ThisExpression loc, s, h => by
    rw [acceptStatement]
    · apply acceptExpression_keeps hP
      split
      · exact hP.raise _ _ _ h
      · exact h
    · intro f hf; cases hf
  | .ExpressionStatement (.CallExpression b a) loc, s, h => by
    rw [acceptStatement]
    · apply acceptExpression_keeps hP
      split
      · exact hP.raise _ _ _ h
      · exact h
    · intro f hf; cases hf
  | .ExpressionStatement (.NewMemberExpression b a) loc, s, h => by
    rw [acceptStatement]
    · apply acceptExpression_keeps hP
      split
      · exact hP.raise _ _ _ h
      · exact h
    · intro f hf; cases hf
  | .ExpressionStatement (.BinaryExpression l r) loc, s, h => by
    rw [acceptStatement]
    · apply acceptExpression_keeps hP
      split
      · exact hP.raise _ _ _ h
      · exact h
    · intro f hf; cases hf
  | .ExpressionStatement (.ArrayPattern e n) loc, s, h => by
    rw [acceptStatement]
    · apply acceptExpression_keeps hP
      split
      · exact hP.raise _ _ _ h
      · exact h
    · intro f hf; cases hf
  | .ExpressionStatement (.ObjectPattern p) loc, s, h => by
    rw [acceptStatement]
    · apply acceptExpression_keeps hP
      split
      · exact hP.raise _ _ _ h
      · exact h
    · intro f hf; cases hf
  | .VariableStatement declarations, s, h => by
    rw [acceptStatement]; exact acceptPatternElements_keeps hP declarations _ h
  | .FunctionDeclaration f, s, h => by
    rw [acceptStatement]
    apply hP.leave
    have h1 := hP.enterFunction s f true h
    split
    · exact acceptFunctionChildren_keeps hP f _ h1
    · exact h1
  | .Block id statements, s, h => by
    rw [acceptStatement]
    exact hP.leave _ (hP.allowFuncDecls _ _ (acceptStatements_keeps hP statements _
      (hP.enterBlock _ id (hP.allowFuncDecls s _ h))))
  | .TryStatement statement catchBlock finallyBlock, s, h => by
    rw [acceptStatement]
    exact acceptOptionalStatement_keeps hP finallyBlock _
      (acceptOptionalStatement_keeps hP catchBlock _
        (acceptStatement_keeps hP statement _ (hP.tryStatement s h)))
  | .WithStatement withToken expression statement, s, h => by
    rw [acceptStatement]
    have h1 := hP.withStatement s withToken h
    split
    · exact acceptStatement_keeps hP statement _ (acceptExpression_keeps hP expression _ h1)
    · exact h1
  | .DoWhileStatement statement expression, s, h => by
    rw [acceptStatement]
    exact acceptExpression_keeps hP expression _ (hP.allowFuncDecls _ _
      (acceptStatement_keeps hP statement _ (hP.allowFuncDecls s _ h)))
  | .ForStatement initialiser condition expression statement, s, h => by
    rw [acceptStatement]
    exact hP.allowFuncDecls _ _ (acceptStatement_keeps hP statement _ (hP.allowFuncDecls _ _
      (acceptOptionalExpression_keeps hP expression _
        (acceptOptionalExpression_keeps hP condition _
          (acceptOptionalExpression_keeps hP initialiser _ h)))))
  | .LocalForStatement declarations condition expression statement, s, h => by
    rw [acceptStatement]
    exact hP.allowFuncDecls _ _ (acceptStatement_keeps hP statement _ (hP.allowFuncDecls _ _
      (acceptOptionalExpression_keeps hP expression _
        (acceptOptionalExpression_keeps hP condition _
          (acceptPatternElements_keeps hP declarations _ h)))))
  | .ForEachStatement initialiser expression statement, s, h => by
    rw [acceptStatement]
    exact hP.allowFuncDecls _ _ (acceptStatement_keeps hP statement _ (hP.allowFuncDecls _ _
      (acceptExpression_keeps hP expression _ (acceptExpression_keeps hP initialiser _ h))))
  | .LocalForEachStatement declaration expression statement, s, h => by
    rw [acceptStatement]
    exact hP.allowFuncDecls _ _ (acceptStatement_keeps hP statement _ (hP.allowFuncDecls _ _
      (acceptExpression_keeps hP expression _
        (acceptPatternElement_keeps hP declaration _ h))))

theorem acceptOptionalStatement_keeps {P : ScanFunctions → Prop} (hP : WalkInvariant P) :
    ∀ (st : Option Statement) (s : ScanFunctions), P s → P (acceptOptionalStatement st s)
  | none, s, h => by rw [acceptOptionalStatement]; exact h
  | some st, s, h => by rw [acceptOptionalStatement]; exact acceptStatement_keeps hP st _ h

theorem acceptStatements_keeps {P : ScanFunctions → Prop} (hP : WalkInvariant P) :
    ∀ (l : List Statement) (s : ScanFunctions), P s → P (acceptStatements l s)
  | [], s, h => by rw [acceptStatements]; exact h
  | st :: sts, s, h => by
    rw [acceptStatements]
    exact acceptStatements_keeps hP sts _ (acceptStatement_keeps hP st _ h)

end

end ScanFunctions

/-! ## The walk never asks for a heap frame -/

namespace ScanFunctions

theorem noRequirement_modify (m : Module) (i : Nat) (f : Context → Context)
    (hf : ∀ c, m.context? i = some c → c.requiresExecutionContext = false →
      (f c).requiresExecutionContext = false)
    (h : m.NoRequirement) : (m.modify i f).NoRequirement := by
  unfold Module.modify
  cases hc : m.contexts[i]? with
  | none => exact h
  | some c =>
    intro x hx
    simp only at hx
    rcases List.mem_or_eq_of_mem_set hx with h1 | h1
    · exact h x h1
    · rw [h1]
      exact hf c hc (h c (List.getElem?_mem hc))

theorem noRequirement_modifyAt (s : ScanFunctions) (o : Nat) (f : Context → Context)
    (hf : ∀ c, (f c).requiresExecutionContext = c.requiresExecutionContext)
    (h : s.module.NoRequirement) : (s.modifyAt o f).module.NoRequirement :=
  noRequirement_modify s.module o f (fun c _ hc => by rw [hf, hc]) h

theorem noRequirement_modifyContext (s : ScanFunctions) (f : Context → Context)
    (hf : ∀ c, (f c).requiresExecutionContext = c.requiresExecutionContext)
    (h : s.module.NoRequirement) : (s.modifyContext f).module.NoRequirement := by
  unfold modifyContext
  split
  · exact noRequirement_modify s.module _ f (fun c _ hc => by rw [hf, hc]) h
  · exact h

theorem requires_addLocalVar (c : Context) (n : String) (t : MemberType) (sc : VariableScope)
    (f : Option Nat) :
    (c.addLocalVar n t sc f).2.requiresExecutionContext = c.requiresExecutionContext := by
  obtain ⟨ms, h, _⟩ := addLocalVar_frame c n t sc f
  rw [h]

theorem noRequirement_addLocalVarAt (s : ScanFunctions) (o : Nat) (n : String)
    (t : MemberType) (sc : VariableScope) (f : Option Nat) (h : s.module.NoRequirement) :
    (s.addLocalVarAt o n t sc f).2.module.NoRequirement := by
  unfold addLocalVarAt
  cases hc : s.module.context? o with
  | none => exact h
  | some c =>
    exact noRequirement_modify s.module o _
      (fun c' hc' hr => by
        rw [hc] at hc'
        cases hc'
        rw [requires_addLocalVar]; exact hr) h

theorem noRequirement_addLocalVar (s : ScanFunctions) (n : String) (t : MemberType)
    (sc : VariableScope) (f : Option Nat) (h : s.module.NoRequirement) :
    (s.addLocalVar n t sc f).2.module.NoRequirement := by
  unfold addLocalVar
  cases hcur : s.current with
  | none => exact h
  | some c =>
    simp only
    unfold modifyContext
    cases hi : s.context with
    | none => exact h
    | some i =>
      simp only
      have hc : s.module.context? i = some c := by
        unfold current at hcur
        rw [hi] at hcur
        exact hcur
      exact noRequirement_modify s.module i _
        (fun c' hc' hr => by
          rw [hc] at hc'
          cases hc'
          rw [requires_addLocalVar]; exact hr) h

theorem noRequirement_checkName (s : ScanFunctions) (n : String) (l : SourceLocation)
    (h : s.module.NoRequirement) : (s.checkName n l).module.NoRequirement := by
  unfold checkName
  split
  · split
    · exact h
    · exact h
  · exact h

theorem noRequirement_enterEnvironment (s : ScanFunctions) (node : Nat) (t : ContextType)
    (h : s.module.NoRequirement) : (s.enterEnvironment node t).module.NoRequirement := by
  unfold enterEnvironment
  split
  next c m hcm =>
  simp only
  apply noRequirement_modify
  · intro x _ hx
    split
    · exact hx
    · exact hx
  · split at hcm
    · cases hcm
      exact h
    · unfold Module.newContext at hcm
      cases hcm
      intro x hx
      simp only [List.mem_append, List.mem_singleton] at hx
      rcases hx with h1 | h1
      · exact h x h1
      · rw [h1]

theorem noRequirement_checkDirectivePrologue (s : ScanFunctions) (l : List Statement)
    (h : s.module.NoRequirement) : (s.checkDirectivePrologue l).module.NoRequirement := by
  induction s, l using checkDirectivePrologue.induct with
  | case1 s => simpa [checkDirectivePrologue] using h
  | case2 s tok loc rest hlt ih => simpa [checkDirectivePrologue, hlt] using ih h
  | case3 s tok loc rest h1 h2 ih =>
    simp only [checkDirectivePrologue, h1, h2, if_false, if_true]
    exact ih (noRequirement_modifyContext s _ (fun _ => rfl) h)
  | case4 s tok loc rest h1 h2 ih =>
    simp only [checkDirectivePrologue, h1, h2, if_false]
    exact ih h
  | case5 s st rest hne =>
    unfold checkDirectivePrologue
    split
    · exact h
    · next heq =>
      cases heq
      exact absurd rfl (hne _ _)
    · exact h

theorem noRequirement_declareName (s : ScanFunctions) (ast : PatternElement) (n : String)
    (h : s.module.NoRequirement) : (declareName s ast n).2.module.NoRequirement := by
  unfold declareName
  dsimp only
  repeat' first
    | exact h
    | apply noRequirement_addLocalVar
    | apply noRequirement_checkName
    | refine noRequirement_modifyContext _ _ (fun _ => rfl) ?_
    | simp only [module_throwSyntaxError]
    | split

theorem noRequirement_declareNames (ast : PatternElement) (l : List String) (s : ScanFunctions)
    (h : s.module.NoRequirement) : (declareNames ast l s).2.module.NoRequirement := by
  induction l generalizing s with
  | nil => unfold declareNames; exact h
  | cons n rest ih =>
    unfold declareNames
    dsimp only
    split
    · exact ih _ (noRequirement_declareName s ast n h)
    · exact noRequirement_declareName s ast n h

theorem noRequirement_checkParameters (formals : FormalParameterList) (simple : Bool)
    (l : List String) (s : ScanFunctions) (h : s.module.NoRequirement) :
    (checkParameters formals simple l s).2.module.NoRequirement := by
  induction l generalizing s with
  | nil => unfold checkParameters; exact h
  | cons n rest ih =>
    have hstep : (checkParameter s formals simple n rest).2.module.NoRequirement := by
      unfold checkParameter
      dsimp only
      repeat' first
        | exact h
        | apply noRequirement_addLocalVar
        | simp only [module_throwSyntaxError]
        | split
    unfold checkParameters
    dsimp only
    split
    · exact ih _ hstep
    · exact hstep

theorem noRequirement_enterFunctionOuter (s : ScanFunctions) (o : Nat) (ast : FunctionNode)
    (name : String) (enterName : Bool) (h : s.module.NoRequirement) :
    (s.enterFunctionOuter o ast name enterName).2.module.NoRequirement := by
  unfold enterFunctionOuter
  dsimp only
  repeat' first
    | exact h
    | apply noRequirement_addLocalVarAt
    | refine noRequirement_modifyAt _ _ _ (fun _ => rfl) ?_
    | simp only [module_throwSyntaxError]
    | split

theorem noRequirement_prepareFunctionContext (s : ScanFunctions) (ast : FunctionNode)
    (name : String) (formals : FormalParameterList) (body : Option (List Statement))
    (h : s.module.NoRequirement) :
    (prepareFunctionContext s ast name formals body).module.NoRequirement := by
  have h1 : ∀ t : ScanFunctions, t.module.NoRequirement →
      (setArguments t formals).module.NoRequirement :=
    fun t ht => noRequirement_modifyContext t _ (fun _ => rfl) ht
  have h2 : ∀ t : ScanFunctions, t.module.NoRequirement →
      (checkBodyDirectives t body).module.NoRequirement := by
    intro t ht
    unfold checkBodyDirectives
    split
    · split
      · exact noRequirement_checkDirectivePrologue t _ ht
      · exact ht
    · exact ht
  have h3 : ∀ t : ScanFunctions, t.module.NoRequirement →
      (setFormals t formals).module.NoRequirement :=
    fun t ht => noRequirement_modifyContext t _ (fun _ => rfl) ht
  have h4 : ∀ t : ScanFunctions, t.module.NoRequirement →
      (bindOwnName t name formals).module.NoRequirement := by
    intro t ht
    unfold bindOwnName
    split
    · exact noRequirement_addLocalVar t _ _ _ _ ht
    · exact ht
  have h5 : ∀ t : ScanFunctions, t.module.NoRequirement →
      (noteFunctionKind t ast).module.NoRequirement := by
    intro t ht
    unfold noteFunctionKind
    split
    · exact noRequirement_modifyContext t _ (fun _ => rfl) ht
    · split
      · exact noRequirement_modifyContext t _ (fun _ => rfl) ht
      · exact ht
  have h6 : ∀ t : ScanFunctions, t.module.NoRequirement →
      (noteArgumentsParameter t formals).module.NoRequirement := by
    intro t ht
    unfold noteArgumentsParameter
    split
    · exact noRequirement_modifyContext t _ (fun _ => rfl) ht
    · exact ht
  have h7 : ∀ t : ScanFunctions, t.module.NoRequirement →
      (setFunctionName t name).module.NoRequirement :=
    fun t ht => noRequirement_modifyContext t _ (fun _ => rfl) ht
  unfold prepareFunctionContext
  exact h1 _ (h2 _ (h3 _ (h4 _ (h5 _ (h6 _ (h7 _ h))))))

theorem noRequirement_enterFunction (s : ScanFunctions) (ast : FunctionNode) (name : String)
    (formals : FormalParameterList) (body : Option (List Statement)) (enterName : Bool)
    (h : s.module.NoRequirement) :
    (s.enterFunction ast name formals body enterName).2.module.NoRequirement := by
  unfold enterFunction
  dsimp only
  have h0 := noRequirement_enterEnvironment s ast.id .Function h
  repeat' first
    | exact h0
    | apply noRequirement_checkParameters
    | apply noRequirement_prepareFunctionContext
    | apply noRequirement_enterFunctionOuter
    | split

/-- Every step of the visitor keeps all heap-frame requirements clear. -/
theorem noRequirement_walkInvariant :
    WalkInvariant fun s => s.module.NoRequirement where
  identifier := by
    intro s n t h
    unfold visitIdentifierExpression
    apply noRequirement_modifyContext
    · intro c; unfold Context.addUsedVariable; split <;> rfl
    · apply noRequirement_modifyContext
      · intro c; split <;> rfl
      · exact noRequirement_checkName s n t h
  thisExpression := fun s h => noRequirement_modifyContext s _ (fun _ => rfl) h
  call := by
    intro s b a h
    unfold visitCallExpression
    dsimp only
    rw [noteArgumentCount_module]
    refine noRequirement_modifyContext _ _ (fun _ => rfl) ?_
    repeat' first
      | exact h
      | refine noRequirement_modifyContext _ _ (fun _ => rfl) ?_
      | refine noRequirement_modifyContext _ _ (fun c => by split <;> rfl) ?_
      | split
  newMember := fun s a h => by
    unfold visitNewMemberExpression
    rw [noteArgumentCount_module]
    exact noRequirement_modifyContext s _ (fun _ => rfl) h
  arrayPattern := fun s e n h => by
    unfold visitArrayPattern
    rw [noteArgumentCount_module]
    exact noRequirement_modifyContext s _ (fun _ => rfl) h
  allowFuncDecls := fun _ _ h => h
  enterFunction := by
    intro s f b h
    unfold enterFunctionExpression
    apply noRequirement_enterFunction
    split
    · exact h
    · exact h
  leave := fun _ h => h
  patternElement := by
    intro s e h
    unfold visitPatternElement
    split
    · exact h
    · exact noRequirement_declareNames e _ s h
  raise := fun _ _ _ h => h
  enterBlock := fun s id h =>
    noRequirement_modifyContext _ _ (fun _ => rfl) (noRequirement_enterEnvironment s id _ h)
  tryStatement := fun s h => noRequirement_modifyContext s _ (fun _ => rfl) h
  withStatement := by
    intro s t h
    unfold visitWithStatement
    split
    · exact h
    · exact noRequirement_modifyContext s _ (fun _ => rfl) h

/-- The walk over a program leaves every context without heap-frame requirement. -/
theorem acceptProgram_noRequirement (s : ScanFunctions) (ast : Program)
    (h : s.module.NoRequirement) : (s.acceptProgram ast).module.NoRequirement := by
  unfold acceptProgram visitProgram
  exact acceptStatements_keeps noRequirement_walkInvariant ast.statements _
    (noRequirement_checkDirectivePrologue _ _ (noRequirement_enterEnvironment s _ _ h))

end ScanFunctions

/-- C3 (amended). After the resolver has run (walk plus `calcEscapingVariables`) on a
module in which no context required a heap frame, a context `c` has
`requiresExecutionContext = false` when no other context uses a name whose nearest
declaring context is `c`, provided that `c` is Global, or debug mode is off and `c`
has none of the `with` / `try` / direct-eval flags (its own or propagated) or is a
block without declared members; that `c` is not a strict Eval context; and that the
use of the arguments object did not resolve to "used" for `c`, or `c` is strict.
(`hnodup`: the context map files every context once.) -/
theorem run_no_spurious_requirement (s : ScanFunctions) (ast : Program) (c : Nat)
    (c0 : Context) (hstart : s.module.NoRequirement)
    (hnodup : (s.acceptProgram ast).module.order.Nodup)
    (hc0 : (s.acceptProgram ast).module.context? c = some c0)
    (huse : ∀ I ctxI v, I ∈ (s.acceptProgram ast).module.order →
      (s.acceptProgram ast).module.context? I = some ctxI → v ∈ ctxI.usedVariables →
      NearestDeclaring (s.acceptProgram ast).module v I c → I = c) :
    ∃ c2, (s.run ast).module.context? c = some c2 ∧
      ((c2.contextType = .Global ∨ ((s.acceptProgram ast).module.debugMode = false ∧
          ((c2.hasWith = false ∧ c2.hasTry = false ∧ c2.hasDirectEval = false) ∨
            (c2.contextType = .Block ∧ c0.members = [])))) →
        ¬ (c2.contextType = .Eval ∧ c2.isStrict = true) →
        (c2.usesArgumentsObject ≠ .ArgumentsObjectUsed ∨ c2.isStrict = true) →
        c2.requiresExecutionContext = false) := by
  have hreq : c0.requiresExecutionContext = false :=
    ScanFunctions.acceptProgram_noRequirement s ast hstart c0 (List.getElem?_mem hc0)
  exact calcEscapingVariables_requires_false (s.acceptProgram ast).module c c0 hnodup hc0 hreq
    huse

/-! ## C10: `with` statements -/

/-- C10. Visiting a `with` statement in a strict context raises the static error,
answers `false` (the statement is not descended into: the walk of the whole statement
ends with the raised error) and leaves the module, and so the context's `hasWith`
flag, unchanged; visiting it in a context that is not strict raises no error, answers
`true` and sets `hasWith` on the current context. -/
theorem visitWithStatement_strict_rejected (s : ScanFunctions) (withToken : SourceLocation)
    (c : Context) (hc : s.current = some c) :
    (c.isStrict = true →
      (s.visitWithStatement withToken).1 = false ∧
      (s.visitWithStatement withToken).2.errors =
        s.errors ++ [⟨withToken, "'with' statement is not allowed in strict mode"⟩] ∧
      (s.visitWithStatement withToken).2.module = s.module ∧
      ∀ expression statement,
        ScanFunctions.acceptStatement (.WithStatement withToken expression statement) s =
          (s.visitWithStatement withToken).2) ∧
    (c.isStrict = false →
      (s.visitWithStatement withToken).1 = true ∧
      (s.visitWithStatement withToken).2.errors = s.errors ∧
      (s.visitWithStatement withToken).2.current = some { c with hasWith := true }) := by
  have hs := ScanFunctions.isStrict_of_current hc
  constructor
  · intro hstrict
    have h1 : s.visitWithStatement withToken =
        (false, s.throwSyntaxError withToken "'with' statement is not allowed in strict mode") := by
      unfold ScanFunctions.visitWithStatement
      simp [hs, hstrict]
    refine ⟨by rw [h1], by rw [h1]; rfl, by rw [h1]; rfl, ?_⟩
    intro expression statement
    unfold ScanFunctions.acceptStatement
    simp [h1]
  · intro hstrict
    have h1 : s.visitWithStatement withToken =
        (true, s.modifyContext fun c => { c with hasWith := true }) := by
      unfold ScanFunctions.visitWithStatement
      simp [hs, hstrict]
    refine ⟨by rw [h1], by rw [h1]; simp, ?_⟩
    rw [h1]
    simp [hc]

/-! ## C4: redeclaration -/

namespace ScanFunctions

theorem addLocalVar_fst (s : ScanFunctions) (c : Context) (hc : s.current = some c)
    (name : String) (type : MemberType) (scope : VariableScope) (function : Option Nat) :
    (s.addLocalVar name type scope function).1 = (c.addLocalVar name type scope function).1 := by
  unfold addLocalVar
  rw [hc]

theorem members_arguments_mark (c : Context) (name : String) :
    (if name = "arguments" then
      { c with usesArgumentsObject := UsesArgumentsObject.ArgumentsObjectNotUsed } else c).members
      = c.members := by
  split <;> rfl

theorem isLexicallyScoped_false {scope : VariableScope}
    (h : scope.isLexicallyScoped = false) : scope = .Var := by
  cases scope <;> simp [VariableScope.isLexicallyScoped] at h ⊢

end ScanFunctions

/-- C4 (amended). Visiting a variable declaration of the one name `n` in a context
that already has a member `n`: when the existing member or the new declaration is
lexically scoped and the declaration is not a `const` without initializer, the visit
answers `false` and raises, after the errors of the strict-mode name checks,
'Identifier n has already been declared'; when both are `var`-scoped, the visit
answers `true`, raises nothing but the errors of the strict-mode name checks (nothing
at all in a context that is not strict), and the context keeps its member list, so it
still has exactly one member `n`. -/
theorem visitPatternElement_redeclaration (s : ScanFunctions) (ast : PatternElement)
    (n : String) (c : Context) (m : Member) (hc : s.current = some c)
    (hdecl : ast.isVariableDeclaration = true) (hnames : ast.boundNames = [n])
    (hm : c.memberInfo n = some m) :
    ((m.isLexicallyScoped = true ∨ ast.isLexicallyScoped = true) →
      ¬ (ast.scope = .Const ∧ ast.initializer.isNone = true) →
      (s.visitPatternElement ast).1 = false ∧
      ScanFunctions.raisedSince s (s.visitPatternElement ast).2 =
        nameCheckErrors c.isStrict ast.identifierToken n ++
          [⟨ast.identifierToken, "Identifier " ++ n ++ " has already been declared"⟩]) ∧
    (m.isLexicallyScoped = false → ast.isLexicallyScoped = false →
      (s.visitPatternElement ast).1 = true ∧
      ScanFunctions.raisedSince s (s.visitPatternElement ast).2 =
        nameCheckErrors c.isStrict ast.identifierToken n ∧
      (c.isStrict = false → ScanFunctions.raisedSince s (s.visitPatternElement ast).2 = []) ∧
      ∃ c', (s.visitPatternElement ast).2.current = some c' ∧ c'.members = c.members) := by
  rw [ScanFunctions.visitPatternElement_single s ast n hdecl hnames]
  obtain ⟨s3, he, hcur, _, heq⟩ := ScanFunctions.declareName_spec s ast n c hc
  rw [heq]
  constructor
  · intro hlex hconst
    have h2 : (match c.memberInfo n with
        | some m => m.isLexicallyScoped || ast.isLexicallyScoped
        | none => false) = true := by
      rw [hm]
      rcases hlex with h | h <;> simp [h]
    rw [if_neg hconst, if_pos h2]
    exact ⟨rfl, ScanFunctions.raisedSince_of_errors (by simp [he])⟩
  · intro hmv hav
    have hscope : ast.scope = .Var := ScanFunctions.isLexicallyScoped_false hav
    have h1 : ¬ (ast.scope = .Const ∧ ast.initializer.isNone = true) := by
      rw [hscope]; simp
    have h2 : ¬ ((match c.memberInfo n with
        | some m => m.isLexicallyScoped || ast.isLexicallyScoped
        | none => false) = true) := by
      rw [hm]; simp [hmv, hav]
    have hlook : (if n = "arguments" then
        { c with usesArgumentsObject := UsesArgumentsObject.ArgumentsObjectNotUsed }
        else c).members.lookup n = some m := by
      rw [ScanFunctions.members_arguments_mark]; exact hm
    have hadd : ∀ t, (if n = "arguments" then
        { c with usesArgumentsObject := UsesArgumentsObject.ArgumentsObjectNotUsed }
        else c).addLocalVar n t ast.scope none =
        (true, if n = "arguments" then
          { c with usesArgumentsObject := UsesArgumentsObject.ArgumentsObjectNotUsed }
          else c) := by
      intro t
      unfold Context.addLocalVar
      rw [hlook, hscope]
      simp [VariableScope.isLexicallyScoped, hmv]
    have h3 : ¬ ((s3.addLocalVar n
        (if ast.initializer.isSome then .VariableDefinition else .VariableDeclaration)
        ast.scope).1 = false) := by
      rw [ScanFunctions.addLocalVar_fst s3 _ hcur, hadd]; simp
    rw [if_neg h1, if_neg h2, if_neg h3]
    have hr : ScanFunctions.raisedSince s (s3.addLocalVar n
        (if ast.initializer.isSome then .VariableDefinition else .VariableDeclaration)
        ast.scope).2 = nameCheckErrors c.isStrict ast.identifierToken n :=
      ScanFunctions.raisedSince_of_errors (by simp [he])
    refine ⟨rfl, hr, ?_, ?_⟩
    · intro hstrict
      rw [hr, hstrict]
      rfl
    · refine ⟨_, ?_, ScanFunctions.members_arguments_mark c n⟩
      simp only [ScanFunctions.current_addLocalVar, hcur, Option.map_some', hadd]

/-- C4, witness of the amended statement: `let x` after `var x`. -/
theorem visitPatternElement_redeclaration_witness :
    ((exScanner (exContextWithX .Var false)).visitPatternElement
        (exDeclaration .Let "x" false)).1 = false ∧
    ScanFunctions.raisedSince (exScanner (exContextWithX .Var false))
      ((exScanner (exContextWithX .Var false)).visitPatternElement
        (exDeclaration .Let "x" false)).2 =
      nameCheckErrors false exToken "x" ++
        [⟨exToken, "Identifier " ++ "x" ++ " has already been declared"⟩] :=
  (visitPatternElement_redeclaration (exScanner (exContextWithX .Var false))
    (exDeclaration .Let "x" false) "x" (exContextWithX .Var false)
    { type := .VariableDeclaration, scope := .Var } rfl rfl rfl rfl).1
    (Or.inr rfl) (by decide)

/-- C4, counterexample to the claim as stated: after `let x`, visiting `const x`
(lexically scoped, no initializer) raises 'Missing initializer in const declaration'
and not 'Identifier x has already been declared'; and in a strict context, visiting
`var eval` after `var eval` (both `var`-scoped) does raise an error. -/
theorem visitPatternElement_redeclaration_counterexample :
    ((exScanner (exContextWithX .Let false)).visitPatternElement
        (exDeclaration .Const "x" false)).2.errors =
      [⟨exToken, "Missing initializer in const declaration"⟩] ∧
    ((exScanner exStrictContextWithEval).visitPatternElement
        (exDeclaration .Var "eval" false)).2.errors =
      [⟨exToken, "Variable name may not be eval or arguments in strict mode"⟩] := by
  constructor <;> decide

/-! ## C6: `const` needs an initializer -/

/-- C6 (amended). Visiting a `const` declaration without initializer answers `false`,
raises, after the errors of the strict-mode name checks on its first name, 'Missing
initializer in const declaration', and leaves the member list of the context as it
was; visiting a `const` declaration of the one name `n` with an initializer, `n` not
yet a member of the context, answers `true`, registers `n` as a `const`-scoped
variable definition, and raises nothing but the errors of the strict-mode name checks
on `n` (nothing at all in a context that is not strict). -/
theorem visitPatternElement_const (s : ScanFunctions) (ast : PatternElement) (c : Context)
    (hc : s.current = some c) (hdecl : ast.isVariableDeclaration = true)
    (hconst : ast.scope = .Const) :
    (ast.initializer.isNone = true → ∀ n rest, ast.boundNames = n :: rest →
      (s.visitPatternElement ast).1 = false ∧
      ScanFunctions.raisedSince s (s.visitPatternElement ast).2 =
        nameCheckErrors c.isStrict ast.identifierToken n ++
          [⟨ast.identifierToken, "Missing initializer in const declaration"⟩] ∧
      ∃ c', (s.visitPatternElement ast).2.current = some c' ∧ c'.members = c.members) ∧
    (ast.initializer.isSome = true → ∀ n, ast.boundNames = [n] → c.memberInfo n = none →
      (s.visitPatternElement ast).1 = true ∧
      ScanFunctions.raisedSince s (s.visitPatternElement ast).2 =
        nameCheckErrors c.isStrict ast.identifierToken n ∧
      (c.isStrict = false → ScanFunctions.raisedSince s (s.visitPatternElement ast).2 = []) ∧
      ∃ c', (s.visitPatternElement ast).2.current = some c' ∧
        c'.memberInfo n = some { type := .VariableDefinition, scope := .Const }) := by
  constructor
  · intro hinit n rest hnames
    obtain ⟨s3, he, hcur, _, heq⟩ := ScanFunctions.declareName_spec s ast n c hc
    have h1 : ast.scope = .Const ∧ ast.initializer.isNone = true := ⟨hconst, hinit⟩
    rw [if_pos h1] at heq
    have hstop : (ScanFunctions.declareName s ast n).1 = false := by rw [heq]
    rw [ScanFunctions.visitPatternElement_cons s ast n rest hdecl hnames hstop, heq]
    refine ⟨rfl, ScanFunctions.raisedSince_of_errors (by simp [he]), _, ?_,
      ScanFunctions.members_arguments_mark c n⟩
    simp [hcur]
  · intro hinit n hnames hfresh
    rw [ScanFunctions.visitPatternElement_single s ast n hdecl hnames]
    obtain ⟨s3, he, hcur, _, heq⟩ := ScanFunctions.declareName_spec s ast n c hc
    rw [heq]
    have hnone : ¬ (ast.initializer.isNone = true) := by
      cases h : ast.initializer with
      | none => rw [h] at hinit; cases hinit
      | some _ => simp
    have h1 : ¬ (ast.scope = .Const ∧ ast.initializer.isNone = true) := fun h => hnone h.2
    have h2 : ¬ ((match c.memberInfo n with
        | some m => m.isLexicallyScoped || ast.isLexicallyScoped
        | none => false) = true) := by
      rw [hfresh]; simp
    obtain ⟨c3, hc3, hmem3⟩ : ∃ c3, s3.current = some c3 ∧ c3.members = c.members :=
      ⟨_, hcur, ScanFunctions.members_arguments_mark c n⟩
    have hlook : c3.members.lookup n = none := by rw [hmem3]; exact hfresh
    have hadd : c3.addLocalVar n .VariableDefinition .Const none =
        (true, { c3 with members := c3.members ++
            [(n, { type := .VariableDefinition, scope := .Const })] }) := by
      unfold Context.addLocalVar
      rw [hlook]
    simp only [hinit, if_true, hconst] at *
    have h3 : ¬ ((s3.addLocalVar n .VariableDefinition .Const).1 = false) := by
      rw [ScanFunctions.addLocalVar_fst s3 _ hc3, hadd]; simp
    rw [if_neg h1, if_neg h2, if_neg h3]
    have hr : ScanFunctions.raisedSince s (s3.addLocalVar n .VariableDefinition .Const).2 =
        nameCheckErrors c.isStrict ast.identifierToken n :=
      ScanFunctions.raisedSince_of_errors (by simp [he])
    refine ⟨rfl, hr, ?_, ?_⟩
    · intro hstrict
      rw [hr, hstrict]
      rfl
    · refine ⟨{ c3 with members := c3.members ++
          [(n, { type := .VariableDefinition, scope := .Const })] }, ?_, ?_⟩
      · simp only [ScanFunctions.current_addLocalVar, hc3, Option.map_some', hadd]
      · show List.lookup n (c3.members ++ _) = _
        rw [List.lookup_append, hlook]
        simp

/-- C6, witness of the amended statement: `const x = 1` in an empty context. -/
theorem visitPatternElement_const_witness :
    ((exScanner (exEmptyContext false)).visitPatternElement
        (exDeclaration .Const "x" true)).1 = true ∧
    ScanFunctions.raisedSince (exScanner (exEmptyContext false))
      ((exScanner (exEmptyContext false)).visitPatternElement
        (exDeclaration .Const "x" true)).2 = nameCheckErrors false exToken "x" ∧
    (false = false → ScanFunctions.raisedSince (exScanner (exEmptyContext false))
      ((exScanner (exEmptyContext false)).visitPatternElement
        (exDeclaration .Const "x" true)).2 = []) ∧
    ∃ c', ((exScanner (exEmptyContext false)).visitPatternElement
        (exDeclaration .Const "x" true)).2.current = some c' ∧
      c'.memberInfo "x" = some { type := .VariableDefinition, scope := .Const } :=
  (visitPatternElement_const (exScanner (exEmptyContext false))
    (exDeclaration .Const "x" true) (exEmptyContext false) rfl rfl rfl).2 rfl "x" rfl rfl

/-- C6, counterexample to the claim as stated: in a strict context, visiting
`const eval = 1` (with initializer, `eval` not yet declared) raises an error. -/
theorem visitPatternElement_const_counterexample :
    (exEmptyContext true).memberInfo "eval" = none ∧
    ((exScanner (exEmptyContext true)).visitPatternElement
        (exDeclaration .Const "eval" true)).2.errors =
      [⟨exToken, "Variable name may not be eval or arguments in strict mode"⟩] := by
  constructor <;> decide

/-! ## C9: strict-mode reserved words -/

/-- C9 (amended). For a name `n` used in the current context `c` as an identifier
reference, or as the one name bound by a variable declaration: the static error
'Unexpected strict mode reserved word' is raised if and only if `c` is strict and
`n` is one of implements, interface, let, package, private, protected, public,
static, yield. -/
theorem reserved_word_raised_iff (s : ScanFunctions) (c : Context) (n : String)
    (hc : s.current = some c) :
    (∀ identifierToken,
      (⟨identifierToken, "Unexpected strict mode reserved word"⟩ : SyntaxError) ∈
          ScanFunctions.raisedSince s (s.visitIdentifierExpression n identifierToken).2 ↔
        c.isStrict = true ∧ n ∈ strictReservedWords) ∧
    (∀ ast : PatternElement, ast.isVariableDeclaration = true → ast.boundNames = [n] →
      ((⟨ast.identifierToken, "Unexpected strict mode reserved word"⟩ : SyntaxError) ∈
          ScanFunctions.raisedSince s (s.visitPatternElement ast).2 ↔
        c.isStrict = true ∧ n ∈ strictReservedWords)) := by
  constructor
  · intro tok
    have he : (s.visitIdentifierExpression n tok).2.errors = s.errors ++
        (if c.isStrict && ScanFunctions.isStrictReservedWord n then
          [⟨tok, "Unexpected strict mode reserved word"⟩] else []) := by
      unfold ScanFunctions.visitIdentifierExpression
      simp only [ScanFunctions.errors_modifyContext, ScanFunctions.checkName_errors,
        ScanFunctions.isStrict_of_current hc]
    rw [ScanFunctions.raisedSince_of_errors he, ← ScanFunctions.isStrictReservedWord_iff]
    cases c.isStrict <;> cases ScanFunctions.isStrictReservedWord n <;> simp
  · intro ast hdecl hnames
    rw [ScanFunctions.visitPatternElement_single s ast n hdecl hnames]
    obtain ⟨tail, hr, htail, _⟩ := ScanFunctions.declareName_raised s ast n c hc
    rw [hr, List.mem_append, ScanFunctions.reserved_mem_nameCheckErrors]
    constructor
    · intro h
      rcases h with h | h
      · exact h
      · exfalso
        rcases htail with h0 | h0 | h0 | h0 <;> rw [h0] at h
        · cases h
        · simp only [List.mem_singleton, SyntaxError.mk.injEq] at h
          exact absurd h.2 (by decide)
        · simp only [List.mem_singleton, SyntaxError.mk.injEq] at h
          exact ScanFunctions.reserved_ne_identifier n h.2
        · simp only [List.mem_singleton, SyntaxError.mk.injEq] at h
          exact ScanFunctions.reserved_ne_identifier ast.bindingIdentifier h.2
    · exact Or.inl

/-- C9, witness of the amended statement: `var let` in a strict context raises the
error. -/
theorem reserved_word_raised_iff_witness :
    (⟨exToken, "Unexpected strict mode reserved word"⟩ : SyntaxError) ∈
      ScanFunctions.raisedSince (exScanner (exEmptyContext true))
        ((exScanner (exEmptyContext true)).visitPatternElement
          (exDeclaration .Var "let" false)).2 :=
  ((reserved_word_raised_iff (exScanner (exEmptyContext true)) (exEmptyContext true) "let"
    rfl).2 (exDeclaration .Var "let" false) rfl rfl).2 ⟨rfl, by decide⟩

/-! ## C7: `eval` and `arguments` as parameter names -/

/-- C7 (amended). Entering a function whose context is strict (however it became so)
and whose formal parameter list binds `eval` or `arguments` raises a static error and
`enterFunction` answers `false`. Entering a function whose context is not strict never
raises the error about the parameter name: `enterFunction` then answers `true` and
raises nothing, unless the function's own name cannot be declared in the outer
context or a name is repeated in a parameter list that is not simple, in which case
it answers `false` with that one error. -/
theorem enterFunction_eval_parameter (s : ScanFunctions) (ast : FunctionNode) (name : String)
    (formals : FormalParameterList) (body : Option (List Statement)) (enterName : Bool) :
    ((s.enterFunction ast name formals body enterName).2.isStrict = true →
      ("eval" ∈ formals.boundNames ∨ "arguments" ∈ formals.boundNames) →
      (s.enterFunction ast name formals body enterName).1 = false ∧
      ScanFunctions.raisedSince s (s.enterFunction ast name formals body enterName).2 ≠ []) ∧
    ((s.enterFunction ast name formals body enterName).2.isStrict = false →
      ((s.enterFunction ast name formals body enterName).1 = true ∧
        ScanFunctions.raisedSince s (s.enterFunction ast name formals body enterName).2 = []) ∨
      ((s.enterFunction ast name formals body enterName).1 = false ∧ enterName = true ∧
        ScanFunctions.raisedSince s (s.enterFunction ast name formals body enterName).2 =
          [alreadyDeclaredError ast.functionToken name]) ∨
      ((s.enterFunction ast name formals body enterName).1 = false ∧
        (!formals.isEmpty && formals.isSimpleParameterList) = false ∧
        ¬ formals.boundNames.Nodup ∧
        ∃ arg, arg ∈ formals.boundNames ∧
          ScanFunctions.raisedSince s (s.enterFunction ast name formals body enterName).2 =
            [duplicateParameterError formals.firstSourceLocation arg])) := by
  have h := ScanFunctions.enterFunction_outcome s ast name formals body enterName
  constructor
  · intro hstrict hbinds
    rcases h with ⟨_, _, _, h4⟩ | ⟨h1, _, h3⟩ | ⟨h1, arg, _, h3, _⟩ | ⟨h1, arg, _, h3, _⟩
    · exfalso
      obtain ⟨h5, h6⟩ := h4 hstrict
      rcases hbinds with hb | hb
      · exact h5 hb
      · exact h6 hb
    · exact ⟨h1, by rw [h3]; simp⟩
    · exact ⟨h1, by rw [h3]; simp⟩
    · exact ⟨h1, by rw [h3]; simp⟩
  · intro hstrict
    rcases h with ⟨h1, h2, _⟩ | ⟨h1, h2, h3⟩ | ⟨h1, arg, h2, h3, h4, h5⟩ | ⟨_, arg, _, _, h4, _⟩
    · exact Or.inl ⟨h1, h2⟩
    · exact Or.inr (Or.inl ⟨h1, h2, h3⟩)
    · refine Or.inr (Or.inr ⟨h1, ?_, h5, arg, h2, h3⟩)
      rcases h4 with h4 | h4
      · rw [hstrict] at h4; cases h4
      · exact h4
    · rw [hstrict] at h4; cases h4

/-- C7, witness: `function f(eval) { 'use strict' }` is rejected. -/
theorem enterFunction_eval_parameter_witness :
    (exSourceScanner.enterFunction (exFunction [exParameter "eval"] [exUseStrict]) "f"
      [exParameter "eval"] (some [exUseStrict]) false).1 = false ∧
    ScanFunctions.raisedSince exSourceScanner
      (exSourceScanner.enterFunction (exFunction [exParameter "eval"] [exUseStrict]) "f"
        [exParameter "eval"] (some [exUseStrict]) false).2 ≠ [] :=
  (enterFunction_eval_parameter exSourceScanner (exFunction [exParameter "eval"] [exUseStrict])
    "f" [exParameter "eval"] (some [exUseStrict]) false).1 (by decide) (Or.inl (by decide))

/-- C7, counterexample to the claim as stated: entering `function f(eval, [a], a) {}`
in a context that is not strict raises an error (the repeated name `a` in a parameter
list that is not simple). -/
theorem enterFunction_eval_parameter_counterexample :
    (exSourceScanner.enterFunction
      (exFunction [exParameter "eval", exPatternParameter "a", exParameter "a"] []) "f"
      [exParameter "eval", exPatternParameter "a", exParameter "a"] (some []) false).2.isStrict
        = false ∧
    (exSourceScanner.enterFunction
      (exFunction [exParameter "eval", exPatternParameter "a", exParameter "a"] []) "f"
      [exParameter "eval", exPatternParameter "a", exParameter "a"] (some []) false).2.errors =
      [duplicateParameterError exToken "a"] := by
  constructor <;> decide

/-! ## C8: repeated parameter names -/

/-- C8 (amended). `enterFunction` raises 'Duplicate parameter name' only if some name
occurs more than once among the names bound by the formal parameter list and the
function context is strict or the list is not simple. When that condition holds,
`enterFunction` answers `false` having raised one error: 'Duplicate parameter name',
or, when it stops before, the clash of the function's own name in the outer context
or the error for a parameter named `eval` or `arguments` in a strict context. In a
context that is not strict, a simple parameter list that repeats a name is accepted:
no 'Duplicate parameter name' is raised, and nothing at all unless the function's own
name clashes. -/
theorem enterFunction_duplicate_parameter (s : ScanFunctions) (ast : FunctionNode)
    (name : String) (formals : FormalParameterList) (body : Option (List Statement))
    (enterName : Bool) :
    ((∃ arg, duplicateParameterError formals.firstSourceLocation arg ∈
        ScanFunctions.raisedSince s (s.enterFunction ast name formals body enterName).2) →
      ¬ formals.boundNames.Nodup ∧
      ((s.enterFunction ast name formals body enterName).2.isStrict = true ∨
        (!formals.isEmpty && formals.isSimpleParameterList) = false)) ∧
    (¬ formals.boundNames.Nodup →
      ((s.enterFunction ast name formals body enterName).2.isStrict = true ∨
        (!formals.isEmpty && formals.isSimpleParameterList) = false) →
      (s.enterFunction ast name formals body enterName).1 = false ∧
      ((∃ arg, arg ∈ formals.boundNames ∧
          ScanFunctions.raisedSince s (s.enterFunction ast name formals body enterName).2 =
            [duplicateParameterError formals.firstSourceLocation arg]) ∨
        (enterName = true ∧
          ScanFunctions.raisedSince s (s.enterFunction ast name formals body enterName).2 =
            [alreadyDeclaredError ast.functionToken name]) ∨
        ((s.enterFunction ast name formals body enterName).2.isStrict = true ∧
          ∃ arg, (arg = "eval" ∨ arg = "arguments") ∧
            ScanFunctions.raisedSince s (s.enterFunction ast name formals body enterName).2 =
              [parameterNameError formals.firstSourceLocation arg]))) ∧
    ((s.enterFunction ast name formals body enterName).2.isStrict = false →
      (!formals.isEmpty && formals.isSimpleParameterList) = true →
      ((s.enterFunction ast name formals body enterName).1 = true ∧
        ScanFunctions.raisedSince s (s.enterFunction ast name formals body enterName).2 = []) ∨
      ((s.enterFunction ast name formals body enterName).1 = false ∧ enterName = true ∧
        ScanFunctions.raisedSince s (s.enterFunction ast name formals body enterName).2 =
          [alreadyDeclaredError ast.functionToken name])) := by
  have h := ScanFunctions.enterFunction_outcome s ast name formals body enterName
  refine ⟨?_, ?_, ?_⟩
  · rintro ⟨a, ha⟩
    rcases h with ⟨_, h2, _⟩ | ⟨_, _, h3⟩ | ⟨_, arg, _, _, h4, h5⟩ | ⟨_, arg, _, h3, _⟩
    · rw [h2] at ha; cases ha
    · rw [h3] at ha
      exact absurd (List.mem_singleton.mp ha)
        (ScanFunctions.duplicate_ne_alreadyDeclared _ _ _ _)
    · exact ⟨h5, h4⟩
    · rw [h3] at ha
      exact absurd (List.mem_singleton.mp ha)
        (ScanFunctions.duplicate_ne_parameterName _ _ _ _)
  · intro hdup hcond
    rcases h with ⟨_, _, h3, _⟩ | ⟨h1, h2, h3⟩ | ⟨h1, arg, h2, h3, _⟩ | ⟨h1, arg, _, h3, h4, h5⟩
    · exact absurd (h3 hcond) hdup
    · exact ⟨h1, Or.inr (Or.inl ⟨h2, h3⟩)⟩
    · exact ⟨h1, Or.inl ⟨arg, h2, h3⟩⟩
    · exact ⟨h1, Or.inr (Or.inr ⟨h4, arg, h5, h3⟩)⟩
  · intro hstrict hsimple
    rcases h with ⟨h1, h2, _⟩ | ⟨h1, h2, h3⟩ | ⟨_, arg, _, _, h4, _⟩ | ⟨_, arg, _, _, h4, _⟩
    · exact Or.inl ⟨h1, h2⟩
    · exact Or.inr ⟨h1, h2, h3⟩
    · rcases h4 with h4 | h4
      · rw [hstrict] at h4; cases h4
      · rw [hsimple] at h4; cases h4
    · rw [hstrict] at h4; cases h4

/-- C8, witness: `function f(a, a) { 'use strict' }` is rejected. -/
theorem enterFunction_duplicate_parameter_witness :
    (exSourceScanner.enterFunction
      (exFunction [exParameter "a", exParameter "a"] [exUseStrict]) "f"
      [exParameter "a", exParameter "a"] (some [exUseStrict]) false).1 = false ∧
    ((∃ arg, arg ∈ FormalParameterList.boundNames [exParameter "a", exParameter "a"] ∧
        ScanFunctions.raisedSince exSourceScanner (exSourceScanner.enterFunction
          (exFunction [exParameter "a", exParameter "a"] [exUseStrict]) "f"
          [exParameter "a", exParameter "a"] (some [exUseStrict]) false).2 =
          [duplicateParameterError
            (FormalParameterList.firstSourceLocation [exParameter "a", exParameter "a"]) arg]) ∨
      (false = true ∧
        ScanFunctions.raisedSince exSourceScanner (exSourceScanner.enterFunction
          (exFunction [exParameter "a", exParameter "a"] [exUseStrict]) "f"
          [exParameter "a", exParameter "a"] (some [exUseStrict]) false).2 =
          [alreadyDeclaredError
            (exFunction [exParameter "a", exParameter "a"] [exUseStrict]).functionToken "f"]) ∨
      ((exSourceScanner.enterFunction
          (exFunction [exParameter "a", exParameter "a"] [exUseStrict]) "f"
          [exParameter "a", exParameter "a"] (some [exUseStrict]) false).2.isStrict = true ∧
        ∃ arg, (arg = "eval" ∨ arg = "arguments") ∧
          ScanFunctions.raisedSince exSourceScanner (exSourceScanner.enterFunction
            (exFunction [exParameter "a", exParameter "a"] [exUseStrict]) "f"
            [exParameter "a", exParameter "a"] (some [exUseStrict]) false).2 =
            [parameterNameError
              (FormalParameterList.firstSourceLocation [exParameter "a", exParameter "a"])
              arg])) :=
  (enterFunction_duplicate_parameter exSourceScanner
    (exFunction [exParameter "a", exParameter "a"] [exUseStrict]) "f"
    [exParameter "a", exParameter "a"] (some [exUseStrict]) false).2.1 (by decide)
    (Or.inl (by decide))

/-- C8, counterexample to the claim as stated: `function f(eval, a, a) { 'use strict' }`
repeats `a` in a strict context, and 'Duplicate parameter name' is not raised: the one
error raised is the one for the parameter `eval`. -/
theorem enterFunction_duplicate_parameter_counterexample :
    ¬ (FormalParameterList.boundNames
        [exParameter "eval", exParameter "a", exParameter "a"]).Nodup ∧
    (exSourceScanner.enterFunction
      (exFunction [exParameter "eval", exParameter "a", exParameter "a"] [exUseStrict]) "f"
      [exParameter "eval", exParameter "a", exParameter "a"] (some [exUseStrict])
      false).2.isStrict = true ∧
    (exSourceScanner.enterFunction
      (exFunction [exParameter "eval", exParameter "a", exParameter "a"] [exUseStrict]) "f"
      [exParameter "eval", exParameter "a", exParameter "a"] (some [exUseStrict])
      false).2.errors = [parameterNameError exToken "eval"] := by
  refine ⟨by decide, by decide, by decide⟩
/-! ## The sweep hands the `with` / direct-eval flags to every ancestor -/

namespace Module.Rel

/-- Read a related pair of contexts from the later module. -/
theorem rel_back {R : Context → Context → Prop} {m m' : Module} (h : Module.Rel R m m')
    {i : Nat} {c' : Context} (hc : m'.context? i = some c') :
    ∃ c, m.context? i = some c ∧ R c c' := by
  have hlt : i < m.contexts.length := h.length ▸ Module.context?_lt hc
  have hex : ∃ c, m.context? i = some c := ⟨m.contexts[i], by
    unfold Module.context?
    exact List.getElem?_eq_getElem hlt⟩
  obtain ⟨c, hci⟩ := hex
  obtain ⟨c2, hc2, hr⟩ := h.context i c hci
  rw [hc] at hc2
  cases hc2
  exact ⟨c, hci, hr⟩

end Module.Rel

namespace Context

theorem widens_refl (c : Context) : c.Widens c := ⟨rfl, id, id⟩

theorem widens_trans (a b c : Context) (h1 : a.Widens b) (h2 : b.Widens c) : a.Widens c :=
  ⟨h2.parent.trans h1.parent, fun h => h2.hasDirectEval (h1.hasDirectEval h),
    fun h => h2.hasWith (h1.hasWith h)⟩

theorem keepsFlags_refl (c : Context) : c.KeepsFlags c := ⟨rfl, rfl, rfl⟩

theorem keepsFlags_trans (a b c : Context) (h1 : a.KeepsFlags b) (h2 : b.KeepsFlags c) :
    a.KeepsFlags c :=
  ⟨h2.parent.trans h1.parent, h2.hasDirectEval.trans h1.hasDirectEval,
    h2.hasWith.trans h1.hasWith⟩

theorem keepsFlags_widens (a b : Context) (h : a.KeepsFlags b) : a.Widens b :=
  ⟨h.parent, fun h1 => h.hasDirectEval.trans h1, fun h1 => h.hasWith.trans h1⟩

end Context

namespace Module

theorem ancestor_snoc {m : Module} {c p q : Nat} {ctx : Context} (h : m.Ancestor c p)
    (hp : m.context? p = some ctx) (hq : ctx.parent = some q) : m.Ancestor c q := by
  induction h with
  | parent c a cc hc ha => exact .up c a q cc hc ha (.parent a q ctx hp hq)
  | up c p2 a cc hc hp2 _ ih => exact .up c p2 q cc hc hp2 (ih hp)

theorem ancestor_trans {m : Module} {c p q : Nat} (h1 : m.Ancestor c p) (h2 : m.Ancestor p q) :
    m.Ancestor c q := by
  induction h2 with
  | parent p a ctx hp ha => exact ancestor_snoc h1 hp ha
  | up p p2 a ctx hp hp2 _ ih => exact ih (ancestor_snoc h1 hp hp2)

theorem path_of_ancestor {m : Module} {c a : Nat} {a0 : Context} (h : m.Ancestor c a)
    (ha : m.context? a = some a0) :
    ∃ ctx p l, m.context? c = some ctx ∧ ctx.parent = some p ∧ m.Path p a l := by
  induction h with
  | parent c a ctx hc hp => exact ⟨ctx, a, [a], hc, hp, .here a a0 ha⟩
  | up c p a ctx hc hp _ ih =>
    obtain ⟨ctx2, p2, l, hc2, hp2, hl⟩ := ih ha
    exact ⟨ctx, p, p :: l, hc, hp, .up p p2 a ctx2 l hc2 hp2 hl⟩

theorem path_lt_length {m : Module} {c a : Nat} {l : List Nat} (h : m.Path c a l) :
    ∀ x ∈ l, x < m.contexts.length := by
  induction h with
  | here a ctx ha =>
    intro x hx
    simp only [List.mem_singleton] at hx
    subst hx
    exact context?_lt ha
  | up c p a ctx l hc _ _ ih =>
    intro x hx
    rcases List.mem_cons.mp hx with rfl | hx
    · exact context?_lt hc
    · exact ih x hx

theorem path_suffix {m : Module} {c a : Nat} {l : List Nat} (h : m.Path c a l) :
    ∀ x ∈ l, ∃ l', m.Path x a l' ∧ l' <:+ l := by
  induction h with
  | here a ctx ha =>
    intro x hx
    simp only [List.mem_singleton] at hx
    subst hx
    exact ⟨[x], .here x ctx ha, List.suffix_refl _⟩
  | up c p a ctx l hc hp hl ih =>
    intro x hx
    rcases List.mem_cons.mp hx with rfl | hx
    · exact ⟨x :: l, .up x p a ctx l hc hp hl, List.suffix_refl _⟩
    · obtain ⟨l', h1, h2⟩ := ih x hx
      exact ⟨l', h1, h2.trans (List.suffix_cons _ _)⟩

/-- A chain can be shortened to one that passes through each context once. -/
theorem path_nodup {m : Module} {c a : Nat} {l : List Nat} (h : m.Path c a l) :
    ∃ l', m.Path c a l' ∧ l'.Nodup := by
  induction h with
  | here a ctx ha => exact ⟨[a], .here a ctx ha, List.nodup_singleton a⟩
  | up c p a ctx l hc hp _ ih =>
    obtain ⟨l', hl', hnd⟩ := ih
    by_cases hmem : c ∈ l'
    · obtain ⟨l2, h1, h2⟩ := path_suffix hl' c hmem
      exact ⟨l2, h1, hnd.sublist h2.sublist⟩
    · exact ⟨c :: l', .up c p a ctx l' hc hp hl', List.nodup_cons.mpr ⟨hmem, hnd⟩⟩

theorem path_short {m : Module} {c a : Nat} {l : List Nat} (h : m.Path c a l) :
    ∃ l', m.Path c a l' ∧ l'.length ≤ m.contexts.length := by
  obtain ⟨l', hl', hnd⟩ := path_nodup h
  refine ⟨l', hl', ?_⟩
  have hsub : l'.toFinset ⊆ Finset.range m.contexts.length := by
    intro x hx
    exact Finset.mem_range.mpr (path_lt_length hl' x (List.mem_toFinset.mp hx))
  have hcard := Finset.card_le_card hsub
  rw [List.toFinset_card_of_nodup hnd, Finset.card_range] at hcard
  exact hcard

theorem path_transfer {m m' : Module} (hrel : Module.Rel Context.Widens m m') {c a : Nat}
    {l : List Nat} (h : m.Path c a l) : m'.Path c a l := by
  induction h with
  | here a ctx ha =>
    obtain ⟨ctx', hc', _⟩ := hrel.context a ctx ha
    exact .here a ctx' hc'
  | up c p a ctx l hc hp _ ih =>
    obtain ⟨ctx', hc', hw⟩ := hrel.context c ctx hc
    exact .up c p a ctx' l hc' (by rw [hw.parent, hp]) ih

theorem flagsStem_refl (m : Module) : m.FlagsStem m :=
  fun a a1 ha => ⟨fun h => ⟨a, a1, Or.inl rfl, ha, h⟩, fun h => ⟨a, a1, Or.inl rfl, ha, h⟩⟩

theorem flagsStem_keeps {m m1 m2 : Module} (hrel : Module.Rel Context.KeepsFlags m1 m2)
    (h : m.FlagsStem m1) : m.FlagsStem m2 := by
  intro a a2 ha
  obtain ⟨a1, ha1, hk⟩ := hrel.rel_back ha
  obtain ⟨h1, h2⟩ := h a a1 ha1
  exact ⟨fun he => h1 (hk.hasDirectEval ▸ he), fun hw => h2 (hk.hasWith ▸ hw)⟩

end Module

namespace ScanFunctions

theorem widens_rel_refl (m : Module) : Module.Rel Context.Widens m m :=
  Module.Rel.rel_reflexive Context.widens_refl m

theorem widens_rel_trans {m1 m2 m3 : Module} (h12 : Module.Rel Context.Widens m1 m2)
    (h23 : Module.Rel Context.Widens m2 m3) : Module.Rel Context.Widens m1 m3 :=
  Module.Rel.rel_transitive Context.widens_trans h12 h23

theorem keepsFlags_rel_refl (m : Module) : Module.Rel Context.KeepsFlags m m :=
  Module.Rel.rel_reflexive Context.keepsFlags_refl m

theorem keepsFlags_rel_trans {m1 m2 m3 : Module} (h12 : Module.Rel Context.KeepsFlags m1 m2)
    (h23 : Module.Rel Context.KeepsFlags m2 m3) : Module.Rel Context.KeepsFlags m1 m3 :=
  Module.Rel.rel_transitive Context.keepsFlags_trans h12 h23

theorem keepsFlags_rel_widens {m m' : Module} (h : Module.Rel Context.KeepsFlags m m') :
    Module.Rel Context.Widens m m' :=
  Module.Rel.rel_mono Context.keepsFlags_widens h

theorem markUse_keepsFlags (inner : Nat) (var : String) (fuel : Nat) (c : Option Nat)
    (m : Module) : Module.Rel Context.KeepsFlags m (markUse inner var fuel c m) := by
  induction fuel generalizing c with
  | zero => unfold markUse; exact keepsFlags_rel_refl m
  | succ fuel ih =>
    cases c with
    | none => unfold markUse; exact keepsFlags_rel_refl m
    | some c =>
      unfold markUse
      split
      · exact keepsFlags_rel_refl m
      · split
        · split
          · exact Module.Rel.rel_modify Context.keepsFlags_refl m c _ fun _ => ⟨rfl, rfl, rfl⟩
          · exact keepsFlags_rel_refl m
        · split
          · split
            · exact Module.Rel.rel_modify Context.keepsFlags_refl m c _ fun _ => ⟨rfl, rfl, rfl⟩
            · exact keepsFlags_rel_refl m
          · exact ih _

theorem markUses_keepsFlags (inner : Nat) (vars : List String) (m : Module) :
    Module.Rel Context.KeepsFlags m
      (vars.foldl (fun acc var => markUse inner var acc.contexts.length (some inner) acc) m) :=
  Module.Rel.rel_foldl Context.keepsFlags_refl Context.keepsFlags_trans _
    (fun acc var => markUse_keepsFlags inner var _ _ acc) vars m

theorem liftArgumentsUse_keepsFlags (m : Module) (inner : Nat) :
    Module.Rel Context.KeepsFlags m (liftArgumentsUse m inner) := by
  unfold liftArgumentsUse
  split
  · exact keepsFlags_rel_refl m
  · split
    · split
      · refine keepsFlags_rel_trans ?_
          (Module.Rel.rel_modify Context.keepsFlags_refl _ _ _ ?_)
        · refine Module.Rel.rel_modify Context.keepsFlags_refl m _ _ ?_
          intro _
          exact ⟨rfl, rfl, rfl⟩
        · intro _
          exact ⟨rfl, rfl, rfl⟩
      · exact keepsFlags_rel_refl m
    · exact keepsFlags_rel_refl m

theorem propagateFlags_widens (inner : Nat) (fuel : Nat) (c : Option Nat) (m : Module) :
    Module.Rel Context.Widens m (propagateFlags inner fuel c m) := by
  induction fuel generalizing c m with
  | zero => unfold propagateFlags; exact widens_rel_refl m
  | succ fuel ih =>
    cases c with
    | none => unfold propagateFlags; exact widens_rel_refl m
    | some c =>
      unfold propagateFlags
      split
      · refine widens_rel_trans ?_ (ih _ _)
        refine Module.Rel.rel_modify Context.widens_refl m c _ ?_
        intro x
        refine ⟨rfl, ?_, ?_⟩
        · intro h; simp [h]
        · intro h; simp [h]
      · exact widens_rel_refl m

theorem sweepInner_widens (m : Module) (inner : Nat) :
    Module.Rel Context.Widens m (sweepInner m inner) := by
  unfold sweepInner
  split
  · exact widens_rel_refl m
  · exact widens_rel_trans
      (widens_rel_trans (keepsFlags_rel_widens (markUses_keepsFlags inner _ m))
        (propagateFlags_widens inner _ _ _))
      (keepsFlags_rel_widens (liftArgumentsUse_keepsFlags _ inner))

theorem applyAllVarsEscape_keepsFlags (all : Bool) (c : Context) :
    c.KeepsFlags (applyAllVarsEscape all c) := by
  unfold applyAllVarsEscape
  split <;> exact ⟨rfl, rfl, rfl⟩

theorem clearGlobalRequirement_keepsFlags (c : Context) :
    c.KeepsFlags (clearGlobalRequirement c) := by
  unfold clearGlobalRequirement
  split <;> exact ⟨rfl, rfl, rfl⟩

theorem requireStrictEval_keepsFlags (c : Context) : c.KeepsFlags (requireStrictEval c) := by
  unfold requireStrictEval
  split <;> exact ⟨rfl, rfl, rfl⟩

theorem settleArgumentsObject_keepsFlags (c : Context) :
    c.KeepsFlags (settleArgumentsObject c) := by
  unfold settleArgumentsObject
  split <;> exact ⟨rfl, rfl, rfl⟩

theorem injectArguments_keepsFlags (c : Context) : c.KeepsFlags (injectArguments c) := by
  unfold injectArguments
  split
  · obtain ⟨ms, hms, _⟩ := addLocalVar_frame c "arguments" .VariableDeclaration .Var none
    simp only [hms]
    split <;> exact ⟨rfl, rfl, rfl⟩
  · exact ⟨rfl, rfl, rfl⟩

theorem escapeAllMembers_keepsFlags (all : Bool) (c : Context) :
    c.KeepsFlags (escapeAllMembers all c) := by
  unfold escapeAllMembers
  split <;> exact ⟨rfl, rfl, rfl⟩

theorem finalizeContext_keepsFlags (debugMode : Bool) (c : Context) :
    c.KeepsFlags (finalizeContext debugMode c) := by
  unfold finalizeContext
  exact Context.keepsFlags_trans _ _ _
    (Context.keepsFlags_trans _ _ _
      (Context.keepsFlags_trans _ _ _
        (Context.keepsFlags_trans _ _ _
          (Context.keepsFlags_trans _ _ _ (applyAllVarsEscape_keepsFlags _ c)
            (clearGlobalRequirement_keepsFlags _))
          (requireStrictEval_keepsFlags _))
        (settleArgumentsObject_keepsFlags _))
      (injectArguments_keepsFlags _))
    (escapeAllMembers_keepsFlags _ _)

theorem sweepContext_keepsFlags (m : Module) (c : Nat) :
    Module.Rel Context.KeepsFlags m (sweepContext m c) :=
  Module.Rel.rel_modify Context.keepsFlags_refl m c _ (finalizeContext_keepsFlags _)

theorem secondLoop_keepsFlags (l : List Nat) (m : Module) :
    Module.Rel Context.KeepsFlags m (l.foldl sweepContext m) :=
  Module.Rel.rel_foldl Context.keepsFlags_refl Context.keepsFlags_trans _
    sweepContext_keepsFlags l m

theorem firstLoop_widens (l : List Nat) (m : Module) :
    Module.Rel Context.Widens m (l.foldl sweepInner m) :=
  Module.Rel.rel_foldl Context.widens_refl Context.widens_trans _ sweepInner_widens l m

theorem propagate_modify_widens (m : Module) (p : Nat) (i : Context) :
    Module.Rel Context.Widens m
      (m.modify p fun x => { x with hasDirectEval := x.hasDirectEval || i.hasDirectEval,
                                    hasWith := x.hasWith || i.hasWith }) := by
  refine Module.Rel.rel_modify Context.widens_refl m p _ ?_
  intro x
  refine ⟨rfl, ?_, ?_⟩
  · intro h; simp [h]
  · intro h; simp [h]

/-- The walk over the ancestors hands the flags of `inner` to every context on the
chain it is started on. -/
theorem propagateFlags_reaches (inner : Nat) (fuel : Nat) :
    ∀ (m : Module) (p a : Nat) (l : List Nat) (i : Context), m.Path p a l → l.length ≤ fuel →
      m.context? inner = some i →
      ∃ a1, (propagateFlags inner fuel (some p) m).context? a = some a1 ∧
        (i.hasDirectEval = true → a1.hasDirectEval = true) ∧
        (i.hasWith = true → a1.hasWith = true) := by
  induction fuel with
  | zero =>
    intro m p a l i hpath hlen _
    cases hpath <;> simp at hlen
  | succ fuel ih =>
    intro m p a l i hpath hlen hi
    have hstep : ∀ ctx, m.context? p = some ctx →
        propagateFlags inner (fuel + 1) (some p) m =
          propagateFlags inner fuel ctx.parent
            (m.modify p fun x => { x with hasDirectEval := x.hasDirectEval || i.hasDirectEval,
                                          hasWith := x.hasWith || i.hasWith }) := by
      intro ctx hctx
      rw [propagateFlags]
      simp only [hi, hctx]
    have hmod := propagate_modify_widens m p i
    cases hpath with
    | here _ ctx ha =>
      rw [hstep ctx ha]
      have hat : (m.modify p fun x =>
          { x with hasDirectEval := x.hasDirectEval || i.hasDirectEval,
                   hasWith := x.hasWith || i.hasWith }).context? p =
          some { ctx with hasDirectEval := ctx.hasDirectEval || i.hasDirectEval,
                          hasWith := ctx.hasWith || i.hasWith } := by
        rw [Module.context?_modify]
        simp [ha]
      obtain ⟨a1, ha1, hw⟩ := (propagateFlags_widens inner fuel ctx.parent _).context p _ hat
      refine ⟨a1, ha1, fun h => hw.hasDirectEval ?_, fun h => hw.hasWith ?_⟩
      · simp [h]
      · simp [h]
    | up _ q _ ctx l2 hc hq hrest =>
      rw [hstep ctx hc, hq]
      obtain ⟨i', hi', hwi⟩ := hmod.context inner i hi
      have hlen2 : l2.length ≤ fuel := by simpa using hlen
      obtain ⟨a1, ha1, h1, h2⟩ := ih _ q a l2 i' (Module.path_transfer hmod hrest) hlen2 hi'
      exact ⟨a1, ha1, fun h => h1 (hwi.hasDirectEval h), fun h => h2 (hwi.hasWith h)⟩

/-- The flags the walk over the ancestors of `inner` sets stem from `inner`. -/
theorem propagateFlags_stem (m0 : Module) (inner : Nat) (hin : inner ∈ m0.order) (fuel : Nat) :
    ∀ (p : Option Nat) (m : Module), Module.Rel Context.Widens m0 m →
      (∀ pp, p = some pp → m0.Ancestor inner pp) → m0.FlagsStem m →
      m0.FlagsStem (propagateFlags inner fuel p m) := by
  induction fuel with
  | zero => intro p m _ _ h; unfold propagateFlags; exact h
  | succ fuel ih =>
    intro p m hrel hanc hstem
    cases p with
    | none => unfold propagateFlags; exact hstem
    | some pp =>
      unfold propagateFlags
      split
      · next i ctx hi hctx =>
        have hmod := propagate_modify_widens m pp i
        have hpp : m0.Ancestor inner pp := hanc pp rfl
        refine ih _ _ (widens_rel_trans hrel hmod) ?_ ?_
        · intro q hq
          obtain ⟨ctx0, hctx0, hw⟩ := hrel.rel_back hctx
          exact Module.ancestor_snoc hpp hctx0 (by rw [← hw.parent, hq])
        · intro a a1 ha
          rw [Module.context?_modify] at ha
          by_cases hpa : pp = a
          · subst hpa
            simp only [if_true, hctx, Option.map_some', Option.some.injEq] at ha
            subst ha
            obtain ⟨hs1, hs2⟩ := hstem pp ctx hctx
            obtain ⟨hi1, hi2⟩ := hstem inner i hi
            have lift : ∀ c, (c = inner ∨ (c ∈ m0.order ∧ m0.Ancestor c inner)) →
                (c = pp ∨ (c ∈ m0.order ∧ m0.Ancestor c pp)) := by
              intro c hc
              rcases hc with rfl | ⟨h1, h2⟩
              · exact Or.inr ⟨hin, hpp⟩
              · exact Or.inr ⟨h1, Module.ancestor_trans h2 hpp⟩
            constructor
            · intro h
              simp only [Bool.or_eq_true] at h
              rcases h with h | h
              · exact hs1 h
              · obtain ⟨c, c0, hc, hc0, hf⟩ := hi1 h
                exact ⟨c, c0, lift c hc, hc0, hf⟩
            · intro h
              simp only [Bool.or_eq_true] at h
              rcases h with h | h
              · exact hs2 h
              · obtain ⟨c, c0, hc, hc0, hf⟩ := hi2 h
                exact ⟨c, c0, lift c hc, hc0, hf⟩
          · simp only [hpa, if_false] at ha
            exact hstem a a1 ha
      · exact hstem

theorem sweepInner_stem (m0 : Module) (m : Module) (inner : Nat) (hin : inner ∈ m0.order)
    (hrel : Module.Rel Context.Widens m0 m) (hstem : m0.FlagsStem m) :
    m0.FlagsStem (sweepInner m inner) := by
  unfold sweepInner
  split
  · exact hstem
  · next ic hic =>
    have h1 := markUses_keepsFlags inner ic.usedVariables m
    refine Module.flagsStem_keeps (liftArgumentsUse_keepsFlags _ inner) ?_
    refine propagateFlags_stem m0 inner hin _ _ _
      (widens_rel_trans hrel (keepsFlags_rel_widens h1)) ?_ (Module.flagsStem_keeps h1 hstem)
    intro pp hpp
    obtain ⟨c0, hc0, hw⟩ := hrel.rel_back hic
    exact .parent inner pp c0 hc0 (by rw [← hw.parent, hpp])

theorem firstLoop_stem (m0 : Module) : ∀ (l : List Nat) (m : Module), (∀ x ∈ l, x ∈ m0.order) →
    Module.Rel Context.Widens m0 m → m0.FlagsStem m → m0.FlagsStem (l.foldl sweepInner m) := by
  intro l
  induction l with
  | nil => intro m _ _ h; exact h
  | cons x l ih =>
    intro m hl hrel hstem
    rw [List.foldl_cons]
    exact ih _ (fun y hy => hl y (List.mem_cons_of_mem _ hy))
      (widens_rel_trans hrel (sweepInner_widens m x))
      (sweepInner_stem m0 m x (hl x (List.mem_cons_self _ _)) hrel hstem)

/-- The first loop, at the context `c` of the map, hands the flags `c` had before the
sweep to the ancestor `a`. -/
theorem sweepInner_reaches (m0 m : Module) (c a : Nat) (c0 a0 : Context)
    (hrel : Module.Rel Context.Widens m0 m) (hanc : m0.Ancestor c a)
    (hc : m0.context? c = some c0) (ha : m0.context? a = some a0) :
    ∃ a1, (sweepInner m c).context? a = some a1 ∧
      (c0.hasDirectEval = true → a1.hasDirectEval = true) ∧
      (c0.hasWith = true → a1.hasWith = true) := by
  obtain ⟨ctx, p, l, hctx, hp, hpath⟩ := Module.path_of_ancestor hanc ha
  rw [hc] at hctx
  cases hctx
  obtain ⟨ic, hic, hwc⟩ := hrel.context c c0 hc
  have h1 := markUses_keepsFlags c ic.usedVariables m
  have hrel1 := widens_rel_trans hrel (keepsFlags_rel_widens h1)
  obtain ⟨l', hpath', hlen⟩ := Module.path_short (Module.path_transfer hrel1 hpath)
  obtain ⟨i1, hi1, hk⟩ := h1.context c ic hic
  obtain ⟨a1, ha1, hf1, hf2⟩ := propagateFlags_reaches c _ _ p a l' i1 hpath' hlen hi1
  obtain ⟨a2, ha2, hk2⟩ := (liftArgumentsUse_keepsFlags _ c).context a a1 ha1
  have hres : sweepInner m c = liftArgumentsUse (propagateFlags c
      (ic.usedVariables.foldl
        (fun acc var => markUse c var acc.contexts.length (some c) acc) m).contexts.length
      ic.parent
      (ic.usedVariables.foldl
        (fun acc var => markUse c var acc.contexts.length (some c) acc) m)) c := by
    unfold sweepInner
    simp only [hic]
  rw [hres, hwc.parent, hp]
  refine ⟨a2, ha2, fun h => ?_, fun h => ?_⟩
  · rw [hk2.hasDirectEval]
    exact hf1 (by rw [hk.hasDirectEval]; exact hwc.hasDirectEval h)
  · rw [hk2.hasWith]
    exact hf2 (by rw [hk.hasWith]; exact hwc.hasWith h)

end ScanFunctions
namespace ScanFunctions

/-- C11. After `calcEscapingVariables`, for a context `c` of the context map and an
ancestor `a` of `c` (parent, grandparent, ...): if the walk left `hasDirectEval` set
on `c` then it is set on `a`, and so for `hasWith`; and in every context `x` in which
one of the flags is set after the sweep, the walk had set that flag on `x` itself or
on a context of the map below `x`. -/
theorem calcEscapingVariables_propagates_flags (m : Module) (c a : Nat) (c0 a0 : Context)
    (hc : c ∈ m.order) (hanc : m.Ancestor c a) (hc0 : m.context? c = some c0)
    (ha0 : m.context? a = some a0) :
    (∃ a1, (calcEscapingVariables m).context? a = some a1 ∧
      (c0.hasDirectEval = true → a1.hasDirectEval = true) ∧
      (c0.hasWith = true → a1.hasWith = true)) ∧
    (∀ x x1, (calcEscapingVariables m).context? x = some x1 →
      (x1.hasDirectEval = true → ∃ d d0, (d = x ∨ (d ∈ m.order ∧ m.Ancestor d x)) ∧
        m.context? d = some d0 ∧ d0.hasDirectEval = true) ∧
      (x1.hasWith = true → ∃ d d0, (d = x ∨ (d ∈ m.order ∧ m.Ancestor d x)) ∧
        m.context? d = some d0 ∧ d0.hasWith = true)) := by
  unfold calcEscapingVariables
  constructor
  · have h1 : ∃ a1, (m.order.foldl sweepInner m).context? a = some a1 ∧
        (c0.hasDirectEval = true → a1.hasDirectEval = true) ∧
        (c0.hasWith = true → a1.hasWith = true) := by
      refine foldl_reaches sweepInner (fun m' => Module.Rel Context.Widens m m')
        (fun m' => ∃ a1, m'.context? a = some a1 ∧
          (c0.hasDirectEval = true → a1.hasDirectEval = true) ∧
          (c0.hasWith = true → a1.hasWith = true))
        (fun m' x hq => widens_rel_trans hq (sweepInner_widens m' x)) ?_ c ?_ m.order hc m
        (widens_rel_refl m)
      · intro m' x _ hp
        obtain ⟨a1, ha1, h1, h2⟩ := hp
        obtain ⟨a2, ha2, hw⟩ := (sweepInner_widens m' x).context a a1 ha1
        exact ⟨a2, ha2, fun h => hw.hasDirectEval (h1 h), fun h => hw.hasWith (h2 h)⟩
      · intro m' hq
        exact sweepInner_reaches m m' c a c0 a0 hq hanc hc0 ha0
    obtain ⟨a1, ha1, hf1, hf2⟩ := h1
    obtain ⟨a2, ha2, hk⟩ := (secondLoop_keepsFlags _ _).context a a1 ha1
    exact ⟨a2, ha2, fun h => by rw [hk.hasDirectEval]; exact hf1 h,
      fun h => by rw [hk.hasWith]; exact hf2 h⟩
  · exact Module.flagsStem_keeps (secondLoop_keepsFlags _ _)
      (firstLoop_stem m m.order m (fun _ h => h) (widens_rel_refl m) (Module.flagsStem_refl m))

end ScanFunctions
/-! ## C12: a Global root never needs a heap frame -/

namespace ScanFunctions

/-- A property every run of the second loop's body puts on a context holds, at the end
of the loop, for every context the loop visits. -/
theorem secondLoop_establishes (P : Context → Prop) (hP : ∀ d y, P (finalizeContext d y))
    (s : Module) (l : List Nat) (c : Nat) (hc : c ∈ l) (y : Context)
    (hy : s.context? c = some y) :
    ∃ x, (l.foldl sweepContext s).context? c = some x ∧ P x := by
  refine foldl_reaches sweepContext (fun t => ∃ y, t.context? c = some y)
    (fun t => ∃ x, t.context? c = some x ∧ P x) ?_ ?_ c ?_ l hc s ⟨y, hy⟩
  · intro t a ⟨z, hz⟩
    obtain ⟨z', hz', _⟩ := (sweepContext_grows t a).context c z hz
    exact ⟨z', hz'⟩
  · intro t a _ ⟨x, hx, hp⟩
    unfold sweepContext
    rw [Module.context?_modify]
    by_cases hac : a = c
    · simp only [hac, if_true, hx, Option.map_some']
      exact ⟨_, rfl, hP _ _⟩
    · simp only [hac, if_false]
      exact ⟨x, hx, hp⟩
  · intro t ⟨z, hz⟩
    unfold sweepContext
    rw [Module.context?_modify]
    simp only [if_true, hz, Option.map_some']
    exact ⟨_, rfl, hP _ _⟩

theorem contextType_requireStrictEval (c : Context) :
    (requireStrictEval c).contextType = c.contextType := by
  unfold requireStrictEval; split <;> rfl

theorem contextType_clearGlobalRequirement (c : Context) :
    (clearGlobalRequirement c).contextType = c.contextType := by
  unfold clearGlobalRequirement; split <;> rfl

theorem contextType_applyAllVarsEscape (all : Bool) (c : Context) :
    (applyAllVarsEscape all c).contextType = c.contextType := by
  unfold applyAllVarsEscape; split <;> rfl

/-- The body of the second loop leaves a Global context without a parent with no
heap-frame requirement, whatever it was before. -/
theorem finalizeContext_global_root (debugMode : Bool) (y : Context) :
    (finalizeContext debugMode y).contextType = .Global →
    (finalizeContext debugMode y).parent = none →
    (finalizeContext debugMode y).requiresExecutionContext = false := by
  intro hg hroot
  have hgrow := finalizeContext_grows debugMode y
  rw [hgrow.contextType] at hg
  rw [hgrow.parent] at hroot
  have huses : (finalizeContext debugMode y).usesArgumentsObject = .ArgumentsObjectNotUsed := by
    rw [finalizeContext_uses]
    unfold settleArgumentsObject
    simp [hroot]
  have h3 : (requireStrictEval (clearGlobalRequirement
      (applyAllVarsEscape (allVarsEscape debugMode y) y))).requiresExecutionContext = false := by
    have hct : (clearGlobalRequirement
        (applyAllVarsEscape (allVarsEscape debugMode y) y)).contextType = .Global := by
      rw [contextType_clearGlobalRequirement, contextType_applyAllVarsEscape, hg]
    have hcl : (clearGlobalRequirement
        (applyAllVarsEscape (allVarsEscape debugMode y) y)).requiresExecutionContext = false := by
      have hat : (applyAllVarsEscape (allVarsEscape debugMode y) y).contextType = .Global := by
        rw [contextType_applyAllVarsEscape, hg]
      unfold clearGlobalRequirement
      simp [hat]
    unfold requireStrictEval
    simp [hct, hcl]
  have huses2 : (settleArgumentsObject (requireStrictEval (clearGlobalRequirement
      (applyAllVarsEscape (allVarsEscape debugMode y) y)))).usesArgumentsObject ≠
      .ArgumentsObjectUsed := by
    rw [uses_settle_after]
    rw [finalizeContext_uses] at huses
    rw [huses]
    decide
  unfold finalizeContext
  dsimp only
  rw [requires_escapeAllMembers, requires_injectArguments, requires_settleArgumentsObject, h3]
  simp [huses2]

/-- C12. After `calcEscapingVariables`, a Global context of the context map that is a
root of the context tree has `requiresExecutionContext = false`, whatever its flags,
whatever inner contexts use of it, and whether debug mode is on or off. -/
theorem calcEscapingVariables_global_no_requirement (m : Module) (c : Nat) (c0 : Context)
    (hc : c ∈ m.order) (hc0 : m.context? c = some c0) (hglobal : c0.contextType = .Global)
    (hroot : c0.parent = none) :
    ∃ c2, (calcEscapingVariables m).context? c = some c2 ∧
      c2.requiresExecutionContext = false := by
  unfold calcEscapingVariables
  have hrel := firstLoop_rel m.order m
  obtain ⟨c1, hc1, hm⟩ := hrel.context c c0 hc0
  have hord : (m.order.foldl sweepInner m).order = m.order :=
    congrArg (List.map Prod.snd) hrel.contextMap
  obtain ⟨x, hx, hp⟩ := secondLoop_establishes
    (fun x => x.contextType = .Global → x.parent = none → x.requiresExecutionContext = false)
    finalizeContext_global_root _ (m.order.foldl sweepInner m).order c (by rw [hord]; exact hc)
    c1 hc1
  obtain ⟨x', hx', hg⟩ := (secondLoop_grows (m.order.foldl sweepInner m).order _).context c c1 hc1
  rw [hx] at hx'
  cases hx'
  refine ⟨x, hx, hp ?_ ?_⟩
  · rw [hg.contextType, hm.grows.contextType, hglobal]
  · rw [hg.parent, hm.grows.parent, hroot]

end ScanFunctions
/-! ## The synthetic `arguments` member -/

namespace ScanFunctions

theorem argumentsCanEscape_escapeAllMembers (all : Bool) (c : Context) :
    (escapeAllMembers all c).argumentsCanEscape = c.argumentsCanEscape := by
  unfold escapeAllMembers; split <;> rfl

theorem argumentsCanEscape_injectArguments (c : Context) :
    (injectArguments c).argumentsCanEscape =
      if c.usesArgumentsObject = .ArgumentsObjectUsed ∧ c.isStrict = false then true
      else c.argumentsCanEscape := by
  unfold injectArguments
  by_cases hu : c.usesArgumentsObject = .ArgumentsObjectUsed
  · obtain ⟨ms, h, _⟩ := addLocalVar_frame c "arguments" .VariableDeclaration .Var none
    simp only [hu, if_true, true_and]
    rw [h]
    split <;> rfl
  · simp [hu]

theorem argumentsCanEscape_settleArgumentsObject (c : Context) :
    (settleArgumentsObject c).argumentsCanEscape = c.argumentsCanEscape := by
  unfold settleArgumentsObject; split <;> rfl

theorem members_settleArgumentsObject (c : Context) :
    (settleArgumentsObject c).members = c.members := by
  unfold settleArgumentsObject; split <;> rfl

theorem members_requireStrictEval (c : Context) :
    (requireStrictEval c).members = c.members := by
  unfold requireStrictEval; split <;> rfl

theorem members_clearGlobalRequirement (c : Context) :
    (clearGlobalRequirement c).members = c.members := by
  unfold clearGlobalRequirement; split <;> rfl

theorem members_applyAllVarsEscape (all : Bool) (c : Context) :
    (applyAllVarsEscape all c).members = c.members := by
  unfold applyAllVarsEscape; split <;> rfl

/-- The injection registers `arguments` as a var-scoped variable declaration in a
context that has no member of that name. -/
theorem memberInfo_injectArguments_fresh (c : Context)
    (hu : c.usesArgumentsObject = .ArgumentsObjectUsed)
    (hn : c.memberInfo "arguments" = none) :
    ∃ mem, (injectArguments c).memberInfo "arguments" = some mem ∧
      mem.type = .VariableDeclaration ∧ mem.scope = .Var := by
  have hadd : (c.addLocalVar "arguments" .VariableDeclaration .Var).2 =
      { c with members := c.members ++
        [("arguments", { type := .VariableDeclaration, scope := .Var, canEscape := false,
                         function := none })] } := by
    unfold Context.memberInfo at hn
    unfold Context.addLocalVar
    simp only [hn]
  have hlook : (c.members ++
        [("arguments", ({ type := .VariableDeclaration, scope := .Var, canEscape := false,
                          function := none } : Member))]).lookup "arguments" =
      some { type := .VariableDeclaration, scope := .Var, canEscape := false,
             function := none } := by
    unfold Context.memberInfo at hn
    rw [List.lookup_append, hn]
    simp [List.lookup]
  unfold injectArguments
  simp only [hu, if_true, hadd]
  split
  · exact ⟨_, hlook, rfl, rfl⟩
  · exact ⟨_, hlook, rfl, rfl⟩

/-- The last statement of the second loop's body keeps the kind and the scope of every
member. -/
theorem memberInfo_escapeAllMembers (all : Bool) (c : Context) (n : String) (mem : Member)
    (h : c.memberInfo n = some mem) :
    ∃ mem', (escapeAllMembers all c).memberInfo n = some mem' ∧ mem'.type = mem.type ∧
      mem'.scope = mem.scope := by
  unfold escapeAllMembers
  split
  · rw [Context.memberInfo_markAllEscaping, h]
    exact ⟨_, rfl, rfl, rfl⟩
  · exact ⟨mem, h, rfl, rfl⟩

/-- What the body of the second loop does to a context that ends up using the
arguments object. -/
theorem finalizeContext_arguments_used (debugMode : Bool) (y : Context)
    (hu : (finalizeContext debugMode y).usesArgumentsObject = .ArgumentsObjectUsed) :
    (y.memberInfo "arguments" = none →
      ∃ mem, (finalizeContext debugMode y).memberInfo "arguments" = some mem ∧
        mem.type = .VariableDeclaration ∧ mem.scope = .Var) ∧
    ((finalizeContext debugMode y).isStrict = false →
      (finalizeContext debugMode y).argumentsCanEscape = true ∧
      (finalizeContext debugMode y).requiresExecutionContext = true) := by
  have hstrict : (finalizeContext debugMode y).isStrict = y.isStrict :=
    (finalizeContext_grows debugMode y).isStrict
  rw [hstrict]
  have hu4 : (settleArgumentsObject (requireStrictEval (clearGlobalRequirement
      (applyAllVarsEscape (allVarsEscape debugMode y) y)))).usesArgumentsObject =
      .ArgumentsObjectUsed := by
    rw [uses_settle_after]
    rw [finalizeContext_uses] at hu
    exact hu
  have hs4 : (settleArgumentsObject (requireStrictEval (clearGlobalRequirement
      (applyAllVarsEscape (allVarsEscape debugMode y) y)))).isStrict = y.isStrict :=
    ((Context.grows_trans _ _ _ (Context.grows_trans _ _ _ (Context.grows_trans _ _ _
      (applyAllVarsEscape_grows _ y) (clearGlobalRequirement_grows _))
      (requireStrictEval_grows _)) (settleArgumentsObject_grows _))).isStrict
  have hm4 : (settleArgumentsObject (requireStrictEval (clearGlobalRequirement
      (applyAllVarsEscape (allVarsEscape debugMode y) y)))).members = y.members := by
    rw [members_settleArgumentsObject, members_requireStrictEval,
      members_clearGlobalRequirement, members_applyAllVarsEscape]
  unfold finalizeContext
  dsimp only
  generalize settleArgumentsObject (requireStrictEval (clearGlobalRequirement
      (applyAllVarsEscape (allVarsEscape debugMode y) y))) = y4 at hu4 hs4 hm4
  constructor
  · intro hn
    have hn4 : y4.memberInfo "arguments" = none := by
      unfold Context.memberInfo at hn ⊢
      rw [hm4]
      exact hn
    obtain ⟨mem, hmem, ht, hsc⟩ := memberInfo_injectArguments_fresh y4 hu4 hn4
    obtain ⟨mem', hmem', ht', hsc'⟩ := memberInfo_escapeAllMembers
      (allVarsEscape debugMode y) _ _ mem hmem
    exact ⟨mem', hmem', ht'.trans ht, hsc'.trans hsc⟩
  · intro hs
    rw [argumentsCanEscape_escapeAllMembers, requires_escapeAllMembers,
      argumentsCanEscape_injectArguments, requires_injectArguments]
    simp [hu4, hs4, hs]

theorem commute_applyAllVarsEscape (all : Bool) (y : Context) (u : UsesArgumentsObject) :
    applyAllVarsEscape all { y with usesArgumentsObject := u } =
      { applyAllVarsEscape all y with usesArgumentsObject := u } := by
  unfold applyAllVarsEscape; split <;> rfl

theorem commute_clearGlobalRequirement (y : Context) (u : UsesArgumentsObject) :
    clearGlobalRequirement { y with usesArgumentsObject := u } =
      { clearGlobalRequirement y with usesArgumentsObject := u } := by
  unfold clearGlobalRequirement; split <;> rfl

theorem commute_requireStrictEval (y : Context) (u : UsesArgumentsObject) :
    requireStrictEval { y with usesArgumentsObject := u } =
      { requireStrictEval y with usesArgumentsObject := u } := by
  unfold requireStrictEval; split <;> rfl

/-- In a strict context the two escape flags come out of the body of the second loop
as they would, had the context not used the arguments object. -/
theorem finalizeContext_strict_flags (debugMode : Bool) (y : Context)
    (hs : y.isStrict = true) :
    (finalizeContext debugMode y).argumentsCanEscape =
      (finalizeContext debugMode
        { y with usesArgumentsObject := .ArgumentsObjectNotUsed }).argumentsCanEscape ∧
    (finalizeContext debugMode y).requiresExecutionContext =
      (finalizeContext debugMode
        { y with usesArgumentsObject := .ArgumentsObjectNotUsed }).requiresExecutionContext := by
  have key : ∀ (all : Bool) (z : Context), z.isStrict = true →
      (escapeAllMembers all (injectArguments (settleArgumentsObject z))).argumentsCanEscape =
        z.argumentsCanEscape ∧
      (escapeAllMembers all (injectArguments
        (settleArgumentsObject z))).requiresExecutionContext = z.requiresExecutionContext := by
    intro all z hz
    have hn : ¬ ((settleArgumentsObject z).usesArgumentsObject = .ArgumentsObjectUsed ∧
        (settleArgumentsObject z).isStrict = false) := by
      intro h
      rw [isStrict_settleArgumentsObject, hz] at h
      exact Bool.noConfusion h.2
    rw [argumentsCanEscape_escapeAllMembers, requires_escapeAllMembers,
      argumentsCanEscape_injectArguments, requires_injectArguments, if_neg hn, if_neg hn,
      argumentsCanEscape_settleArgumentsObject, requires_settleArgumentsObject]
    exact ⟨rfl, rfl⟩
  have hs3 : (requireStrictEval (clearGlobalRequirement
      (applyAllVarsEscape (allVarsEscape debugMode y) y))).isStrict = true :=
    ((Context.grows_trans _ _ _ (Context.grows_trans _ _ _
      (applyAllVarsEscape_grows _ y) (clearGlobalRequirement_grows _))
      (requireStrictEval_grows _))).isStrict.trans hs
  have hR : requireStrictEval (clearGlobalRequirement
      (applyAllVarsEscape (allVarsEscape debugMode y)
        { y with usesArgumentsObject := .ArgumentsObjectNotUsed })) =
      { requireStrictEval (clearGlobalRequirement
          (applyAllVarsEscape (allVarsEscape debugMode y) y)) with
        usesArgumentsObject := .ArgumentsObjectNotUsed } :=
    (congrArg requireStrictEval (congrArg clearGlobalRequirement
      (commute_applyAllVarsEscape _ y .ArgumentsObjectNotUsed))).trans
      ((congrArg requireStrictEval (commute_clearGlobalRequirement _ .ArgumentsObjectNotUsed)).trans
        (commute_requireStrictEval _ .ArgumentsObjectNotUsed))
  have hL : finalizeContext debugMode y = escapeAllMembers (allVarsEscape debugMode y)
      (injectArguments (settleArgumentsObject (requireStrictEval (clearGlobalRequirement
        (applyAllVarsEscape (allVarsEscape debugMode y) y))))) := rfl
  have hR2 : finalizeContext debugMode { y with usesArgumentsObject := .ArgumentsObjectNotUsed } =
      escapeAllMembers (allVarsEscape debugMode y)
        (injectArguments (settleArgumentsObject (requireStrictEval (clearGlobalRequirement
          (applyAllVarsEscape (allVarsEscape debugMode y)
            { y with usesArgumentsObject := .ArgumentsObjectNotUsed }))))) := rfl
  rw [hR] at hR2
  rw [hR2, hL]
  generalize requireStrictEval (clearGlobalRequirement
      (applyAllVarsEscape (allVarsEscape debugMode y) y)) = y3 at hs3
  have k1 := key (allVarsEscape debugMode y) y3 hs3
  have k2 := key (allVarsEscape debugMode y)
    { y3 with usesArgumentsObject := .ArgumentsObjectNotUsed } hs3
  exact ⟨k1.1.trans k2.1.symm, k1.2.trans k2.2.symm⟩

/-- The synthetic member where nothing stands in its way. After `calcEscapingVariables`,
for a context `c` of the context map (the map files every context once) whose
`usesArgumentsObject` is Used: when `c` had neither a member nor a formal parameter
named `arguments` before the sweep, it has a member `arguments` registered as a
var-scoped VariableDeclaration; if `c` is not strict, `argumentsCanEscape` and
`requiresExecutionContext` are true; if `c` is strict, the two flags are what the sweep
would have made them, had `c` not used the arguments object. -/
theorem calcEscapingVariables_arguments_used (m : Module) (c : Nat) (c0 c2 : Context)
    (hc : c ∈ m.order) (hnodup : m.order.Nodup) (hc0 : m.context? c = some c0)
    (hc2 : (calcEscapingVariables m).context? c = some c2)
    (hused : c2.usesArgumentsObject = .ArgumentsObjectUsed) :
    (c0.memberInfo "arguments" = none → c0.formals.containsName "arguments" = false →
      ∃ mem, c2.memberInfo "arguments" = some mem ∧ mem.type = .VariableDeclaration ∧
        mem.scope = .Var) ∧
    (c2.isStrict = false →
      c2.argumentsCanEscape = true ∧ c2.requiresExecutionContext = true) ∧
    (c2.isStrict = true →
      ∃ c1, (m.order.foldl sweepInner m).context? c = some c1 ∧
        c2.argumentsCanEscape = (finalizeContext m.debugMode
          { c1 with usesArgumentsObject := .ArgumentsObjectNotUsed }).argumentsCanEscape ∧
        c2.requiresExecutionContext = (finalizeContext m.debugMode
          { c1 with usesArgumentsObject := .ArgumentsObjectNotUsed }).requiresExecutionContext) := by
  have hrel := firstLoop_rel m.order m
  obtain ⟨c1, hc1, hm⟩ := hrel.context c c0 hc0
  have hord : (m.order.foldl sweepInner m).order = m.order :=
    congrArg (List.map Prod.snd) hrel.contextMap
  have hfin : c2 = finalizeContext m.debugMode c1 := by
    unfold calcEscapingVariables at hc2
    dsimp only at hc2
    rw [secondLoop_exact _ _ _ (by rw [hord]; exact hnodup), hord, if_pos hc, hc1,
      hrel.debugMode] at hc2
    simpa using hc2.symm
  subst hfin
  obtain ⟨h1, h2⟩ := finalizeContext_arguments_used m.debugMode c1 hused
  refine ⟨fun hn _ => h1 ?_, h2, fun hs => ⟨c1, hc1, ?_⟩⟩
  · have := Context.marks_memberInfo_isSome hm "arguments"
    rw [hn] at this
    cases hx : c1.memberInfo "arguments" with
    | none => rfl
    | some _ => rw [hx] at this; simp at this
  · exact finalizeContext_strict_flags m.debugMode c1
      (((finalizeContext_grows m.debugMode c1).isStrict).symm.trans hs)

end ScanFunctions

/-! ## The statements at sample inputs -/

/-- C1, witness of the amended statement: in `exModule` the use of `x` in `g` marks the
member `x` of `f` and makes `f` require a heap frame. -/
theorem calcEscapingVariables_marks_outer_uses_witness :
    ∃ ctxD', (ScanFunctions.calcEscapingVariables exModule).context? 1 = some ctxD' ∧
      ((exOuterContext.memberInfo "x").isSome →
        ∃ mem, ctxD'.memberInfo "x" = some mem ∧ mem.canEscape = true) ∧
      (exOuterContext.memberInfo "x" = none → ctxD'.argumentsCanEscape = true) ∧
      (ctxD'.contextType ≠ .Global → ctxD'.requiresExecutionContext = true) :=
  (calcEscapingVariables_marks_outer_uses exModule 2 1 "x" exInnerContext exOuterContext
    (by decide) rfl (by decide)
    (.up 2 1 1 exInnerContext rfl rfl rfl (.here 1 exOuterContext rfl rfl)) rfl).1 (by decide)

/-- C1, counterexample to the claim read on the graph after the sweep: after the
resolver has run on `function f() { { arguments; } }`, the block (context 2) uses
`arguments`, the nearest context on its chain that has `arguments` as a member is the
function (context 1, which received the synthetic member), and that member does not
have `canEscape` set. -/
theorem calcEscapingVariables_marks_outer_uses_counterexample :
    2 ∈ (ScanFunctions.run {} exProgramBlockArguments).module.order ∧
    ((ScanFunctions.run {} exProgramBlockArguments).module.context? 2).map
      (fun c => c.usedVariables) = some ["arguments"] ∧
    NearestDeclaring (ScanFunctions.run {} exProgramBlockArguments).module "arguments" 2 1 ∧
    (((ScanFunctions.run {} exProgramBlockArguments).module.context? 1).bind
      (fun c => c.memberInfo "arguments")).map (fun mem => mem.canEscape) = some false := by
  refine ⟨by decide, by decide, ?_, by decide⟩
  exact .up 2 1 1 _ rfl (by decide) rfl (.here 1 _ rfl (by decide))

/-- C2, witness: in `exModule` the function `f` contains a `try` statement, and its
member `x` escapes after the sweep. -/
theorem calcEscapingVariables_all_members_escape_witness :
    ∃ c2, (ScanFunctions.calcEscapingVariables exModule).context? 1 = some c2 ∧
      ((c2.hasWith = true ∨ c2.hasTry = true ∨ c2.hasDirectEval = true) →
        ¬ (c2.contextType = .Block ∧ c2.members = []) →
        ∀ n mem, (n, mem) ∈ c2.members → mem.canEscape = true) :=
  calcEscapingVariables_all_members_escape exModule 1 exOuterContext (by decide) rfl
    (fun h => absurd h (by decide))

/-- C3, counterexample to the claim as stated: after the resolver has run on
`function f() { try {} finally {} }`, no context uses any name, yet the context of
`f` (context 1) requires a heap frame. -/
theorem calcEscapingVariables_no_spurious_requirement_counterexample :
    (ScanFunctions.run {} exProgramTry).module.contexts.map (fun c => c.usedVariables) =
      [[], [], [], []] ∧
    ((ScanFunctions.run {} exProgramTry).module.context? 1).map
      (fun c => (c.contextType, c.requiresExecutionContext)) = some (.Function, true) := by
  constructor <;> decide

/-- C5, the code at the failing input: after the resolver has run on
`function f() { var arguments; { arguments; } }`, the context of `f` (context 1) has
`usesArgumentsObject = Used`, with the escape and heap-frame consequences of the
synthetic binding; the same holds for `function f(arguments) { { arguments; } }`, where
the synthetic member is registered next to the parameter; whereas for
`function f() { var arguments; arguments; }`, where the reference is not inside a
block, the context of `f` ends with `usesArgumentsObject = NotUsed`. -/
theorem run_arguments_shadowed_in_block :
    ((ScanFunctions.run {} exProgramShadowedInBlock).module.context? 1).map
      (fun c => (c.usesArgumentsObject, c.argumentsCanEscape, c.requiresExecutionContext)) =
      some (.ArgumentsObjectUsed, true, true) ∧
    ((ScanFunctions.run {} exProgramParameterInBlock).module.context? 1).map
      (fun c => (c.usesArgumentsObject, c.arguments, c.members.map Prod.fst)) =
      some (.ArgumentsObjectUsed, ["arguments"], ["f", "arguments"]) ∧
    ((ScanFunctions.run {} exProgramShadowed).module.context? 1).map
      (fun c => (c.usesArgumentsObject, c.argumentsCanEscape, c.requiresExecutionContext)) =
      some (.ArgumentsObjectNotUsed, false, false) := by
  refine ⟨by decide, by decide, by decide⟩

/-- C9, counterexample to the claim as stated: the walk over
`function f(let) { 'use strict' }` makes the context of `f` strict with the formal
parameter `let`, and raises no error. -/
theorem reserved_word_raised_iff_counterexample :
    ((ScanFunctions.acceptProgram exFreshScanner exProgramReservedParameter).module.context?
      1).map (fun c => (c.isStrict, c.arguments)) = some (true, ["let"]) ∧
    (ScanFunctions.acceptProgram exFreshScanner exProgramReservedParameter).errors = [] := by
  constructor <;> decide

/-- C10, witness: a `with` statement in a strict context. -/
theorem visitWithStatement_strict_rejected_witness :
    ((exScanner (exEmptyContext true)).visitWithStatement exToken).1 = false ∧
    ((exScanner (exEmptyContext true)).visitWithStatement exToken).2.errors =
      (exScanner (exEmptyContext true)).errors ++
        [⟨exToken, "'with' statement is not allowed in strict mode"⟩] ∧
    ((exScanner (exEmptyContext true)).visitWithStatement exToken).2.module =
      (exScanner (exEmptyContext true)).module ∧
    ∀ expression statement,
      ScanFunctions.acceptStatement (.WithStatement exToken expression statement)
          (exScanner (exEmptyContext true)) =
        ((exScanner (exEmptyContext true)).visitWithStatement exToken).2 :=
  (visitWithStatement_strict_rejected (exScanner (exEmptyContext true)) exToken
    (exEmptyContext true) rfl).1 rfl

/-- C3, witness of the amended statement: after the resolver has run on
`function f() { var arguments; arguments; }` nothing asks for a heap frame for `f`. -/
theorem run_no_spurious_requirement_witness :
    ∃ c2, (ScanFunctions.run {} exProgramShadowed).module.context? 1 = some c2 ∧
      ((c2.contextType = .Global ∨
          ((ScanFunctions.acceptProgram {} exProgramShadowed).module.debugMode = false ∧
          ((c2.hasWith = false ∧ c2.hasTry = false ∧ c2.hasDirectEval = false) ∨
            (c2.contextType = .Block ∧ exWalkedShadowed.members = [])))) →
        ¬ (c2.contextType = .Eval ∧ c2.isStrict = true) →
        (c2.usesArgumentsObject ≠ .ArgumentsObjectUsed ∨ c2.isStrict = true) →
        c2.requiresExecutionContext = false) :=
  run_no_spurious_requirement {} exProgramShadowed 1 exWalkedShadowed
    (fun _ hx => nomatch hx) (by decide) rfl
    (by
      intro I ctxI v hI hctx hv _
      have hord : (ScanFunctions.acceptProgram {} exProgramShadowed).module.order = [0, 1] := by
        decide
      rw [hord] at hI
      have hI' : I = 0 ∨ I = 1 := by simpa using hI
      rcases hI' with h | h
      · subst h
        have h0 : ((ScanFunctions.acceptProgram {} exProgramShadowed).module.context? 0).map
            (fun c => c.usedVariables) = some [] := by decide
        rw [hctx] at h0
        simp only [Option.map_some', Option.some.injEq] at h0
        rw [h0] at hv
        cases hv
      · exact h)
/-! ## C14: direct calls of `eval` -/

namespace ScanFunctions

theorem current_noteArgumentCount (s : ScanFunctions) (argc : Int) (c : Context)
    (hc : s.current = some c) :
    ∃ c', (s.noteArgumentCount argc).current = some c' ∧
      c'.hasDirectEval = c.hasDirectEval ∧ c'.usesArgumentsObject = c.usesArgumentsObject := by
  rw [noteArgumentCount_current, hc]
  exact ⟨_, rfl, rfl, rfl⟩

/-- C14 (amended). After `visit(CallExpression *)` in a state with a current context:
when the callee is the bare identifier `eval`, the current context has
`hasDirectEval = true`, its `usesArgumentsObject` is Used when the flag was clear and
the tri-state was Unknown before, and is what it was before otherwise; with any other
callee both are what they were before. -/
theorem visitCallExpression_direct_eval (s : ScanFunctions) (base : ExpressionNode)
    (arguments : List ExpressionNode) (c : Context) (hcur : s.current = some c) :
    ∃ c', (s.visitCallExpression base arguments).2.current = some c' ∧
      ((∃ t, base = .IdentifierExpression "eval" t) →
        c'.hasDirectEval = true ∧
        (c.hasDirectEval = false → c.usesArgumentsObject = .ArgumentsObjectUnknown →
          c'.usesArgumentsObject = .ArgumentsObjectUsed) ∧
        (c.hasDirectEval = true ∨ c.usesArgumentsObject ≠ .ArgumentsObjectUnknown →
          c'.usesArgumentsObject = c.usesArgumentsObject)) ∧
      ((∀ t, base ≠ .IdentifierExpression "eval" t) →
        c'.hasDirectEval = c.hasDirectEval ∧
        c'.usesArgumentsObject = c.usesArgumentsObject) := by
  have hinner : ∃ (s2 : ScanFunctions) (c2 : Context), (s.visitCallExpression base arguments).2 =
        s2.noteArgumentCount arguments.length ∧ s2.current = some c2 ∧
      ((∃ t, base = .IdentifierExpression "eval" t) →
        c2.hasDirectEval = true ∧
        (c.hasDirectEval = false → c.usesArgumentsObject = .ArgumentsObjectUnknown →
          c2.usesArgumentsObject = .ArgumentsObjectUsed) ∧
        (c.hasDirectEval = true ∨ c.usesArgumentsObject ≠ .ArgumentsObjectUnknown →
          c2.usesArgumentsObject = c.usesArgumentsObject)) ∧
      ((∀ t, base ≠ .IdentifierExpression "eval" t) →
        c2.hasDirectEval = c.hasDirectEval ∧
        c2.usesArgumentsObject = c.usesArgumentsObject) := by
    by_cases hde : c.hasDirectEval = true
    · refine ⟨s, c, ?_, hcur, fun _ => ⟨hde, fun h => ?_, fun _ => rfl⟩, fun _ => ⟨rfl, rfl⟩⟩
      · unfold visitCallExpression
        simp only [hcur, hde, Bool.not_true, Bool.false_eq_true, if_false]
      · rw [hde] at h
        exact Bool.noConfusion h
    · have hde' : c.hasDirectEval = false := by simpa using hde
      by_cases hb : ∃ t, base = .IdentifierExpression "eval" t
      · obtain ⟨t, rfl⟩ := hb
        refine ⟨(s.modifyContext fun c =>
          if c.usesArgumentsObject = UsesArgumentsObject.ArgumentsObjectUnknown then
            { c with usesArgumentsObject := .ArgumentsObjectUsed } else c).modifyContext
          fun c => { c with hasDirectEval := true },
          { (if c.usesArgumentsObject = UsesArgumentsObject.ArgumentsObjectUnknown then
            { c with usesArgumentsObject := .ArgumentsObjectUsed } else c) with
            hasDirectEval := true }, ?_, ?_, ?_, ?_⟩
        · unfold visitCallExpression
          simp only [hcur, hde', Bool.not_false, if_true]
        · rw [current_modifyContext, current_modifyContext, hcur]
          rfl
        · intro _
          refine ⟨rfl, fun _ hu => ?_, fun h => ?_⟩
          · simp [hu]
          · rcases h with h | h
            · exact absurd h hde
            · simp [h]
        · intro h
          exact absurd rfl (h t)
      · refine ⟨s, c, ?_, hcur, fun h => absurd h hb, fun _ => ⟨rfl, rfl⟩⟩
        unfold visitCallExpression
        simp only [hcur, hde', Bool.not_false, if_true]
        cases base with
        | IdentifierExpression name t =>
          by_cases hn : name = "eval"
          · exact absurd ⟨t, by rw [hn]⟩ hb
          · simp only [hn, if_false]
        | _ => rfl
  obtain ⟨s2, c2, hres, hc2, hp1, hp2⟩ := hinner
  obtain ⟨c', hc', h1, h2⟩ := current_noteArgumentCount s2 arguments.length c2 hc2
  rw [hres]
  refine ⟨c', hc', fun hb => ?_, fun hb => ?_⟩
  · obtain ⟨q1, q2, q3⟩ := hp1 hb
    exact ⟨h1.trans q1, fun ha hu => h2.trans (q2 ha hu), fun h => h2.trans (q3 h)⟩
  · obtain ⟨q1, q2⟩ := hp2 hb
    exact ⟨h1.trans q1, h2.trans q2⟩

end ScanFunctions
/-! ## C15: what the visitor does after it has raised a static error -/

namespace ScanFunctions

@[simp] theorem contextStack_throwSyntaxError (s : ScanFunctions) (loc : SourceLocation)
    (detail : String) : (s.throwSyntaxError loc detail).contextStack = s.contextStack :=
  rfl

@[simp] theorem contextStack_modifyContext (s : ScanFunctions) (f : Context → Context) :
    (s.modifyContext f).contextStack = s.contextStack := by
  unfold modifyContext
  split <;> rfl

@[simp] theorem contextStack_modifyAt (s : ScanFunctions) (o : Nat) (f : Context → Context) :
    (s.modifyAt o f).contextStack = s.contextStack :=
  rfl

@[simp] theorem contextStack_addLocalVarAt (s : ScanFunctions) (o : Nat) (name : String)
    (type : MemberType) (scope : VariableScope) (function : Option Nat) :
    (s.addLocalVarAt o name type scope function).2.contextStack = s.contextStack := by
  unfold addLocalVarAt
  split <;> rfl

@[simp] theorem contextStack_addLocalVar (s : ScanFunctions) (name : String)
    (type : MemberType) (scope : VariableScope) (function : Option Nat) :
    (s.addLocalVar name type scope function).2.contextStack = s.contextStack := by
  unfold addLocalVar
  split
  · exact contextStack_modifyContext _ _
  · rfl

@[simp] theorem contextStack_checkDirectivePrologue (s : ScanFunctions) (l : List Statement) :
    (s.checkDirectivePrologue l).contextStack = s.contextStack := by
  induction s, l using checkDirectivePrologue.induct with
  | case1 s => simp [checkDirectivePrologue]
  | case2 s tok loc rest h ih => simp [checkDirectivePrologue, h, ih]
  | case3 s tok loc rest h1 h2 ih => simp [checkDirectivePrologue, h1, h2, ih]
  | case4 s tok loc rest h1 h2 ih => simp [checkDirectivePrologue, h1, h2, ih]
  | case5 s st rest h =>
    unfold checkDirectivePrologue
    split
    · rfl
    · next heq =>
      cases heq
      exact absurd rfl (h _ _)
    · rfl

@[simp] theorem contextStack_prepareFunctionContext (s : ScanFunctions) (ast : FunctionNode)
    (name : String) (formals : FormalParameterList) (body : Option (List Statement)) :
    (prepareFunctionContext s ast name formals body).contextStack = s.contextStack := by
  have h1 : ∀ t : ScanFunctions, (setArguments t formals).contextStack = t.contextStack := by
    intro t; simp [setArguments]
  have h2 : ∀ t : ScanFunctions, (checkBodyDirectives t body).contextStack = t.contextStack := by
    intro t; unfold checkBodyDirectives; split <;> (try split) <;> simp
  have h3 : ∀ t : ScanFunctions, (setFormals t formals).contextStack = t.contextStack := by
    intro t; simp [setFormals]
  have h4 : ∀ t : ScanFunctions, (bindOwnName t name formals).contextStack = t.contextStack := by
    intro t; unfold bindOwnName; split <;> simp
  have h5 : ∀ t : ScanFunctions, (noteFunctionKind t ast).contextStack = t.contextStack := by
    intro t; unfold noteFunctionKind; split <;> (try split) <;> simp
  have h6 : ∀ t : ScanFunctions,
      (noteArgumentsParameter t formals).contextStack = t.contextStack := by
    intro t; unfold noteArgumentsParameter; split <;> simp
  have h7 : ∀ t : ScanFunctions, (setFunctionName t name).contextStack = t.contextStack := by
    intro t; simp [setFunctionName]
  unfold prepareFunctionContext
  rw [h1, h2, h3, h4, h5, h6, h7]

@[simp] theorem contextStack_enterFunctionOuter (s : ScanFunctions) (o : Nat)
    (ast : FunctionNode) (name : String) (enterName : Bool) :
    (s.enterFunctionOuter o ast name enterName).2.contextStack = s.contextStack := by
  unfold enterFunctionOuter
  dsimp only
  split_ifs <;> simp

@[simp] theorem contextStack_checkParameters (formals : FormalParameterList) (simple : Bool)
    (names : List String) (st : ScanFunctions) :
    (checkParameters formals simple names st).2.contextStack = st.contextStack := by
  induction names generalizing st with
  | nil => rfl
  | cons arg later ih =>
    unfold checkParameters
    dsimp only
    have h : (checkParameter st formals simple arg later).2.contextStack = st.contextStack := by
      unfold checkParameter
      dsimp only
      split_ifs <;> simp
    split
    · rw [ih, h]
    · exact h

theorem contextStack_enterEnvironment (s : ScanFunctions) (node : Nat) (t : ContextType) :
    ∃ i, (s.enterEnvironment node t).contextStack = i :: s.contextStack := by
  unfold enterEnvironment
  split
  exact ⟨_, rfl⟩

/-- `enterFunction` leaves the environment of the function entered, whichever way it
ends. -/
theorem contextStack_enterFunction (s : ScanFunctions) (ast : FunctionNode) (name : String)
    (formals : FormalParameterList) (body : Option (List Statement)) (enterName : Bool) :
    ∃ i, (s.enterFunction ast name formals body enterName).2.contextStack =
      i :: s.contextStack := by
  obtain ⟨i, hi⟩ := contextStack_enterEnvironment s ast.id .Function
  refine ⟨i, ?_⟩
  unfold enterFunction
  dsimp only
  cases s.context with
  | none => simp [hi]
  | some o =>
    simp only
    split
    · simp [hi]
    · simp [hi]

/-- The errors `enterFunction` raises come after the ones raised before. -/
theorem errors_enterFunction (s : ScanFunctions) (ast : FunctionNode) (name : String)
    (formals : FormalParameterList) (body : Option (List Statement)) (enterName : Bool) :
    ∃ tail, (s.enterFunction ast name formals body enterName).2.errors = s.errors ++ tail := by
  rcases enterFunction_cases s ast name formals body enterName with
    ⟨sf, heq, _, herr⟩ | ⟨sp, herr, heq⟩
  · rw [heq]
    exact ⟨_, herr⟩
  · rw [heq]
    obtain ⟨_, h2, h3⟩ := checkParameters_spec formals
      (!formals.isEmpty && formals.isSimpleParameterList) formals.boundNames sp
    cases hr : (checkParameters formals (!formals.isEmpty && formals.isSimpleParameterList)
        formals.boundNames sp).1
    · obtain ⟨arg, _, h | h⟩ := h3 hr
      · exact ⟨_, by rw [h.1, herr]⟩
      · exact ⟨_, by rw [h.1, herr]⟩
    · exact ⟨[], by rw [(h2 hr).1, herr]; simp⟩

theorem mem_addUsedVariable (c : Context) (n : String) : n ∈ (c.addUsedVariable n).usedVariables := by
  unfold Context.addUsedVariable
  split
  · assumption
  · simp

/-- C15 (amended). Raising a static error is recording it, and the visitor goes on
from there. In a strict context: a reference to a reserved word raises `Unexpected
strict mode reserved word` and the name is still recorded as a used variable; the
declaration of one name that is `eval`, `arguments` or a reserved word (not a `const`
without initializer, the name not yet a member) raises its strict-mode errors, answers
`true` and still registers the name as a member; a function named `eval` or
`arguments` raises `Function name may not be eval or arguments in strict mode` first
and its environment is still entered. -/
theorem static_error_does_not_stop_visit (s : ScanFunctions) (c : Context) (n : String)
    (hc : s.current = some c) (hstrict : c.isStrict = true) :
    (n ∈ strictReservedWords → ∀ t,
      raisedSince s (s.visitIdentifierExpression n t).2 =
        [⟨t, "Unexpected strict mode reserved word"⟩] ∧
      ∃ c', (s.visitIdentifierExpression n t).2.current = some c' ∧ n ∈ c'.usedVariables) ∧
    (∀ ast : PatternElement, ast.isVariableDeclaration = true → ast.boundNames = [n] →
      (n = "eval" ∨ n = "arguments" ∨ n ∈ strictReservedWords) →
      ¬ (ast.scope = .Const ∧ ast.initializer.isNone = true) → c.memberInfo n = none →
      (s.visitPatternElement ast).1 = true ∧
      raisedSince s (s.visitPatternElement ast).2 =
        nameCheckErrors true ast.identifierToken n ∧
      nameCheckErrors true ast.identifierToken n ≠ [] ∧
      ∃ c', (s.visitPatternElement ast).2.current = some c' ∧
        (c'.memberInfo n).isSome = true) ∧
    (∀ (f : FunctionNode) (enterName : Bool), (f.name = "eval" ∨ f.name = "arguments") →
      ∃ i tail, (s.enterFunctionExpression f enterName).2.contextStack = i :: s.contextStack ∧
        raisedSince s (s.enterFunctionExpression f enterName).2 =
          ⟨f.identifierToken, "Function name may not be eval or arguments in strict mode"⟩ ::
            tail) := by
  have hs : s.isStrict = true := (isStrict_of_current hc).trans hstrict
  refine ⟨?_, ?_, ?_⟩
  · intro hn t
    have hres : isStrictReservedWord n = true := (isStrictReservedWord_iff n).mpr hn
    unfold visitIdentifierExpression
    dsimp only
    constructor
    · apply raisedSince_of_errors
      simp [checkName_errors, hs, hres]
    · have hcn : (s.checkName n t).current = some c := by
        unfold checkName
        simp [hs, hres, hc]
      rw [current_modifyContext, current_modifyContext, hcn]
      exact ⟨_, rfl, mem_addUsedVariable _ n⟩
  · intro ast hdecl hnames hname hconst hnone
    rw [visitPatternElement_single s ast n hdecl hnames]
    obtain ⟨s3, herr, hcur, _, heq⟩ := declareName_spec s ast n c hc
    rw [hstrict] at herr
    have hadd : (s3.addLocalVar n
        (if ast.initializer.isSome then .VariableDefinition else .VariableDeclaration)
        ast.scope).1 = true := by
      rw [addLocalVar_fst s3 _ hcur]
      have hm : ∀ x : Context, x.members = c.members →
          (x.addLocalVar n (if ast.initializer.isSome then .VariableDefinition
            else .VariableDeclaration) ast.scope).1 = true := by
        intro x hx
        unfold Context.memberInfo at hnone
        unfold Context.addLocalVar
        rw [hx, hnone]
      split
      · exact hm _ rfl
      · exact hm _ rfl
    rw [hnone] at heq
    simp only [hconst, hadd, if_false, Bool.false_eq_true, Bool.true_eq_false] at heq
    rw [heq]
    refine ⟨rfl, ?_, ?_, ?_⟩
    · apply raisedSince_of_errors
      simp [herr]
    · unfold nameCheckErrors
      rcases hname with h | h | h
      · simp [h]
      · simp [h]
      · simp [(isStrictReservedWord_iff n).mpr h]
    · rw [current_addLocalVar, hcur]
      refine ⟨_, rfl, ?_⟩
      have hm : ∀ (t : MemberType) (x : Context), x.members = c.members →
          ((x.addLocalVar n t ast.scope).2.memberInfo n).isSome = true := by
        intro t x hx
        unfold Context.memberInfo at hnone ⊢
        unfold Context.addLocalVar
        rw [hx, hnone]
        simp [List.lookup_append, hnone, List.lookup]
      have hx : (if n = "arguments" then
          { c with usesArgumentsObject := .ArgumentsObjectNotUsed } else c).members =
          c.members := by
        split <;> rfl
      exact hm _ _ hx
  · intro f enterName hname
    have hcond : (s.isStrict && (f.name == "eval" || f.name == "arguments")) = true := by
      rcases hname with h | h <;> simp [hs, h]
    unfold enterFunctionExpression
    simp only [hcond, if_true]
    obtain ⟨i, hi⟩ := contextStack_enterFunction
      (s.throwSyntaxError f.identifierToken
        "Function name may not be eval or arguments in strict mode")
      f f.name f.formals f.body enterName
    obtain ⟨tail, ht⟩ := errors_enterFunction
      (s.throwSyntaxError f.identifierToken
        "Function name may not be eval or arguments in strict mode")
      f f.name f.formals f.body enterName
    refine ⟨i, tail, by rw [hi]; rfl, ?_⟩
    apply raisedSince_of_errors
    rw [ht]
    simp

end ScanFunctions
/-! ## The statements about flags, the arguments object and errors at sample inputs -/

/-- C11, witness: in `exModuleEval` the innermost function calls `eval` and contains a
`with` statement; after the sweep the Global context above it has both flags. -/
theorem calcEscapingVariables_propagates_flags_witness :
    ∃ a1, (ScanFunctions.calcEscapingVariables exModuleEval).context? 0 = some a1 ∧
      (exEvalContext.hasDirectEval = true → a1.hasDirectEval = true) ∧
      (exEvalContext.hasWith = true → a1.hasWith = true) :=
  (ScanFunctions.calcEscapingVariables_propagates_flags exModuleEval 2 0 exEvalContext
    { parent := none, contextType := .Global } (by decide)
    (.up 2 1 0 exEvalContext rfl rfl (.parent 1 0 exMiddleContext rfl rfl)) rfl rfl).1

/-- C12, witness: the Global context of `exModuleEval` ends without a heap-frame
requirement although a function below it calls `eval` and contains `with`. -/
theorem calcEscapingVariables_global_no_requirement_witness :
    ∃ c2, (ScanFunctions.calcEscapingVariables exModuleEval).context? 0 = some c2 ∧
      c2.requiresExecutionContext = false :=
  ScanFunctions.calcEscapingVariables_global_no_requirement exModuleEval 0
    { parent := none, contextType := .Global } (by decide) rfl rfl rfl

/-- In `exModuleArguments` the function refers to `arguments`, is not strict and has
declared nothing; after the sweep it has the synthetic member and both flags. -/
theorem calcEscapingVariables_arguments_used_witness :
    (∃ mem, exSweptArgumentsContext.memberInfo "arguments" = some mem ∧
      mem.type = .VariableDeclaration ∧ mem.scope = .Var) ∧
    exSweptArgumentsContext.argumentsCanEscape = true ∧
    exSweptArgumentsContext.requiresExecutionContext = true :=
  have h := ScanFunctions.calcEscapingVariables_arguments_used exModuleArguments 1
    exArgumentsContext exSweptArgumentsContext (by decide) (by decide) rfl rfl rfl
  ⟨h.1 rfl rfl, h.2.1 rfl⟩

/-- C13, the code at the failing input: on
`function f() { let arguments = 1; { arguments; } }` the walk leaves the context of `f`
(context 1) with `usesArgumentsObject = NotUsed`, for its declaration of `arguments`,
and the block (context 2) with Used; after the resolver has run, the context of `f`
has `usesArgumentsObject = Used`, and its member `arguments` is the `let`-scoped
variable definition of the program, not a var-scoped variable declaration. -/
theorem run_let_arguments_in_block :
    ((ScanFunctions.acceptProgram {} exProgramLetArguments).module.contexts.map
      (fun c => (c.contextType, c.usesArgumentsObject))) =
      [(.Global, .ArgumentsObjectUnknown), (.Function, .ArgumentsObjectNotUsed),
        (.Block, .ArgumentsObjectUsed)] ∧
    1 ∈ (ScanFunctions.run {} exProgramLetArguments).module.order ∧
    ((ScanFunctions.run {} exProgramLetArguments).module.context? 1).map
      (fun c => (c.usesArgumentsObject,
        (c.memberInfo "arguments").map fun mem => (mem.type, mem.scope))) =
      some (.ArgumentsObjectUsed, some (.VariableDefinition, .Let)) := by
  refine ⟨by decide, by decide, by decide⟩

/-- C14, witness of the amended statement: a call of `eval` in a fresh function
context. -/
theorem visitCallExpression_direct_eval_witness :
    ∃ c', ((exScanner (exEmptyContext false)).visitCallExpression exEvalCallee []).2.current =
        some c' ∧
      c'.hasDirectEval = true ∧ c'.usesArgumentsObject = .ArgumentsObjectUsed := by
  obtain ⟨c', hc', h1, _⟩ := ScanFunctions.visitCallExpression_direct_eval
    (exScanner (exEmptyContext false)) exEvalCallee [] (exEmptyContext false) rfl
  obtain ⟨h2, h3, _⟩ := h1 ⟨exToken, rfl⟩
  exact ⟨c', hc', h2, h3 rfl rfl⟩

/-- C14, counterexample to the claim as stated: in a context in which `arguments` has
been declared, a call of `eval` sets `hasDirectEval` and leaves `usesArgumentsObject`
at NotUsed. -/
theorem visitCallExpression_direct_eval_counterexample :
    (((exScanner exDeclaredArgumentsContext).visitCallExpression exEvalCallee []).2.current).map
      (fun c => (c.hasDirectEval, c.usesArgumentsObject)) =
      some (true, .ArgumentsObjectNotUsed) := by
  decide

/-- C15, witness of the amended statement: in a strict context the declaration
`var let` raises the reserved-word error, answers `true` and registers `let`. -/
theorem static_error_does_not_stop_visit_witness :
    ((exScanner (exEmptyContext true)).visitPatternElement (exDeclaration .Var "let" false)).1 =
      true ∧
    ScanFunctions.raisedSince (exScanner (exEmptyContext true))
      ((exScanner (exEmptyContext true)).visitPatternElement
        (exDeclaration .Var "let" false)).2 = nameCheckErrors true exToken "let" ∧
    nameCheckErrors true exToken "let" ≠ [] ∧
    ∃ c', ((exScanner (exEmptyContext true)).visitPatternElement
        (exDeclaration .Var "let" false)).2.current = some c' ∧
      (c'.memberInfo "let").isSome = true :=
  (ScanFunctions.static_error_does_not_stop_visit (exScanner (exEmptyContext true))
    (exEmptyContext true) "let" rfl rfl).2.1 (exDeclaration .Var "let" false) rfl rfl
    (Or.inr (Or.inr (by decide))) (by decide) rfl

/-- C15, counterexample to the claim as stated: in a strict context the declaration
`var eval` raises `Variable name may not be eval or arguments in strict mode`, and
after the error `eval` is registered as a member of the context; the reference `let`
raises the reserved-word error, and after it `let` is recorded as a used variable. -/
theorem static_error_does_not_stop_visit_counterexample :
    ((exScanner (exEmptyContext true)).visitPatternElement
        (exDeclaration .Var "eval" false)).2.errors =
      [⟨exToken, "Variable name may not be eval or arguments in strict mode"⟩] ∧
    (((exScanner (exEmptyContext true)).visitPatternElement
        (exDeclaration .Var "eval" false)).2.current).map (fun c => c.members.map Prod.fst) =
      some ["eval"] ∧
    ((exScanner (exEmptyContext true)).visitIdentifierExpression "let" exToken).2.errors =
      [⟨exToken, "Unexpected strict mode reserved word"⟩] ∧
    (((exScanner (exEmptyContext true)).visitIdentifierExpression "let" exToken).2.current).map
      (fun c => c.usedVariables) = some ["let"] := by
  refine ⟨by decide, by decide, by decide, by decide⟩
end Compiler
namespace Moth

/-! ## The ending of every instruction -/

namespace State

theorem read_cases (s : State) (param : Param) (k : Value → Outcome) (F : Outcome → Prop)
    (hfault : F .fault) (hk : ∀ v, F (k v)) : F (s.read param k) := by
  unfold read
  split
  · exact hk _
  · exact hfault

theorem withCurrent_cases (s : State) (k : ExecutionContext → Outcome) (F : Outcome → Prop)
    (hfault : F .fault) (hk : ∀ c, F (k c)) : F (s.withCurrent k) := by
  unfold withCurrent
  split
  · exact hk _
  · exact hfault

theorem withStack_cases (s : State) (offset : Nat) (k : ValuePtr → Outcome)
    (F : Outcome → Prop) (hfault : F .fault) (hk : ∀ p, F (k p)) : F (s.withStack offset k) := by
  unfold withStack
  split
  · exact hk _
  · exact hfault

end State

theorem describes_fault (ending : Ending) (s : State) : ending.Describes s .fault := by
  cases ending <;> exact Or.inl rfl

/-- The body of every instruction comes to the ending `Instr.ending` names. -/
theorem body_ending (rt : Runtime) (address : Int) (s : State) (instr : Instr) :
    instr.ending.Describes s (body rt address s instr) := by
  cases instr <;> simp only [Instr.ending, body] <;>
    repeat' first
      | exact describes_fault _ _
      | exact Or.inr ⟨_, _, rfl⟩
      | exact Or.inr ⟨_, rfl, rfl⟩
      | exact Or.inr ⟨_, rfl⟩
      | exact Or.inr ⟨_, ‹_›, rfl⟩
      | (refine State.read_cases _ _ _ _ (describes_fault _ _) ?_; intro _)
      | (refine State.withCurrent_cases _ _ _ (describes_fault _ _) ?_; intro _)
      | (refine State.withStack_cases _ _ _ _ (describes_fault _ _) ?_; intro _)
      | split

/-! ## What the endings do -/

namespace State

/-- `STOREVALUE` with the flag set after the right-hand side: nothing is stored, and
control goes to `catchException`. -/
theorem storeValue_raised (s : State) (param : Param) (value : Value × ExecutionEngine)
    (h : value.2.hasException = true) :
    s.storeValue param value = .catchException (s.withEngine value.2) := by
  unfold storeValue
  simp only [h, if_true]
  rfl

/-- `STOREVALUE` with the flag clear after the right-hand side: the store is made,
through the write-barrier entry point exactly if the scope is heap-backed and the
write barrier is active. -/
theorem storeValue_clear (s : State) (param : Param) (value : Value × ExecutionEngine)
    (h : value.2.hasException = false) :
    s.storeValue param value = .fault ∨
    ∃ slot, s.valuePtr param = some slot ∧
      ((s.base param = none ∨ value.2.writeBarrierActive = false) ∧
        s.storeValue param value = .next ((s.withEngine value.2).poke slot value.1) ∨
       ∃ b, s.base param = some b ∧ value.2.writeBarrierActive = true ∧
        s.storeValue param value =
          .next ((s.withEngine value.2).writeBarrier b slot value.1)) := by
  cases hs : s.scopes[param.scope]? with
  | none =>
    left
    unfold storeValue
    simp only [h, Bool.false_eq_true, if_false, hs]
  | some scope =>
    obtain ⟨vals, bs⟩ := scope
    cases vals with
    | none =>
      left
      unfold storeValue
      simp only [h, Bool.false_eq_true, if_false, hs]
    | some values =>
      right
      have hptr : s.valuePtr param = some (values.add param.index) := by
        unfold valuePtr
        simp only [hs, Option.map_some']
      have hbase : s.base param = bs := by
        unfold base
        rw [hs]
        rfl
      refine ⟨values.add param.index, hptr, ?_⟩
      cases bs with
      | none =>
        left
        refine ⟨Or.inl hbase, ?_⟩
        unfold storeValue
        simp only [h, Bool.false_eq_true, if_false, hs]
        rfl
      | some b =>
        cases ha : value.2.writeBarrierActive with
        | false =>
          left
          refine ⟨Or.inr rfl, ?_⟩
          unfold storeValue
          simp only [h, Bool.false_eq_true, if_false, hs, ha, Bool.not_false, if_true]
          rfl
        | true =>
          right
          refine ⟨b, hbase, rfl, ?_⟩
          unfold storeValue
          simp only [h, Bool.false_eq_true, if_false, hs, ha, Bool.not_true]
          rfl

theorem checkException_raised (s : State) (value : Value × ExecutionEngine)
    (h : value.2.hasException = true) :
    s.checkException value = .catchException (s.withEngine value.2) := by
  unfold checkException
  simp only [h, if_true]
  rfl

theorem checkException_clear (s : State) (value : Value × ExecutionEngine)
    (h : value.2.hasException = false) :
    s.checkException value = .next (s.withEngine value.2) := by
  unfold checkException
  simp only [h, Bool.false_eq_true, if_false]
  rfl

theorem assign_cases (s : State) (param : Param) (v : Value) :
    s.assign param v = .fault ∨
    ∃ slot, s.valuePtr param = some slot ∧ s.assign param v = .next (s.poke slot v) := by
  unfold assign
  cases s.valuePtr param with
  | none => exact Or.inl rfl
  | some slot => exact Or.inr ⟨slot, rfl, rfl⟩

end State

/-- An instruction leaves at `catchException` only after a check that found the flag
set; it leaves the local variables of `VME::exec` as they were. -/
theorem body_catchException (rt : Runtime) (address : Int) (s s1 : State) (instr : Instr)
    (h : body rt address s instr = .catchException s1) :
    instr.checksException = true ∧ s1.engine.hasException = true ∧
      s1 = s.withEngine s1.engine := by
  have hd := body_ending rt address s instr
  rw [h] at hd
  unfold Instr.checksException
  cases hE : instr.ending with
  | storeValue result =>
    rw [hE] at hd
    rcases hd with hd | ⟨e, value, hd⟩
    · cases hd
    · cases hx : value.2.hasException with
      | true =>
        rw [State.storeValue_raised _ _ _ hx] at hd
        cases hd
        exact ⟨rfl, hx, rfl⟩
      | false =>
        rcases State.storeValue_clear (s.withEngine e) result value hx with
          h1 | ⟨_, _, ⟨_, h1⟩ | ⟨_, _, _, h1⟩⟩ <;> rw [h1] at hd <;> cases hd
  | checkException =>
    rw [hE] at hd
    rcases hd with hd | ⟨e, value, hd⟩
    · cases hd
    · cases hx : value.2.hasException with
      | true =>
        rw [State.checkException_raised _ _ hx] at hd
        cases hd
        exact ⟨rfl, hx, rfl⟩
      | false =>
        rw [State.checkException_clear _ _ hx] at hd
        cases hd
  | assign result =>
    rw [hE] at hd
    rcases hd with hd | ⟨e, v, hd⟩
    · cases hd
    · rcases State.assign_cases (s.withEngine e) result v with h1 | ⟨_, _, h1⟩ <;>
        rw [h1] at hd <;> cases hd
  | getException result =>
    rw [hE] at hd
    rcases hd with hd | ⟨_, _, hd⟩ <;> cases hd
  | functionExit =>
    rw [hE] at hd
    rcases hd with hd | ⟨_, hd⟩ <;> cases hd
  | plain =>
    rw [hE] at hd
    rcases hd with hd | ⟨_, hd, _⟩ <;> cases hd

/-- After an instruction that checks the flag, the loop goes on at the next
instruction only with the flag clear. -/
theorem body_next_checked (rt : Runtime) (address : Int) (s s1 : State) (instr : Instr)
    (hc : instr.checksException = true) (h : body rt address s instr = .next s1) :
    s1.engine.hasException = false ∧ s1.code = s.code ∧
      s1.exceptionHandler = s.exceptionHandler := by
  have hd := body_ending rt address s instr
  rw [h] at hd
  unfold Instr.checksException at hc
  cases hE : instr.ending with
  | storeValue result =>
    rw [hE] at hd
    rcases hd with hd | ⟨e, value, hd⟩
    · cases hd
    · cases hx : value.2.hasException with
      | true =>
        rw [State.storeValue_raised _ _ _ hx] at hd
        cases hd
      | false =>
        rcases State.storeValue_clear (s.withEngine e) result value hx with
          h1 | ⟨_, _, ⟨_, h1⟩ | ⟨_, _, _, h1⟩⟩ <;> rw [h1] at hd <;> cases hd
        · exact ⟨hx, rfl, rfl⟩
        · exact ⟨hx, rfl, rfl⟩
  | checkException =>
    rw [hE] at hd
    rcases hd with hd | ⟨e, value, hd⟩
    · cases hd
    · cases hx : value.2.hasException with
      | true =>
        rw [State.checkException_raised _ _ hx] at hd
        cases hd
      | false =>
        rw [State.checkException_clear _ _ hx] at hd
        cases hd
        exact ⟨hx, rfl, rfl⟩
  | assign result => rw [hE] at hc; cases hc
  | getException result => rw [hE] at hc; cases hc
  | functionExit => rw [hE] at hc; cases hc
  | plain => rw [hE] at hc; cases hc

/-- An instruction that checks the flag never leaves at `functionExit`. -/
theorem body_functionExit_checked (rt : Runtime) (address : Int) (s s1 : State)
    (instr : Instr) (hc : instr.checksException = true) :
    body rt address s instr ≠ .functionExit s1 := by
  intro h
  have hd := body_ending rt address s instr
  rw [h] at hd
  unfold Instr.checksException at hc
  cases hE : instr.ending with
  | storeValue result =>
    rw [hE] at hd
    rcases hd with hd | ⟨e, value, hd⟩
    · cases hd
    · cases hx : value.2.hasException with
      | true =>
        rw [State.storeValue_raised _ _ _ hx] at hd
        cases hd
      | false =>
        rcases State.storeValue_clear (s.withEngine e) result value hx with
          h1 | ⟨_, _, ⟨_, h1⟩ | ⟨_, _, _, h1⟩⟩ <;> rw [h1] at hd <;> cases hd
  | checkException =>
    rw [hE] at hd
    rcases hd with hd | ⟨e, value, hd⟩
    · cases hd
    · cases hx : value.2.hasException with
      | true =>
        rw [State.checkException_raised _ _ hx] at hd
        cases hd
      | false =>
        rw [State.checkException_clear _ _ hx] at hd
        cases hd
  | assign result => rw [hE] at hc; cases hc
  | getException result => rw [hE] at hc; cases hc
  | functionExit => rw [hE] at hc; cases hc
  | plain => rw [hE] at hc; cases hc

end Moth
namespace Compiler
end Compiler
namespace Moth

/-! ## Exceptions: the handler, the unhandled exit, `STOREVALUE` -/

theorem writeBarrier_memory (t : State) (b : Nat) (slot : ValuePtr) (v : Value) :
    (t.writeBarrier b slot v).engine.memory slot = v := by
  simp [State.writeBarrier, State.poke, Memory.store]

theorem iterate_of_fetch (rt : Runtime) (s : State) (instr : Instr)
    (hfetch : s.fetch = some instr) :
    iterate rt s =
      match body rt s.code { s with code := s.code + 1 } instr with
      | .catchException s' => catchException s'
      | outcome => outcome := by
  unfold iterate
  simp only [hfetch]

/-- The loop turn of an instruction that raises. -/
theorem iterate_raise (rt : Runtime) (s s1 : State) (instr : Instr)
    (hfetch : s.fetch = some instr)
    (hraise : body rt s.code { s with code := s.code + 1 } instr = .catchException s1) :
    iterate rt s = catchException s1 ∧ s1.engine.hasException = true ∧
      s1.exceptionHandler = s.exceptionHandler := by
  obtain ⟨_, hflag, hs1⟩ := body_catchException rt _ _ _ _ hraise
  refine ⟨?_, hflag, ?_⟩
  · rw [iterate_of_fetch rt s instr hfetch, hraise]
  · rw [hs1]
    rfl

/-- What `STOREVALUE` is handed is reached in the state the body started in, but for
the engine. -/
theorem rightHandSide_state (rt : Runtime) (s t : State) (instr : Instr)
    (value : Value × ExecutionEngine) (h : rightHandSide rt s instr = some (t, value)) :
    ∃ e, t = s.withEngine e := by
  cases instr <;> simp only [rightHandSide, reduceCtorEq] at h
  all_goals
    simp only [State.value?, State.stackPtr?, State.int32?, Option.bind_eq_some,
      Option.map_eq_some', Option.some.injEq, Prod.mk.injEq] at h
  all_goals
    first
    | (obtain ⟨rfl, -⟩ := h; exact ⟨_, rfl⟩)
    | (obtain ⟨_, _, rfl, -⟩ := h; exact ⟨_, rfl⟩)
    | (obtain ⟨_, _, _, _, rfl, -⟩ := h; exact ⟨_, rfl⟩)
    | (obtain ⟨_, _, _, _, _, _, rfl, -⟩ := h; exact ⟨_, rfl⟩)
    | (obtain ⟨_, ⟨_, _, rfl⟩, rfl, -⟩ := h; exact ⟨_, rfl⟩)
    | (obtain ⟨_, ⟨_, _, rfl⟩, _, ⟨_, _, rfl⟩, rfl, -⟩ := h; exact ⟨_, rfl⟩)


/-- The body of an instruction that ends in `STOREVALUE` is `STOREVALUE` on its result
operand and its right-hand side, in the state in which the right-hand side has been
evaluated; it is a fault when it does not come to the right-hand side. -/
theorem body_rightHandSide (rt : Runtime) (address : Int) (s : State) (instr : Instr)
    (result : Param) (hend : instr.ending = .storeValue result) :
    body rt address s instr =
      match rightHandSide rt s instr with
      | none => .fault
      | some (t, value) => t.storeValue result value := by
  cases instr <;> simp only [Instr.ending, reduceCtorEq, Ending.storeValue.injEq] at hend <;>
    subst hend <;>
    simp only [body, rightHandSide, State.read, State.withCurrent, State.withStack,
      State.readInt32, State.value?, State.stackPtr?, State.int32?]
  all_goals
    repeat' first
      | rfl
      | (split <;> rename_i h <;>
          simp only [h, Option.map_some', Option.map_none', Option.some_bind,
            Option.none_bind])

/-- C18. An instruction that writes its result through `STOREVALUE` comes, unless it
faults before, to `STOREVALUE` on its result operand and the answer of its right-hand
side; and if the pending-exception flag is set in the engine the right-hand side
leaves, the body leaves at `catchException`, in the state the body started in with the
engine as the right-hand side left it: the target slot reads as it did when the
right-hand side returned, and no call of the write-barrier entry point has been
made. -/
theorem storeValue_pending_exception (rt : Runtime) (address : Int) (s : State)
    (instr : Instr) (result : Param) (hend : instr.ending = .storeValue result) :
    (rightHandSide rt s instr = none → body rt address s instr = .fault) ∧
    ∀ t value, rightHandSide rt s instr = some (t, value) →
      body rt address s instr = t.storeValue result value ∧
      (value.2.hasException = true →
        ∃ s', body rt address s instr = .catchException s' ∧
          s' = s.withEngine value.2 ∧
          (∀ slot, s.valuePtr result = some slot →
            s'.engine.memory slot = value.2.memory slot) ∧
          s'.barrierCalls = s.barrierCalls) := by
  have hb := body_rightHandSide rt address s instr result hend
  refine ⟨fun hnone => ?_, fun t value hsome => ?_⟩
  · rw [hb, hnone]
  · have hb' : body rt address s instr = t.storeValue result value := by
      rw [hb, hsome]
    refine ⟨hb', fun hx => ?_⟩
    obtain ⟨e, rfl⟩ := rightHandSide_state rt s t instr value hsome
    refine ⟨s.withEngine value.2, ?_, rfl, fun _ _ => rfl, rfl⟩
    rw [hb', State.storeValue_raised _ _ _ hx]
    rfl

/-- C19, the code as it is. The body of an instruction calls the write-barrier entry
point at most once, and only in `STOREVALUE` on a result operand whose scope is
heap-backed, with the write barrier active; `STOREVALUE` on such an operand with the
write barrier active does make its store through the entry point. The instructions
that store with `VALUE(result) = ...` (`Move`, `LoadRuntimeString`, `LoadRegExp`,
`UNotBool`, `UComplInt`, `LoadThis`, `LoadQmlContext`, `LoadQmlImportedScripts`,
`LoadQmlSingleton`) and `GetException` never call it, whatever the scope of the operand
and the state of the toggle. -/
theorem write_barrier_calls (rt : Runtime) (address : Int) (s s' : State) (instr : Instr)
    (hout : (body rt address s instr).state? = some s') :
    (s'.barrierCalls ≠ s.barrierCalls →
      ∃ result b, instr.ending = .storeValue result ∧ s.base result = some b ∧
        s'.engine.writeBarrierActive = true) ∧
    (∀ result b, instr.ending = .storeValue result → s.base result = some b →
      s'.engine.writeBarrierActive = true → s'.engine.hasException = false →
      ∃ slot, s.valuePtr result = some slot ∧
        s'.barrierCalls = s.barrierCalls ++ [⟨b, slot, s'.engine.memory slot⟩]) ∧
    (∀ result, instr.ending = .assign result ∨ instr.ending = .getException result →
      s'.barrierCalls = s.barrierCalls) := by
  have hd := body_ending rt address s instr
  cases hE : instr.ending with
  | storeValue result =>
    rw [hE] at hd
    rcases hd with hd | ⟨e, value, hd⟩
    · rw [hd] at hout
      cases hout
    · rw [hd] at hout
      cases hx : value.2.hasException with
      | true =>
        rw [State.storeValue_raised _ _ _ hx] at hout
        cases hout
        refine ⟨fun h => absurd rfl h, ?_, ?_⟩
        · intro r b _ _ _ hno
          exact absurd (hx.symm.trans hno) (by decide)
        · intro r hr
          rcases hr with hr | hr <;> cases hr
      | false =>
        rcases State.storeValue_clear (s.withEngine e) result value hx with
          h1 | ⟨slot, hslot, ⟨hor, h1⟩ | ⟨b, hb, hact, h1⟩⟩
        · rw [h1] at hout
          cases hout
        · rw [h1] at hout
          cases hout
          refine ⟨fun h => absurd rfl h, ?_, ?_⟩
          · intro r b hr hb hact _
            cases hr
            rcases hor with hor | hor
            · have hb' : (s.withEngine e).base result = some b := hb
              rw [hor] at hb'
              cases hb'
            · exact absurd (hor.symm.trans hact) (by decide)
          · intro r hr
            rcases hr with hr | hr <;> cases hr
        · rw [h1] at hout
          cases hout
          refine ⟨fun _ => ⟨result, b, rfl, hb, hact⟩, ?_, ?_⟩
          · intro r b2 hr hb2 _ _
            cases hr
            have hb' : (s.withEngine e).base result = some b2 := hb2
            rw [hb] at hb'
            cases hb'
            refine ⟨slot, hslot, ?_⟩
            show s.barrierCalls ++ [⟨b, slot, value.1⟩] = s.barrierCalls ++ [⟨b, slot, _⟩]
            rw [writeBarrier_memory]
          · intro r hr
            rcases hr with hr | hr <;> cases hr
  | checkException =>
    rw [hE] at hd
    rcases hd with hd | ⟨e, value, hd⟩
    · rw [hd] at hout
      cases hout
    · rw [hd] at hout
      have hbc : s'.barrierCalls = s.barrierCalls := by
        cases hx : value.2.hasException with
        | true =>
          rw [State.checkException_raised _ _ hx] at hout
          cases hout
          rfl
        | false =>
          rw [State.checkException_clear _ _ hx] at hout
          cases hout
          rfl
      refine ⟨fun h => absurd hbc h, ?_, fun _ _ => hbc⟩
      intro r b hr
      cases hr
  | assign result =>
    rw [hE] at hd
    rcases hd with hd | ⟨e, v, hd⟩
    · rw [hd] at hout
      cases hout
    · rw [hd] at hout
      have hbc : s'.barrierCalls = s.barrierCalls := by
        rcases State.assign_cases (s.withEngine e) result v with h1 | ⟨_, _, h1⟩
        · rw [h1] at hout
          cases hout
        · rw [h1] at hout
          cases hout
          rfl
      refine ⟨fun h => absurd hbc h, ?_, fun _ _ => hbc⟩
      intro r b hr
      cases hr
  | getException result =>
    rw [hE] at hd
    rcases hd with hd | ⟨p, _, hd⟩
    · rw [hd] at hout
      cases hout
    · rw [hd] at hout
      cases hout
      refine ⟨fun h => absurd rfl h, ?_, fun _ _ => rfl⟩
      intro r b hr
      cases hr
  | functionExit =>
    rw [hE] at hd
    rcases hd with hd | ⟨v, hd⟩
    · rw [hd] at hout
      cases hout
    · rw [hd] at hout
      cases hout
      refine ⟨fun h => absurd rfl h, ?_, fun _ _ => rfl⟩
      intro r b hr
      cases hr
  | plain =>
    rw [hE] at hd
    rcases hd with hd | ⟨t, hd, hbc⟩
    · rw [hd] at hout
      cases hout
    · rw [hd] at hout
      cases hout
      refine ⟨fun h => absurd hbc h, ?_, fun _ _ => hbc⟩
      intro r b hr
      cases hr

/-- C20 (amended). After an instruction whose body ends in `STOREVALUE` or in
`CHECK_EXCEPTION`, if the pending-exception flag is set, no instruction that follows in
program order is executed first: either the loop goes on at the registered handler, or
the function has exited, returning undefined. `SetException` is not such an
instruction: it sets the flag, and the loop goes on at the instruction that follows
it. -/
theorem checked_instruction_diverts (rt : Runtime) (s : State) (instr : Instr)
    (hfetch : s.fetch = some instr) (hchecked : instr.checksException = true) :
    (∀ s', iterate rt s = .next s' → s'.engine.hasException = true →
      s.exceptionHandler = some s'.code) ∧
    (∀ s', iterate rt s = .functionExit s' →
      s'.engine.hasException = true ∧ s.exceptionHandler = none ∧
        s'.returnValue = .undefined) ∧
    (∀ (t : State) exception p, t.fetch = some (.SetException exception) →
      t.valuePtr exception = some p →
      ∃ t2, iterate rt t = .next t2 ∧ t2.code = t.code + 1 ∧
        t2.engine.hasException = true) := by
  have hit := iterate_of_fetch rt s instr hfetch
  refine ⟨?_, ?_, ?_⟩
  · intro s' hs' hflag
    cases hb : body rt s.code { s with code := s.code + 1 } instr with
    | next s1 =>
      rw [hb] at hit
      rw [hit] at hs'
      cases hs'
      have := (body_next_checked rt _ _ _ _ hchecked hb).1
      rw [this] at hflag
      cases hflag
    | catchException s1 =>
      obtain ⟨hcatch, _, hh⟩ := iterate_raise rt s s1 instr hfetch hb
      rw [hcatch] at hs'
      unfold catchException at hs'
      rw [hh] at hs'
      cases hx : s.exceptionHandler with
      | none =>
        rw [hx] at hs'
        cases hs'
      | some handler =>
        rw [hx] at hs'
        cases hs'
        rfl
    | functionExit s1 =>
      rw [hb] at hit
      rw [hit] at hs'
      cases hs'
    | fault =>
      rw [hb] at hit
      rw [hit] at hs'
      cases hs'
  · intro s' hs'
    cases hb : body rt s.code { s with code := s.code + 1 } instr with
    | next s1 =>
      rw [hb] at hit
      rw [hit] at hs'
      cases hs'
    | catchException s1 =>
      obtain ⟨hcatch, hflag, hh⟩ := iterate_raise rt s s1 instr hfetch hb
      rw [hcatch] at hs'
      unfold catchException at hs'
      rw [hh] at hs'
      cases hx : s.exceptionHandler with
      | none =>
        rw [hx] at hs'
        cases hs'
        exact ⟨hflag, rfl, rfl⟩
      | some handler =>
        rw [hx] at hs'
        cases hs'
    | functionExit s1 =>
      exact absurd hb (body_functionExit_checked rt _ _ s1 instr hchecked)
    | fault =>
      rw [hb] at hit
      rw [hit] at hs'
      cases hs'
  · intro t exception p hf hp
    have hp' : ({ t with code := t.code + 1 } : State).valuePtr exception = some p := hp
    rw [iterate_of_fetch rt t _ hf]
    simp only [body, State.read, hp']
    exact ⟨_, rfl, rfl, rfl⟩

end Moth
namespace Compiler
end Compiler
namespace Moth

/-! ## The statements about the interpreter at sample activations -/

/-- C18, witness: `LoadName` into a slot of the heap-backed scope 3, with the write
barrier active, in a runtime in which the look-up raises an exception: the body leaves
at `catchException` with the engine as the look-up left it. -/
theorem storeValue_pending_exception_witness :
    (Instr.LoadName ⟨3, 0⟩ 5).ending = .storeValue ⟨3, 0⟩ ∧
    rightHandSide exFailingRuntime exThrowState (.LoadName ⟨3, 0⟩ 5) =
      some (exThrowState, (.undefined,
        { exThrowState.engine with hasException := true, exceptionValue := .integer 1 })) ∧
    body exFailingRuntime 2 exThrowState (.LoadName ⟨3, 0⟩ 5) =
      .catchException (exThrowState.withEngine
        { exThrowState.engine with hasException := true, exceptionValue := .integer 1 }) ∧
    exThrowState.base ⟨3, 0⟩ = some 0 ∧ exThrowState.engine.writeBarrierActive = true := by
  obtain ⟨s', h1, h2, -, -⟩ :=
    ((storeValue_pending_exception exFailingRuntime 2 exThrowState (.LoadName ⟨3, 0⟩ 5) ⟨3, 0⟩
      rfl).2 _ _ rfl).2 rfl
  rw [h2] at h1
  exact ⟨rfl, rfl, h1, rfl, rfl⟩

/-- C19, the code at the failing input: in `exThrowState` the write barrier is active
and scope 3 is backed by the call context 0; `Move` stores the constant 7 to slot 0 of
that scope without a call of the write-barrier entry point, whereas `LoadName` makes
its store to the same slot through it. -/
theorem write_barrier_calls_witness :
    exThrowState.engine.writeBarrierActive = true ∧
    exThrowState.base ⟨3, 0⟩ = some 0 ∧
    (exThrowState.poke ⟨3, 0⟩ (.integer 7)).engine.memory ⟨3, 0⟩ = .integer 7 ∧
    (exThrowState.poke ⟨3, 0⟩ (.integer 7)).barrierCalls = exThrowState.barrierCalls ∧
    (body exRuntime 2 exThrowState (.LoadName ⟨3, 0⟩ 5)).state?.map
      (fun t => t.barrierCalls) = some [⟨0, ⟨3, 0⟩, .undefined⟩] :=
  have h := write_barrier_calls exRuntime 2 exThrowState (exThrowState.poke ⟨3, 0⟩ (.integer 7))
    (.Move ⟨3, 0⟩ ⟨0, 0⟩) rfl
  ⟨rfl, rfl, by decide, h.2.2 ⟨3, 0⟩ (Or.inl rfl), by decide⟩

/-- C20, witness of the amended statement: after `CallBuiltinThrow` in `exThrowState`
the flag is set and the loop goes on at the registered handler. -/
theorem checked_instruction_diverts_witness :
    exThrowState.exceptionHandler = some ({ exRaisedState with code := 4 } : State).code :=
  (checked_instruction_diverts exRuntime exThrowState (.CallBuiltinThrow ⟨0, 0⟩) rfl rfl).1
    { exRaisedState with code := 4 } rfl rfl

/-- C20, counterexample to the claim as stated: in `exSetExceptionState` a handler is
registered at offset 5; `SetException` sets the pending-exception flag and the loop goes
on at offset 1, where `Move`, the instruction that follows in program order, is
executed (it stores 7 to slot 0 of the stack) with the flag set, and the loop goes on at
offset 2. -/
theorem checked_instruction_diverts_counterexample :
    exSetExceptionState.fetch = some (.SetException ⟨0, 0⟩) ∧
    exSetExceptionState.exceptionHandler = some 5 ∧
    (iterate exRuntime exSetExceptionState).state?.map
      (fun t => (t.engine.hasException, t.code, t.engine.memory ⟨0, 0⟩)) =
      some (true, 1, .undefined) ∧
    ((iterate exRuntime exSetExceptionState).state?.bind
      fun t => (iterate exRuntime t).state?).map
      (fun u => (u.engine.hasException, u.code, u.engine.memory ⟨0, 0⟩)) =
      some (true, 2, .integer 7) := by
  refine ⟨rfl, rfl, by decide, by decide⟩

end Moth
namespace Compiler
end Compiler
namespace Moth

/-! ## The native debugger: line checks -/

/-- The loop over the breakpoints in a line check: the hook is called for the entries
at the line and engine name, in the order of the loop; the last of them is the last
stop; nothing else changes. -/
theorem triggerFold (lineNumber : Int) (engineName : String) (xs : List Breakpoint)
    (g : NativeDebugger) :
    (xs.foldl (fun acc bp =>
        if bp.lineNumber != lineNumber then acc
        else if bp.engineName != engineName then acc
        else qt_v4TriggerBreakpoint acc bp) g) =
      { g with
        qt_v4LastStop := ((xs.filter fun bp =>
          bp.lineNumber == lineNumber && bp.engineName == engineName).getLast?).getD
            g.qt_v4LastStop
        triggered := g.triggered ++ xs.filter fun bp =>
          bp.lineNumber == lineNumber && bp.engineName == engineName } := by
  induction xs generalizing g with
  | nil => simp
  | cons bp rest ih =>
    rw [List.foldl_cons, ih]
    by_cases h1 : bp.lineNumber = lineNumber
    · by_cases h2 : bp.engineName = engineName
      · simp only [h1, h2, bne_self_eq_false, Bool.false_eq_true, if_false, List.filter_cons,
          beq_self_eq_true, Bool.and_self, if_true, qt_v4TriggerBreakpoint,
          List.append_assoc, List.singleton_append]
        congr 1
        cases hr : (rest.filter fun bp =>
          bp.lineNumber == lineNumber && bp.engineName == engineName) with
        | nil => simp
        | cons x xs => simp [List.getLast?_cons]
      · have h2' : (bp.engineName != engineName) = true := by simpa using h2
        have h2'' : (bp.engineName == engineName) = false := by simpa using h2
        simp only [h1, h2', h2'', bne_self_eq_false, Bool.false_eq_true, if_false, if_true,
          List.filter_cons, Bool.and_false]
    · have h1' : (bp.lineNumber != lineNumber) = true := by simpa using h1
      have h1'' : (bp.lineNumber == lineNumber) = false := by simpa using h1
      simp only [h1', h1'', if_true, List.filter_cons, Bool.false_and, Bool.false_eq_true,
        if_false]

/-- The entries a line check at a line and engine name calls the hook for. -/
theorem triggerMatching_eq (lineNumber : Int) (engineName : String) (g : NativeDebugger) :
    triggerMatching lineNumber engineName g =
      { g with
        qt_v4LastStop := ((g.qt_v4Breakpoints.reverse.filter fun bp =>
          bp.lineNumber == lineNumber && bp.engineName == engineName).getLast?).getD
            g.qt_v4LastStop
        triggered := g.triggered ++ g.qt_v4Breakpoints.reverse.filter fun bp =>
          bp.lineNumber == lineNumber && bp.engineName == engineName } := by
  unfold triggerMatching
  exact triggerFold lineNumber engineName _ g

end Moth
namespace Compiler
end Compiler
namespace Moth

/-- A line check with stepping disarmed and no breakpoint registered returns at once. -/
theorem checkForBreak_idle (g : NativeDebugger) (context : ExecutionContext)
    (globalCode : Function) (hstep : g.qt_v4IsStepping = false)
    (hnone : g.qt_v4Breakpoints = []) : qt_v4CheckForBreak g context globalCode = g := by
  unfold qt_v4CheckForBreak
  simp [hstep, hnone]

/-- A line check in a function without source file returns at once. -/
theorem checkForBreak_emptyFile (g : NativeDebugger) (context : ExecutionContext)
    (globalCode : Function)
    (hfile : (qt_v4ExtractFunction context globalCode).sourceFile.isEmpty = true) :
    qt_v4CheckForBreak g context globalCode = g := by
  unfold qt_v4CheckForBreak
  simp only [hfile, if_true]
  split <;> rfl

/-- A line check with stepping armed, at a location other than the last stop. -/
theorem checkForBreak_step (g : NativeDebugger) (context : ExecutionContext)
    (globalCode : Function) (hstep : g.qt_v4IsStepping = true)
    (hfile : (qt_v4ExtractFunction context globalCode).sourceFile.isEmpty = false)
    (hloc : location context globalCode ≠ g.qt_v4LastStop.location) :
    qt_v4CheckForBreak g context globalCode =
      { g with
        qt_v4IsStepping := false
        qt_v4LastStop :=
          { bpNumber := 0
            lineNumber := context.lineNumber
            engineName := (qt_v4ExtractFunction context globalCode).sourceFile }
        triggered := g.triggered ++
          [{ bpNumber := 0
             lineNumber := context.lineNumber
             engineName := (qt_v4ExtractFunction context globalCode).sourceFile }] } := by
  have hne : (g.qt_v4LastStop.lineNumber != context.lineNumber ||
      g.qt_v4LastStop.engineName != (qt_v4ExtractFunction context globalCode).sourceFile) =
      true := by
    by_cases h1 : g.qt_v4LastStop.lineNumber = context.lineNumber
    · by_cases h2 : g.qt_v4LastStop.engineName =
          (qt_v4ExtractFunction context globalCode).sourceFile
      · exfalso
        apply hloc
        unfold location Breakpoint.location
        rw [h1, h2]
      · simp [h2]
    · simp [h1]
  unfold qt_v4CheckForBreak
  simp only [hstep, hfile, hne, Bool.not_true, Bool.false_and, Bool.false_eq_true, if_false,
    Bool.and_self, if_true, qt_v4TriggerBreakpoint]

/-- A line check that comes to the loop over the breakpoints: stepping is disarmed, or
the location is that of the last stop. -/
theorem checkForBreak_loop (g : NativeDebugger) (context : ExecutionContext)
    (globalCode : Function)
    (hfile : (qt_v4ExtractFunction context globalCode).sourceFile.isEmpty = false)
    (h : g.qt_v4IsStepping = false ∨ location context globalCode = g.qt_v4LastStop.location) :
    qt_v4CheckForBreak g context globalCode =
      triggerMatching context.lineNumber (qt_v4ExtractFunction context globalCode).sourceFile
        g := by
  have hcond : (g.qt_v4IsStepping &&
      (g.qt_v4LastStop.lineNumber != context.lineNumber ||
        g.qt_v4LastStop.engineName != (qt_v4ExtractFunction context globalCode).sourceFile)) =
      false := by
    rcases h with h | h
    · simp [h]
    · unfold location Breakpoint.location at h
      have h1 : g.qt_v4LastStop.lineNumber = context.lineNumber := (congrArg Prod.snd h).symm
      have h2 : g.qt_v4LastStop.engineName =
          (qt_v4ExtractFunction context globalCode).sourceFile := (congrArg Prod.fst h).symm
      simp [h1, h2]
  unfold qt_v4CheckForBreak
  simp only [hfile, hcond, Bool.false_eq_true, if_false]
  split
  · rename_i h0
    simp only [Bool.and_eq_true, Bool.not_eq_true', beq_iff_eq, List.length_eq_zero] at h0
    rw [triggerMatching_eq]
    obtain ⟨_, hb⟩ := h0
    cases g
    simp only at hb
    subst hb
    simp
  · rfl

/-- A line check leaves the breakpoint counter and the breakpoint list alone. -/
theorem checkForBreak_frame (g : NativeDebugger) (context : ExecutionContext)
    (globalCode : Function) :
    (qt_v4CheckForBreak g context globalCode).qt_v4BreakpointCount = g.qt_v4BreakpointCount ∧
    (qt_v4CheckForBreak g context globalCode).qt_v4Breakpoints = g.qt_v4Breakpoints := by
  cases hfile : (qt_v4ExtractFunction context globalCode).sourceFile.isEmpty with
  | true => rw [checkForBreak_emptyFile g context globalCode hfile]; exact ⟨rfl, rfl⟩
  | false =>
    by_cases h : g.qt_v4IsStepping = false ∨
        location context globalCode = g.qt_v4LastStop.location
    · rw [checkForBreak_loop g context globalCode hfile h, triggerMatching_eq]
      exact ⟨rfl, rfl⟩
    · rw [not_or] at h
      rw [checkForBreak_step g context globalCode (by simpa using h.1) hfile h.2]
      exact ⟨rfl, rfl⟩

/-! ## The native debugger: commands -/

/-- Arithmetic on `int` within the 32-bit range is exact. -/
theorem toInt32_of_range (x : Int) (h1 : -2147483648 ≤ x) (h2 : x ≤ 2147483647) :
    toInt32 x = x := by
  unfold toInt32
  omega

/-- At `INT_MAX` the increment of an `int` wraps around to `INT_MIN`. -/
theorem toInt32_overflow : toInt32 (2147483647 + 1) = -2147483648 := by
  decide

theorem insertions_single (ob : Command) :
    insertions [.command ob] =
      if ob.command = "insertBreakpoint" ∧ ob.version = 1 then 1 else 0 := by
  unfold insertions insertions
  rw [Nat.add_zero]

theorem insertions_command (ob : Command) (events : List Event) :
    insertions (.command ob :: events) = insertions [.command ob] + insertions events := by
  rw [insertions_single]
  rfl

theorem hook_protocolVersion (g : NativeDebugger) (ob : Command)
    (hcommand : ob.command = "protocolVersion") : qt_v4DebuggerHook g ob = some (1, g) := by
  unfold qt_v4DebuggerHook
  simp only [hcommand, if_true]

theorem hook_wrongProtocol (g : NativeDebugger) (ob : Command)
    (hcommand : ob.command ≠ "protocolVersion") (hversion : ob.version ≠ 1) :
    qt_v4DebuggerHook g ob = some (-1, g) := by
  unfold qt_v4DebuggerHook
  simp only [hcommand, if_false, hversion, ne_eq, not_false_eq_true, if_true]

theorem hook_insertBreakpoint (g : NativeDebugger) (ob : Command)
    (hcommand : ob.command = "insertBreakpoint") (hversion : ob.version = 1) :
    qt_v4DebuggerHook g ob = some (toInt32 (g.qt_v4BreakpointCount + 1),
      { g with
        qt_v4BreakpointCount := toInt32 (g.qt_v4BreakpointCount + 1)
        qt_v4Breakpoints := g.qt_v4Breakpoints ++
          [{ bpNumber := toInt32 (g.qt_v4BreakpointCount + 1)
             lineNumber := ob.lineNumber
             engineName := ob.engineName
             fullName := ob.fullName
             condition := ob.condition }] }) := by
  have h1 : ¬ ("insertBreakpoint" = "protocolVersion") := by decide
  unfold qt_v4DebuggerHook
  simp only [hcommand, h1, if_false, hversion, ne_eq, not_true_eq_false, if_true]

theorem hook_removeBreakpoint (g : NativeDebugger) (ob : Command)
    (hcommand : ob.command = "removeBreakpoint") (hversion : ob.version = 1) :
    qt_v4DebuggerHook g ob =
      match g.qt_v4Breakpoints.getLast? with
      | none => none
      | some last =>
        if last.matches ob.fullName ob.lineNumber then
          some (0, { g with qt_v4Breakpoints := g.qt_v4Breakpoints.dropLast })
        else
          match firstMatching ob.fullName ob.lineNumber g.qt_v4Breakpoints.dropLast 0 with
          | some i =>
            some (0, { g with qt_v4Breakpoints := g.qt_v4Breakpoints.dropLast.set i last })
          | none => some (-3, g) := by
  have h1 : ¬ ("removeBreakpoint" = "protocolVersion") := by decide
  have h2 : ¬ ("removeBreakpoint" = "insertBreakpoint") := by decide
  unfold qt_v4DebuggerHook
  simp only [hcommand, h1, h2, if_false, hversion, ne_eq, not_true_eq_false, if_true]

theorem hook_prepareStep (g : NativeDebugger) (ob : Command)
    (hcommand : ob.command = "prepareStep") (hversion : ob.version = 1) :
    qt_v4DebuggerHook g ob = some (0, { g with qt_v4IsStepping := true }) := by
  have h1 : ¬ ("prepareStep" = "protocolVersion") := by decide
  have h2 : ¬ ("prepareStep" = "insertBreakpoint") := by decide
  have h3 : ¬ ("prepareStep" = "removeBreakpoint") := by decide
  unfold qt_v4DebuggerHook
  simp only [hcommand, h1, h2, h3, if_false, hversion, ne_eq, not_true_eq_false, if_true]

theorem hook_noSuchCommand (g : NativeDebugger) (ob : Command) (hversion : ob.version = 1)
    (h1 : ob.command ≠ "protocolVersion") (h2 : ob.command ≠ "insertBreakpoint")
    (h3 : ob.command ≠ "removeBreakpoint") (h4 : ob.command ≠ "prepareStep") :
    qt_v4DebuggerHook g ob = some (-2, g) := by
  unfold qt_v4DebuggerHook
  simp only [h1, h2, h3, h4, if_false, hversion, ne_eq, not_true_eq_false]

/-- The loop of `removeBreakpoint`: the index it stops at holds the first entry that
matches. -/
theorem firstMatching_some (fullName : String) (lineNumber : Int) (xs : List Breakpoint)
    (k i : Nat) (h : firstMatching fullName lineNumber xs k = some i) :
    ∃ j bp, i = k + j ∧ xs[j]? = some bp ∧ bp.matches fullName lineNumber = true ∧
      ∀ j' bp', j' < j → xs[j']? = some bp' → bp'.matches fullName lineNumber = false := by
  induction xs generalizing k with
  | nil => simp [firstMatching] at h
  | cons x rest ih =>
    unfold firstMatching at h
    by_cases hx : x.matches fullName lineNumber = true
    · simp only [hx, if_true, Option.some.injEq] at h
      refine ⟨0, x, by omega, by simp, hx, ?_⟩
      intro j' _ hj
      omega
    · simp only [hx, Bool.false_eq_true, if_false] at h
      obtain ⟨j, bp, hi, hj, hm, hbefore⟩ := ih (k + 1) h
      refine ⟨j + 1, bp, by omega, by simpa using hj, hm, ?_⟩
      intro j' bp' hlt hj'
      cases j' with
      | zero =>
        simp only [List.getElem?_cons_zero, Option.some.injEq] at hj'
        subst hj'
        simpa using hx
      | succ n =>
        exact hbefore n bp' (by omega) (by simpa using hj')

/-- The loop of `removeBreakpoint` runs to its end only if no entry matches. -/
theorem firstMatching_none (fullName : String) (lineNumber : Int) (xs : List Breakpoint)
    (k : Nat) :
    firstMatching fullName lineNumber xs k = none ↔
      ∀ bp ∈ xs, bp.matches fullName lineNumber = false := by
  induction xs generalizing k with
  | nil => simp [firstMatching]
  | cons x rest ih =>
    unfold firstMatching
    by_cases hx : x.matches fullName lineNumber = true
    · simp [hx]
    · have hx' : x.matches fullName lineNumber = false := by simpa using hx
      simp only [hx', Bool.false_eq_true, if_false, ih, List.mem_cons, forall_eq_or_imp,
        true_and]

end Moth
namespace Compiler
end Compiler
namespace Moth

/-- The branches of `qt_v4DebuggerHook`. -/
theorem hook_cases (g : NativeDebugger) (ob : Command)
    (P : Option (Int × NativeDebugger) → Prop)
    (hprotocol : ob.command = "protocolVersion" → P (some (1, g)))
    (hwrong : ob.command ≠ "protocolVersion" → ob.version ≠ 1 → P (some (-1, g)))
    (hinsert : ob.command = "insertBreakpoint" → ob.version = 1 →
      P (some (toInt32 (g.qt_v4BreakpointCount + 1),
        { g with
          qt_v4BreakpointCount := toInt32 (g.qt_v4BreakpointCount + 1)
          qt_v4Breakpoints := g.qt_v4Breakpoints ++
            [{ bpNumber := toInt32 (g.qt_v4BreakpointCount + 1)
               lineNumber := ob.lineNumber
               engineName := ob.engineName
               fullName := ob.fullName
               condition := ob.condition }] })))
    (hremove : ob.command = "removeBreakpoint" → ob.version = 1 →
      P (match g.qt_v4Breakpoints.getLast? with
        | none => none
        | some last =>
          if last.matches ob.fullName ob.lineNumber then
            some (0, { g with qt_v4Breakpoints := g.qt_v4Breakpoints.dropLast })
          else
            match firstMatching ob.fullName ob.lineNumber g.qt_v4Breakpoints.dropLast 0 with
            | some i =>
              some (0, { g with qt_v4Breakpoints := g.qt_v4Breakpoints.dropLast.set i last })
            | none => some (-3, g)))
    (hstep : ob.command = "prepareStep" → ob.version = 1 →
      P (some (0, { g with qt_v4IsStepping := true })))
    (hunknown : ob.command ≠ "protocolVersion" → ob.command ≠ "insertBreakpoint" →
      ob.command ≠ "removeBreakpoint" → ob.command ≠ "prepareStep" → ob.version = 1 →
      P (some (-2, g))) :
    P (qt_v4DebuggerHook g ob) := by
  by_cases h1 : ob.command = "protocolVersion"
  · rw [hook_protocolVersion g ob h1]
    exact hprotocol h1
  · by_cases hv : ob.version = 1
    · by_cases h2 : ob.command = "insertBreakpoint"
      · rw [hook_insertBreakpoint g ob h2 hv]
        exact hinsert h2 hv
      · by_cases h3 : ob.command = "removeBreakpoint"
        · rw [hook_removeBreakpoint g ob h3 hv]
          exact hremove h3 hv
        · by_cases h4 : ob.command = "prepareStep"
          · rw [hook_prepareStep g ob h4 hv]
            exact hstep h4 hv
          · rw [hook_noSuchCommand g ob hv h1 h2 h3 h4]
            exact hunknown h1 h2 h3 h4 hv
    · rw [hook_wrongProtocol g ob h1 hv]
      exact hwrong h1 hv

/-- What `removeBreakpoint` answers: failure and no change, or success and a change of
the breakpoint list only. -/
theorem removeBreakpoint_frame (g : NativeDebugger) (ob : Command) (r : Int)
    (g' : NativeDebugger)
    (h : (match g.qt_v4Breakpoints.getLast? with
        | none => none
        | some last =>
          if last.matches ob.fullName ob.lineNumber then
            some (0, { g with qt_v4Breakpoints := g.qt_v4Breakpoints.dropLast })
          else
            match firstMatching ob.fullName ob.lineNumber g.qt_v4Breakpoints.dropLast 0 with
            | some i =>
              some (0, { g with qt_v4Breakpoints := g.qt_v4Breakpoints.dropLast.set i last })
            | none => some (-3, g)) = some (r, g')) :
    (r = 0 ∨ (r = -3 ∧ g' = g)) ∧
    g'.qt_v4BreakpointCount = g.qt_v4BreakpointCount ∧
    g'.qt_v4IsStepping = g.qt_v4IsStepping ∧ g'.qt_v4LastStop = g.qt_v4LastStop ∧
    g'.triggered = g.triggered := by
  cases hl : g.qt_v4Breakpoints.getLast? with
  | none => rw [hl] at h; cases h
  | some last =>
    rw [hl] at h
    dsimp only at h
    split at h
    · cases h
      exact ⟨Or.inl rfl, rfl, rfl, rfl, rfl⟩
    · cases hf : firstMatching ob.fullName ob.lineNumber g.qt_v4Breakpoints.dropLast 0 with
      | none =>
        rw [hf] at h
        cases h
        exact ⟨Or.inr ⟨rfl, rfl⟩, rfl, rfl, rfl, rfl⟩
      | some i =>
        rw [hf] at h
        cases h
        exact ⟨Or.inl rfl, rfl, rfl, rfl, rfl⟩

/-- `insertBreakpoint` below `INT_MAX`: the counter is incremented without wrap-around. -/
theorem hook_insertBreakpoint_exact (g : NativeDebugger) (ob : Command)
    (hcommand : ob.command = "insertBreakpoint") (hversion : ob.version = 1)
    (hcount : 0 ≤ g.qt_v4BreakpointCount) (hmax : g.qt_v4BreakpointCount < 2147483647) :
    qt_v4DebuggerHook g ob = some (g.qt_v4BreakpointCount + 1,
      { g with
        qt_v4BreakpointCount := g.qt_v4BreakpointCount + 1
        qt_v4Breakpoints := g.qt_v4Breakpoints ++
          [{ bpNumber := g.qt_v4BreakpointCount + 1
             lineNumber := ob.lineNumber
             engineName := ob.engineName
             fullName := ob.fullName
             condition := ob.condition }] }) := by
  rw [hook_insertBreakpoint g ob hcommand hversion,
    toInt32_of_range _ (by omega) (by omega)]

/-- A command that is not an accepted `insertBreakpoint` leaves the breakpoint counter as
it is; an accepted one increments it, without wrap-around below `INT_MAX`; and what
`insertBreakpoint` answers is not above the counter it leaves. -/
theorem hook_count (g : NativeDebugger) (ob : Command) (r : Int) (g' : NativeDebugger)
    (hcount : 0 ≤ g.qt_v4BreakpointCount)
    (hmax : g.qt_v4BreakpointCount + (insertions [.command ob] : Int) ≤ 2147483647)
    (h : qt_v4DebuggerHook g ob = some (r, g')) :
    g'.qt_v4BreakpointCount = g.qt_v4BreakpointCount + (insertions [.command ob] : Int) ∧
    (ob.command = "insertBreakpoint" → r ≤ g'.qt_v4BreakpointCount) := by
  rw [insertions_single] at hmax ⊢
  revert h
  refine hook_cases g ob
    (fun o => o = some (r, g') →
      g'.qt_v4BreakpointCount = g.qt_v4BreakpointCount +
        ((if ob.command = "insertBreakpoint" ∧ ob.version = 1 then 1 else 0 : Nat) : Int) ∧
      (ob.command = "insertBreakpoint" → r ≤ g'.qt_v4BreakpointCount)) ?_ ?_ ?_ ?_ ?_ ?_
  · intro hc h
    cases h
    have hne : ¬ ob.command = "insertBreakpoint" := by
      rw [hc]
      decide
    rw [if_neg (fun hh => hne hh.1)]
    exact ⟨by simp, fun hi => absurd hi hne⟩
  · intro _ hv h
    cases h
    rw [if_neg (fun hh => hv hh.2)]
    exact ⟨by simp, fun _ => by omega⟩
  · intro hc hv h
    rw [if_pos ⟨hc, hv⟩] at hmax
    rw [toInt32_of_range _ (by omega) (by omega)] at h
    cases h
    rw [if_pos ⟨hc, hv⟩]
    exact ⟨rfl, fun _ => le_refl _⟩
  · intro hc _ h
    obtain ⟨_, hcnt, _⟩ := removeBreakpoint_frame g ob r g' h
    have hne : ¬ ob.command = "insertBreakpoint" := by
      rw [hc]
      decide
    rw [if_neg (fun hh => hne hh.1)]
    exact ⟨by rw [hcnt]; simp, fun hi => absurd hi hne⟩
  · intro hc _ h
    cases h
    have hne : ¬ ob.command = "insertBreakpoint" := by
      rw [hc]
      decide
    rw [if_neg (fun hh => hne hh.1)]
    exact ⟨by simp, fun hi => absurd hi hne⟩
  · intro _ h2 _ _ _ h
    cases h
    rw [if_neg (fun hh => h2 hh.1)]
    exact ⟨by simp, fun hi => absurd hi h2⟩

/-- Along a sequence of events with no more accepted `insertBreakpoint` commands than
the counter has room for below `INT_MAX`, the breakpoint counter goes up by the number
of these commands, and no handle answered for `insertBreakpoint` is above the counter. -/
theorem after_count (events : List Event) (g : NativeDebugger)
    (answers : List (Command × Int)) (g' : NativeDebugger)
    (hcount : 0 ≤ g.qt_v4BreakpointCount)
    (hmax : g.qt_v4BreakpointCount + (insertions events : Int) ≤ 2147483647)
    (h : g.after events = some (answers, g')) :
    g'.qt_v4BreakpointCount = g.qt_v4BreakpointCount + (insertions events : Int) ∧
    ∀ a ∈ answers, a.1.command = "insertBreakpoint" → a.2 ≤ g'.qt_v4BreakpointCount := by
  induction events generalizing g answers with
  | nil =>
    simp only [NativeDebugger.after, Option.some.injEq, Prod.mk.injEq] at h
    obtain ⟨rfl, rfl⟩ := h
    exact ⟨by simp [insertions], fun a ha => absurd ha (List.not_mem_nil a)⟩
  | cons event events ih =>
    cases event with
    | command ob =>
      rw [insertions_command] at hmax ⊢
      push_cast at hmax ⊢
      unfold NativeDebugger.after at h
      cases hh : qt_v4DebuggerHook g ob with
      | none => rw [hh] at h; cases h
      | some res =>
        obtain ⟨r, g1⟩ := res
        rw [hh] at h
        dsimp only at h
        cases ha : g1.after events with
        | none => rw [ha] at h; cases h
        | some res2 =>
          obtain ⟨answers2, g2⟩ := res2
          rw [ha] at h
          simp only [Option.some.injEq, Prod.mk.injEq] at h
          obtain ⟨rfl, rfl⟩ := h
          obtain ⟨h1, h2⟩ := hook_count g ob r g1 hcount (by omega) hh
          obtain ⟨h3, h4⟩ := ih g1 answers2 (by omega) (by omega) ha
          refine ⟨by omega, ?_⟩
          intro a hmem hcmd
          rcases List.mem_cons.mp hmem with rfl | hmem
          · have := h2 hcmd
            omega
          · exact h4 a hmem hcmd
    | lineCheck context globalCode =>
      unfold NativeDebugger.after at h
      have hf := (checkForBreak_frame g context globalCode).1
      have hi : insertions (.lineCheck context globalCode :: events) = insertions events := rfl
      rw [hi] at hmax ⊢
      obtain ⟨h3, h4⟩ := ih (qt_v4CheckForBreak g context globalCode) answers
        (by rw [hf]; exact hcount) (by rw [hf]; exact hmax) h
      rw [hf] at h3
      exact ⟨h3, h4⟩

/-- From a counter with room for `n` increments below `INT_MAX`, `n` accepted
`insertBreakpoint` commands are all answered and leave the counter `n` higher. -/
theorem after_insertBreakpoints (ob : Command) (hcommand : ob.command = "insertBreakpoint")
    (hversion : ob.version = 1) (n : Nat) (g : NativeDebugger)
    (hcount : 0 ≤ g.qt_v4BreakpointCount)
    (hn : g.qt_v4BreakpointCount + (n : Int) ≤ 2147483647) :
    ∃ answers g', g.after (List.replicate n (.command ob)) = some (answers, g') ∧
      g'.qt_v4BreakpointCount = g.qt_v4BreakpointCount + (n : Int) := by
  induction n generalizing g with
  | zero => exact ⟨[], g, rfl, by simp⟩
  | succ n ih =>
    have hlt : g.qt_v4BreakpointCount < 2147483647 := by
      push_cast at hn
      omega
    obtain ⟨answers, g', h1, h2⟩ := ih
      { g with
        qt_v4BreakpointCount := g.qt_v4BreakpointCount + 1
        qt_v4Breakpoints := g.qt_v4Breakpoints ++
          [{ bpNumber := g.qt_v4BreakpointCount + 1
             lineNumber := ob.lineNumber
             engineName := ob.engineName
             fullName := ob.fullName
             condition := ob.condition }] }
      (by show 0 ≤ g.qt_v4BreakpointCount + 1; omega)
      (by
        show g.qt_v4BreakpointCount + 1 + (n : Int) ≤ 2147483647
        push_cast at hn
        omega)
    refine ⟨(ob, g.qt_v4BreakpointCount + 1) :: answers, g', ?_, ?_⟩
    · rw [List.replicate_succ]
      unfold NativeDebugger.after
      rw [hook_insertBreakpoint_exact g ob hcommand hversion hcount hlt]
      dsimp only
      rw [h1]
    · rw [h2]
      show g.qt_v4BreakpointCount + 1 + (n : Int) = _
      push_cast
      omega

/-- The entry the loop of `removeBreakpoint` overwrites with the last one: the list
holds the same entries as before, but for that one. -/
theorem perm_set_last (last x : Breakpoint) (d : List Breakpoint) (i : Nat)
    (hx : d[i]? = some x) : List.Perm (last :: d) (x :: d.set i last) := by
  induction d generalizing i with
  | nil => simp at hx
  | cons y ys ih =>
    cases i with
    | zero =>
      simp only [List.getElem?_cons_zero, Option.some.injEq] at hx
      subst hx
      simpa using List.Perm.swap y last ys
    | succ n =>
      simp only [List.getElem?_cons_succ] at hx
      have h1 := ih n hx
      simp only [List.set_cons_succ]
      exact ((List.Perm.swap y last ys).trans (h1.cons y)).trans (List.Perm.swap x y _)

end Moth
namespace Compiler
end Compiler
namespace Moth

/-! ## The commands of the native debugger -/

/-- C22 (amended). `insertBreakpoint` with protocol version 1, in a state of the
debugger interface whose breakpoint counter is not negative and below `INT_MAX`: the
handle returned is the counter plus one, it is positive, the counter takes its value,
and one breakpoint with the handle and the line, names and condition of the command is
appended. The handle is above every handle `insertBreakpoint` has answered on the way
from the initial state to this one, a way with at most `INT_MAX` accepted
`insertBreakpoint` commands; from the initial state the first call answers 1 and the
second 2. -/
theorem insertBreakpoint_handle (g : NativeDebugger) (ob : Command)
    (hcommand : ob.command = "insertBreakpoint") (hversion : ob.version = 1)
    (hcount : 0 ≤ g.qt_v4BreakpointCount) (hmax : g.qt_v4BreakpointCount < 2147483647) :
    (∃ g', qt_v4DebuggerHook g ob = some (g.qt_v4BreakpointCount + 1, g') ∧
      0 < g.qt_v4BreakpointCount + 1 ∧
      g'.qt_v4BreakpointCount = g.qt_v4BreakpointCount + 1 ∧
      g'.qt_v4Breakpoints = g.qt_v4Breakpoints ++
        [{ bpNumber := g.qt_v4BreakpointCount + 1
           lineNumber := ob.lineNumber
           engineName := ob.engineName
           fullName := ob.fullName
           condition := ob.condition }]) ∧
    (∀ events answers, ({} : NativeDebugger).after events = some (answers, g) →
      insertions events ≤ 2147483647 →
      ∀ a ∈ answers, a.1.command = "insertBreakpoint" →
        a.2 < g.qt_v4BreakpointCount + 1) ∧
    (∀ second : Command, second.command = "insertBreakpoint" → second.version = 1 →
      ∃ g1 g2, qt_v4DebuggerHook {} ob = some (1, g1) ∧
        qt_v4DebuggerHook g1 second = some (2, g2)) := by
  refine ⟨⟨_, hook_insertBreakpoint_exact g ob hcommand hversion hcount hmax, by omega, rfl,
    rfl⟩, ?_, ?_⟩
  · intro events answers h hins a ha hcmd
    have h0 : (0 : Int) ≤ ({} : NativeDebugger).qt_v4BreakpointCount := le_refl _
    have hm : ({} : NativeDebugger).qt_v4BreakpointCount + (insertions events : Int) ≤
        2147483647 := by
      show (0 : Int) + (insertions events : Int) ≤ 2147483647
      omega
    have := (after_count events {} answers g h0 hm h).2 a ha hcmd
    omega
  · intro second hc hv
    have h1 := hook_insertBreakpoint_exact {} ob hcommand hversion (by decide) (by decide)
    have h2 := hook_insertBreakpoint_exact
      { qt_v4BreakpointCount := 1
        qt_v4Breakpoints :=
          [{ bpNumber := 1
             lineNumber := ob.lineNumber
             engineName := ob.engineName
             fullName := ob.fullName
             condition := ob.condition }] } second hc hv
      (by show (0 : Int) ≤ 1; decide) (by show (1 : Int) < 2147483647; decide)
    exact ⟨_, _, h1, h2⟩

/-- C23 (amended). `removeBreakpoint` with protocol version 1 on a breakpoint list with
an entry that matches the file and line: it returns 0 and removes exactly one entry, one
that matches, and leaves every other entry registered and the other static variables as
they were. The entry removed is the last one of the list if that matches; otherwise it
is the first one in the list that matches, and the last entry of the list takes its
place. -/
theorem removeBreakpoint_removes (g : NativeDebugger) (ob : Command)
    (hcommand : ob.command = "removeBreakpoint") (hversion : ob.version = 1)
    (hmatch : ∃ bp ∈ g.qt_v4Breakpoints, bp.matches ob.fullName ob.lineNumber = true) :
    ∃ g' removed last, qt_v4DebuggerHook g ob = some (0, g') ∧
      g.qt_v4Breakpoints.getLast? = some last ∧
      removed.matches ob.fullName ob.lineNumber = true ∧
      List.Perm g.qt_v4Breakpoints (removed :: g'.qt_v4Breakpoints) ∧
      g'.qt_v4BreakpointCount = g.qt_v4BreakpointCount ∧
      g'.qt_v4IsStepping = g.qt_v4IsStepping ∧ g'.qt_v4LastStop = g.qt_v4LastStop ∧
      g'.triggered = g.triggered ∧
      (last.matches ob.fullName ob.lineNumber = true →
        removed = last ∧ g'.qt_v4Breakpoints = g.qt_v4Breakpoints.dropLast) ∧
      (last.matches ob.fullName ob.lineNumber = false →
        ∃ i, g.qt_v4Breakpoints[i]? = some removed ∧ i + 1 < g.qt_v4Breakpoints.length ∧
          (∀ j bp, j < i → g.qt_v4Breakpoints[j]? = some bp →
            bp.matches ob.fullName ob.lineNumber = false) ∧
          g'.qt_v4Breakpoints = g.qt_v4Breakpoints.dropLast.set i last) := by
  obtain ⟨bp, hmem, hbp⟩ := hmatch
  cases hl : g.qt_v4Breakpoints.getLast? with
  | none =>
    rw [List.getLast?_eq_none_iff] at hl
    rw [hl] at hmem
    exact absurd hmem (List.not_mem_nil bp)
  | some last =>
    have hsplit : g.qt_v4Breakpoints.dropLast ++ [last] = g.qt_v4Breakpoints :=
      List.dropLast_append_getLast? last hl
    rw [hook_removeBreakpoint g ob hcommand hversion, hl]
    dsimp only
    by_cases hlast : last.matches ob.fullName ob.lineNumber = true
    · refine ⟨{ g with qt_v4Breakpoints := g.qt_v4Breakpoints.dropLast }, last, last,
        by rw [if_pos hlast], rfl, hlast, ?_, rfl, rfl, rfl, rfl,
        fun _ => ⟨rfl, rfl⟩, fun h => ?_⟩
      · show List.Perm g.qt_v4Breakpoints (last :: g.qt_v4Breakpoints.dropLast)
        nth_rewrite 1 [← hsplit]
        exact List.perm_append_singleton last _
      · rw [h] at hlast
        exact absurd hlast (by decide)
    · have hlast' : last.matches ob.fullName ob.lineNumber = false := by simpa using hlast
      rw [if_neg hlast]
      cases hf : firstMatching ob.fullName ob.lineNumber g.qt_v4Breakpoints.dropLast 0 with
      | none =>
        exfalso
        rw [firstMatching_none] at hf
        rw [← hsplit] at hmem
        rcases List.mem_append.mp hmem with h | h
        · rw [hf bp h] at hbp
          exact absurd hbp (by decide)
        · rw [List.mem_singleton] at h
          subst h
          exact hlast hbp
      | some i =>
        obtain ⟨j, x, hij, hj, hx, hbefore⟩ := firstMatching_some _ _ _ _ _ hf
        have hi : i = j := by omega
        subst hi
        have hlt : i < g.qt_v4Breakpoints.dropLast.length := by
          rcases Nat.lt_or_ge i g.qt_v4Breakpoints.dropLast.length with h | h
          · exact h
          · rw [List.getElem?_eq_none h] at hj
            cases hj
        have hget : ∀ k, k < g.qt_v4Breakpoints.dropLast.length →
            g.qt_v4Breakpoints[k]? = g.qt_v4Breakpoints.dropLast[k]? := by
          intro k hk
          nth_rewrite 1 [← hsplit]
          exact List.getElem?_append_left hk
        refine ⟨{ g with qt_v4Breakpoints := g.qt_v4Breakpoints.dropLast.set i last }, x, last,
          rfl, rfl, hx, ?_, rfl, rfl, rfl, rfl, fun h => ?_, fun _ => ?_⟩
        · show List.Perm g.qt_v4Breakpoints (x :: g.qt_v4Breakpoints.dropLast.set i last)
          nth_rewrite 1 [← hsplit]
          exact (List.perm_append_singleton last _).trans (perm_set_last last x _ i hj)
        · rw [h] at hlast
          exact absurd rfl hlast
        · refine ⟨i, by rw [hget i hlt]; exact hj, ?_, ?_, rfl⟩
          · rw [List.length_dropLast] at hlt
            omega
          · intro k b hk hb
            rw [hget k (by omega)] at hb
            exact hbefore k b hk hb

/-- C24, the code as it is. `removeBreakpoint` with protocol version 1 on a breakpoint
list without an entry that matches the file and line: if the list is not empty, it
returns -3 (no such breakpoint) and changes nothing; if the list is empty, it calls
`last()` on the empty vector, and what it returns is not defined. -/
theorem removeBreakpoint_no_match (g : NativeDebugger) (ob : Command)
    (hcommand : ob.command = "removeBreakpoint") (hversion : ob.version = 1)
    (hnone : ∀ bp ∈ g.qt_v4Breakpoints, bp.matches ob.fullName ob.lineNumber = false) :
    (g.qt_v4Breakpoints ≠ [] → qt_v4DebuggerHook g ob = some (-3, g)) ∧
    (g.qt_v4Breakpoints = [] → qt_v4DebuggerHook g ob = none) := by
  rw [hook_removeBreakpoint g ob hcommand hversion]
  constructor
  · intro hne
    cases hl : g.qt_v4Breakpoints.getLast? with
    | none => exact absurd (List.getLast?_eq_none_iff.mp hl) hne
    | some last =>
      dsimp only
      have hlast := hnone last (List.mem_of_getLast?_eq_some hl)
      have hf : firstMatching ob.fullName ob.lineNumber g.qt_v4Breakpoints.dropLast 0 =
          none := by
        rw [firstMatching_none]
        intro bp hbp
        exact hnone bp (List.dropLast_subset _ hbp)
      rw [hlast, hf]
      rfl
  · intro he
    rw [he]
    rfl

/-- C25 (amended). A command other than `protocolVersion` whose version is not 1 returns
-1, and a command with version 1 and a name the hook does not know returns -2; neither
changes the static variables of the debugger interface. With version 1,
`insertBreakpoint` returns a value that is not negative while the breakpoint counter is
not negative and below `INT_MAX`, `removeBreakpoint` for a file and line an entry
matches returns 0, and `prepareStep` returns 0. -/
theorem hook_return_codes (g : NativeDebugger) (ob : Command) :
    (ob.command ≠ "protocolVersion" → ob.version ≠ 1 →
      qt_v4DebuggerHook g ob = some (-1, g)) ∧
    (ob.version = 1 → ob.command ≠ "protocolVersion" → ob.command ≠ "insertBreakpoint" →
      ob.command ≠ "removeBreakpoint" → ob.command ≠ "prepareStep" →
      qt_v4DebuggerHook g ob = some (-2, g)) ∧
    (ob.version = 1 → ob.command = "insertBreakpoint" → 0 ≤ g.qt_v4BreakpointCount →
      g.qt_v4BreakpointCount < 2147483647 →
      ∃ r g', qt_v4DebuggerHook g ob = some (r, g') ∧ 0 ≤ r) ∧
    (ob.version = 1 → ob.command = "removeBreakpoint" →
      (∃ bp ∈ g.qt_v4Breakpoints, bp.matches ob.fullName ob.lineNumber = true) →
      ∃ r g', qt_v4DebuggerHook g ob = some (r, g') ∧ 0 ≤ r) ∧
    (ob.version = 1 → ob.command = "prepareStep" →
      ∃ r g', qt_v4DebuggerHook g ob = some (r, g') ∧ 0 ≤ r) := by
  refine ⟨hook_wrongProtocol g ob, fun hv h1 h2 h3 h4 => hook_noSuchCommand g ob hv h1 h2 h3 h4,
    fun hv hc h0 hm => ⟨_, _, hook_insertBreakpoint_exact g ob hc hv h0 hm, by omega⟩, ?_,
    fun hv hc => ⟨_, _, hook_prepareStep g ob hc hv, le_refl _⟩⟩
  intro hv hc ⟨bp, hmem, hbp⟩
  cases hl : g.qt_v4Breakpoints.getLast? with
  | none =>
    rw [List.getLast?_eq_none_iff] at hl
    rw [hl] at hmem
    exact absurd hmem (List.not_mem_nil bp)
  | some last =>
    have hsplit : g.qt_v4Breakpoints.dropLast ++ [last] = g.qt_v4Breakpoints :=
      List.dropLast_append_getLast? last hl
    rw [hook_removeBreakpoint g ob hc hv, hl]
    dsimp only
    by_cases hlast : last.matches ob.fullName ob.lineNumber = true
    · rw [if_pos hlast]
      exact ⟨_, _, rfl, le_refl _⟩
    · rw [if_neg hlast]
      cases hf : firstMatching ob.fullName ob.lineNumber g.qt_v4Breakpoints.dropLast 0 with
      | none =>
        exfalso
        rw [firstMatching_none] at hf
        rw [← hsplit] at hmem
        rcases List.mem_append.mp hmem with h | h
        · rw [hf bp h] at hbp
          exact absurd hbp (by decide)
        · rw [List.mem_singleton] at h
          subst h
          exact hlast hbp
      | some i => exact ⟨_, _, rfl, le_refl _⟩

/-- C26. The command `protocolVersion` returns 1, whatever its version field, and
changes none of the static variables of the debugger interface. -/
theorem protocolVersion_no_effect (g : NativeDebugger) (ob : Command)
    (hcommand : ob.command = "protocolVersion") :
    qt_v4DebuggerHook g ob = some (1, g) :=
  hook_protocolVersion g ob hcommand

end Moth
namespace Compiler
end Compiler
namespace Moth

/-! ## Stepping and breakpoints in the line check -/

/-- The last stop after the loop over the breakpoints is the one before, or an entry at
the line and engine name of the check. -/
theorem triggerMatching_lastStop (lineNumber : Int) (engineName : String)
    (g : NativeDebugger) :
    (triggerMatching lineNumber engineName g).qt_v4LastStop = g.qt_v4LastStop ∨
    (triggerMatching lineNumber engineName g).qt_v4LastStop.location =
      (engineName, lineNumber) := by
  rw [triggerMatching_eq]
  cases hl : (g.qt_v4Breakpoints.reverse.filter fun bp =>
      bp.lineNumber == lineNumber && bp.engineName == engineName).getLast? with
  | none => exact Or.inl rfl
  | some x =>
    right
    have hx := List.mem_of_getLast?_eq_some hl
    simp only [List.mem_filter, Bool.and_eq_true, beq_iff_eq] at hx
    show x.location = _
    unfold Breakpoint.location
    rw [hx.2.1, hx.2.2]

/-- Line checks at the location of the last stop, and in functions without source
file, leave stepping armed and the location of the last stop as it is. -/
theorem lineChecks_armed (globalCode : Function) (contexts : List ExecutionContext)
    (g : NativeDebugger) (hstep : g.qt_v4IsStepping = true)
    (hsame : ∀ c ∈ contexts,
      (qt_v4ExtractFunction c globalCode).sourceFile.isEmpty = true ∨
        location c globalCode = g.qt_v4LastStop.location) :
    (lineChecks g globalCode contexts).qt_v4IsStepping = true ∧
    (lineChecks g globalCode contexts).qt_v4LastStop.location = g.qt_v4LastStop.location ∧
    (lineChecks g globalCode contexts).qt_v4Breakpoints = g.qt_v4Breakpoints ∧
    (lineChecks g globalCode contexts).qt_v4BreakpointCount = g.qt_v4BreakpointCount := by
  induction contexts generalizing g with
  | nil => exact ⟨hstep, rfl, rfl, rfl⟩
  | cons c rest ih =>
    unfold lineChecks
    have hc := hsame c (List.mem_cons_self c rest)
    have hrest : ∀ x ∈ rest,
        (qt_v4ExtractFunction x globalCode).sourceFile.isEmpty = true ∨
          location x globalCode = g.qt_v4LastStop.location :=
      fun x hx => hsame x (List.mem_cons_of_mem c hx)
    cases hfile : (qt_v4ExtractFunction c globalCode).sourceFile.isEmpty with
    | true =>
      rw [checkForBreak_emptyFile g c globalCode hfile]
      exact ih g hstep hrest
    | false =>
      have hloc : location c globalCode = g.qt_v4LastStop.location := by
        rcases hc with h | h
        · rw [hfile] at h
          cases h
        · exact h
      have heq := checkForBreak_loop g c globalCode hfile (Or.inr hloc)
      have hl : (qt_v4CheckForBreak g c globalCode).qt_v4LastStop.location =
          g.qt_v4LastStop.location := by
        rw [heq]
        rcases triggerMatching_lastStop c.lineNumber
          (qt_v4ExtractFunction c globalCode).sourceFile g with h | h
        · rw [h]
        · rw [h, ← hloc]
          rfl
      have hs : (qt_v4CheckForBreak g c globalCode).qt_v4IsStepping = true := by
        rw [heq, triggerMatching_eq]
        exact hstep
      have hf := checkForBreak_frame g c globalCode
      obtain ⟨h1, h2, h3, h4⟩ := ih (qt_v4CheckForBreak g c globalCode) hs
        (fun x hx => by rw [hl]; exact hrest x hx)
      exact ⟨h1, h2.trans hl, h3.trans hf.2, h4.trans hf.1⟩

/-- C27. `prepareStep` with protocol version 1 returns 0 and sets the stepping flag, and
nothing else. After it, line checks at the file and line of the last stop (and line
checks in functions without source file) leave stepping armed; the first line check
after them in a function with a source file, at a file and line other than the last
stop's, calls the hook exactly once, makes that location the last stop and clears the
stepping flag. -/
theorem prepareStep_arms_single_step (g : NativeDebugger) (ob : Command)
    (hcommand : ob.command = "prepareStep") (hversion : ob.version = 1) :
    ∃ g1, qt_v4DebuggerHook g ob = some (0, g1) ∧ g1.qt_v4IsStepping = true ∧
      g1.qt_v4LastStop = g.qt_v4LastStop ∧ g1.qt_v4Breakpoints = g.qt_v4Breakpoints ∧
      g1.qt_v4BreakpointCount = g.qt_v4BreakpointCount ∧ g1.triggered = g.triggered ∧
      ∀ (globalCode : Function) (before : List ExecutionContext) (context : ExecutionContext),
        (∀ c ∈ before, (qt_v4ExtractFunction c globalCode).sourceFile.isEmpty = true ∨
          location c globalCode = g.qt_v4LastStop.location) →
        (qt_v4ExtractFunction context globalCode).sourceFile.isEmpty = false →
        location context globalCode ≠ g.qt_v4LastStop.location →
        (lineChecks g1 globalCode before).qt_v4IsStepping = true ∧
        qt_v4CheckForBreak (lineChecks g1 globalCode before) context globalCode =
          { lineChecks g1 globalCode before with
            qt_v4IsStepping := false
            qt_v4LastStop :=
              { bpNumber := 0
                lineNumber := context.lineNumber
                engineName := (qt_v4ExtractFunction context globalCode).sourceFile }
            triggered := (lineChecks g1 globalCode before).triggered ++
              [{ bpNumber := 0
                 lineNumber := context.lineNumber
                 engineName := (qt_v4ExtractFunction context globalCode).sourceFile }] } := by
  refine ⟨{ g with qt_v4IsStepping := true }, hook_prepareStep g ob hcommand hversion, rfl,
    rfl, rfl, rfl, rfl, ?_⟩
  intro globalCode before context hbefore hfile hloc
  obtain ⟨h1, h2, _, _⟩ := lineChecks_armed globalCode before
    { g with qt_v4IsStepping := true } rfl hbefore
  refine ⟨h1, checkForBreak_step _ context globalCode h1 hfile ?_⟩
  rw [h2]
  exact hloc

/-- C28 (amended). A line check in a function with a source file calls the hook for a
breakpoint in the list whose engine name and line are the source file and line of the
check: the hook is called at least once there, with a stop at this location. With
stepping disarmed, a line check at a source file and line that are the engine name and
line of no breakpoint in the list calls no hook and changes nothing. The breakpoint
`insertBreakpoint` registers has the engine name, full name and line of the command. -/
theorem lineCheck_hits_breakpoint (g : NativeDebugger) (context : ExecutionContext)
    (globalCode : Function) :
    (∀ bp ∈ g.qt_v4Breakpoints,
      (qt_v4ExtractFunction context globalCode).sourceFile.isEmpty = false →
      bp.location = location context globalCode →
      ∃ hit rest, (qt_v4CheckForBreak g context globalCode).triggered =
          g.triggered ++ hit :: rest ∧ hit.location = location context globalCode) ∧
    (g.qt_v4IsStepping = false →
      (∀ bp ∈ g.qt_v4Breakpoints, bp.location ≠ location context globalCode) →
      qt_v4CheckForBreak g context globalCode = g) ∧
    (∀ ob : Command, ob.command = "insertBreakpoint" → ob.version = 1 →
      ∃ r g' bp, qt_v4DebuggerHook g ob = some (r, g') ∧ bp ∈ g'.qt_v4Breakpoints ∧
        bp.bpNumber = r ∧ bp.location = (ob.engineName, ob.lineNumber) ∧
        bp.fullName = ob.fullName ∧ ∀ x ∈ g.qt_v4Breakpoints, x ∈ g'.qt_v4Breakpoints) := by
  refine ⟨?_, ?_, ?_⟩
  · intro bp hmem hfile hloc
    by_cases h : g.qt_v4IsStepping = false ∨
        location context globalCode = g.qt_v4LastStop.location
    · rw [checkForBreak_loop g context globalCode hfile h, triggerMatching_eq]
      have hin : bp ∈ g.qt_v4Breakpoints.reverse.filter fun bp =>
          bp.lineNumber == context.lineNumber &&
            bp.engineName == (qt_v4ExtractFunction context globalCode).sourceFile := by
        unfold Breakpoint.location location at hloc
        simp only [List.mem_filter, List.mem_reverse, Bool.and_eq_true, beq_iff_eq]
        exact ⟨hmem, congrArg Prod.snd hloc, congrArg Prod.fst hloc⟩
      cases hf : (g.qt_v4Breakpoints.reverse.filter fun bp =>
          bp.lineNumber == context.lineNumber &&
            bp.engineName == (qt_v4ExtractFunction context globalCode).sourceFile) with
      | nil =>
        rw [hf] at hin
        exact absurd hin (List.not_mem_nil bp)
      | cons hit rest =>
        refine ⟨hit, rest, rfl, ?_⟩
        have hh : hit ∈ g.qt_v4Breakpoints.reverse.filter fun bp =>
            bp.lineNumber == context.lineNumber &&
              bp.engineName == (qt_v4ExtractFunction context globalCode).sourceFile := by
          rw [hf]
          exact List.mem_cons_self hit rest
        simp only [List.mem_filter, Bool.and_eq_true, beq_iff_eq] at hh
        unfold Breakpoint.location location
        rw [hh.2.1, hh.2.2]
    · rw [not_or] at h
      rw [checkForBreak_step g context globalCode (by simpa using h.1) hfile h.2]
      exact ⟨_, [], rfl, rfl⟩
  · intro hstep hnone
    cases hfile : (qt_v4ExtractFunction context globalCode).sourceFile.isEmpty with
    | true => exact checkForBreak_emptyFile g context globalCode hfile
    | false =>
      rw [checkForBreak_loop g context globalCode hfile (Or.inl hstep), triggerMatching_eq]
      have hf : (g.qt_v4Breakpoints.reverse.filter fun bp =>
          bp.lineNumber == context.lineNumber &&
            bp.engineName == (qt_v4ExtractFunction context globalCode).sourceFile) = [] := by
        rw [List.filter_eq_nil_iff]
        intro bp hbp
        simp only [List.mem_reverse] at hbp
        have := hnone bp hbp
        unfold Breakpoint.location location at this
        simp only [Bool.and_eq_true, beq_iff_eq, not_and]
        intro h1 h2
        apply this
        rw [h1, h2]
      rw [hf]
      cases g
      simp
  · intro ob hc hv
    refine ⟨_, _,
      { bpNumber := toInt32 (g.qt_v4BreakpointCount + 1)
        lineNumber := ob.lineNumber
        engineName := ob.engineName
        fullName := ob.fullName
        condition := ob.condition },
      hook_insertBreakpoint g ob hc hv, ?_, rfl, rfl, rfl, ?_⟩
    · exact List.mem_append_right _ (List.mem_singleton_self _)
    · intro x hx
      exact List.mem_append_left _ hx

end Moth
namespace Compiler
end Compiler
namespace Moth

/-! ## The scope table -/

namespace ExecutionEngine

theorem contextChain_unique {e : ExecutionEngine} {start : Option Nat}
    {l l' : List (Nat × ExecutionContext)} (h : e.Chain start l) (h' : e.Chain start l') :
    l = l' := by
  induction h generalizing l' with
  | done => cases h'; rfl
  | step i scope rest hi _ ih =>
    cases h' with
    | step _ scope' rest' hi' hrest' =>
      rw [hi] at hi'
      cases hi'
      rw [ih hrest']

theorem contextChain_lt {e : ExecutionEngine} {start : Option Nat}
    {l : List (Nat × ExecutionContext)} (h : e.Chain start l) :
    ∀ p ∈ l, p.1 < e.contexts.length ∧ e.contexts[p.1]? = some p.2 := by
  induction h with
  | done => intro p hp; exact absurd hp (List.not_mem_nil p)
  | step i scope rest hi _ ih =>
    intro p hp
    rcases List.mem_cons.mp hp with rfl | hp
    · refine ⟨?_, hi⟩
      rcases Nat.lt_or_ge i e.contexts.length with h | h
      · exact h
      · rw [List.getElem?_eq_none h] at hi
        cases hi
    · exact ih p hp

theorem contextChain_suffix {e : ExecutionEngine} {start : Option Nat}
    {l : List (Nat × ExecutionContext)} (h : e.Chain start l) :
    ∀ p ∈ l, ∃ l', e.Chain (some p.1) l' ∧ l' <:+ l := by
  induction h with
  | done => intro p hp; exact absurd hp (List.not_mem_nil p)
  | step i scope rest hi hrest ih =>
    intro p hp
    rcases List.mem_cons.mp hp with rfl | hp
    · exact ⟨_, .step i scope rest hi hrest, List.suffix_refl _⟩
    · obtain ⟨l', h1, h2⟩ := ih p hp
      exact ⟨l', h1, h2.trans (List.suffix_cons _ _)⟩

/-- A chain that ends passes through each context at most once. -/
theorem contextChain_nodup {e : ExecutionEngine} {start : Option Nat}
    {l : List (Nat × ExecutionContext)} (h : e.Chain start l) : (l.map Prod.fst).Nodup := by
  induction h with
  | done => simp
  | step i scope rest hi hrest ih =>
    rw [List.map_cons, List.nodup_cons]
    refine ⟨?_, ih⟩
    intro hmem
    obtain ⟨p, hp, hpi⟩ := List.mem_map.mp hmem
    obtain ⟨l', h1, h2⟩ := contextChain_suffix hrest p hp
    rw [hpi] at h1
    have heq : l' = (i, scope) :: rest := contextChain_unique h1 (.step i scope rest hi hrest)
    have hlen := h2.length_le
    rw [heq] at hlen
    simp at hlen

/-- A chain that ends is no longer than the contexts are many. -/
theorem contextChain_length_le {e : ExecutionEngine} {start : Option Nat}
    {l : List (Nat × ExecutionContext)} (h : e.Chain start l) :
    l.length ≤ e.contexts.length := by
  have hsub : (l.map Prod.fst).toFinset ⊆ Finset.range e.contexts.length := by
    intro x hx
    obtain ⟨p, hp, rfl⟩ := List.mem_map.mp (List.mem_toFinset.mp hx)
    exact Finset.mem_range.mpr (contextChain_lt h p hp).1
  have hcard := Finset.card_le_card hsub
  rw [List.toFinset_card_of_nodup (contextChain_nodup h), Finset.card_range, List.length_map] at hcard
  exact hcard

/-- Setting the line number of the current context leaves the contexts where they are,
and changes nothing but the line number. -/
theorem setLineNumber_context (e : ExecutionEngine) (lineNumber : Int) (i : Nat) :
    (e.setLineNumber lineNumber).contexts[i]? = e.contexts[i]? ∨
    ∃ c, e.contexts[i]? = some c ∧
      (e.setLineNumber lineNumber).contexts[i]? = some { c with lineNumber := lineNumber } := by
  unfold setLineNumber
  cases hcur : e.current with
  | none => exact Or.inl rfl
  | some cur =>
    dsimp only
    cases hc : e.contexts[cur]? with
    | none => exact Or.inl rfl
    | some c =>
      dsimp only
      by_cases hi : cur = i
      · subst hi
        right
        refine ⟨c, hc, ?_⟩
        rw [List.getElem?_set]
        have hlt : cur < e.contexts.length := by
          rcases Nat.lt_or_ge cur e.contexts.length with h | h
          · exact h
          · rw [List.getElem?_eq_none h] at hc
            cases hc
        simp [hlt]
      · left
        rw [List.getElem?_set]
        simp [hi]

theorem setLineNumber_current (e : ExecutionEngine) (lineNumber : Int) :
    (e.setLineNumber lineNumber).current = e.current := by
  unfold setLineNumber
  cases hcur : e.current with
  | none => exact hcur
  | some cur =>
    dsimp only
    cases e.contexts[cur]? with
    | none => exact hcur
    | some c => rfl

theorem setLineNumber_length (e : ExecutionEngine) (lineNumber : Int) :
    (e.setLineNumber lineNumber).contexts.length = e.contexts.length := by
  unfold setLineNumber
  cases hcur : e.current with
  | none => rfl
  | some cur =>
    dsimp only
    cases e.contexts[cur]? with
    | none => rfl
    | some c => simp

end ExecutionEngine

/-- The scope table does not depend on the line number of the current context. -/
theorem scopeEntries_setLineNumber (e : ExecutionEngine) (lineNumber : Int) (fuel : Nat)
    (start : Option Nat) :
    scopeEntries (e.setLineNumber lineNumber) fuel start = scopeEntries e fuel start := by
  induction fuel generalizing start with
  | zero => rfl
  | succ fuel ih =>
    cases start with
    | none => rfl
    | some i =>
      unfold scopeEntries
      rcases e.setLineNumber_context lineNumber i with h | ⟨c, hc, h⟩
      · rw [h]
        cases e.contexts[i]? with
        | none => rfl
        | some scope =>
          dsimp only
          rw [ih]
      · rw [h, hc]
        dsimp only
        rw [ih]

/-- With fuel for the whole chain, the entries of the scope table are those of the
levels of the chain. -/
theorem scopeEntries_chain {e : ExecutionEngine} {start : Option Nat}
    {l : List (Nat × ExecutionContext)} (h : e.Chain start l) (fuel : Nat)
    (hfuel : l.length ≤ fuel) : scopeEntries e fuel start = tableEntries l := by
  induction h generalizing fuel with
  | done => cases fuel <;> rfl
  | step i scope rest hi _ ih =>
    obtain ⟨fuel, rfl⟩ : ∃ k, fuel = k + 1 := ⟨fuel - 1, by simp at hfuel; omega⟩
    unfold scopeEntries
    rw [hi]
    dsimp only
    rw [ih fuel (by simp at hfuel; omega)]
    show _ = levelEntries i scope ++ tableEntries rest
    unfold levelEntries
    cases scope.type <;> rfl

theorem levelEntries_length (i : Nat) (scope : ExecutionContext) :
    (levelEntries i scope).length = 2 := by
  unfold levelEntries
  split <;> rfl

theorem tableEntries_length (l : List (Nat × ExecutionContext)) :
    (tableEntries l).length = 2 * l.length := by
  induction l with
  | nil => rfl
  | cons p rest ih =>
    obtain ⟨i, scope⟩ := p
    unfold tableEntries
    rw [List.length_append, levelEntries_length, ih, List.length_cons]
    omega

/-- The two entries of the level `i` of the chain. -/
theorem tableEntries_level (l : List (Nat × ExecutionContext)) (i address : Nat)
    (scope : ExecutionContext) (h : l[i]? = some (address, scope)) :
    (tableEntries l)[2 * i]? = (levelEntries address scope)[0]? ∧
    (tableEntries l)[2 * i + 1]? = (levelEntries address scope)[1]? := by
  induction l generalizing i with
  | nil => simp at h
  | cons p rest ih =>
    obtain ⟨a, c⟩ := p
    unfold tableEntries
    cases i with
    | zero =>
      simp only [List.getElem?_cons_zero, Option.some.injEq, Prod.mk.injEq] at h
      obtain ⟨rfl, rfl⟩ := h
      have hlen := levelEntries_length a c
      constructor
      · exact List.getElem?_append_left (by omega)
      · exact List.getElem?_append_left (by omega)
    | succ n =>
      simp only [List.getElem?_cons_succ] at h
      obtain ⟨h1, h2⟩ := ih n h
      have hlen := levelEntries_length a c
      constructor
      · rw [List.getElem?_append_right (by omega), hlen, ← h1]
        congr 1
      · rw [List.getElem?_append_right (by omega), hlen, ← h2]
        congr 1

end Moth
namespace Compiler
end Compiler
namespace Moth

/-! ## The instructions that leave the scope table alone -/

namespace Outcome

theorem keepsScopes_fault (scopes : List Scopes) : Outcome.fault.KeepsScopes scopes := by
  intro s h
  cases h

theorem keepsScopes_next (s : State) (scopes : List Scopes) (h : s.scopes = scopes) :
    (Outcome.next s).KeepsScopes scopes := by
  intro s' h'
  cases h'
  exact h

theorem keepsScopes_catchException (s : State) (scopes : List Scopes) (h : s.scopes = scopes) :
    (Outcome.catchException s).KeepsScopes scopes := by
  intro s' h'
  cases h'
  exact h

theorem keepsScopes_functionExit (s : State) (scopes : List Scopes) (h : s.scopes = scopes) :
    (Outcome.functionExit s).KeepsScopes scopes := by
  intro s' h'
  cases h'
  exact h

end Outcome

namespace State

theorem storeValue_keepsScopes (s : State) (param : Param) (value : Value × ExecutionEngine)
    (scopes : List Scopes) (h : s.scopes = scopes) :
    (s.storeValue param value).KeepsScopes scopes := by
  unfold storeValue
  dsimp only
  repeat' split
  all_goals first
    | exact Outcome.keepsScopes_fault _
    | exact Outcome.keepsScopes_next _ _ h

theorem read_keepsScopes (s : State) (param : Param) (k : Value → Outcome)
    (scopes : List Scopes) (hk : ∀ v, (k v).KeepsScopes scopes) :
    (s.read param k).KeepsScopes scopes :=
  read_cases s param k (fun o => o.KeepsScopes scopes) (Outcome.keepsScopes_fault _) hk

theorem withCurrent_keepsScopes (s : State) (k : ExecutionContext → Outcome)
    (scopes : List Scopes) (hk : ∀ c, (k c).KeepsScopes scopes) :
    (s.withCurrent k).KeepsScopes scopes :=
  withCurrent_cases s k (fun o => o.KeepsScopes scopes) (Outcome.keepsScopes_fault _) hk

theorem withStack_keepsScopes (s : State) (offset : Nat) (k : ValuePtr → Outcome)
    (scopes : List Scopes) (hk : ∀ p, (k p).KeepsScopes scopes) :
    (s.withStack offset k).KeepsScopes scopes :=
  withStack_cases s offset k (fun o => o.KeepsScopes scopes) (Outcome.keepsScopes_fault _) hk

theorem checkException_keepsScopes (s : State) (value : Value × ExecutionEngine)
    (scopes : List Scopes) (h : s.scopes = scopes) :
    (s.checkException value).KeepsScopes scopes := by
  unfold checkException
  dsimp only
  split
  · exact Outcome.keepsScopes_catchException _ _ h
  · exact Outcome.keepsScopes_next _ _ h

theorem unchecked_keepsScopes (s : State) (value : Value × ExecutionEngine)
    (scopes : List Scopes) (h : s.scopes = scopes) :
    (s.unchecked value).KeepsScopes scopes :=
  Outcome.keepsScopes_next _ _ h

theorem assign_keepsScopes (s : State) (param : Param) (v : Value)
    (scopes : List Scopes) (h : s.scopes = scopes) :
    (s.assign param v).KeepsScopes scopes := by
  unfold assign
  split
  · exact Outcome.keepsScopes_next _ _ h
  · exact Outcome.keepsScopes_fault _

end State

/-- Every instruction but `InitStackFrame` leaves the scope table as it is. -/
theorem body_keepsScopes (rt : Runtime) (address : Int) (s : State) (instr : Instr)
    (h : ∀ value, instr ≠ .InitStackFrame value) :
    (body rt address s instr).KeepsScopes s.scopes := by
  cases instr
  case InitStackFrame value => exact absurd rfl (h value)
  all_goals
    simp only [body]
    repeat' first
      | exact Outcome.keepsScopes_fault _
      | exact Outcome.keepsScopes_next _ _ rfl
      | exact Outcome.keepsScopes_functionExit _ _ rfl
      | exact State.storeValue_keepsScopes _ _ _ _ rfl
      | exact State.checkException_keepsScopes _ _ _ rfl
      | exact State.unchecked_keepsScopes _ _ _ rfl
      | exact State.assign_keepsScopes _ _ _ _ rfl
      | (refine State.read_keepsScopes _ _ _ _ ?_; intro _)
      | (refine State.withCurrent_keepsScopes _ _ _ ?_; intro _)
      | (refine State.withStack_keepsScopes _ _ _ _ ?_; intro _)
      | split

end Moth
namespace Compiler
end Compiler
namespace Moth

/-- C21. On entry to `exec` with a chain of execution contexts of depth `d` from the
current context outwards, the scope table has `2 + 2 * d` entries: entry 0 is the
constant pool of the current compilation unit, with no owner, entry 1 is empty, and for
the context at level `i`: a simple call context gives entry `2 * i + 2` the argument
vector with no owner and leaves entry `2 * i + 3` empty; a heap-backed call context
gives entry `2 * i + 2` the argument vector and entry `2 * i + 3` its locals, both owned
by the context; any other context gives two empty entries. `InitStackFrame` sets the
values of entry 1 to the stack it allocates (as many slots as the instruction says, from
the top of the JS stack) and leaves the rest of the table; every other instruction
leaves the whole table as it is. -/
theorem scope_table_layout (engine : ExecutionEngine) (debugging : NativeDebugger)
    (instructions : List Instr) (code : Int) (chain : List (Nat × ExecutionContext))
    (hchain : engine.Chain engine.current chain) (hcurrent : chain ≠ []) :
    (∃ s current, enter engine debugging instructions code = some s ∧
      engine.currentContext = some current ∧
      s.scopes.length = 2 + 2 * chain.length ∧
      s.scopes[0]? = some ⟨current.compilationUnit.constants, none⟩ ∧
      s.scopes[1]? = some ⟨none, none⟩ ∧
      ∀ i address scope, chain[i]? = some (address, scope) →
        (scope.type = .Type_SimpleCallContext →
          s.scopes[2 * i + 2]? = some ⟨scope.args, none⟩ ∧
          s.scopes[2 * i + 3]? = some ⟨none, none⟩) ∧
        (scope.type = .Type_CallContext →
          s.scopes[2 * i + 2]? = some ⟨scope.args, some address⟩ ∧
          s.scopes[2 * i + 3]? = some ⟨scope.locals, some address⟩) ∧
        (scope.type ≠ .Type_SimpleCallContext → scope.type ≠ .Type_CallContext →
          s.scopes[2 * i + 2]? = some ⟨none, none⟩ ∧
          s.scopes[2 * i + 3]? = some ⟨none, none⟩)) ∧
    (∀ (rt : Runtime) (address : Int) (t : State) (value : Nat),
      ∃ t', body rt address t (.InitStackFrame value) = .next t' ∧
        t'.stack = some t.engine.jsStackTop ∧
        t'.engine.jsStackTop = t.engine.jsStackTop.add value ∧
        t'.scopes.length = t.scopes.length ∧
        t'.scopes[1]? = (t.scopes[1]?).map
          (fun entry => ⟨some t.engine.jsStackTop, entry.base⟩) ∧
        ∀ j, j ≠ 1 → t'.scopes[j]? = t.scopes[j]?) ∧
    (∀ (rt : Runtime) (address : Int) (t : State) (instr : Instr),
      (∀ value, instr ≠ .InitStackFrame value) →
      (body rt address t instr).KeepsScopes t.scopes) := by
  refine ⟨?_, ?_, fun rt address t instr h => body_keepsScopes rt address t instr h⟩
  · have hchain0 := hchain
    generalize hstart : engine.current = start at hchain
    cases hchain with
    | done => exact absurd rfl hcurrent
    | step cur current rest hcur hrest =>
      have hchain : engine.Chain engine.current ((cur, current) :: rest) := hchain0
      have hcc : engine.currentContext = some current := by
        unfold ExecutionEngine.currentContext
        rw [hstart]
        exact hcur
      have hentries : scopeEntries (engine.setLineNumber (-1))
          (engine.setLineNumber (-1)).contexts.length (engine.setLineNumber (-1)).current =
          tableEntries ((cur, current) :: rest) := by
        rw [scopeEntries_setLineNumber, ExecutionEngine.setLineNumber_length,
          ExecutionEngine.setLineNumber_current]
        exact scopeEntries_chain hchain _ (ExecutionEngine.contextChain_length_le hchain)
      have henter : enter engine debugging instructions code = some
          { engine := (engine.setLineNumber (-1)).notify .enteringFunction,
            instructions := instructions,
            code := code,
            returnValue := .undefined,
            stack := none,
            stackSize := 0,
            exceptionHandler := none,
            scopes := [⟨current.compilationUnit.constants, none⟩, ⟨none, none⟩] ++
              tableEntries ((cur, current) :: rest),
            mark := engine.jsStackTop,
            debugging := debugging,
            barrierCalls := [] } := by
        unfold enter
        rw [hcc]
        dsimp only
        rw [hentries]
      refine ⟨_, current, henter, hcc, ?_, ?_, ?_, ?_⟩
      · show ([_, _] ++ tableEntries ((cur, current) :: rest)).length = _
        rw [List.length_append, tableEntries_length]
        rfl
      · show ([_, _] ++ tableEntries ((cur, current) :: rest))[0]? = _
        rfl
      · show ([_, _] ++ tableEntries ((cur, current) :: rest))[1]? = _
        simp
      · intro i address scope hi
        obtain ⟨h0, h1⟩ := tableEntries_level _ i address scope hi
        have e0 : ∀ (a b : Scopes) (l : List Scopes), ([a, b] ++ l)[2 * i + 2]? = l[2 * i]? := by
          intro a b l
          show (a :: b :: l)[2 * i + 1 + 1]? = _
          rw [List.getElem?_cons_succ, List.getElem?_cons_succ]
        have e1 : ∀ (a b : Scopes) (l : List Scopes),
            ([a, b] ++ l)[2 * i + 3]? = l[2 * i + 1]? := by
          intro a b l
          show (a :: b :: l)[2 * i + 1 + 1 + 1]? = _
          rw [List.getElem?_cons_succ, List.getElem?_cons_succ]
        refine ⟨fun ht => ?_, fun ht => ?_, fun hs hc => ?_⟩
        · refine ⟨(e0 _ _ _).trans (h0.trans ?_), (e1 _ _ _).trans (h1.trans ?_)⟩ <;>
            simp [levelEntries, ht]
        · refine ⟨(e0 _ _ _).trans (h0.trans ?_), (e1 _ _ _).trans (h1.trans ?_)⟩ <;>
            simp [levelEntries, ht]
        · refine ⟨(e0 _ _ _).trans (h0.trans ?_), (e1 _ _ _).trans (h1.trans ?_)⟩ <;>
            (unfold levelEntries; cases hty : scope.type <;> simp_all)
  · intro rt address t value
    refine ⟨_, rfl, rfl, rfl, ?_, ?_, ?_⟩
    · simp [List.length_modify]
    · show (t.scopes.modify _ 1)[1]? = _
      rw [List.getElem?_modify_eq]
      rfl
    · intro j hj
      show (t.scopes.modify _ 1)[j]? = _
      rw [List.getElem?_modify_ne _ _ (Ne.symm hj)]

end Moth
namespace Compiler
end Compiler
namespace Moth

/-! ## The statements about the native debugger at sample commands -/

/-- C22, witness: from the initial state `exInsertMain` answers the handle 1 and
registers `exBreakpoint1`; sent again, it answers 2. -/
theorem insertBreakpoint_handle_witness :
    (0 : Int) ≤ ({} : NativeDebugger).qt_v4BreakpointCount ∧
    ({} : NativeDebugger).qt_v4BreakpointCount < 2147483647 ∧
    (∃ g', qt_v4DebuggerHook {} exInsertMain = some (1, g') ∧
      g'.qt_v4Breakpoints = [exBreakpoint1]) ∧
    ∃ g1 g2, qt_v4DebuggerHook {} exInsertMain = some (1, g1) ∧
      qt_v4DebuggerHook g1 exInsertMain = some (2, g2) := by
  have h := insertBreakpoint_handle {} exInsertMain rfl rfl (by decide) (by decide)
  obtain ⟨g', h1, _, _, h4⟩ := h.1
  exact ⟨by decide, by decide, ⟨g', h1, h4⟩, h.2.2 exInsertMain rfl rfl⟩

/-- C22, counterexample: after 2147483647 commands `exInsertMain` from the initial state
the breakpoint counter is `INT_MAX`, and `exInsertMain` sent once more answers
-2147483648, which is not positive and not the counter plus one; so it does with the
counter at `INT_MAX` and no breakpoint registered. -/
theorem insertBreakpoint_handle_counterexample :
    (∃ answers g,
      ({} : NativeDebugger).after (List.replicate 2147483647 (.command exInsertMain)) =
        some (answers, g) ∧
      g.qt_v4BreakpointCount = 2147483647 ∧
      ∃ g', qt_v4DebuggerHook g exInsertMain = some (-2147483648, g')) ∧
    qt_v4DebuggerHook exCounterAtMax exInsertMain = some (-2147483648, exCounterWrapped) ∧
    ¬ (0 : Int) < -2147483648 ∧
    (-2147483648 : Int) ≠ exCounterAtMax.qt_v4BreakpointCount + 1 := by
  refine ⟨?_, by decide, by decide, by decide⟩
  obtain ⟨answers, g, h1, h2⟩ := after_insertBreakpoints exInsertMain rfl rfl 2147483647 {}
    (by decide) (by decide)
  have hc : g.qt_v4BreakpointCount = 2147483647 := by
    rw [h2]
    decide
  have h3 : qt_v4DebuggerHook g exInsertMain = some (-2147483648,
      { g with
        qt_v4BreakpointCount := -2147483648
        qt_v4Breakpoints := g.qt_v4Breakpoints ++
          [{ exBreakpoint1 with bpNumber := -2147483648 }] }) := by
    rw [hook_insertBreakpoint g exInsertMain rfl rfl, hc, toInt32_overflow]
    rfl
  exact ⟨answers, g, h1, hc, _, h3⟩

/-- C23, witness: `exRemoveMain` on the three breakpoints returns 0 and removes one
entry that matches. -/
theorem removeBreakpoint_removes_witness :
    ∃ g' removed, qt_v4DebuggerHook exThreeBreakpoints exRemoveMain = some (0, g') ∧
      removed.matches exRemoveMain.fullName exRemoveMain.lineNumber = true ∧
      List.Perm exThreeBreakpoints.qt_v4Breakpoints (removed :: g'.qt_v4Breakpoints) := by
  obtain ⟨g', removed, _, h1, _, h3, h4, _⟩ :=
    removeBreakpoint_removes exThreeBreakpoints exRemoveMain rfl rfl
      ⟨exBreakpoint1, by decide, by decide⟩
  exact ⟨g', removed, h1, h3, h4⟩

/-- C23, counterexample to the claim as stated: after `exInsertMain`, `exInsertMain`
and `exInsertOther` the breakpoints 1 and 2 match line 3 of `main.qml`, and 2 is the
one inserted most recently; `exRemoveMain` removes breakpoint 1, puts breakpoint 3 in
its place, and leaves breakpoint 2 registered. -/
theorem removeBreakpoint_removes_counterexample :
    ({} : NativeDebugger).after
        [.command exInsertMain, .command exInsertMain, .command exInsertOther] =
      some ([(exInsertMain, 1), (exInsertMain, 2), (exInsertOther, 3)],
        exThreeBreakpoints) ∧
    qt_v4DebuggerHook exThreeBreakpoints exRemoveMain =
      some (0, { exThreeBreakpoints with
        qt_v4Breakpoints := [exBreakpoint3, exBreakpoint2] }) ∧
    exBreakpoint1.matches exRemoveMain.fullName exRemoveMain.lineNumber = true ∧
    exBreakpoint2.matches exRemoveMain.fullName exRemoveMain.lineNumber = true ∧
    exBreakpoint1.bpNumber < exBreakpoint2.bpNumber := by
  refine ⟨by decide, by decide, by decide, by decide, by decide⟩

/-- C24, the code at the failing input: `exInsertMain` answers 1 and `exRemoveMain`
answers 0 and leaves the breakpoint list empty; `exRemoveMain` sent once more comes to
`last()` on the empty vector, as it does when sent in the initial state. -/
theorem removeBreakpoint_no_match_witness :
    ({} : NativeDebugger).after [.command exInsertMain, .command exRemoveMain] =
      some ([(exInsertMain, 1), (exRemoveMain, 0)], { qt_v4BreakpointCount := 1 }) ∧
    qt_v4DebuggerHook { qt_v4BreakpointCount := 1 } exRemoveMain = none ∧
    ({} : NativeDebugger).after
      [.command exInsertMain, .command exRemoveMain, .command exRemoveMain] = none :=
  ⟨by decide,
    (removeBreakpoint_no_match { qt_v4BreakpointCount := 1 } exRemoveMain rfl rfl
      (fun _ h => absurd h (List.not_mem_nil _))).2 rfl,
    by decide⟩

/-- C25, witness: `exInsertMain` sent with version 2 returns -1, a command named
`continue` returns -2, and neither changes the three breakpoints; `exInsertOther`, sent
with the counter at 3, returns a value that is not negative. -/
theorem hook_return_codes_witness :
    qt_v4DebuggerHook exThreeBreakpoints { exInsertMain with version := 2 } =
      some (-1, exThreeBreakpoints) ∧
    qt_v4DebuggerHook exThreeBreakpoints { command := "continue", version := 1 } =
      some (-2, exThreeBreakpoints) ∧
    exThreeBreakpoints.qt_v4BreakpointCount < 2147483647 ∧
    ∃ r g', qt_v4DebuggerHook exThreeBreakpoints exInsertOther = some (r, g') ∧ 0 ≤ r :=
  ⟨(hook_return_codes exThreeBreakpoints { exInsertMain with version := 2 }).1
      (by decide) (by decide),
    (hook_return_codes exThreeBreakpoints { command := "continue", version := 1 }).2.1
      rfl (by decide) (by decide) (by decide) (by decide),
    by decide,
    (hook_return_codes exThreeBreakpoints exInsertOther).2.2.1 rfl rfl (by decide)
      (by decide)⟩

/-- C25, counterexample: with the breakpoint counter at `INT_MAX`, `exInsertOther` is
accepted, its breakpoint is registered, and the value returned is negative. -/
theorem hook_return_codes_counterexample :
    exInsertOther.version = 1 ∧
    qt_v4DebuggerHook exCounterAtMax exInsertOther =
      some (-2147483648,
        { qt_v4BreakpointCount := -2147483648,
          qt_v4Breakpoints := [{ exBreakpoint3 with bpNumber := -2147483648 }] }) ∧
    (-2147483648 : Int) < 0 := by
  refine ⟨rfl, by decide, by decide⟩

/-- C26, witness: `protocolVersion` sent with version 7. -/
theorem protocolVersion_no_effect_witness :
    qt_v4DebuggerHook exThreeBreakpoints exProtocolVersion = some (1, exThreeBreakpoints) :=
  protocolVersion_no_effect exThreeBreakpoints exProtocolVersion rfl

/-- C27, witness: after `exPrepareStep` in the initial state, a line check in a
function without source file leaves stepping armed, and the line check at line 3 of
`qrc:/main.qml` calls the hook once and disarms stepping. -/
theorem prepareStep_arms_single_step_witness :
    qt_v4DebuggerHook {} exPrepareStep = some (0, { qt_v4IsStepping := true }) ∧
    qt_v4CheckForBreak (lineChecks { qt_v4IsStepping := true } {} [exNoFileContext])
        exMainContext {} =
      { qt_v4IsStepping := false,
        qt_v4LastStop := { bpNumber := 0, lineNumber := 3, engineName := "qrc:/main.qml" },
        triggered := [{ bpNumber := 0, lineNumber := 3, engineName := "qrc:/main.qml" }] } := by
  obtain ⟨g1, h1, _, _, _, _, _, h⟩ := prepareStep_arms_single_step {} exPrepareStep rfl rfl
  have h2 := (h {} [exNoFileContext] exMainContext (by decide) (by decide) (by decide)).2
  have hg : g1 = { qt_v4IsStepping := true } := by
    have : qt_v4DebuggerHook {} exPrepareStep = some (0, { qt_v4IsStepping := true }) := by
      decide
    rw [this] at h1
    cases h1
    rfl
  subst hg
  exact ⟨h1, h2.trans (by decide)⟩

/-- C28, witness: with the three breakpoints registered and stepping disarmed, the line
check at line 3 of `qrc:/main.qml` calls the hook. -/
theorem lineCheck_hits_breakpoint_witness :
    ∃ hit rest, (qt_v4CheckForBreak exThreeBreakpoints exMainContext {}).triggered =
      exThreeBreakpoints.triggered ++ hit :: rest ∧
      hit.location = location exMainContext {} :=
  (lineCheck_hits_breakpoint exThreeBreakpoints exMainContext {}).1 exBreakpoint1
    (by decide) (by decide) (by decide)

/-- C28, counterexample to the claim as stated: `exInsertFullName` registers a
breakpoint for line 3 of the file `main.qml`; the line check at line 3 of a function
whose source file is `main.qml` calls no hook, the engine name of the breakpoint being
empty; and the line check at line 3 of a function without source file, which is the
engine name and line of the breakpoint, calls no hook either. -/
theorem lineCheck_hits_breakpoint_counterexample :
    qt_v4DebuggerHook {} exInsertFullName = some (1, exFullNameBreakpoint) ∧
    (∃ bp ∈ exFullNameBreakpoint.qt_v4Breakpoints,
      (bp.fullName, bp.lineNumber) = location exFullNameContext {} ∧
      bp.location = location exNoFileContext {}) ∧
    qt_v4CheckForBreak exFullNameBreakpoint exFullNameContext {} = exFullNameBreakpoint ∧
    qt_v4CheckForBreak exFullNameBreakpoint exNoFileContext {} = exFullNameBreakpoint ∧
    exFullNameBreakpoint.triggered = [] := by
  refine ⟨by decide, ⟨_, List.mem_singleton_self _, by decide, by decide⟩, by decide,
    by decide, rfl⟩

end Moth
namespace Compiler
end Compiler
namespace Moth

/-- C21, witness: for a simple call context inside the global context the scope table
has six entries; entry 2 is the argument vector of the call context, without owner, and
the entries of the global context are empty. -/
theorem scope_table_layout_witness :
    ∃ s, enter exNestedEngine {} [] 0 = some s ∧ s.scopes.length = 6 ∧
      s.scopes[0]? = some ⟨some ⟨1, 0⟩, none⟩ ∧
      s.scopes[2]? = some ⟨some ⟨2, 0⟩, none⟩ ∧ s.scopes[3]? = some ⟨none, none⟩ ∧
      s.scopes[4]? = some ⟨none, none⟩ ∧ s.scopes[5]? = some ⟨none, none⟩ := by
  obtain ⟨s, current, h1, h2, h3, h4, _, h6⟩ :=
    (scope_table_layout exNestedEngine {} [] 0
      [(0, exSimpleCallContext), (1, exGlobalContext)]
      (.step 0 _ _ rfl (.step 1 _ _ rfl .done)) (List.cons_ne_nil _ _)).1
  have hc : current = exSimpleCallContext := (Option.some.inj h2).symm
  subst hc
  have l0 := (h6 0 0 _ rfl).1 rfl
  have l1 := (h6 1 1 _ rfl).2.2 (by decide) (by decide)
  exact ⟨s, h1, h3, h4, l0.1, l0.2, l1.1, l1.2⟩

end Moth
namespace Compiler
end Compiler

/-! # Invocation records and stack frames -/

section Invocation

open Moth

theorem slotsAllocated_alloc (scope : ExecutionEngine) (size : Nat) :
    slotsAllocated scope (scope.alloc size).2 = size := by
  unfold slotsAllocated ExecutionEngine.alloc ValuePtr.add
  simp

theorem store_other (m : Memory) (p q : ValuePtr) (v : Value) (h : q ≠ p) :
    m.store p v q = m q := by
  unfold Memory.store
  rw [if_neg h]

theorem store_same (m : Memory) (p : ValuePtr) (v : Value) : m.store p v p = v := by
  unfold Memory.store
  rw [if_pos rfl]

theorem add_ne_self (p : ValuePtr) (n : Nat) (h : 0 < n) : p ≠ p.add n := by
  intro heq
  have := congrArg ValuePtr.offset heq
  unfold ValuePtr.add at this
  simp at this
  omega

/-- The allocation of the constructors of `JSCall` when the sum for `size` stays within
the range of `int`: the count is the sum, and the slots are allocated at the top of the
JS stack. -/
theorem jsCall_alloc (ReservedArgumentCount : Nat) (scope : ExecutionEngine) (argc : Int)
    (hsize : (callDataLayout.args : Int) + max argc (ReservedArgumentCount : Int) ≤
      2147483647) :
    ∃ e, Scope.alloc scope (JSCall.size ReservedArgumentCount argc) =
        some (scope.jsStackTop, e) ∧
      e.memory = scope.memory ∧
      slotsAllocated scope e =
        (callDataLayout.args : Int) + max argc (ReservedArgumentCount : Int) := by
  have h1 : (0 : Int) ≤ (ReservedArgumentCount : Int) := Int.ofNat_nonneg _
  have h2 : (ReservedArgumentCount : Int) ≤ max argc (ReservedArgumentCount : Int) :=
    le_max_right _ _
  have h3 : (0 : Int) ≤ (callDataLayout.args : Int) := Int.ofNat_nonneg _
  have hs : JSCall.size ReservedArgumentCount argc =
      (callDataLayout.args : Int) + max argc (ReservedArgumentCount : Int) := by
    unfold JSCall.size
    exact toInt32_of_range _ (by omega) hsize
  have hnat : (((callDataLayout.args : Int) + max argc (ReservedArgumentCount : Int)).toNat :
      Int) = (callDataLayout.args : Int) + max argc (ReservedArgumentCount : Int) :=
    Int.toNat_of_nonneg (by omega)
  refine ⟨(scope.alloc
    ((callDataLayout.args : Int) + max argc (ReservedArgumentCount : Int)).toNat).2, ?_, rfl,
    ?_⟩
  · unfold Scope.alloc
    rw [hs, if_pos (by omega)]
    rfl
  · rw [slotsAllocated_alloc]
    exact hnat

/-- C29 (amended). For an argument count `argc`, an `int`, with which the sum
`offsetof(CallData, args) / sizeof(Value) + max(argc, ReservedArgumentCount)` is at most
`INT_MAX`, each of the three constructors of `JSCall` allocates that many value slots
from the JS stack of the scope, at its top; the first slot of the record then reads as
the integer `argc` (the tag is the discriminator of integers, the argument count is the
one asked for, not the maximum); and the constructors that are handed a function leave
it in the `function` field of the record (the function object handed over by pointer is
read after the first slot of the record has been written, so it is not to lie in that
slot). -/
theorem jsCall_allocation (ReservedArgumentCount : Nat) (scope : ExecutionEngine)
    (argc : Int) (_hargc : -2147483648 ≤ argc)
    (hsize : (callDataLayout.args : Int) + max argc (ReservedArgumentCount : Int) ≤
      2147483647) :
    (∃ call e, JSCall.withoutFunction ReservedArgumentCount scope argc = some (call, e) ∧
      slotsAllocated scope e =
        (callDataLayout.args : Int) + max argc (ReservedArgumentCount : Int) ∧
      call.ptr = scope.jsStackTop ∧
      e.memory call.ptr = .integer argc) ∧
    (∀ function : ValuePtr,
      ∃ call e, JSCall.withFunctionObject ReservedArgumentCount scope function argc =
          some (call, e) ∧
        slotsAllocated scope e =
          (callDataLayout.args : Int) + max argc (ReservedArgumentCount : Int) ∧
        call.ptr = scope.jsStackTop ∧
        e.memory call.ptr = .integer argc ∧
        (function ≠ scope.jsStackTop →
          e.memory (call.ptr.add callDataLayout.function) = scope.memory function)) ∧
    (∀ function : Nat,
      ∃ call e, JSCall.withHeapFunctionObject ReservedArgumentCount scope function argc =
          some (call, e) ∧
        slotsAllocated scope e =
          (callDataLayout.args : Int) + max argc (ReservedArgumentCount : Int) ∧
        call.ptr = scope.jsStackTop ∧
        e.memory call.ptr = .integer argc ∧
        e.memory (call.ptr.add callDataLayout.function) = .managed function) := by
  obtain ⟨e0, halloc, hmem, hslots⟩ := jsCall_alloc ReservedArgumentCount scope argc hsize
  have hne : scope.jsStackTop ≠ scope.jsStackTop.add callDataLayout.function :=
    add_ne_self _ _ (by decide)
  refine ⟨?_, fun function => ?_, fun function => ?_⟩
  · refine ⟨⟨scope.jsStackTop⟩,
      { e0 with memory := e0.memory.store scope.jsStackTop (.integer argc) }, ?_, hslots, rfl,
      ?_⟩
    · unfold JSCall.withoutFunction
      rw [halloc]
    · exact store_same _ _ _
  · refine ⟨⟨scope.jsStackTop⟩,
      { e0 with
        memory := (e0.memory.store scope.jsStackTop (.integer argc)).store
          (scope.jsStackTop.add callDataLayout.function)
          (e0.memory.store scope.jsStackTop (.integer argc) function) },
      ?_, hslots, rfl, ?_, fun hf => ?_⟩
    · unfold JSCall.withFunctionObject
      rw [halloc]
    · show Memory.store _ _ _ scope.jsStackTop = _
      rw [store_other _ _ _ _ hne]
      exact store_same _ _ _
    · show Memory.store _ (scope.jsStackTop.add callDataLayout.function) _
        (scope.jsStackTop.add callDataLayout.function) = _
      rw [store_same, store_other _ _ _ _ hf, hmem]
  · refine ⟨⟨scope.jsStackTop⟩,
      { e0 with
        memory := (e0.memory.store scope.jsStackTop (.integer argc)).store
          (scope.jsStackTop.add callDataLayout.function) (.managed function) },
      ?_, hslots, rfl, ?_, ?_⟩
    · unfold JSCall.withHeapFunctionObject
      rw [halloc]
    · show Memory.store _ _ _ scope.jsStackTop = _
      rw [store_other _ _ _ _ hne]
      exact store_same _ _ _
    · exact store_same _ _ _

namespace ScopedStackFrame

theorem construct_parent (scope : ExecutionEngine) (context : Option Nat) :
    (construct scope context).1.frame.parent = scope.currentStackFrame := by
  cases context <;> rfl

end ScopedStackFrame

theorem nestedFrames_restore (contexts : List (Option Nat)) (engine : ExecutionEngine) :
    (∀ p ∈ (nestedFrames engine contexts).1, p.2 = p.1) ∧
    (nestedFrames engine contexts).2.currentStackFrame = engine.currentStackFrame ∧
    (nestedFrames engine contexts).1.length = contexts.length := by
  induction contexts generalizing engine with
  | nil => exact ⟨fun p hp => absurd hp (List.not_mem_nil p), rfl, rfl⟩
  | cons context contexts ih =>
    obtain ⟨h1, _, h3⟩ := ih (ScopedStackFrame.construct engine context).2
    unfold nestedFrames
    dsimp only
    refine ⟨?_, ScopedStackFrame.construct_parent engine context, ?_⟩
    · intro p hp
      rcases List.mem_append.mp hp with h | h
      · exact h1 p h
      · rw [List.mem_singleton] at h
        subst h
        exact ScopedStackFrame.construct_parent engine context
    · rw [List.length_append, h3]
      rfl

/-- C30. Constructing a `ScopedStackFrame` for any context, null or not, and then
destroying it leaves `currentStackFrame` of the engine at its value before the
construction, whatever has become of the engine in between. With a context that is not
null the frame is the current one in between; with a null context the current frame
stays. Frames nested one inside the other and destroyed in the opposite order each
restore the frame that was current when they were constructed. -/
theorem scopedStackFrame_restores (engine : ExecutionEngine) (context : Option Nat) :
    ((ScopedStackFrame.construct engine context).1.destroy
      (ScopedStackFrame.construct engine context).2).currentStackFrame =
        engine.currentStackFrame ∧
    (∀ later : ExecutionEngine,
      ((ScopedStackFrame.construct engine context).1.destroy later).currentStackFrame =
        engine.currentStackFrame) ∧
    (∀ c, context = some c →
      (ScopedStackFrame.construct engine context).2.currentStackFrame =
        some (ScopedStackFrame.construct engine context).1.address ∧
      (ScopedStackFrame.construct engine context).2.nativeStack[
        (ScopedStackFrame.construct engine context).1.address]? =
          some (ScopedStackFrame.construct engine context).1.frame) ∧
    (context = none →
      (ScopedStackFrame.construct engine context).2.currentStackFrame =
        engine.currentStackFrame) ∧
    (∀ contexts : List (Option Nat),
      (∀ p ∈ (nestedFrames engine contexts).1, p.2 = p.1) ∧
      (nestedFrames engine contexts).1.length = contexts.length ∧
      (nestedFrames engine contexts).2.currentStackFrame = engine.currentStackFrame) := by
  refine ⟨ScopedStackFrame.construct_parent engine context,
    fun _ => ScopedStackFrame.construct_parent engine context, ?_, ?_, ?_⟩
  · intro c hc
    subst hc
    refine ⟨rfl, ?_⟩
    show (engine.nativeStack ++ [_])[engine.nativeStack.length]? = _
    rw [List.getElem?_append_right (le_refl _), Nat.sub_self]
    rfl
  · intro hc
    subst hc
    rfl
  · intro contexts
    obtain ⟨h1, h2, h3⟩ := nestedFrames_restore contexts engine
    exact ⟨h1, h3, h2⟩

/-- C29, witness: with six reserved arguments and a record of four slots before the
arguments, a call with two arguments is allocated ten slots, and one with nine
arguments thirteen; the argument count of the record is two, and nine. -/
theorem jsCall_allocation_witness :
    (-2147483648 : Int) ≤ 2 ∧
    (callDataLayout.args : Int) + max 2 ((6 : Nat) : Int) ≤ 2147483647 ∧
    (∃ call e, JSCall.withoutFunction 6 exFrameEngine 2 = some (call, e) ∧
      slotsAllocated exFrameEngine e = 10 ∧ e.memory call.ptr = .integer 2) ∧
    ∃ call e, JSCall.withHeapFunctionObject 6 exFrameEngine 40 9 = some (call, e) ∧
      slotsAllocated exFrameEngine e = 13 ∧ e.memory call.ptr = .integer 9 ∧
      e.memory (call.ptr.add callDataLayout.function) = .managed 40 := by
  obtain ⟨call2, e2, h1, h2, _, h4⟩ := (jsCall_allocation 6 exFrameEngine 2 (by decide) (by decide)).1
  obtain ⟨call9, e9, k1, k2, _, k4, k5⟩ :=
    (jsCall_allocation 6 exFrameEngine 9 (by decide) (by decide)).2.2 40
  exact ⟨by decide, by decide, ⟨call2, e2, h1, h2.trans (by decide), h4⟩,
    ⟨call9, e9, k1, k2.trans (by decide), k4, k5⟩⟩

/-- C29, counterexample: with six reserved arguments and the argument count `INT_MAX`,
which is not negative, the sum for the count is 2147483651, the `int` the constructor
hands to `alloc` is -2147483645, and the constructor allocates no record of 2147483651
slots. -/
theorem jsCall_allocation_counterexample :
    (0 : Int) ≤ 2147483647 ∧
    (callDataLayout.args : Int) + max 2147483647 ((6 : Nat) : Int) = 2147483651 ∧
    JSCall.size 6 2147483647 = -2147483645 ∧
    (JSCall.withoutFunction 6 exFrameEngine 2147483647).isNone = true ∧
    (JSCall.withFunctionObject 6 exFrameEngine ⟨0, 3⟩ 2147483647).isNone = true ∧
    (JSCall.withHeapFunctionObject 6 exFrameEngine 40 2147483647).isNone = true := by
  refine ⟨by decide, by decide, by decide, by decide, by decide, by decide⟩

/-- C30, witness: a frame for the context 5 constructed when frame 1 is current is the
current frame until it is destroyed, and frame 1 is current again then; so it is with a
frame without context and one for the context 6 nested in it and destroyed in the
opposite order. -/
theorem scopedStackFrame_restores_witness :
    (ScopedStackFrame.construct exFrameEngine (some 5)).2.currentStackFrame = some 2 ∧
    ((ScopedStackFrame.construct exFrameEngine (some 5)).1.destroy
      (ScopedStackFrame.construct exFrameEngine (some 5)).2).currentStackFrame = some 1 ∧
    (nestedFrames exFrameEngine [some 5, none, some 6]).1 =
      [(some 2, some 2), (some 2, some 2), (some 1, some 1)] ∧
    (nestedFrames exFrameEngine [some 5, none, some 6]).2.currentStackFrame = some 1 :=
  have h := scopedStackFrame_restores exFrameEngine (some 5)
  ⟨(h.2.2.1 5 rfl).1, h.1, by decide,
    ((scopedStackFrame_restores exFrameEngine none).2.2.2.2 [some 5, none, some 6]).2.2⟩

end Invocation

namespace Compiler

end Compiler

/-! ## Pushing a native stack frame -/

section Invocation

open Moth

/-- C31 (amended). A `ScopedStackFrame` constructed with an execution context that is
not null makes its frame the current stack frame of the engine: the frame is a new
record of the native stack, its parent link is the frame that was current before, and
its function is the function of that parent frame, none when there is no parent. A
`ScopedStackFrame` constructed with a null context sets the parent link of its frame
to the frame that was current before, and leaves that frame the current one. The
frames already on the native stack stay as they are either way. -/
theorem scopedStackFrame_pushes (engine : ExecutionEngine) (context : Option Nat) :
    (ScopedStackFrame.construct engine context).1.frame.parent = engine.currentStackFrame ∧
    (ScopedStackFrame.construct engine context).1.address = engine.nativeStack.length ∧
    (ScopedStackFrame.construct engine context).2.nativeStack =
      engine.nativeStack ++ [(ScopedStackFrame.construct engine context).1.frame] ∧
    (∀ c, context = some c →
      (ScopedStackFrame.construct engine context).2.currentStackFrame =
        some (ScopedStackFrame.construct engine context).1.address ∧
      (∀ p f, engine.currentStackFrame = some p → engine.nativeStack[p]? = some f →
        (ScopedStackFrame.construct engine context).1.frame.v4Function = f.v4Function) ∧
      (engine.currentStackFrame = none →
        (ScopedStackFrame.construct engine context).1.frame.v4Function = none)) ∧
    (context = none →
      (ScopedStackFrame.construct engine context).2.currentStackFrame =
        engine.currentStackFrame) := by
  cases context with
  | none =>
    refine ⟨rfl, rfl, rfl, ?_, fun _ => rfl⟩
    intro c hc
    cases hc
  | some c =>
    refine ⟨rfl, rfl, rfl, ?_, ?_⟩
    · intro c' _
      refine ⟨rfl, ?_, ?_⟩
      · intro p f hp hf
        show (match engine.currentStackFrame with
          | some parent => (engine.nativeStack[parent]?).bind fun f => f.v4Function
          | none => none) = _
        rw [hp]
        show (engine.nativeStack[p]?).bind _ = _
        rw [hf]
        rfl
      · intro hp
        show (match engine.currentStackFrame with
          | some parent => (engine.nativeStack[parent]?).bind fun f => f.v4Function
          | none => none) = _
        rw [hp]
    · intro hc
      cases hc

/-- C31, witness: a frame for the context 5 constructed when frame 1 is current is the
frame at address 2, it is the current frame, its parent is frame 1 and its function is
the function of frame 1. -/
theorem scopedStackFrame_pushes_witness :
    (ScopedStackFrame.construct exFrameEngine (some 5)).2.currentStackFrame = some 2 ∧
    (ScopedStackFrame.construct exFrameEngine (some 5)).1.frame.parent = some 1 ∧
    (ScopedStackFrame.construct exFrameEngine (some 5)).1.frame.v4Function =
      some { sourceFile := "qrc:/main.qml" } :=
  have h := scopedStackFrame_pushes exFrameEngine (some 5)
  ⟨(h.2.2.2.1 5 rfl).1, h.1,
    (h.2.2.2.1 5 rfl).2.1 1
      { parent := some 0, v4Function := some { sourceFile := "qrc:/main.qml" } } rfl rfl⟩

/-- C31, counterexample: a frame constructed without a context when frame 1 is current
is the frame at address 2, and the current frame is still frame 1. -/
theorem scopedStackFrame_pushes_counterexample :
    (ScopedStackFrame.construct exFrameEngine none).1.address = 2 ∧
    (ScopedStackFrame.construct exFrameEngine none).2.currentStackFrame = some 1 ∧
    (ScopedStackFrame.construct exFrameEngine none).2.currentStackFrame ≠
      some (ScopedStackFrame.construct exFrameEngine none).1.address := by
  refine ⟨rfl, rfl, by decide⟩

end Invocation

namespace Compiler

end Compiler
namespace Moth

/-! ## The handles of the breakpoints -/

end Moth
namespace Compiler
end Compiler
namespace Moth

end Moth
namespace Compiler

/-! ## The directive prologue -/

namespace ScanFunctions

theorem modify_twice (m : Module) (i : Nat) (f g : Context → Context) :
    (m.modify i f).modify i g = m.modify i fun c => g (f c) := by
  unfold Module.modify
  cases h : m.contexts[i]? with
  | none => simp only [h]
  | some c =>
    have hi : i < m.contexts.length := by
      rcases Nat.lt_or_ge i m.contexts.length with hlt | hge
      · exact hlt
      · rw [List.getElem?_eq_none hge] at h
        cases h
    simp only [List.getElem?_set_self hi, List.set_set]

theorem modifyContext_strict_twice (s : ScanFunctions) :
    (s.modifyContext fun c => { c with isStrict := true }).modifyContext
      (fun c => { c with isStrict := true }) =
    s.modifyContext fun c => { c with isStrict := true } := by
  unfold modifyContext
  cases hc : s.context with
  | none => simp only [hc]
  | some i =>
    simp only [hc]
    rw [modify_twice]

theorem leadingStringLiterals_other (st : Statement) (rest : List Statement)
    (hne : ∀ tok loc, st ≠ .ExpressionStatement (.StringLiteral tok) loc) :
    leadingStringLiterals (st :: rest) = [] := by
  unfold leadingStringLiterals
  split
  · next heq =>
    cases heq
    exact absurd rfl (hne _ _)
  · rfl

theorem leadingStringLiterals_append (pre : List Statement) (st : Statement)
    (rest : List Statement)
    (hne : ∀ tok loc, st ≠ .ExpressionStatement (.StringLiteral tok) loc) :
    leadingStringLiterals (pre ++ st :: rest) = leadingStringLiterals pre := by
  induction pre with
  | nil =>
    rw [List.nil_append, leadingStringLiterals_other st rest hne]
    rfl
  | cons p pre ih =>
    by_cases hp : ∃ tok loc, p = .ExpressionStatement (.StringLiteral tok) loc
    · obtain ⟨tok, loc, rfl⟩ := hp
      rw [List.cons_append]
      unfold leadingStringLiterals
      rw [ih]
    · have hp' : ∀ tok loc, p ≠ .ExpressionStatement (.StringLiteral tok) loc :=
        fun tok loc h => hp ⟨tok, loc, h⟩
      rw [List.cons_append, leadingStringLiterals_other p _ hp',
        leadingStringLiterals_other p _ hp']

/-- What `checkDirectivePrologue` does, in one step. -/
theorem checkDirectivePrologue_eq (s : ScanFunctions) (l : List Statement) :
    s.checkDirectivePrologue l =
      if ∃ tok ∈ leadingStringLiterals l, rawText s.sourceCode tok = some "use strict" then
        s.modifyContext fun c => { c with isStrict := true }
      else s := by
  induction s, l using checkDirectivePrologue.induct with
  | case1 s => simp [checkDirectivePrologue, leadingStringLiterals]
  | case2 s tok loc rest hlt ih =>
    have hraw : rawText s.sourceCode tok ≠ some "use strict" := by
      unfold rawText
      rw [if_pos hlt]
      exact fun h => nomatch h
    simp only [checkDirectivePrologue, hlt, if_true, leadingStringLiterals, List.mem_cons,
      exists_eq_or_imp, hraw, false_or]
    exact ih
  | case3 s tok loc rest h1 h2 ih =>
    have hraw : rawText s.sourceCode tok = some "use strict" := by
      unfold rawText
      rw [if_neg h1]
      exact congrArg some h2
    simp only [checkDirectivePrologue, h1, h2, if_false, if_true, leadingStringLiterals,
      List.mem_cons, exists_eq_or_imp, hraw, true_or]
    rw [ih]
    split
    · exact modifyContext_strict_twice s
    · rfl
  | case4 s tok loc rest h1 h2 ih =>
    have hraw : rawText s.sourceCode tok ≠ some "use strict" := by
      unfold rawText
      rw [if_neg h1]
      intro h
      exact h2 (Option.some.inj h)
    simp only [checkDirectivePrologue, h1, h2, if_false, leadingStringLiterals, List.mem_cons,
      exists_eq_or_imp, hraw, false_or]
    exact ih
  | case5 s st rest hne =>
    have hl := leadingStringLiterals_other st rest hne
    have hs : s.checkDirectivePrologue (st :: rest) = s := by
      unfold checkDirectivePrologue
      split
      · rfl
      · next heq =>
        cases heq
        exact absurd rfl (hne _ _)
      · rfl
    rw [hl, hs]
    simp

/-- C40. `checkDirectivePrologue` with a current context leaves that context strict if
and only if it was strict before or one of the string-literal expression statements the
statement list starts with has, between its quotes, the raw source text `use strict`;
nothing else of the context changes, so strictness is never cleared. What follows the
first statement that is not a string-literal expression statement has no effect. -/
theorem checkDirectivePrologue_strict (s : ScanFunctions) (l : List Statement) (c : Context)
    (hc : s.current = some c) :
    (∃ c', (s.checkDirectivePrologue l).current = some c' ∧
      (c'.isStrict = true ↔ c.isStrict = true ∨
        ∃ tok ∈ leadingStringLiterals l, rawText s.sourceCode tok = some "use strict") ∧
      c' = { c with isStrict := c'.isStrict }) ∧
    ∀ (directives : List Statement) (st : Statement) (rest : List Statement),
      (∀ tok loc, st ≠ .ExpressionStatement (.StringLiteral tok) loc) →
      s.checkDirectivePrologue (directives ++ st :: rest) =
        s.checkDirectivePrologue directives := by
  constructor
  · rw [checkDirectivePrologue_eq]
    split
    · next h =>
      rw [current_modifyContext, hc]
      exact ⟨_, rfl, ⟨fun _ => Or.inr h, fun _ => rfl⟩, rfl⟩
    · next h =>
      refine ⟨c, hc, ⟨fun h1 => Or.inl h1, fun h1 => ?_⟩, rfl⟩
      rcases h1 with h1 | h1
      · exact h1
      · exact absurd h1 h
  · intro directives st rest hne
    rw [checkDirectivePrologue_eq, checkDirectivePrologue_eq s directives,
      leadingStringLiterals_append directives st rest hne]

end ScanFunctions

/-- C40, witness: over the source text `'use strict'`, the statement list that starts
with the string literal makes the non-strict current context strict; with a reference
to `x` in front of the literal the context stays as it is. -/
theorem checkDirectivePrologue_strict_witness :
    exSourceScanner.current = some (exEmptyContext false) ∧
    (exSourceScanner.checkDirectivePrologue [exUseStrict, exReference "x"]).current =
      some (exEmptyContext true) ∧
    exSourceScanner.checkDirectivePrologue ([] ++ exReference "x" :: [exUseStrict]) =
      exSourceScanner := by
  have h := ScanFunctions.checkDirectivePrologue_strict exSourceScanner
    [exUseStrict, exReference "x"] (exEmptyContext false) rfl
  refine ⟨rfl, ?_, ?_⟩
  · obtain ⟨c', h1, h2, h3⟩ := h.1
    have h4 : c'.isStrict = true :=
      h2.mpr (Or.inr ⟨⟨0, 12⟩, List.mem_cons_self _ _, by decide⟩)
    rw [h1, h3, h4]
    rfl
  · exact h.2 [] (exReference "x") [exUseStrict] (fun tok loc hst => by cases hst)

end Compiler
namespace Moth

/-! ## The invocation record of the call instructions -/

theorem thisObject_ne (cd : ValuePtr) : cd ≠ cd.add callDataLayout.thisObject := by
  intro h
  have := congrArg ValuePtr.offset h
  simp only [ValuePtr.add, callDataLayout] at this
  omega

/-- C34 (amended). With the stack frame set up and the operands readable, the body of a
call-shaped instruction hands the record at `stack + callData` to its runtime entry
point, and at the moment the entry point is invoked: for `CallPropertyLookup`,
`CreateProperty` and `ConstructPropertyLookup` the first slot of the record holds the
integer tag with the argument count of the instruction, and `thisObject` the value of
the receiver operand (read after the tag and the count have been written); for
`CreateActivationProperty` and `ConstructGlobalLookup` the first slot holds the tag
with the argument count, and `thisObject` is undefined; for `CallProperty` and
`CallElement`, `thisObject` holds the value of the receiver operand, and the first
slot is what the stack held before; `CallValue`, `CallActivationProperty`,
`CallGlobalLookup` and `CreateValue` hand the record over as the stack holds it. -/
theorem call_record_fields (rt : Runtime) (address : Int) (s : State) (stack : ValuePtr)
    (hstack : s.stack = some stack) (result : Param) (callData : Nat) :
    (∀ (argc : Int) (base : Param) (p : ValuePtr), s.valuePtr base = some p →
      (∀ lookupIndex,
        (body rt address s (.CallPropertyLookup result lookupIndex callData argc base)).Invokes
          rt result .callPropertyLookup [.number lookupIndex, .pointer (stack.add callData)]
          fun m => m (stack.add callData) = .integer argc ∧
            m ((stack.add callData).add callDataLayout.thisObject) =
              (s.engine.memory.store (stack.add callData) (.integer argc)) p) ∧
      (∀ name,
        (body rt address s (.CreateProperty result callData argc base name)).Invokes
          rt result .constructProperty [.number name, .pointer (stack.add callData)]
          fun m => m (stack.add callData) = .integer argc ∧
            m ((stack.add callData).add callDataLayout.thisObject) =
              (s.engine.memory.store (stack.add callData) (.integer argc)) p) ∧
      (∀ index,
        (body rt address s (.ConstructPropertyLookup result callData argc base index)).Invokes
          rt result .constructPropertyLookup [.number index, .pointer (stack.add callData)]
          fun m => m (stack.add callData) = .integer argc ∧
            m ((stack.add callData).add callDataLayout.thisObject) =
              (s.engine.memory.store (stack.add callData) (.integer argc)) p)) ∧
    (∀ (argc : Int),
      (∀ name,
        (body rt address s (.CreateActivationProperty result callData argc name)).Invokes
          rt result .constructActivationProperty [.number name, .pointer (stack.add callData)]
          fun m => m (stack.add callData) = .integer argc ∧
            m ((stack.add callData).add callDataLayout.thisObject) = .undefined) ∧
      (∀ index,
        (body rt address s (.ConstructGlobalLookup result callData argc index)).Invokes
          rt result .constructGlobalLookup [.number index, .pointer (stack.add callData)]
          fun m => m (stack.add callData) = .integer argc ∧
            m ((stack.add callData).add callDataLayout.thisObject) = .undefined)) ∧
    (∀ (base : Param) (p : ValuePtr), s.valuePtr base = some p →
      (∀ name,
        (body rt address s (.CallProperty result name callData base)).Invokes
          rt result .callProperty [.number name, .pointer (stack.add callData)]
          fun m => m ((stack.add callData).add callDataLayout.thisObject) = s.engine.memory p ∧
            m (stack.add callData) = s.engine.memory (stack.add callData)) ∧
      (∀ (index : Param) (i : ValuePtr), s.valuePtr index = some i →
        (body rt address s (.CallElement result base index callData)).Invokes
          rt result .callElement
          [.value ((s.engine.memory.store ((stack.add callData).add callDataLayout.thisObject)
            (s.engine.memory p)) i), .pointer (stack.add callData)]
          fun m => m ((stack.add callData).add callDataLayout.thisObject) = s.engine.memory p ∧
            m (stack.add callData) = s.engine.memory (stack.add callData))) ∧
    (∀ (dest : Param) (d : ValuePtr), s.valuePtr dest = some d →
      body rt address s (.CallValue result callData dest) =
        s.storeValue result
          (rt .callValue [.value (s.engine.memory d), .pointer (stack.add callData)] s.engine) ∧
      body rt address s (.CreateValue result callData dest) =
        s.storeValue result
          (rt .constructValue [.value (s.engine.memory d), .pointer (stack.add callData)]
            s.engine)) ∧
    (∀ name : Int,
      body rt address s (.CallActivationProperty result name callData) =
        s.storeValue result
          (rt .callActivationProperty [.number name, .pointer (stack.add callData)] s.engine) ∧
      body rt address s (.CallGlobalLookup result name callData) =
        s.storeValue result
          (rt .callGlobalLookup [.number name, .pointer (stack.add callData)] s.engine)) := by
  have hne := thisObject_ne (stack.add callData)
  refine ⟨?_, ?_, ?_, ?_, ?_⟩
  · intro argc base p hbase
    have hbase' : (s.setTagAndArgc (stack.add callData) argc).valuePtr base = some p := hbase
    refine ⟨fun lookupIndex => ?_, fun name => ?_, fun index => ?_⟩
    all_goals
      refine ⟨((s.setTagAndArgc (stack.add callData) argc).setThisObject (stack.add callData)
        ((s.engine.memory.store (stack.add callData) (.integer argc)) p)), ?_, ?_, ?_⟩
      · simp only [body, State.withStack, hstack, State.read, hbase']
        rfl
      · show Memory.store (Memory.store _ _ _) _ _ _ = _
        rw [store_other _ _ _ _ hne, store_same]
      · show Memory.store (Memory.store _ _ _) _ _ _ = _
        rw [store_same]
  · intro argc
    refine ⟨fun name => ?_, fun index => ?_⟩
    all_goals
      refine ⟨((s.setTagAndArgc (stack.add callData) argc).setThisObject (stack.add callData)
        .undefined), ?_, ?_, ?_⟩
      · simp only [body, State.withStack, hstack]
      · show Memory.store (Memory.store _ _ _) _ _ _ = _
        rw [store_other _ _ _ _ hne, store_same]
      · show Memory.store (Memory.store _ _ _) _ _ _ = _
        rw [store_same]
  · intro base p hbase
    refine ⟨fun name => ?_, fun index i hindex => ?_⟩
    · refine ⟨s.setThisObject (stack.add callData) (s.engine.memory p), ?_, ?_, ?_⟩
      · simp only [body, State.withStack, hstack, State.read, hbase]
      · show Memory.store _ _ _ _ = _
        rw [store_same]
      · show Memory.store _ _ _ _ = _
        rw [store_other _ _ _ _ hne]
    · have hindex' : (s.setThisObject (stack.add callData)
          (s.engine.memory p)).valuePtr index = some i := hindex
      refine ⟨s.setThisObject (stack.add callData) (s.engine.memory p), ?_, ?_, ?_⟩
      · simp only [body, State.withStack, hstack, State.read, hbase, hindex']
        rfl
      · show Memory.store _ _ _ _ = _
        rw [store_same]
      · show Memory.store _ _ _ _ = _
        rw [store_other _ _ _ _ hne]
  · intro dest d hdest
    constructor <;> simp only [body, State.withStack, hstack, State.read, hdest]
  · intro name
    constructor <;> simp only [body, State.withStack, hstack]

end Moth
namespace Compiler

end Compiler
namespace Moth

/-- C34, witness: `CallPropertyLookup` with two arguments and the first constant, 7,
for receiver hands over a record whose first slot holds the integer 2 and whose
`thisObject` holds 7. -/
theorem call_record_fields_witness :
    exThrowState.stack = some ⟨0, 0⟩ ∧ exThrowState.valuePtr ⟨0, 0⟩ = some ⟨1, 0⟩ ∧
    (body exProbeRuntime 2 exThrowState (.CallPropertyLookup ⟨1, 1⟩ 5 0 2 ⟨0, 0⟩)).Invokes
      exProbeRuntime ⟨1, 1⟩ .callPropertyLookup [.number 5, .pointer ⟨0, 0⟩]
      fun m => m ⟨0, 0⟩ = .integer 2 ∧ m ⟨0, 3⟩ = .integer 7 :=
  ⟨rfl, rfl,
    ((call_record_fields exProbeRuntime 2 exThrowState ⟨0, 0⟩ rfl ⟨1, 1⟩ 0).1 2 ⟨0, 0⟩ ⟨1, 0⟩
      rfl).1 5⟩

/-- C34, counterexample: in a stack frame whose slots are undefined, the entry points of
`CallProperty` and `CallValue` find the first slot of the record undefined, not the
integer tag with an argument count: the runtime answers what it finds there, and the
answer stored to the result slot is undefined. -/
theorem call_record_fields_counterexample :
    exThrowState.engine.memory ⟨0, 0⟩ = .undefined ∧
    (body exProbeRuntime 2 exThrowState (.CallProperty ⟨1, 1⟩ 0 0 ⟨0, 0⟩)).state?.map
      (fun s => s.engine.memory ⟨0, 1⟩) = some .undefined ∧
    (body exProbeRuntime 2 exThrowState (.CallValue ⟨1, 1⟩ 0 ⟨0, 0⟩)).state?.map
      (fun s => s.engine.memory ⟨0, 1⟩) = some .undefined := by
  refine ⟨by decide, by decide, by decide⟩

end Moth
namespace Compiler

/-! ## The walk as a relation between states -/

namespace ScanFunctions

mutual

theorem acceptExpression_relates {R : ScanFunctions → ScanFunctions → Prop}
    (hR : WalkRelation R) :
    ∀ (e : ExpressionNode) (s : ScanFunctions), R s (acceptExpression e s)
  | .IdentifierExpression name tok, s => by
    rw [acceptExpression]; exact hR.identifier s name tok
  | .StringLiteral _, s => by rw [acceptExpression]; exact hR.refl s
  | .NumericLiteral _, s => by rw [acceptExpression]; exact hR.refl s
  | .ThisExpression, s => by rw [acceptExpression]; exact hR.thisExpression s
  | .CallExpression base arguments, s => by
    rw [acceptExpression]
    exact hR.trans _ _ _ (hR.call s base arguments)
      (hR.trans _ _ _ (acceptExpression_relates hR base _)
        (acceptExpressions_relates hR arguments _))
  | .NewMemberExpression base arguments, s => by
    rw [acceptExpression]
    exact hR.trans _ _ _ (hR.newMember s arguments)
      (hR.trans _ _ _ (acceptExpression_relates hR base _)
        (acceptExpressions_relates hR arguments _))
  | .BinaryExpression left right, s => by
    rw [acceptExpression]
    exact hR.trans _ _ _ (acceptExpression_relates hR left _)
      (acceptExpression_relates hR right _)
  | .ArrayPattern elements elision, s => by
    rw [acceptExpression]
    exact hR.trans _ _ _ (hR.arrayPattern s elements elision)
      (acceptPatternElementList_relates hR elements _)
  | .ObjectPattern properties, s => by
    rw [acceptExpression]
    exact hR.temporary s _ true (acceptPatternProperties_relates hR properties _)
  | .FunctionExpression f, s => by
    rw [acceptExpression]
    apply hR.function s f false
    split
    · exact acceptFunctionChildren_relates hR f _
    · exact hR.refl _

theorem acceptFunctionChildren_relates {R : ScanFunctions → ScanFunctions → Prop}
    (hR : WalkRelation R) :
    ∀ (f : FunctionNode) (s : ScanFunctions), R s (acceptFunctionChildren f s)
  | .mk _ _ _ _ _ _ formals body, s => by
    rw [acceptFunctionChildren]
    exact hR.trans _ _ _ (acceptPatternElements_relates hR formals _)
      (acceptBody_relates hR body _)

theorem acceptBody_relates {R : ScanFunctions → ScanFunctions → Prop} (hR : WalkRelation R) :
    ∀ (b : Option (List Statement)) (s : ScanFunctions), R s (acceptBody b s)
  | none, s => by rw [acceptBody]; exact hR.refl s
  | some b, s => by rw [acceptBody]; exact acceptStatements_relates hR b _

theorem acceptExpressions_relates {R : ScanFunctions → ScanFunctions → Prop}
    (hR : WalkRelation R) :
    ∀ (l : List ExpressionNode) (s : ScanFunctions), R s (acceptExpressions l s)
  | [], s => by rw [acceptExpressions]; exact hR.refl s
  | e :: es, s => by
    rw [acceptExpressions]
    exact hR.trans _ _ _ (acceptExpression_relates hR e _) (acceptExpressions_relates hR es _)

theorem acceptOptionalExpression_relates {R : ScanFunctions → ScanFunctions → Prop}
    (hR : WalkRelation R) :
    ∀ (e : Option ExpressionNode) (s : ScanFunctions), R s (acceptOptionalExpression e s)
  | none, s => by rw [acceptOptionalExpression]; exact hR.refl s
  | some e, s => by rw [acceptOptionalExpression]; exact acceptExpression_relates hR e _

theorem acceptPatternElement_relates {R : ScanFunctions → ScanFunctions → Prop}
    (hR : WalkRelation R) :
    ∀ (e : PatternElement) (s : ScanFunctions), R s (acceptPatternElement e s)
  | .mk tok b n target initializer sc v r, s => by
    rw [acceptPatternElement]
    have h1 := hR.patternElement s (.mk tok b n target initializer sc v r)
    split
    · exact hR.trans _ _ _ h1 (hR.trans _ _ _
        (acceptOptionalExpression_relates hR target _)
        (acceptOptionalExpression_relates hR initializer _))
    · exact h1

theorem acceptPatternElements_relates {R : ScanFunctions → ScanFunctions → Prop}
    (hR : WalkRelation R) :
    ∀ (l : List PatternElement) (s : ScanFunctions), R s (acceptPatternElements l s)
  | [], s => by rw [acceptPatternElements]; exact hR.refl s
  | e :: es, s => by
    rw [acceptPatternElements]
    exact hR.trans _ _ _ (acceptPatternElement_relates hR e _)
      (acceptPatternElements_relates hR es _)

theorem acceptPatternElementList_relates {R : ScanFunctions → ScanFunctions → Prop}
    (hR : WalkRelation R) :
    ∀ (l : List PatternElementList) (s : ScanFunctions), R s (acceptPatternElementList l s)
  | [], s => by rw [acceptPatternElementList]; exact hR.refl s
  | .mk _ element :: es, s => by
    rw [acceptPatternElementList]
    exact hR.trans _ _ _ (acceptPatternElement_relates hR element _)
      (acceptPatternElementList_relates hR es _)

theorem acceptPatternProperties_relates {R : ScanFunctions → ScanFunctions → Prop}
    (hR : WalkRelation R) :
    ∀ (l : List PatternElement) (s : ScanFunctions), R s (acceptPatternProperties l s)
  | [], s => by rw [acceptPatternProperties]; exact hR.refl s
  | .mk _ _ _ target initializer _ _ _ :: es, s => by
    rw [acceptPatternProperties]
    exact hR.trans _ _ _ (acceptOptionalExpression_relates hR target _)
      (hR.trans _ _ _ (acceptOptionalExpression_relates hR initializer _)
        (acceptPatternProperties_relates hR es _))

theorem acceptStatement_relates {R : ScanFunctions → ScanFunctions → Prop}
    (hR : WalkRelation R) :
    ∀ (st : Statement) (s : ScanFunctions), R s (acceptStatement st s)
  | .ExpressionStatement (.FunctionExpression f) _, s => by
    rw [acceptStatement]
    have h0 : R s (if (!s.allowFuncDecls) = true then
        s.throwSyntaxError f.functionToken "conditional function or closure declaration"
        else s) := by
      split
      · exact hR.raise _ _ _
      · exact hR.refl _
    revert h0
    generalize (if (!s.allowFuncDecls) = true then
        s.throwSyntaxError f.functionToken "conditional function or closure declaration"
        else s) = s0
    intro h0
    refine hR.trans _ _ _ h0 ?_
    split
    · next hfail =>
      have hfail' : (enterFunctionExpression s0 f true).1 = false := by
        simpa using hfail
      exact hR.functionFails s0 f hfail'
    · exact hR.function s0 f true _ (acceptFunctionChildren_relates hR f _)
  | .ExpressionStatement (.IdentifierExpression n t) loc, s => by
    rw [acceptStatement]
    · refine hR.trans _ _ _ ?_ (acceptExpression_relates hR _ _)
      split
      · exact hR.raise _ _ _
      · exact hR.refl _
    · intro f hf; cases hf
  | .ExpressionStatement (.StringLiteral t) loc, s => by
    rw [acceptStatement]
    · refine hR.trans _ _ _ ?_ (acceptExpression_relates hR _ _)
      split
      · exact hR.raise _ _ _
      · exact hR.refl _
    · intro f hf; cases hf
  | .ExpressionStatement (.NumericLiteral t) loc, s => by
    rw [acceptStatement]
    · refine hR.trans _ _ _ ?_ (acceptExpression_relates hR _ _)
      split
      · exact hR.raise _ _ _
      · exact hR.refl _
    · intro f hf; cases hf
  | .ExpressionStatement .ThisExpression loc, s => by
    rw [acceptStatement]
    · refine hR.trans _ _ _ ?_ (acceptExpression_relates hR _ _)
      split
      · exact hR.raise _ _ _
      · exact hR.refl _
    · intro f hf; cases hf
  | .ExpressionStatement (.CallExpression b a) loc, s => by
    rw [acceptStatement]
    · refine hR.trans _ _ _ ?_ (acceptExpression_relates hR _ _)
      split
      · exact hR.raise _ _ _
      · exact hR.refl _
    · intro f hf; cases hf
  | .ExpressionStatement (.NewMemberExpression b a) loc, s => by
    rw [acceptStatement]
    · refine hR.trans _ _ _ ?_ (acceptExpression_relates hR _ _)
      split
      · exact hR.raise _ _ _
      · exact hR.refl _
    · intro f hf; cases hf
  | .ExpressionStatement (.BinaryExpression l r) loc, s => by
    rw [acceptStatement]
    · refine hR.trans _ _ _ ?_ (acceptExpression_relates hR _ _)
      split
      · exact hR.raise _ _ _
      · exact hR.refl _
    · intro f hf; cases hf
  | .ExpressionStatement (.ArrayPattern e n) loc, s => by
    rw [acceptStatement]
    · refine hR.trans _ _ _ ?_ (acceptExpression_relates hR _ _)
      split
      · exact hR.raise _ _ _
      · exact hR.refl _
    · intro f hf; cases hf
  | .ExpressionStatement (.ObjectPattern p) loc, s => by
    rw [acceptStatement]
    · refine hR.trans _ _ _ ?_ (acceptExpression_relates hR _ _)
      split
      · exact hR.raise _ _ _
      · exact hR.refl _
    · intro f hf; cases hf
  | .VariableStatement declarations, s => by
    rw [acceptStatement]; exact acceptPatternElements_relates hR declarations _
  | .FunctionDeclaration f, s => by
    rw [acceptStatement]
    apply hR.function s f true
    split
    · exact acceptFunctionChildren_relates hR f _
    · exact hR.refl _
  | .Block id statements, s => by
    rw [acceptStatement]
    exact hR.temporary s _ _ (hR.block _ id _ (acceptStatements_relates hR statements _))
  | .TryStatement statement catchBlock finallyBlock, s => by
    rw [acceptStatement]
    exact hR.trans _ _ _ (hR.tryStatement s)
      (hR.trans _ _ _ (acceptStatement_relates hR statement _)
        (hR.trans _ _ _ (acceptOptionalStatement_relates hR catchBlock _)
          (acceptOptionalStatement_relates hR finallyBlock _)))
  | .WithStatement withToken expression statement, s => by
    rw [acceptStatement]
    have h1 := hR.withStatement s withToken
    split
    · exact hR.trans _ _ _ h1 (hR.trans _ _ _ (acceptExpression_relates hR expression _)
        (acceptStatement_relates hR statement _))
    · exact h1
  | .DoWhileStatement statement expression, s => by
    rw [acceptStatement]
    exact hR.trans _ _ _ (hR.temporary s _ _ (acceptStatement_relates hR statement _))
      (acceptExpression_relates hR expression _)
  | .ForStatement initialiser condition expression statement, s => by
    rw [acceptStatement]
    exact hR.trans _ _ _ (acceptOptionalExpression_relates hR initialiser _)
      (hR.trans _ _ _ (acceptOptionalExpression_relates hR condition _)
        (hR.trans _ _ _ (acceptOptionalExpression_relates hR expression _)
          (hR.temporary _ _ _ (acceptStatement_relates hR statement _))))
  | .LocalForStatement declarations condition expression statement, s => by
    rw [acceptStatement]
    exact hR.trans _ _ _ (acceptPatternElements_relates hR declarations _)
      (hR.trans _ _ _ (acceptOptionalExpression_relates hR condition _)
        (hR.trans _ _ _ (acceptOptionalExpression_relates hR expression _)
          (hR.temporary _ _ _ (acceptStatement_relates hR statement _))))
  | .ForEachStatement initialiser expression statement, s => by
    rw [acceptStatement]
    exact hR.trans _ _ _ (acceptExpression_relates hR initialiser _)
      (hR.trans _ _ _ (acceptExpression_relates hR expression _)
        (hR.temporary _ _ _ (acceptStatement_relates hR statement _)))
  | .LocalForEachStatement declaration expression statement, s => by
    rw [acceptStatement]
    exact hR.trans _ _ _ (acceptPatternElement_relates hR declaration _)
      (hR.trans _ _ _ (acceptExpression_relates hR expression _)
        (hR.temporary _ _ _ (acceptStatement_relates hR statement _)))

theorem acceptOptionalStatement_relates {R : ScanFunctions → ScanFunctions → Prop}
    (hR : WalkRelation R) :
    ∀ (st : Option Statement) (s : ScanFunctions), R s (acceptOptionalStatement st s)
  | none, s => by rw [acceptOptionalStatement]; exact hR.refl s
  | some st, s => by rw [acceptOptionalStatement]; exact acceptStatement_relates hR st _

theorem acceptStatements_relates {R : ScanFunctions → ScanFunctions → Prop}
    (hR : WalkRelation R) :
    ∀ (l : List Statement) (s : ScanFunctions), R s (acceptStatements l s)
  | [], s => by rw [acceptStatements]; exact hR.refl s
  | st :: sts, s => by
    rw [acceptStatements]
    exact hR.trans _ _ _ (acceptStatement_relates hR st _) (acceptStatements_relates hR sts _)

end

end ScanFunctions

/-! ## Steps that leave the control variables alone -/

namespace ScanFunctions

theorem sameFrame_refl (s : ScanFunctions) : SameFrame s s :=
  ⟨rfl, rfl, rfl, [], (List.append_nil _).symm⟩

theorem sameFrame_trans {a b c : ScanFunctions} (h1 : SameFrame a b) (h2 : SameFrame b c) :
    SameFrame a c := by
  obtain ⟨t1, e1⟩ := h1.errors
  obtain ⟨t2, e2⟩ := h2.errors
  exact ⟨h2.allowFuncDecls.trans h1.allowFuncDecls, h2.contextStack.trans h1.contextStack,
    h2.context.trans h1.context, t1 ++ t2, by rw [e2, e1, List.append_assoc]⟩

theorem sameFrame_throwSyntaxError (s : ScanFunctions) (loc : SourceLocation)
    (detail : String) : SameFrame s (s.throwSyntaxError loc detail) :=
  ⟨rfl, rfl, rfl, _, rfl⟩

theorem sameFrame_modifyContext (s : ScanFunctions) (f : Context → Context) :
    SameFrame s (s.modifyContext f) := by
  unfold modifyContext
  split
  · exact ⟨rfl, rfl, rfl, [], (List.append_nil _).symm⟩
  · exact sameFrame_refl s

theorem sameFrame_modifyAt (s : ScanFunctions) (o : Nat) (f : Context → Context) :
    SameFrame s (s.modifyAt o f) :=
  ⟨rfl, rfl, rfl, [], (List.append_nil _).symm⟩

theorem sameFrame_addLocalVar (s : ScanFunctions) (name : String) (type : MemberType)
    (scope : VariableScope) (function : Option Nat) :
    SameFrame s (s.addLocalVar name type scope function).2 := by
  unfold addLocalVar
  split
  · exact sameFrame_modifyContext s _
  · exact sameFrame_refl s

theorem sameFrame_addLocalVarAt (s : ScanFunctions) (o : Nat) (name : String)
    (type : MemberType) (scope : VariableScope) (function : Option Nat) :
    SameFrame s (s.addLocalVarAt o name type scope function).2 := by
  unfold addLocalVarAt
  split
  · exact sameFrame_modifyAt s o _
  · exact sameFrame_refl s

theorem sameFrame_noteArgumentCount (s : ScanFunctions) (argc : Int) :
    SameFrame s (s.noteArgumentCount argc) := by
  have h := sameFrame_modifyContext s fun c =>
    { c with maxNumberOfArguments := max c.maxNumberOfArguments argc }
  unfold noteArgumentCount
  split
  · split
    · exact ⟨h.allowFuncDecls, h.contextStack, h.context, h.errors⟩
    · exact h
  · exact h

theorem sameFrame_checkName (s : ScanFunctions) (name : String) (loc : SourceLocation) :
    SameFrame s (s.checkName name loc) := by
  unfold checkName
  split
  · split
    · exact sameFrame_throwSyntaxError s _ _
    · exact sameFrame_refl s
  · exact sameFrame_refl s

theorem sameFrame_checkDirectivePrologue (s : ScanFunctions) (l : List Statement) :
    SameFrame s (s.checkDirectivePrologue l) := by
  rw [checkDirectivePrologue_eq]
  split
  · exact sameFrame_modifyContext s _
  · exact sameFrame_refl s

theorem sameFrame_visitIdentifierExpression (s : ScanFunctions) (name : String)
    (tok : SourceLocation) : SameFrame s (s.visitIdentifierExpression name tok).2 := by
  unfold visitIdentifierExpression
  exact sameFrame_trans (sameFrame_checkName s name tok)
    (sameFrame_trans (sameFrame_modifyContext _ _) (sameFrame_modifyContext _ _))

theorem sameFrame_visitThisExpression (s : ScanFunctions) :
    SameFrame s s.visitThisExpression.2 :=
  sameFrame_modifyContext s _

theorem sameFrame_visitCallExpression (s : ScanFunctions) (base : ExpressionNode)
    (arguments : List ExpressionNode) : SameFrame s (s.visitCallExpression base arguments).2 := by
  unfold visitCallExpression
  dsimp only
  refine sameFrame_trans ?_ (sameFrame_noteArgumentCount _ _)
  repeat' first
    | exact sameFrame_refl s
    | exact sameFrame_trans (sameFrame_modifyContext _ _) (sameFrame_modifyContext _ _)
    | split

theorem sameFrame_visitNewMemberExpression (s : ScanFunctions)
    (arguments : List ExpressionNode) : SameFrame s (s.visitNewMemberExpression arguments).2 :=
  sameFrame_noteArgumentCount s _

theorem sameFrame_visitArrayPattern (s : ScanFunctions) (elements : List PatternElementList)
    (elision : Nat) : SameFrame s (s.visitArrayPattern elements elision).2 :=
  sameFrame_noteArgumentCount s _

theorem sameFrame_visitTryStatement (s : ScanFunctions) : SameFrame s s.visitTryStatement.2 :=
  sameFrame_modifyContext s _

theorem sameFrame_visitWithStatement (s : ScanFunctions) (tok : SourceLocation) :
    SameFrame s (s.visitWithStatement tok).2 := by
  unfold visitWithStatement
  split
  · exact sameFrame_throwSyntaxError s _ _
  · exact sameFrame_modifyContext s _

theorem sameFrame_declareName (s : ScanFunctions) (ast : PatternElement) (name : String) :
    SameFrame s (declareName s ast name).2 := by
  unfold declareName
  dsimp only
  have h1 : SameFrame s (if (s.isStrict && (name == "eval" || name == "arguments")) = true then
      s.throwSyntaxError ast.identifierToken
        "Variable name may not be eval or arguments in strict mode"
    else s) := by
    split
    · exact sameFrame_throwSyntaxError s _ _
    · exact sameFrame_refl s
  revert h1
  generalize (if (s.isStrict && (name == "eval" || name == "arguments")) = true then
      s.throwSyntaxError ast.identifierToken
        "Variable name may not be eval or arguments in strict mode"
    else s) = s1
  intro h1
  have h2 : SameFrame s1 (s1.checkName name ast.identifierToken) := sameFrame_checkName _ _ _
  revert h2
  generalize s1.checkName name ast.identifierToken = s2
  intro h2
  have h3 : SameFrame s2 (if name = "arguments" then
      s2.modifyContext fun c => { c with usesArgumentsObject := .ArgumentsObjectNotUsed }
    else s2) := by
    split
    · exact sameFrame_modifyContext _ _
    · exact sameFrame_refl _
  revert h3
  generalize (if name = "arguments" then
      s2.modifyContext fun c => { c with usesArgumentsObject := .ArgumentsObjectNotUsed }
    else s2) = s3
  intro h3
  have h123 := sameFrame_trans h1 (sameFrame_trans h2 h3)
  repeat' first
    | exact sameFrame_trans h123 (sameFrame_throwSyntaxError _ _ _)
    | exact sameFrame_trans h123
        (sameFrame_trans (sameFrame_addLocalVar _ _ _ _ _) (sameFrame_throwSyntaxError _ _ _))
    | exact sameFrame_trans h123 (sameFrame_addLocalVar _ _ _ _ _)
    | split

theorem sameFrame_declareNames (ast : PatternElement) (names : List String)
    (s : ScanFunctions) : SameFrame s (declareNames ast names s).2 := by
  induction names generalizing s with
  | nil => exact sameFrame_refl s
  | cons name rest ih =>
    unfold declareNames
    dsimp only
    split
    · exact sameFrame_trans (sameFrame_declareName s ast name) (ih _)
    · exact sameFrame_declareName s ast name

theorem sameFrame_visitPatternElement (s : ScanFunctions) (ast : PatternElement) :
    SameFrame s (s.visitPatternElement ast).2 := by
  unfold visitPatternElement
  split
  · exact sameFrame_refl s
  · exact sameFrame_declareNames ast _ s

end ScanFunctions

/-! ## Steps that enter an environment -/

namespace ScanFunctions

theorem entered_enterEnvironment (s : ScanFunctions) (node : Nat) (t : ContextType) :
    Entered s (s.enterEnvironment node t) := by
  unfold enterEnvironment
  split
  exact ⟨rfl, ⟨_, rfl, rfl⟩, [], (List.append_nil _).symm⟩

theorem entered_then {a b c : ScanFunctions} (h1 : Entered a b) (h2 : SameFrame b c) :
    Entered a c := by
  obtain ⟨i, hi, hc⟩ := h1.pushed
  obtain ⟨t1, e1⟩ := h1.errors
  obtain ⟨t2, e2⟩ := h2.errors
  exact ⟨h2.allowFuncDecls.trans h1.allowFuncDecls,
    ⟨i, h2.contextStack.trans hi, h2.context.trans hc⟩,
    t1 ++ t2, by rw [e2, e1, List.append_assoc]⟩

theorem entered_after {a b c : ScanFunctions} (h1 : SameFrame a b) (h2 : Entered b c) :
    Entered a c := by
  obtain ⟨i, hi, hc⟩ := h2.pushed
  obtain ⟨t1, e1⟩ := h1.errors
  obtain ⟨t2, e2⟩ := h2.errors
  exact ⟨h2.allowFuncDecls.trans h1.allowFuncDecls,
    ⟨i, by rw [hi, h1.contextStack], hc⟩,
    t1 ++ t2, by rw [e2, e1, List.append_assoc]⟩

theorem sameFrame_enterFunctionOuter (s : ScanFunctions) (o : Nat) (ast : FunctionNode)
    (name : String) (enterName : Bool) :
    SameFrame s (s.enterFunctionOuter o ast name enterName).2 := by
  unfold enterFunctionOuter
  dsimp only
  have h0 := sameFrame_modifyAt s o fun c => { c with hasNestedFunctions := true }
  revert h0
  generalize (s.modifyAt o fun c => { c with hasNestedFunctions := true }) = s1
  intro h0
  refine sameFrame_trans h0 ?_
  split
  · exact sameFrame_trans (sameFrame_addLocalVarAt _ _ _ _ _ _) (sameFrame_throwSyntaxError _ _ _)
  · dsimp only
    have h1 : SameFrame s1 (if enterName = true then
        ((s1.addLocalVarAt o name .FunctionDefinition .Var (some ast.id)).2.addLocalVarAt o name
          .FunctionDefinition .Var (some ast.id)).2
      else s1) := by
      split
      · exact sameFrame_trans (sameFrame_addLocalVarAt _ _ _ _ _ _)
          (sameFrame_addLocalVarAt _ _ _ _ _ _)
      · exact sameFrame_refl _
    revert h1
    generalize (if enterName = true then
        ((s1.addLocalVarAt o name .FunctionDefinition .Var (some ast.id)).2.addLocalVarAt o name
          .FunctionDefinition .Var (some ast.id)).2
      else s1) = s2
    intro h1
    refine sameFrame_trans h1 ?_
    split
    · exact sameFrame_modifyAt _ _ _
    · exact sameFrame_refl _

theorem sameFrame_prepareFunctionContext (s : ScanFunctions) (ast : FunctionNode)
    (name : String) (formals : FormalParameterList) (body : Option (List Statement)) :
    SameFrame s (prepareFunctionContext s ast name formals body) := by
  have h1 : ∀ t : ScanFunctions, SameFrame t (setArguments t formals) :=
    fun t => sameFrame_modifyContext t _
  have h2 : ∀ t : ScanFunctions, SameFrame t (checkBodyDirectives t body) := by
    intro t
    unfold checkBodyDirectives
    split
    · split
      · exact sameFrame_checkDirectivePrologue t _
      · exact sameFrame_refl t
    · exact sameFrame_refl t
  have h3 : ∀ t : ScanFunctions, SameFrame t (setFormals t formals) :=
    fun t => sameFrame_modifyContext t _
  have h4 : ∀ t : ScanFunctions, SameFrame t (bindOwnName t name formals) := by
    intro t
    unfold bindOwnName
    split
    · exact sameFrame_addLocalVar t _ _ _ _
    · exact sameFrame_refl t
  have h5 : ∀ t : ScanFunctions, SameFrame t (noteFunctionKind t ast) := by
    intro t
    unfold noteFunctionKind
    split
    · exact sameFrame_modifyContext t _
    · split
      · exact sameFrame_modifyContext t _
      · exact sameFrame_refl t
  have h6 : ∀ t : ScanFunctions, SameFrame t (noteArgumentsParameter t formals) := by
    intro t
    unfold noteArgumentsParameter
    split
    · exact sameFrame_modifyContext t _
    · exact sameFrame_refl t
  have h7 : ∀ t : ScanFunctions, SameFrame t (setFunctionName t name) :=
    fun t => sameFrame_modifyContext t _
  unfold prepareFunctionContext
  exact sameFrame_trans (h7 _) (sameFrame_trans (h6 _) (sameFrame_trans (h5 _)
    (sameFrame_trans (h4 _) (sameFrame_trans (h3 _) (sameFrame_trans (h2 _) (h1 _))))))

theorem sameFrame_checkParameter (s : ScanFunctions) (formals : FormalParameterList)
    (simple : Bool) (arg : String) (later : List String) :
    SameFrame s (checkParameter s formals simple arg later).2 := by
  unfold checkParameter
  dsimp only
  repeat' first
    | exact sameFrame_throwSyntaxError _ _ _
    | exact sameFrame_addLocalVar _ _ _ _ _
    | exact sameFrame_refl _
    | split

theorem sameFrame_checkParameters (formals : FormalParameterList) (simple : Bool)
    (names : List String) (s : ScanFunctions) :
    SameFrame s (checkParameters formals simple names s).2 := by
  induction names generalizing s with
  | nil => exact sameFrame_refl s
  | cons arg later ih =>
    unfold checkParameters
    dsimp only
    split
    · exact sameFrame_trans (sameFrame_checkParameter s formals simple arg later) (ih _)
    · exact sameFrame_checkParameter s formals simple arg later

theorem entered_enterFunction (s : ScanFunctions) (ast : FunctionNode) (name : String)
    (formals : FormalParameterList) (body : Option (List Statement)) (enterName : Bool) :
    Entered s (s.enterFunction ast name formals body enterName).2 := by
  have h0 := entered_enterEnvironment s ast.id .Function
  unfold enterFunction
  dsimp only
  cases s.context with
  | none =>
    simp only [Bool.not_true, Bool.false_eq_true, if_false]
    exact entered_then h0 (sameFrame_trans (sameFrame_prepareFunctionContext _ _ _ _ _)
      (sameFrame_checkParameters _ _ _ _))
  | some o =>
    simp only
    have h1 := sameFrame_enterFunctionOuter (s.enterEnvironment ast.id .Function) o ast name
      enterName
    split
    · exact entered_then h0 h1
    · exact entered_then h0 (sameFrame_trans h1
        (sameFrame_trans (sameFrame_prepareFunctionContext _ _ _ _ _)
          (sameFrame_checkParameters _ _ _ _)))

theorem entered_enterFunctionExpression (s : ScanFunctions) (ast : FunctionNode)
    (enterName : Bool) : Entered s (s.enterFunctionExpression ast enterName).2 := by
  unfold enterFunctionExpression
  dsimp only
  refine entered_after ?_ (entered_enterFunction _ _ _ _ _ _)
  split
  · exact sameFrame_throwSyntaxError s _ _
  · exact sameFrame_refl s

/-- When `enterFunction` answers `false`, it has raised an error. -/
theorem enterFunctionExpression_fails (s : ScanFunctions) (ast : FunctionNode)
    (enterName : Bool) (h : (s.enterFunctionExpression ast enterName).1 = false) :
    (s.enterFunctionExpression ast enterName).2.errors ≠ s.errors := by
  unfold enterFunctionExpression at h ⊢
  dsimp only at h ⊢
  have h0 : ∃ tail, (if (s.isStrict && (ast.name == "eval" || ast.name == "arguments")) = true then
      s.throwSyntaxError ast.identifierToken
        "Function name may not be eval or arguments in strict mode"
    else s).errors = s.errors ++ tail := by
    split
    · exact ⟨_, rfl⟩
    · exact ⟨[], (List.append_nil _).symm⟩
  revert h0 h
  generalize (if (s.isStrict && (ast.name == "eval" || ast.name == "arguments")) = true then
      s.throwSyntaxError ast.identifierToken
        "Function name may not be eval or arguments in strict mode"
    else s) = s0
  intro h h0
  obtain ⟨t0, e0⟩ := h0
  have hraised : ∃ x, raisedSince s0 (s0.enterFunction ast ast.name ast.formals ast.body
      enterName).2 = [x] := by
    rcases enterFunction_outcome s0 ast ast.name ast.formals ast.body enterName with
      h1 | h1 | h1 | h1
    · rw [h1.1] at h
      cases h
    · exact ⟨_, h1.2.2⟩
    · obtain ⟨_, arg, _, h2, _⟩ := h1
      exact ⟨_, h2⟩
    · obtain ⟨_, arg, _, h2, _⟩ := h1
      exact ⟨_, h2⟩
  obtain ⟨x, hx⟩ := hraised
  obtain ⟨t1, e1⟩ := errors_enterFunction s0 ast ast.name ast.formals ast.body enterName
  intro heq
  unfold raisedSince at hx
  rw [e1, List.drop_left] at hx
  rw [e1, e0, hx, List.append_assoc] at heq
  have := congrArg List.length heq
  simp at this

end ScanFunctions

/-! ## The control variables across the walk -/

namespace ScanFunctions

theorem errors_sandwich {α : Type} {a t1 t2 : List α} (h : a ++ t1 ++ t2 = a) :
    t1 = [] ∧ t2 = [] := by
  have := congrArg List.length h
  simp only [List.length_append] at this
  exact ⟨List.length_eq_zero.mp (by omega), List.length_eq_zero.mp (by omega)⟩

theorem balanced_of_sameFrame {s s' : ScanFunctions} (h : SameFrame s s') : Balanced s s' :=
  ⟨h.allowFuncDecls, h.errors, fun _ => h.contextStack⟩

theorem balanced_trans {a b c : ScanFunctions} (h1 : Balanced a b) (h2 : Balanced b c) :
    Balanced a c := by
  obtain ⟨t1, e1⟩ := h1.errors
  obtain ⟨t2, e2⟩ := h2.errors
  refine ⟨h2.allowFuncDecls.trans h1.allowFuncDecls, ⟨t1 ++ t2, by
    rw [e2, e1, List.append_assoc]⟩, ?_⟩
  intro h
  rw [e2, e1] at h
  obtain ⟨h3, h4⟩ := errors_sandwich h
  subst h3 h4
  rw [List.append_nil] at e1 e2
  exact (h2.contextStack e2).trans (h1.contextStack e1)

theorem balanced_leave {s r s' : ScanFunctions} (h1 : Entered s r) (h2 : Balanced r s') :
    Balanced s (leaveEnvironment s') := by
  obtain ⟨i, hi, _⟩ := h1.pushed
  obtain ⟨t1, e1⟩ := h1.errors
  obtain ⟨t2, e2⟩ := h2.errors
  refine ⟨h2.allowFuncDecls.trans h1.allowFuncDecls, ⟨t1 ++ t2, ?_⟩, ?_⟩
  · show s'.errors = _
    rw [e2, e1, List.append_assoc]
  · intro h
    have h' : s'.errors = s.errors := h
    rw [e2, e1] at h'
    obtain ⟨h3, h4⟩ := errors_sandwich h'
    subst h3 h4
    rw [List.append_nil] at e1 e2
    show s'.contextStack.tail = _
    rw [h2.contextStack e2, hi]
    rfl

/-- Every step of the visitor, and every bracket of the walk, keeps the control
variables in balance. -/
theorem balanced_walkRelation : WalkRelation Balanced where
  refl := fun s => balanced_of_sameFrame (sameFrame_refl s)
  trans := fun _ _ _ h1 h2 => balanced_trans h1 h2
  identifier := fun s n t => balanced_of_sameFrame (sameFrame_visitIdentifierExpression s n t)
  thisExpression := fun s => balanced_of_sameFrame (sameFrame_visitThisExpression s)
  call := fun s b a => balanced_of_sameFrame (sameFrame_visitCallExpression s b a)
  newMember := fun s a => balanced_of_sameFrame (sameFrame_visitNewMemberExpression s a)
  arrayPattern := fun s e n => balanced_of_sameFrame (sameFrame_visitArrayPattern s e n)
  patternElement := fun s e => balanced_of_sameFrame (sameFrame_visitPatternElement s e)
  raise := fun s l d => balanced_of_sameFrame (sameFrame_throwSyntaxError s l d)
  tryStatement := fun s => balanced_of_sameFrame (sameFrame_visitTryStatement s)
  withStatement := fun s t => balanced_of_sameFrame (sameFrame_visitWithStatement s t)
  temporary := fun _ _ _ h => ⟨rfl, h.errors, h.contextStack⟩
  function := fun s f b _ h => balanced_leave (entered_enterFunctionExpression s f b) h
  functionFails := fun s f h =>
    ⟨(entered_enterFunctionExpression s f true).allowFuncDecls,
      (entered_enterFunctionExpression s f true).errors,
      fun he => absurd he (enterFunctionExpression_fails s f true h)⟩
  block := fun s id _ h =>
    balanced_leave (entered_then (entered_enterEnvironment s id .Block)
      (sameFrame_modifyContext _ _)) h

/-- The walk over a program keeps the control variables in balance. -/
theorem balanced_acceptProgram (s : ScanFunctions) (ast : Program) :
    Balanced s (s.acceptProgram ast) := by
  unfold acceptProgram visitProgram
  exact balanced_leave
    (entered_then (entered_enterEnvironment s ast.id s.defaultProgramType)
      (sameFrame_checkDirectivePrologue _ _))
    (acceptStatements_relates balanced_walkRelation ast.statements _)

/-- Every step of the visitor keeps the current context the top of the context
stack. -/
theorem currentIsTop_walkInvariant :
    WalkInvariant fun s => s.context = s.contextStack.head? where
  identifier := fun s n t h => by
    have := sameFrame_visitIdentifierExpression s n t
    rw [this.context, this.contextStack]; exact h
  thisExpression := fun s h => by
    have := sameFrame_visitThisExpression s
    rw [this.context, this.contextStack]; exact h
  call := fun s b a h => by
    have := sameFrame_visitCallExpression s b a
    rw [this.context, this.contextStack]; exact h
  newMember := fun s a h => by
    have := sameFrame_visitNewMemberExpression s a
    rw [this.context, this.contextStack]; exact h
  arrayPattern := fun s e n h => by
    have := sameFrame_visitArrayPattern s e n
    rw [this.context, this.contextStack]; exact h
  allowFuncDecls := fun _ _ h => h
  enterFunction := fun s f b _ => by
    obtain ⟨i, h1, h2⟩ := (entered_enterFunctionExpression s f b).pushed
    rw [h1, h2]; rfl
  leave := fun _ _ => rfl
  patternElement := fun s e h => by
    have := sameFrame_visitPatternElement s e
    rw [this.context, this.contextStack]; exact h
  raise := fun _ _ _ h => h
  enterBlock := fun s id _ => by
    obtain ⟨i, h1, h2⟩ := (entered_then (entered_enterEnvironment s id .Block)
      (sameFrame_modifyContext _ fun c => { c with name := "Block" })).pushed
    rw [h1, h2]; rfl
  tryStatement := fun s h => by
    have := sameFrame_visitTryStatement s
    rw [this.context, this.contextStack]; exact h
  withStatement := fun s t h => by
    have := sameFrame_visitWithStatement s t
    rw [this.context, this.contextStack]; exact h

/-- C36. For a scanner whose current context is the top of its context stack (as it is
when the scanner is made: no context, empty stack) and a program whose scan raises no
static error, the context stack and the current context after `operator()` are the
ones before it: every environment entered has been left. Every step of the visitor
and of the walk keeps the current context the top of the context stack, whether
errors are raised or not, and so it is after the walk. -/
theorem walk_balances_environments (s : ScanFunctions) (ast : Program)
    (htop : s.context = s.contextStack.head?) :
    ((s.run ast).errors = s.errors →
      (s.run ast).contextStack = s.contextStack ∧ (s.run ast).context = s.context) ∧
    (WalkInvariant fun s => s.context = s.contextStack.head?) ∧
    (∀ (l : List Statement) (t : ScanFunctions), t.context = t.contextStack.head? →
      (acceptStatements l t).context = (acceptStatements l t).contextStack.head?) ∧
    (s.run ast).context = (s.run ast).contextStack.head? := by
  have htop' : (s.acceptProgram ast).context = (s.acceptProgram ast).contextStack.head? := by
    unfold acceptProgram
    rfl
  refine ⟨?_, currentIsTop_walkInvariant,
    fun l t ht => acceptStatements_keeps currentIsTop_walkInvariant l t ht, htop'⟩
  intro herr
  have hstack := (balanced_acceptProgram s ast).contextStack herr
  refine ⟨hstack, ?_⟩
  show (s.acceptProgram ast).context = _
  rw [htop', hstack, htop]

end ScanFunctions

/-! ## The permission for function declarations -/

namespace ScanFunctions

theorem acceptStatements_append (pre post : List Statement) (s : ScanFunctions) :
    acceptStatements (pre ++ post) s = acceptStatements post (acceptStatements pre s) := by
  induction pre generalizing s with
  | nil => rw [List.nil_append, acceptStatements]
  | cons st pre ih =>
    rw [List.cons_append, acceptStatements, acceptStatements, ih]

theorem acceptPatternProperties_append (pre post : List PatternElement) (s : ScanFunctions) :
    acceptPatternProperties (pre ++ post) s =
      acceptPatternProperties post (acceptPatternProperties pre s) := by
  induction pre generalizing s with
  | nil => rw [List.nil_append, acceptPatternProperties]
  | cons p pre ih =>
    obtain ⟨tok, b, n, target, initializer, sc, v, r⟩ := p
    rw [List.cons_append, acceptPatternProperties, acceptPatternProperties, ih]

/-- C33. The visit of an expression statement whose expression is a function raises
`conditional function or closure declaration` at the function token first of all when
function declarations are not allowed at that point, and goes on to `enterFunction`
without raising anything when they are. The body statement of a `do`-`while`, `for`
or `for`-`in` loop is walked with the permission set to whether the current context is
not strict, and each statement of a block with the permission cleared when the context
the block stands in is strict, and as it is otherwise; the properties of an object
literal are walked with the permission set. The walk over any statement or expression
leaves the permission as it found it, so it is restored when a loop body, a block or
an object literal is left, and every other statement and expression is walked with the
permission of its parent. -/
theorem function_declaration_permission :
    (∀ (s : ScanFunctions) (f : FunctionNode) (loc : SourceLocation),
      (s.allowFuncDecls = false →
        ∃ tail, (acceptStatement (.ExpressionStatement (.FunctionExpression f) loc) s).errors =
          s.errors ++
            ⟨f.functionToken, "conditional function or closure declaration"⟩ :: tail) ∧
      (s.allowFuncDecls = true →
        acceptStatement (.ExpressionStatement (.FunctionExpression f) loc) s =
          if (s.enterFunctionExpression f true).1 = true then
            (acceptFunctionChildren f (s.enterFunctionExpression f true).2).leaveEnvironment
          else (s.enterFunctionExpression f true).2)) ∧
    (∀ (s : ScanFunctions) (statement : Statement) (expression : ExpressionNode),
      acceptStatement (.DoWhileStatement statement expression) s =
        acceptExpression expression
          { acceptStatement statement { s with allowFuncDecls := !s.isStrict } with
            allowFuncDecls := s.allowFuncDecls }) ∧
    (∀ (s : ScanFunctions) (initialiser condition expression : Option ExpressionNode)
      (statement : Statement),
      ∃ t, t = acceptOptionalExpression expression
          (acceptOptionalExpression condition (acceptOptionalExpression initialiser s)) ∧
        acceptStatement (.ForStatement initialiser condition expression statement) s =
          { acceptStatement statement { t with allowFuncDecls := !t.isStrict } with
            allowFuncDecls := s.allowFuncDecls }) ∧
    (∀ (s : ScanFunctions) (declarations : List PatternElement)
      (condition expression : Option ExpressionNode) (statement : Statement),
      ∃ t, t = acceptOptionalExpression expression
          (acceptOptionalExpression condition (acceptPatternElements declarations s)) ∧
        acceptStatement (.LocalForStatement declarations condition expression statement) s =
          { acceptStatement statement { t with allowFuncDecls := !t.isStrict } with
            allowFuncDecls := s.allowFuncDecls }) ∧
    (∀ (s : ScanFunctions) (initialiser expression : ExpressionNode) (statement : Statement),
      ∃ t, t = acceptExpression expression (acceptExpression initialiser s) ∧
        acceptStatement (.ForEachStatement initialiser expression statement) s =
          { acceptStatement statement { t with allowFuncDecls := !t.isStrict } with
            allowFuncDecls := s.allowFuncDecls }) ∧
    (∀ (s : ScanFunctions) (declaration : PatternElement) (expression : ExpressionNode)
      (statement : Statement),
      ∃ t, t = acceptExpression expression (acceptPatternElement declaration s) ∧
        acceptStatement (.LocalForEachStatement declaration expression statement) s =
          { acceptStatement statement { t with allowFuncDecls := !t.isStrict } with
            allowFuncDecls := s.allowFuncDecls }) ∧
    (∀ (s : ScanFunctions) (id : Nat) (before : List Statement) (statement : Statement)
      (after : List Statement),
      ∃ t, t.allowFuncDecls = (if s.isStrict then false else s.allowFuncDecls) ∧
        acceptStatement (.Block id (before ++ statement :: after)) s =
          leaveEnvironment
            { acceptStatements after (acceptStatement statement t) with
              allowFuncDecls := s.allowFuncDecls }) ∧
    (∀ (s : ScanFunctions) (before : List PatternElement) (property : PatternElement)
      (after : List PatternElement),
      ∃ t, t.allowFuncDecls = true ∧
        acceptExpression (.ObjectPattern (before ++ property :: after)) s =
          { acceptPatternProperties after
              (acceptOptionalExpression property.initializer
                (acceptOptionalExpression property.bindingTarget t)) with
            allowFuncDecls := s.allowFuncDecls }) ∧
    (∀ (st : Statement) (s : ScanFunctions),
      (acceptStatement st s).allowFuncDecls = s.allowFuncDecls) ∧
    (∀ (e : ExpressionNode) (s : ScanFunctions),
      (acceptExpression e s).allowFuncDecls = s.allowFuncDecls) ∧
    (∀ (l : List Statement) (s : ScanFunctions),
      (acceptStatements l s).allowFuncDecls = s.allowFuncDecls) := by
  have he : ∀ (e : ExpressionNode) (s : ScanFunctions),
      (acceptExpression e s).allowFuncDecls = s.allowFuncDecls :=
    fun e s => (acceptExpression_relates balanced_walkRelation e s).allowFuncDecls
  have hoe : ∀ (e : Option ExpressionNode) (s : ScanFunctions),
      (acceptOptionalExpression e s).allowFuncDecls = s.allowFuncDecls :=
    fun e s => (acceptOptionalExpression_relates balanced_walkRelation e s).allowFuncDecls
  refine ⟨?_, ?_, ?_, ?_, ?_, ?_, ?_, ?_,
    fun st s => (acceptStatement_relates balanced_walkRelation st s).allowFuncDecls,
    fun e s => (acceptExpression_relates balanced_walkRelation e s).allowFuncDecls,
    fun l s => (acceptStatements_relates balanced_walkRelation l s).allowFuncDecls⟩
  · intro s f loc
    constructor
    · intro hflag
      rw [acceptStatement]
      simp only [hflag, Bool.not_false, if_true]
      have h1 := (entered_enterFunctionExpression
        (s.throwSyntaxError f.functionToken "conditional function or closure declaration")
        f true).errors
      obtain ⟨t1, e1⟩ := h1
      split
      · exact ⟨t1, by rw [e1]; simp⟩
      · obtain ⟨t2, e2⟩ := (acceptFunctionChildren_relates balanced_walkRelation f
          ((s.throwSyntaxError f.functionToken
            "conditional function or closure declaration").enterFunctionExpression f
              true).2).errors
        refine ⟨t1 ++ t2, ?_⟩
        show (acceptFunctionChildren f _).errors = _
        rw [e2, e1]
        simp
    · intro hflag
      rw [acceptStatement]
      simp only [hflag, Bool.not_true, Bool.false_eq_true, if_false]
      cases (s.enterFunctionExpression f true).1 <;> simp
  · intro s statement expression
    rw [acceptStatement]
  · intro s initialiser condition expression statement
    refine ⟨_, rfl, ?_⟩
    rw [acceptStatement]
    have h : (acceptOptionalExpression expression (acceptOptionalExpression condition
        (acceptOptionalExpression initialiser s))).allowFuncDecls = s.allowFuncDecls := by
      rw [hoe, hoe, hoe]
    simp only [h]
  · intro s declarations condition expression statement
    refine ⟨_, rfl, ?_⟩
    rw [acceptStatement]
    have h : (acceptOptionalExpression expression (acceptOptionalExpression condition
        (acceptPatternElements declarations s))).allowFuncDecls = s.allowFuncDecls := by
      rw [hoe, hoe, (acceptPatternElements_relates balanced_walkRelation _ _).allowFuncDecls]
    simp only [h]
  · intro s initialiser expression statement
    refine ⟨_, rfl, ?_⟩
    rw [acceptStatement]
    have h : (acceptExpression expression (acceptExpression initialiser s)).allowFuncDecls =
        s.allowFuncDecls := by
      rw [he, he]
    simp only [h]
  · intro s declaration expression statement
    refine ⟨_, rfl, ?_⟩
    rw [acceptStatement]
    have h : (acceptExpression expression (acceptPatternElement declaration s)).allowFuncDecls =
        s.allowFuncDecls := by
      rw [he, (acceptPatternElement_relates balanced_walkRelation _ _).allowFuncDecls]
    simp only [h]
  · intro s id before statement after
    refine ⟨acceptStatements before
      (({ s with allowFuncDecls := if s.isStrict then false else s.allowFuncDecls }
        : ScanFunctions).enterEnvironment id .Block |>.modifyContext
          fun c => { c with name := "Block" }), ?_, ?_⟩
    · rw [(acceptStatements_relates balanced_walkRelation _ _).allowFuncDecls,
        (sameFrame_modifyContext _ _).allowFuncDecls,
        (entered_enterEnvironment _ _ _).allowFuncDecls]
    · rw [acceptStatement, acceptStatements_append, acceptStatements]
  · intro s before property after
    obtain ⟨tok, b, n, target, initializer, sc, v, r⟩ := property
    refine ⟨acceptPatternProperties before { s with allowFuncDecls := true }, ?_, ?_⟩
    · rw [(acceptPatternProperties_relates balanced_walkRelation _ _).allowFuncDecls]
    · rw [acceptExpression, acceptPatternProperties_append, acceptPatternProperties]
      rfl

end ScanFunctions

/-! ## The statements about the control variables at sample programs -/

/-- C33, witness: in a strict context the walk over `do function f() {} while (0)`
raises `conditional function or closure declaration` first of all; in a context that
is not strict it raises nothing; the permission is what it was after either walk. -/
theorem function_declaration_permission_witness :
    (exScanner (exEmptyContext true)).isStrict = true ∧
    (∃ tail, (ScanFunctions.acceptStatement exLoopWithFunction
        (exScanner (exEmptyContext true))).errors =
      ⟨exToken, "conditional function or closure declaration"⟩ :: tail) ∧
    (ScanFunctions.acceptStatement exLoopWithFunction
      (exScanner (exEmptyContext false))).errors = [] ∧
    (ScanFunctions.acceptStatement exLoopWithFunction
      (exScanner (exEmptyContext true))).allowFuncDecls = true := by
  have h := ScanFunctions.function_declaration_permission
  refine ⟨rfl, ?_, by decide, h.2.2.2.2.2.2.2.2.1 _ _⟩
  obtain ⟨tail, ht⟩ := (h.1 { exScanner (exEmptyContext true) with allowFuncDecls := false }
    (exFunction [] []) exToken).1 rfl
  refine ⟨tail, ?_⟩
  unfold exLoopWithFunction
  rw [h.2.1]
  exact ht

/-- C36, witness: the scan of `function f() { { arguments; } }` by a fresh scanner
raises no error, and leaves the context stack empty and no context current, as they
were. -/
theorem walk_balances_environments_witness :
    exFreshScanner.context = exFreshScanner.contextStack.head? ∧
    (exFreshScanner.run exProgramBlockArguments).errors = exFreshScanner.errors ∧
    (exFreshScanner.run exProgramBlockArguments).contextStack = [] ∧
    (exFreshScanner.run exProgramBlockArguments).context = none :=
  have h := (ScanFunctions.walk_balances_environments exFreshScanner exProgramBlockArguments
    rfl).1 (by decide)
  ⟨rfl, by decide, h.1, h.2⟩

/-! ## The members `enterFunction` registers for the formal parameters -/

namespace Context

theorem addLocalVar_arguments (c : Context) (n : String) (t : MemberType) (sc : VariableScope)
    (f : Option Nat) : (c.addLocalVar n t sc f).2.arguments = c.arguments := by
  obtain ⟨ms, h, _⟩ := ScanFunctions.addLocalVar_frame c n t sc f
  rw [h]

theorem addLocalVar_other (c : Context) (n k : String) (t : MemberType) (sc : VariableScope)
    (f : Option Nat) (hk : k ≠ n) :
    (c.addLocalVar n t sc f).2.memberInfo k = c.memberInfo k := by
  unfold Context.addLocalVar Context.memberInfo
  split
  · split <;> rfl
  · simp only [List.lookup_append]
    have : List.lookup k [(n, ({ type := t, scope := sc, canEscape := false, function := f }
        : Member))] = none := by
      have hkn : (k == n) = false := by simpa using hk
      simp [List.lookup, hkn]
    rw [this]
    cases List.lookup k c.members <;> rfl

theorem addLocalVar_registers (c : Context) (n : String) (t : MemberType) (sc : VariableScope)
    (f : Option Nat) :
    ∃ m, (c.addLocalVar n t sc f).2.memberInfo n = some m ∧
      (c.memberInfo n = none → m.type = t ∧ m.scope = sc) := by
  unfold Context.addLocalVar Context.memberInfo
  cases h : List.lookup n c.members with
  | some m =>
    simp only
    split
    · exact ⟨m, h, fun h' => by cases h'⟩
    · exact ⟨m, h, fun h' => by cases h'⟩
  | none =>
    simp only [List.lookup_append, h]
    exact ⟨{ type := t, scope := sc, canEscape := false, function := f },
      by simp [List.lookup], fun _ => ⟨rfl, rfl⟩⟩

end Context

namespace ScanFunctions

/-- What one round of the loop over the bound names makes of the current context. -/
theorem current_checkParameter (s : ScanFunctions) (formals : FormalParameterList)
    (simple : Bool) (arg : String) (later : List String) (c : Context)
    (hc : s.current = some c) :
    (checkParameter s formals simple arg later).2.current = some c ∨
    ((checkParameter s formals simple arg later).2.current =
        some (c.addLocalVar arg .VariableDefinition .Var).2 ∧ arg ∉ c.arguments) := by
  unfold checkParameter
  dsimp only
  split
  · exact Or.inl hc
  · split
    · exact Or.inl hc
    · rw [hc]
      dsimp only
      by_cases harg : arg ∈ c.arguments
      · simp only [harg, decide_True, Bool.not_true, Bool.false_eq_true, if_false]
        exact Or.inl hc
      · simp only [harg, decide_False, Bool.not_false, if_true]
        right
        rw [current_addLocalVar, hc]
        exact ⟨rfl, not_false⟩

theorem checkParameter_registers (s : ScanFunctions) (formals : FormalParameterList)
    (simple : Bool) (arg : String) (later : List String) (c : Context)
    (hc : s.current = some c) (hok : (checkParameter s formals simple arg later).1 = true)
    (harg : arg ∉ c.arguments) :
    (checkParameter s formals simple arg later).2.current =
      some (c.addLocalVar arg .VariableDefinition .Var).2 := by
  unfold checkParameter at hok ⊢
  dsimp only at hok ⊢
  split
  · next h => rw [if_pos h] at hok; cases hok
  · next h =>
    rw [if_neg h] at hok
    split
    · next h2 => rw [if_pos h2] at hok; cases hok
    · rw [hc]
      simp only [harg, decide_False, Bool.not_false, if_true]
      rw [current_addLocalVar, hc]
      rfl

/-- What the loop over the bound names makes of the current context: the names that
are not formal parameter names are members at the end of a loop that answers `true`,
registered `var`-scoped variable definitions where the name had no member; the formal
parameter names and the names the loop does not pass keep the member they had, or none;
no member is lost, and the formal parameter names stay. -/
theorem checkParameters_members (formals : FormalParameterList) (simple : Bool)
    (names : List String) (s : ScanFunctions) (c : Context) (hc : s.current = some c) :
    ∃ c', (checkParameters formals simple names s).2.current = some c' ∧
      c'.arguments = c.arguments ∧
      (∀ k m, c.memberInfo k = some m → c'.memberInfo k = some m) ∧
      (∀ k, k ∉ names ∨ k ∈ c.arguments → c'.memberInfo k = c.memberInfo k) ∧
      ((checkParameters formals simple names s).1 = true →
        ∀ n ∈ names, n ∉ c.arguments → ∃ m, c'.memberInfo n = some m ∧
          (c.memberInfo n = none → m.type = .VariableDefinition ∧ m.scope = .Var)) := by
  induction names generalizing s c with
  | nil =>
    exact ⟨c, hc, rfl, fun _ _ h => h, fun _ _ => rfl,
      fun _ n hn => absurd hn (List.not_mem_nil n)⟩
  | cons arg later ih =>
    unfold checkParameters
    dsimp only
    have hmono : ∀ k m, c.memberInfo k = some m →
        (c.addLocalVar arg .VariableDefinition .Var).2.memberInfo k = some m := by
      intro k m hk
      obtain ⟨ms, h1, h2⟩ := addLocalVar_frame c arg .VariableDefinition .Var none
      rw [h1]
      exact h2 k m hk
    rcases current_checkParameter s formals simple arg later c hc with h1 | ⟨h1, harg⟩
    · cases hr : (checkParameter s formals simple arg later).1 with
      | false =>
        simp only [Bool.false_eq_true, if_false]
        exact ⟨c, h1, rfl, fun _ _ h => h, fun _ _ => rfl, fun h => by cases h⟩
      | true =>
        simp only [if_true]
        obtain ⟨c', e1, e2, e3, e4, e5⟩ := ih _ c h1
        refine ⟨c', e1, e2, e3, ?_, ?_⟩
        · intro k hk
          apply e4
          rcases hk with hk | hk
          · exact Or.inl fun h => hk (List.mem_cons_of_mem _ h)
          · exact Or.inr hk
        · intro hok n hn hna
          rcases List.mem_cons.mp hn with rfl | hn
          · have := checkParameter_registers s formals simple n later c hc hr hna
            rw [h1] at this
            have hcc : c = (c.addLocalVar n .VariableDefinition .Var).2 := Option.some.inj this
            obtain ⟨m, hm1, hm2⟩ := Context.addLocalVar_registers c n .VariableDefinition .Var
              none
            rw [← hcc] at hm1
            exact ⟨m, e3 n m hm1, fun hnone => by rw [hnone] at hm1; cases hm1⟩
          · exact e5 hok n hn hna
    · cases hr : (checkParameter s formals simple arg later).1 with
      | false =>
        simp only [Bool.false_eq_true, if_false]
        refine ⟨_, h1, Context.addLocalVar_arguments _ _ _ _ _, hmono, ?_, fun h => by cases h⟩
        intro k hk
        apply Context.addLocalVar_other
        rcases hk with hk | hk
        · exact fun h => hk (h ▸ List.mem_cons_self _ _)
        · exact fun h => harg (h ▸ hk)
      | true =>
        simp only [if_true]
        obtain ⟨c', e1, e2, e3, e4, e5⟩ := ih _ _ h1
        rw [Context.addLocalVar_arguments] at e2 e4 e5
        refine ⟨c', e1, e2, fun k m hk => e3 k m (hmono k m hk), ?_, ?_⟩
        · intro k hk
          have hne : k ≠ arg := by
            rcases hk with hk | hk
            · exact fun h => hk (h ▸ List.mem_cons_self _ _)
            · exact fun h => harg (h ▸ hk)
          rw [← Context.addLocalVar_other c arg k .VariableDefinition .Var none hne]
          apply e4
          rcases hk with hk | hk
          · exact Or.inl fun h => hk (List.mem_cons_of_mem _ h)
          · exact Or.inr hk
        · intro hok n hn hna
          obtain ⟨m, hm1, hm2⟩ := Context.addLocalVar_registers c arg .VariableDefinition .Var
            none
          rcases List.mem_cons.mp hn with rfl | hn
          · exact ⟨m, e3 n m hm1, hm2⟩
          · by_cases hne : n = arg
            · subst hne
              exact ⟨m, e3 n m hm1, hm2⟩
            · obtain ⟨m', hm1', hm2'⟩ := e5 hok n hn hna
              refine ⟨m', hm1', fun hnone => hm2' ?_⟩
              rw [Context.addLocalVar_other c arg n .VariableDefinition .Var none hne]
              exact hnone

end ScanFunctions

namespace ScanFunctions

theorem enterEnvironment_fresh (s : ScanFunctions) (node : Nat) (t : ContextType)
    (hfresh : s.module.contextMap.lookup node = none) :
    (s.enterEnvironment node t).context = some s.module.contexts.length ∧
    ∃ c, (s.enterEnvironment node t).current = some c ∧ c.members = [] := by
  unfold enterEnvironment
  rw [hfresh]
  refine ⟨rfl, ?_⟩
  unfold current
  simp only [Option.some_bind, Module.newContext]
  rw [Module.context?_modify, if_pos rfl]
  unfold Module.context?
  rw [List.getElem?_append_right (le_refl _), Nat.sub_self]
  simp only [List.getElem?_cons_zero, Option.map_some']
  refine ⟨_, rfl, ?_⟩
  split <;> rfl

theorem current_modifyAt_ne (s : ScanFunctions) (o i : Nat) (f : Context → Context)
    (hi : s.context = some i) (hne : o ≠ i) : (s.modifyAt o f).current = s.current := by
  unfold modifyAt current
  rw [hi]
  simp only [Option.some_bind]
  rw [Module.context?_modify, if_neg hne]

theorem current_addLocalVarAt_ne (s : ScanFunctions) (o i : Nat) (name : String)
    (type : MemberType) (scope : VariableScope) (function : Option Nat)
    (hi : s.context = some i) (hne : o ≠ i) :
    (s.addLocalVarAt o name type scope function).2.current = s.current := by
  unfold addLocalVarAt
  split
  · exact current_modifyAt_ne s o i _ hi hne
  · rfl

theorem current_enterFunctionOuter (s : ScanFunctions) (o i : Nat) (ast : FunctionNode)
    (name : String) (enterName : Bool) (hi : s.context = some i) (hne : o ≠ i) :
    (s.enterFunctionOuter o ast name enterName).2.current = s.current := by
  have hctx : ∀ t : ScanFunctions, t.context = some i → ∀ n ty sc fn,
      (t.addLocalVarAt o n ty sc fn).2.context = some i := by
    intro t ht n ty sc fn
    rw [(sameFrame_addLocalVarAt t o n ty sc fn).context, ht]
  unfold enterFunctionOuter
  dsimp only
  have h0 : (s.modifyAt o fun c => { c with hasNestedFunctions := true }).current = s.current :=
    current_modifyAt_ne s o i _ hi hne
  have hi0 : (s.modifyAt o fun c => { c with hasNestedFunctions := true }).context = some i := hi
  revert h0 hi0
  generalize (s.modifyAt o fun c => { c with hasNestedFunctions := true }) = s1
  intro h0 hi0
  rw [← h0]
  split
  · show (s1.addLocalVarAt o name .FunctionDefinition .Var (some ast.id)).2.current = _
    exact current_addLocalVarAt_ne s1 o i _ _ _ _ hi0 hne
  · dsimp only
    have h1 : (if enterName = true then
        ((s1.addLocalVarAt o name .FunctionDefinition .Var (some ast.id)).2.addLocalVarAt o name
          .FunctionDefinition .Var (some ast.id)).2
      else s1).current = s1.current ∧
      (if enterName = true then
        ((s1.addLocalVarAt o name .FunctionDefinition .Var (some ast.id)).2.addLocalVarAt o name
          .FunctionDefinition .Var (some ast.id)).2
      else s1).context = some i := by
      split
      · refine ⟨?_, hctx _ (hctx _ hi0 _ _ _ _) _ _ _ _⟩
        rw [current_addLocalVarAt_ne _ o i _ _ _ _ (hctx _ hi0 _ _ _ _) hne,
          current_addLocalVarAt_ne _ o i _ _ _ _ hi0 hne]
      · exact ⟨rfl, hi0⟩
    revert h1
    generalize (if enterName = true then
        ((s1.addLocalVarAt o name .FunctionDefinition .Var (some ast.id)).2.addLocalVarAt o name
          .FunctionDefinition .Var (some ast.id)).2
      else s1) = s2
    intro h1
    rw [← h1.1]
    split
    · exact current_modifyAt_ne s2 o i _ h1.2 hne
    · rfl

/-- What the statements of `enterFunction` before the loop over the bound names make
of the current context: its `arguments` are the formal parameter names, and the names
the parameter list binds have the member they had, or none. -/
theorem current_prepareFunctionContext (s : ScanFunctions) (ast : FunctionNode)
    (name : String) (formals : FormalParameterList) (body : Option (List Statement))
    (c : Context) (hc : s.current = some c) :
    ∃ c', (prepareFunctionContext s ast name formals body).current = some c' ∧
      c'.arguments = formals.formals ∧
      ∀ n ∈ formals.boundNames, c'.memberInfo n = c.memberInfo n := by
  have step : ∀ (t : ScanFunctions) (f : Context → Context) (d : Context),
      t.current = some d → (∀ x : Context, (f x).members = x.members) →
      ∃ d', (t.modifyContext f).current = some d' ∧ d' = f d ∧
        ∀ n, d'.memberInfo n = d.memberInfo n := by
    intro t f d hd hf
    refine ⟨f d, by rw [current_modifyContext, hd]; rfl, rfl, ?_⟩
    intro n
    unfold Context.memberInfo
    rw [hf]
  have keep : ∀ (t : ScanFunctions) (d : Context), t.current = some d →
      ∃ d', t.current = some d' ∧ ∀ n, d'.memberInfo n = d.memberInfo n :=
    fun t d hd => ⟨d, hd, fun _ => rfl⟩
  unfold prepareFunctionContext
  -- setFunctionName
  obtain ⟨c1, h1, _, m1⟩ := step s (fun c => { c with name := name }) c hc (fun _ => rfl)
  -- noteArgumentsParameter
  have h2 : ∃ c2, (noteArgumentsParameter (setFunctionName s name) formals).current = some c2 ∧
      ∀ n, c2.memberInfo n = c1.memberInfo n := by
    unfold noteArgumentsParameter
    split
    · obtain ⟨d, e1, _, e2⟩ := step (setFunctionName s name)
        (fun c => { c with usesArgumentsObject := .ArgumentsObjectNotUsed }) c1 h1 (fun _ => rfl)
      exact ⟨d, e1, e2⟩
    · exact keep _ c1 h1
  obtain ⟨c2, h2, m2⟩ := h2
  revert h2
  generalize noteArgumentsParameter (setFunctionName s name) formals = s2
  intro h2
  -- noteFunctionKind
  have h3 : ∃ c3, (noteFunctionKind s2 ast).current = some c3 ∧
      ∀ n, c3.memberInfo n = c2.memberInfo n := by
    unfold noteFunctionKind
    split
    · obtain ⟨d, e1, _, e2⟩ := step s2 (fun c => { c with isArrowFunction := true }) c2 h2
        (fun _ => rfl)
      exact ⟨d, e1, e2⟩
    · split
      · obtain ⟨d, e1, _, e2⟩ := step s2 (fun c => { c with isGenerator := true }) c2 h2
          (fun _ => rfl)
        exact ⟨d, e1, e2⟩
      · exact keep _ c2 h2
  obtain ⟨c3, h3, m3⟩ := h3
  revert h3
  generalize noteFunctionKind s2 ast = s3
  intro h3
  -- bindOwnName
  have h4 : ∃ c4, (bindOwnName s3 name formals).current = some c4 ∧
      ∀ n ∈ formals.boundNames, c4.memberInfo n = c3.memberInfo n := by
    unfold bindOwnName
    split
    · next hb =>
      simp only [Bool.and_eq_true, Bool.not_eq_true', FormalParameterList.containsName,
        decide_eq_false_iff_not] at hb
      refine ⟨_, by rw [current_addLocalVar, h3]; rfl, ?_⟩
      intro n hn
      exact Context.addLocalVar_other c3 name n _ _ _ (fun h => hb.2 (h ▸ hn))
    · exact ⟨c3, h3, fun _ _ => rfl⟩
  obtain ⟨c4, h4, m4⟩ := h4
  revert h4
  generalize bindOwnName s3 name formals = s4
  intro h4
  -- setFormals
  obtain ⟨c5, h5, _, m5⟩ := step s4 (fun c => { c with formals := formals }) c4 h4
    (fun _ => rfl)
  have h5' : (setFormals s4 formals).current = some c5 := h5
  revert h5'
  generalize setFormals s4 formals = s5
  intro h5'
  -- checkBodyDirectives
  have h6 : ∃ c6, (checkBodyDirectives s5 body).current = some c6 ∧
      ∀ n, c6.memberInfo n = c5.memberInfo n := by
    unfold checkBodyDirectives
    split
    · split
      · rw [checkDirectivePrologue_eq]
        split
        · obtain ⟨d, e1, _, e2⟩ := step s5 (fun c => { c with isStrict := true }) c5 h5'
            (fun _ => rfl)
          exact ⟨d, e1, e2⟩
        · exact keep _ c5 h5'
      · exact keep _ c5 h5'
    · exact keep _ c5 h5'
  obtain ⟨c6, h6, m6⟩ := h6
  revert h6
  generalize checkBodyDirectives s5 body = s6
  intro h6
  -- setArguments
  obtain ⟨c7, h7, e7, m7⟩ := step s6 (fun c => { c with arguments := formals.formals }) c6 h6
    (fun _ => rfl)
  refine ⟨c7, h7, by rw [e7], ?_⟩
  intro n hn
  rw [m7, m6, m5, m4 n hn, m3, m2, m1]

end ScanFunctions

namespace ScanFunctions

/-- C32 (amended). After `enterFunction` has answered `true` for a function that has not
been scanned before, the context of the function has the formal parameter names
`formals->formals()` for `arguments`; every name the parameter list binds that is not
one of the formal parameter names is registered in that context as a `var`-scoped
`VariableDefinition` member; a bound name that is one of the formal parameter names, as
the name of a simple parameter is, has no member. -/
theorem enterFunction_registers_bound_names (s : ScanFunctions) (ast : FunctionNode)
    (name : String) (formals : FormalParameterList) (body : Option (List Statement))
    (enterName : Bool) (hfresh : s.module.contextMap.lookup ast.id = none)
    (hvalid : ∀ o, s.context = some o → o < s.module.contexts.length)
    (hok : (s.enterFunction ast name formals body enterName).1 = true) :
    ∃ c, (s.enterFunction ast name formals body enterName).2.current = some c ∧
      c.arguments = formals.formals ∧
      (∀ n ∈ formals.boundNames, n ∉ formals.formals →
        ∃ m, c.memberInfo n = some m ∧ m.type = .VariableDefinition ∧ m.scope = .Var) ∧
      (∀ n ∈ formals.boundNames, n ∈ formals.formals → c.memberInfo n = none) := by
  obtain ⟨hctx, c0, hc0, hm0⟩ := enterEnvironment_fresh s ast.id .Function hfresh
  have hnone : ∀ n, c0.memberInfo n = none := by
    intro n
    unfold Context.memberInfo
    rw [hm0]
    rfl
  have main : ∀ sp : ScanFunctions, sp.current = some c0 →
      (checkParameters formals (!formals.isEmpty && formals.isSimpleParameterList)
        formals.boundNames (prepareFunctionContext sp ast name formals body)).1 = true →
      ∃ c, (checkParameters formals (!formals.isEmpty && formals.isSimpleParameterList)
          formals.boundNames (prepareFunctionContext sp ast name formals body)).2.current =
            some c ∧
        c.arguments = formals.formals ∧
        (∀ n ∈ formals.boundNames, n ∉ formals.formals →
          ∃ m, c.memberInfo n = some m ∧ m.type = .VariableDefinition ∧ m.scope = .Var) ∧
        (∀ n ∈ formals.boundNames, n ∈ formals.formals → c.memberInfo n = none) := by
    intro sp hsp hok'
    obtain ⟨c1, h1, a1, m1⟩ := current_prepareFunctionContext sp ast name formals body c0 hsp
    obtain ⟨c', e1, e2, _, e4, e5⟩ := checkParameters_members formals
      (!formals.isEmpty && formals.isSimpleParameterList) formals.boundNames _ c1 h1
    refine ⟨c', e1, by rw [e2, a1], ?_, ?_⟩
    · intro n hn hnf
      obtain ⟨m, hm1, hm2⟩ := e5 hok' n hn (by rw [a1]; exact hnf)
      have := hm2 (by rw [m1 n hn]; exact hnone n)
      exact ⟨m, hm1, this.1, this.2⟩
    · intro n hn hnf
      rw [e4 n (Or.inr (by rw [a1]; exact hnf)), m1 n hn]
      exact hnone n
  unfold enterFunction at hok ⊢
  dsimp only at hok ⊢
  cases ho : s.context with
  | none =>
    rw [ho] at hok
    simp only [Bool.not_true, Bool.false_eq_true, if_false] at hok ⊢
    exact main _ hc0 hok
  | some o =>
    rw [ho] at hok
    simp only at hok ⊢
    have hne : o ≠ s.module.contexts.length := Nat.ne_of_lt (hvalid o ho)
    have hcur := current_enterFunctionOuter (s.enterEnvironment ast.id .Function) o
      s.module.contexts.length ast name enterName hctx hne
    cases hr : ((s.enterEnvironment ast.id .Function).enterFunctionOuter o ast name enterName).1
    · rw [hr] at hok
      simp only [Bool.not_false, if_true] at hok
      rw [hr] at hok
      cases hok
    · rw [hr] at hok
      simp only [Bool.not_true, Bool.false_eq_true, if_false] at hok ⊢
      exact main _ (hcur.trans hc0) hok

end ScanFunctions

/-- C32, witness: `enterFunction` for `function f([a], b) {}` in a fresh scanner
answers `true`; the context of `f` has `["", "b"]` for `arguments`, it has registered
`a` as a `var`-scoped variable definition, and it has no member `b`. -/
theorem enterFunction_registers_bound_names_witness :
    (exFreshScanner.enterFunction (exFunction [exPatternParameter "a", exParameter "b"] [])
      "f" [exPatternParameter "a", exParameter "b"] (some []) true).1 = true ∧
    ∃ c, (exFreshScanner.enterFunction (exFunction [exPatternParameter "a", exParameter "b"] [])
        "f" [exPatternParameter "a", exParameter "b"] (some []) true).2.current = some c ∧
      c.arguments = ["", "b"] ∧
      (∃ m, c.memberInfo "a" = some m ∧ m.type = .VariableDefinition ∧ m.scope = .Var) ∧
      c.memberInfo "b" = none := by
  obtain ⟨c, h1, h2, h3, h4⟩ := ScanFunctions.enterFunction_registers_bound_names exFreshScanner
    (exFunction [exPatternParameter "a", exParameter "b"] []) "f"
    [exPatternParameter "a", exParameter "b"] (some []) true rfl
    (fun o h => by cases h) (by decide)
  exact ⟨by decide, c, h1, h2, h3 "a" (by decide) (by decide), h4 "b" (by decide) (by decide)⟩

/-- C32, counterexample: `enterFunction` for `function f(a) {}` in a fresh scanner
answers `true`, the parameter list binds `a`, and the context of `f` has no member
`a`: its only member is `f`. -/
theorem enterFunction_registers_bound_names_counterexample :
    (exFreshScanner.enterFunction (exFunction [exParameter "a"] []) "f" [exParameter "a"]
      (some []) true).1 = true ∧
    "a" ∈ FormalParameterList.boundNames [exParameter "a"] ∧
    ((exFreshScanner.enterFunction (exFunction [exParameter "a"] []) "f" [exParameter "a"]
      (some []) true).2.current.bind fun c => c.memberInfo "a") = none ∧
    ((exFreshScanner.enterFunction (exFunction [exParameter "a"] []) "f" [exParameter "a"]
      (some []) true).2.current.map fun c => c.members.map Prod.fst) = some ["f"] := by
  refine ⟨by decide, by decide, by decide, by decide⟩

/-! ## Steps that note no argument count -/

namespace ScanFunctions

theorem keepsCounts_refl (s : ScanFunctions) : KeepsCounts s s :=
  ⟨rfl, le_refl _, fun _ c h => ⟨c, h, rfl⟩, fun _ _ h1 h2 => by rw [h1] at h2; cases h2⟩

theorem keepsCounts_trans {a b c : ScanFunctions} (h1 : KeepsCounts a b)
    (h2 : KeepsCounts b c) : KeepsCounts a c := by
  refine ⟨h2.noted.trans h1.noted, le_trans h1.length h2.length, ?_, ?_⟩
  · intro i x hx
    obtain ⟨y, hy, e1⟩ := h1.old i x hx
    obtain ⟨z, hz, e2⟩ := h2.old i y hy
    exact ⟨z, hz, e2.trans e1⟩
  · intro i z hz hnone
    cases hb : b.module.context? i with
    | none => exact h2.new i z hz hb
    | some y =>
      obtain ⟨z', hz', e2⟩ := h2.old i y hb
      rw [hz] at hz'
      cases hz'
      rw [e2]
      exact h1.new i y hb hnone

theorem keepsCounts_of_module {s s' : ScanFunctions} (hn : s'.noted = s.noted)
    (hm : s'.module = s.module) : KeepsCounts s s' := by
  refine ⟨hn, by rw [hm], ?_, ?_⟩
  · intro i c h
    exact ⟨c, by rw [hm]; exact h, rfl⟩
  · intro i c' h1 h2
    rw [hm, h2] at h1
    cases h1

theorem keepsCounts_of_modify {s s' : ScanFunctions} (o : Nat) (f : Context → Context)
    (hf : ∀ c, s.module.context? o = some c →
      (f c).maxNumberOfArguments = c.maxNumberOfArguments)
    (hn : s'.noted = s.noted) (hm : s'.module = s.module.modify o f) : KeepsCounts s s' := by
  refine ⟨hn, by rw [hm, Module.modify_length], ?_, ?_⟩
  · intro i c h
    rw [hm, Module.context?_modify]
    by_cases hoi : o = i
    · subst hoi
      rw [if_pos rfl, h]
      exact ⟨f c, rfl, hf c h⟩
    · rw [if_neg hoi]
      exact ⟨c, h, rfl⟩
  · intro i c' h1 h2
    rw [hm, Module.context?_modify, h2] at h1
    split at h1 <;> cases h1

theorem keepsCounts_throwSyntaxError (s : ScanFunctions) (loc : SourceLocation)
    (detail : String) : KeepsCounts s (s.throwSyntaxError loc detail) :=
  keepsCounts_of_module rfl rfl

theorem keepsCounts_modifyContext (s : ScanFunctions) (f : Context → Context)
    (hf : ∀ c, s.current = some c → (f c).maxNumberOfArguments = c.maxNumberOfArguments) :
    KeepsCounts s (s.modifyContext f) := by
  unfold modifyContext
  cases hc : s.context with
  | none => exact keepsCounts_refl s
  | some i =>
    refine keepsCounts_of_modify i f ?_ rfl rfl
    intro c hi
    apply hf
    unfold current
    rw [hc]
    exact hi

theorem keepsCounts_modifyAt (s : ScanFunctions) (o : Nat) (f : Context → Context)
    (hf : ∀ c, s.module.context? o = some c →
      (f c).maxNumberOfArguments = c.maxNumberOfArguments) :
    KeepsCounts s (s.modifyAt o f) :=
  keepsCounts_of_modify o f hf rfl rfl

theorem maxNumberOfArguments_addLocalVar (c : Context) (n : String) (t : MemberType)
    (sc : VariableScope) (f : Option Nat) :
    (c.addLocalVar n t sc f).2.maxNumberOfArguments = c.maxNumberOfArguments := by
  obtain ⟨ms, h, _⟩ := addLocalVar_frame c n t sc f
  rw [h]

theorem keepsCounts_addLocalVar (s : ScanFunctions) (name : String) (type : MemberType)
    (scope : VariableScope) (function : Option Nat) :
    KeepsCounts s (s.addLocalVar name type scope function).2 := by
  unfold addLocalVar
  cases hc : s.current with
  | none => exact keepsCounts_refl s
  | some c =>
    refine keepsCounts_modifyContext s _ ?_
    intro c' hc'
    rw [hc] at hc'
    cases hc'
    exact maxNumberOfArguments_addLocalVar c _ _ _ _

theorem keepsCounts_addLocalVarAt (s : ScanFunctions) (o : Nat) (name : String)
    (type : MemberType) (scope : VariableScope) (function : Option Nat) :
    KeepsCounts s (s.addLocalVarAt o name type scope function).2 := by
  unfold addLocalVarAt
  cases hc : s.module.context? o with
  | none => exact keepsCounts_refl s
  | some c =>
    refine keepsCounts_modifyAt s o _ ?_
    intro c' hc'
    rw [hc] at hc'
    cases hc'
    exact maxNumberOfArguments_addLocalVar c _ _ _ _

theorem keepsCounts_checkName (s : ScanFunctions) (name : String) (loc : SourceLocation) :
    KeepsCounts s (s.checkName name loc) := by
  unfold checkName
  split
  · split
    · exact keepsCounts_throwSyntaxError s _ _
    · exact keepsCounts_refl s
  · exact keepsCounts_refl s

theorem keepsCounts_checkDirectivePrologue (s : ScanFunctions) (l : List Statement) :
    KeepsCounts s (s.checkDirectivePrologue l) := by
  rw [checkDirectivePrologue_eq]
  split
  · exact keepsCounts_modifyContext s _ (fun _ _ => rfl)
  · exact keepsCounts_refl s

theorem keepsCounts_enterEnvironment (s : ScanFunctions) (node : Nat) (t : ContextType) :
    KeepsCounts s (s.enterEnvironment node t) := by
  have hstrict : ∀ x : Context, (if (!x.isStrict) = true then
      { x with isStrict := s.strictMode } else x).maxNumberOfArguments =
        x.maxNumberOfArguments := by
    intro x
    split <;> rfl
  unfold enterEnvironment
  cases hl : s.module.contextMap.lookup node with
  | some c =>
    exact keepsCounts_of_modify c _ (fun x _ => hstrict x) rfl rfl
  | none =>
    have h1 : KeepsCounts s { s with module := (s.module.newContext node s.context t).2 } := by
      refine ⟨rfl, ?_, ?_, ?_⟩
      · show _ ≤ (s.module.contexts ++ [_]).length
        rw [List.length_append]
        omega
      · intro i c h
        refine ⟨c, ?_, rfl⟩
        show (s.module.contexts ++ [_])[i]? = some c
        rw [List.getElem?_append_left (Module.context?_lt h)]
        exact h
      · intro i c' h1 h2
        have h1' : (s.module.contexts ++ [_])[i]? = some c' := h1
        have hge : s.module.contexts.length ≤ i := by
          by_contra hlt
          have hlt' : i < s.module.contexts.length := Nat.lt_of_not_le hlt
          have : s.module.context? i = some (s.module.contexts[i]) := by
            unfold Module.context?
            exact List.getElem?_eq_getElem hlt'
          rw [this] at h2
          cases h2
        rw [List.getElem?_append_right hge] at h1'
        cases hi : i - s.module.contexts.length with
        | zero =>
          rw [hi] at h1'
          simp only [List.getElem?_cons_zero, Option.some.injEq] at h1'
          rw [← h1']
        | succ k =>
          rw [hi] at h1'
          simp at h1'
    refine keepsCounts_trans h1 ?_
    exact keepsCounts_of_modify s.module.contexts.length _ (fun x _ => hstrict x) rfl rfl

theorem keepsCounts_visitIdentifierExpression (s : ScanFunctions) (name : String)
    (tok : SourceLocation) : KeepsCounts s (s.visitIdentifierExpression name tok).2 := by
  unfold visitIdentifierExpression
  refine keepsCounts_trans (keepsCounts_checkName s name tok)
    (keepsCounts_trans (keepsCounts_modifyContext _ _ ?_) (keepsCounts_modifyContext _ _ ?_))
  · intro c _
    split <;> rfl
  · intro c _
    unfold Context.addUsedVariable
    split <;> rfl

theorem keepsCounts_visitThisExpression (s : ScanFunctions) :
    KeepsCounts s s.visitThisExpression.2 :=
  keepsCounts_modifyContext s _ (fun _ _ => rfl)

theorem keepsCounts_visitTryStatement (s : ScanFunctions) :
    KeepsCounts s s.visitTryStatement.2 :=
  keepsCounts_modifyContext s _ (fun _ _ => rfl)

theorem keepsCounts_visitWithStatement (s : ScanFunctions) (tok : SourceLocation) :
    KeepsCounts s (s.visitWithStatement tok).2 := by
  unfold visitWithStatement
  split
  · exact keepsCounts_throwSyntaxError s _ _
  · exact keepsCounts_modifyContext s _ (fun _ _ => rfl)

theorem keepsCounts_declareName (s : ScanFunctions) (ast : PatternElement) (name : String) :
    KeepsCounts s (declareName s ast name).2 := by
  unfold declareName
  dsimp only
  have h1 : KeepsCounts s (if (s.isStrict && (name == "eval" || name == "arguments")) = true
    then s.throwSyntaxError ast.identifierToken
        "Variable name may not be eval or arguments in strict mode"
    else s) := by
    split
    · exact keepsCounts_throwSyntaxError s _ _
    · exact keepsCounts_refl s
  revert h1
  generalize (if (s.isStrict && (name == "eval" || name == "arguments")) = true then
      s.throwSyntaxError ast.identifierToken
        "Variable name may not be eval or arguments in strict mode"
    else s) = s1
  intro h1
  have h2 : KeepsCounts s1 (s1.checkName name ast.identifierToken) :=
    keepsCounts_checkName _ _ _
  revert h2
  generalize s1.checkName name ast.identifierToken = s2
  intro h2
  have h3 : KeepsCounts s2 (if name = "arguments" then
      s2.modifyContext fun c => { c with usesArgumentsObject := .ArgumentsObjectNotUsed }
    else s2) := by
    split
    · exact keepsCounts_modifyContext _ _ (fun _ _ => rfl)
    · exact keepsCounts_refl _
  revert h3
  generalize (if name = "arguments" then
      s2.modifyContext fun c => { c with usesArgumentsObject := .ArgumentsObjectNotUsed }
    else s2) = s3
  intro h3
  have h123 := keepsCounts_trans h1 (keepsCounts_trans h2 h3)
  repeat' first
    | exact keepsCounts_trans h123 (keepsCounts_throwSyntaxError _ _ _)
    | exact keepsCounts_trans h123
        (keepsCounts_trans (keepsCounts_addLocalVar _ _ _ _ _)
          (keepsCounts_throwSyntaxError _ _ _))
    | exact keepsCounts_trans h123 (keepsCounts_addLocalVar _ _ _ _ _)
    | split

theorem keepsCounts_declareNames (ast : PatternElement) (names : List String)
    (s : ScanFunctions) : KeepsCounts s (declareNames ast names s).2 := by
  induction names generalizing s with
  | nil => exact keepsCounts_refl s
  | cons name rest ih =>
    unfold declareNames
    dsimp only
    split
    · exact keepsCounts_trans (keepsCounts_declareName s ast name) (ih _)
    · exact keepsCounts_declareName s ast name

theorem keepsCounts_visitPatternElement (s : ScanFunctions) (ast : PatternElement) :
    KeepsCounts s (s.visitPatternElement ast).2 := by
  unfold visitPatternElement
  split
  · exact keepsCounts_refl s
  · exact keepsCounts_declareNames ast _ s

theorem keepsCounts_enterFunctionOuter (s : ScanFunctions) (o : Nat) (ast : FunctionNode)
    (name : String) (enterName : Bool) :
    KeepsCounts s (s.enterFunctionOuter o ast name enterName).2 := by
  unfold enterFunctionOuter
  dsimp only
  have h0 := keepsCounts_modifyAt s o (fun c => { c with hasNestedFunctions := true })
    (fun _ _ => rfl)
  revert h0
  generalize (s.modifyAt o fun c => { c with hasNestedFunctions := true }) = s1
  intro h0
  refine keepsCounts_trans h0 ?_
  split
  · exact keepsCounts_trans (keepsCounts_addLocalVarAt _ _ _ _ _ _)
      (keepsCounts_throwSyntaxError _ _ _)
  · dsimp only
    have h1 : KeepsCounts s1 (if enterName = true then
        ((s1.addLocalVarAt o name .FunctionDefinition .Var (some ast.id)).2.addLocalVarAt o name
          .FunctionDefinition .Var (some ast.id)).2
      else s1) := by
      split
      · exact keepsCounts_trans (keepsCounts_addLocalVarAt _ _ _ _ _ _)
          (keepsCounts_addLocalVarAt _ _ _ _ _ _)
      · exact keepsCounts_refl _
    revert h1
    generalize (if enterName = true then
        ((s1.addLocalVarAt o name .FunctionDefinition .Var (some ast.id)).2.addLocalVarAt o name
          .FunctionDefinition .Var (some ast.id)).2
      else s1) = s2
    intro h1
    refine keepsCounts_trans h1 ?_
    split
    · exact keepsCounts_modifyAt _ _ _ (fun _ _ => rfl)
    · exact keepsCounts_refl _

theorem keepsCounts_prepareFunctionContext (s : ScanFunctions) (ast : FunctionNode)
    (name : String) (formals : FormalParameterList) (body : Option (List Statement)) :
    KeepsCounts s (prepareFunctionContext s ast name formals body) := by
  have h1 : ∀ t : ScanFunctions, KeepsCounts t (setArguments t formals) :=
    fun t => keepsCounts_modifyContext t _ (fun _ _ => rfl)
  have h2 : ∀ t : ScanFunctions, KeepsCounts t (checkBodyDirectives t body) := by
    intro t
    unfold checkBodyDirectives
    split
    · split
      · exact keepsCounts_checkDirectivePrologue t _
      · exact keepsCounts_refl t
    · exact keepsCounts_refl t
  have h3 : ∀ t : ScanFunctions, KeepsCounts t (setFormals t formals) :=
    fun t => keepsCounts_modifyContext t _ (fun _ _ => rfl)
  have h4 : ∀ t : ScanFunctions, KeepsCounts t (bindOwnName t name formals) := by
    intro t
    unfold bindOwnName
    split
    · exact keepsCounts_addLocalVar t _ _ _ _
    · exact keepsCounts_refl t
  have h5 : ∀ t : ScanFunctions, KeepsCounts t (noteFunctionKind t ast) := by
    intro t
    unfold noteFunctionKind
    split
    · exact keepsCounts_modifyContext t _ (fun _ _ => rfl)
    · split
      · exact keepsCounts_modifyContext t _ (fun _ _ => rfl)
      · exact keepsCounts_refl t
  have h6 : ∀ t : ScanFunctions, KeepsCounts t (noteArgumentsParameter t formals) := by
    intro t
    unfold noteArgumentsParameter
    split
    · exact keepsCounts_modifyContext t _ (fun _ _ => rfl)
    · exact keepsCounts_refl t
  have h7 : ∀ t : ScanFunctions, KeepsCounts t (setFunctionName t name) :=
    fun t => keepsCounts_modifyContext t _ (fun _ _ => rfl)
  unfold prepareFunctionContext
  exact keepsCounts_trans (h7 _) (keepsCounts_trans (h6 _) (keepsCounts_trans (h5 _)
    (keepsCounts_trans (h4 _) (keepsCounts_trans (h3 _) (keepsCounts_trans (h2 _) (h1 _))))))

theorem keepsCounts_checkParameter (s : ScanFunctions) (formals : FormalParameterList)
    (simple : Bool) (arg : String) (later : List String) :
    KeepsCounts s (checkParameter s formals simple arg later).2 := by
  unfold checkParameter
  dsimp only
  repeat' first
    | exact keepsCounts_throwSyntaxError _ _ _
    | exact keepsCounts_addLocalVar _ _ _ _ _
    | exact keepsCounts_refl _
    | split

theorem keepsCounts_checkParameters (formals : FormalParameterList) (simple : Bool)
    (names : List String) (s : ScanFunctions) :
    KeepsCounts s (checkParameters formals simple names s).2 := by
  induction names generalizing s with
  | nil => exact keepsCounts_refl s
  | cons arg later ih =>
    unfold checkParameters
    dsimp only
    split
    · exact keepsCounts_trans (keepsCounts_checkParameter s formals simple arg later) (ih _)
    · exact keepsCounts_checkParameter s formals simple arg later

theorem keepsCounts_enterFunction (s : ScanFunctions) (ast : FunctionNode) (name : String)
    (formals : FormalParameterList) (body : Option (List Statement)) (enterName : Bool) :
    KeepsCounts s (s.enterFunction ast name formals body enterName).2 := by
  have h0 := keepsCounts_enterEnvironment s ast.id .Function
  unfold enterFunction
  dsimp only
  cases s.context with
  | none =>
    simp only [Bool.not_true, Bool.false_eq_true, if_false]
    exact keepsCounts_trans h0 (keepsCounts_trans (keepsCounts_prepareFunctionContext _ _ _ _ _)
      (keepsCounts_checkParameters _ _ _ _))
  | some o =>
    simp only
    have h1 := keepsCounts_enterFunctionOuter (s.enterEnvironment ast.id .Function) o ast name
      enterName
    split
    · exact keepsCounts_trans h0 h1
    · exact keepsCounts_trans h0 (keepsCounts_trans h1
        (keepsCounts_trans (keepsCounts_prepareFunctionContext _ _ _ _ _)
          (keepsCounts_checkParameters _ _ _ _)))

theorem keepsCounts_enterFunctionExpression (s : ScanFunctions) (ast : FunctionNode)
    (enterName : Bool) : KeepsCounts s (s.enterFunctionExpression ast enterName).2 := by
  unfold enterFunctionExpression
  dsimp only
  refine keepsCounts_trans ?_ (keepsCounts_enterFunction _ _ _ _ _ _)
  split
  · exact keepsCounts_throwSyntaxError s _ _
  · exact keepsCounts_refl s

end ScanFunctions

/-! ## The maximum of the argument counts -/

namespace ScanFunctions

theorem notedFor_eq (s s' : ScanFunctions) (h : s'.noted = s.noted) (i : Nat) :
    s'.notedFor i = s.notedFor i := by
  unfold notedFor
  rw [h]

theorem countsNoted_keeps {m : Module} {s s' : ScanFunctions} (hk : KeepsCounts s s')
    (h : CountsNoted m s) : CountsNoted m s' := by
  refine ⟨le_trans h.length hk.length, ?_, ?_⟩
  · intro p hp
    rw [hk.noted] at hp
    exact lt_of_lt_of_le (h.bound p hp) hk.length
  · intro i c' hc'
    rw [notedFor_eq s s' hk.noted]
    cases hs : s.module.context? i with
    | some c =>
      obtain ⟨c'', h1, h2⟩ := hk.old i c hs
      rw [hc'] at h1
      cases h1
      rw [h2]
      exact h.counts i c hs
    | none =>
      rw [hk.new i c' hc' hs]
      have hge : s.module.contexts.length ≤ i := by
        by_contra hlt
        have hlt' : i < s.module.contexts.length := Nat.lt_of_not_le hlt
        have : s.module.context? i = some (s.module.contexts[i]) := by
          unfold Module.context?
          exact List.getElem?_eq_getElem hlt'
        rw [this] at hs
        cases hs
      have hnone : s.notedFor i = [] := by
        unfold notedFor
        rw [List.map_eq_nil_iff, List.filter_eq_nil_iff]
        intro p hp
        have := h.bound p hp
        simp only [decide_eq_true_eq]
        omega
      have hinit : initialCount m i = 0 := by
        unfold initialCount
        have : m.context? i = none := by
          unfold Module.context?
          exact List.getElem?_eq_none (le_trans h.length hge)
        rw [this]
      rw [hnone, hinit]
      rfl

theorem countsNoted_noteArgumentCount {m : Module} (s : ScanFunctions) (argc : Int)
    (h : CountsNoted m s) : CountsNoted m (s.noteArgumentCount argc) := by
  unfold noteArgumentCount
  dsimp only
  cases hctx : s.context with
  | none =>
    simp only
    unfold modifyContext
    rw [hctx]
    exact h
  | some i =>
    simp only
    have hmod : s.modifyContext (fun c =>
        { c with maxNumberOfArguments := max c.maxNumberOfArguments argc }) =
        { s with module := s.module.modify i fun c =>
          { c with maxNumberOfArguments := max c.maxNumberOfArguments argc } } := by
      unfold modifyContext
      rw [hctx]
    cases hc : s.module.context? i with
    | none =>
      simp only [Option.isSome_none, Bool.false_eq_true, if_false]
      rw [hmod]
      have hm : (s.module.modify i fun c =>
          { c with maxNumberOfArguments := max c.maxNumberOfArguments argc }) = s.module := by
        unfold Module.modify
        have hnone : s.module.contexts[i]? = none := hc
        rw [hnone]
      rw [hm]
      exact h
    | some c =>
      simp only [Option.isSome_some, if_true]
      rw [hmod]
      refine ⟨?_, ?_, ?_⟩
      · show _ ≤ (s.module.modify i _).contexts.length
        rw [Module.modify_length]
        exact h.length
      · intro p hp
        show p.1 < (s.module.modify i _).contexts.length
        rw [Module.modify_length]
        have hp' : p ∈ s.noted ++ [(i, argc)] := hp
        rcases List.mem_append.mp hp' with hp' | hp'
        · exact h.bound p hp'
        · rw [List.mem_singleton] at hp'
          subst hp'
          exact Module.context?_lt hc
      · intro j c' hc'
        have hc'' : (s.module.modify i fun c =>
          { c with maxNumberOfArguments := max c.maxNumberOfArguments argc }).context? j =
            some c' := hc'
        rw [Module.context?_modify] at hc''
        show _ = List.foldl max (initialCount m j)
          (((s.noted ++ [(i, argc)]).filter fun p => p.1 = j).map Prod.snd)
        rw [List.filter_append, List.map_append, List.foldl_append]
        by_cases hij : i = j
        · subst hij
          rw [if_pos rfl, hc] at hc''
          cases hc''
          have := h.counts i c hc
          unfold notedFor at this
          simp only [List.filter_cons, decide_True, if_true, List.filter_nil, List.map_cons,
            List.map_nil, List.foldl_cons, List.foldl_nil]
          rw [← this]
        · rw [if_neg hij] at hc''
          have := h.counts j c' hc''
          unfold notedFor at this
          have hji : ¬ ((i, argc) : Nat × Int).1 = j := hij
          simp only [List.filter_cons, hji, decide_False, Bool.false_eq_true, if_false,
            List.filter_nil, List.map_nil, List.foldl_nil]
          exact this

theorem countsNoted_visitCallExpression {m : Module} (s : ScanFunctions)
    (base : ExpressionNode) (arguments : List ExpressionNode) (h : CountsNoted m s) :
    CountsNoted m (s.visitCallExpression base arguments).2 := by
  unfold visitCallExpression
  dsimp only
  apply countsNoted_noteArgumentCount
  have hk : ∀ t : ScanFunctions, KeepsCounts t
      ((t.modifyContext fun c =>
        if c.usesArgumentsObject = UsesArgumentsObject.ArgumentsObjectUnknown then
          { c with usesArgumentsObject := .ArgumentsObjectUsed } else c).modifyContext
        fun c => { c with hasDirectEval := true }) := by
    intro t
    refine keepsCounts_trans (keepsCounts_modifyContext _ _ ?_)
      (keepsCounts_modifyContext _ _ (fun _ _ => rfl))
    intro c _
    split <;> rfl
  repeat' first
    | exact h
    | exact countsNoted_keeps (hk s) h
    | split

/-- Every step of the visitor keeps `maxNumberOfArguments` of every context the maximum
of the value it started with and the counts noted for it. -/
theorem countsNoted_walkInvariant (m : Module) : WalkInvariant (CountsNoted m) where
  identifier := fun s n t h =>
    countsNoted_keeps (keepsCounts_visitIdentifierExpression s n t) h
  thisExpression := fun s h => countsNoted_keeps (keepsCounts_visitThisExpression s) h
  call := fun s b a h => countsNoted_visitCallExpression s b a h
  newMember := fun s _ h => countsNoted_noteArgumentCount s _ h
  arrayPattern := fun s _ _ h => countsNoted_noteArgumentCount s _ h
  allowFuncDecls := fun _ _ h => ⟨h.length, h.bound, h.counts⟩
  enterFunction := fun s f b h =>
    countsNoted_keeps (keepsCounts_enterFunctionExpression s f b) h
  leave := fun _ h => ⟨h.length, h.bound, h.counts⟩
  patternElement := fun s e h => countsNoted_keeps (keepsCounts_visitPatternElement s e) h
  raise := fun _ _ _ h => ⟨h.length, h.bound, h.counts⟩
  enterBlock := fun s id h =>
    countsNoted_keeps (keepsCounts_trans (keepsCounts_enterEnvironment s id .Block)
      (keepsCounts_modifyContext _ _ (fun _ _ => rfl))) h
  tryStatement := fun s h => countsNoted_keeps (keepsCounts_visitTryStatement s) h
  withStatement := fun s t h => countsNoted_keeps (keepsCounts_visitWithStatement s t) h

theorem countsNoted_acceptProgram (s : ScanFunctions) (ast : Program) (hnoted : s.noted = []) :
    CountsNoted s.module (s.acceptProgram ast) := by
  have h0 : CountsNoted s.module s := by
    refine ⟨le_refl _, ?_, ?_⟩
    · intro p hp
      rw [hnoted] at hp
      cases hp
    · intro i c hc
      unfold notedFor initialCount
      rw [hnoted, hc]
      rfl
  unfold acceptProgram visitProgram
  have h1 := acceptStatements_keeps (countsNoted_walkInvariant s.module) ast.statements _
    (countsNoted_keeps (keepsCounts_trans
      (keepsCounts_enterEnvironment s ast.id s.defaultProgramType)
      (keepsCounts_checkDirectivePrologue _ ast.statements)) h0)
  exact ⟨h1.length, h1.bound, h1.counts⟩

theorem le_foldl_max (l : List Int) (b : Int) :
    b ≤ l.foldl max b ∧ ∀ a ∈ l, a ≤ l.foldl max b := by
  induction l generalizing b with
  | nil => exact ⟨le_refl _, fun a ha => absurd ha (List.not_mem_nil a)⟩
  | cons x xs ih =>
    rw [List.foldl_cons]
    obtain ⟨h1, h2⟩ := ih (max b x)
    refine ⟨le_trans (le_max_left b x) h1, ?_⟩
    intro a ha
    rcases List.mem_cons.mp ha with rfl | ha
    · exact le_trans (le_max_right b a) h1
    · exact h2 a ha

theorem noted_noteArgumentCount (s : ScanFunctions) (argc : Int) (i : Nat) (c : Context)
    (hi : s.context = some i) (hc : s.module.context? i = some c) :
    (s.noteArgumentCount argc).noted = s.noted ++ [(i, argc)] ∧
    (s.noteArgumentCount argc).module.context? i =
      some { c with maxNumberOfArguments := max c.maxNumberOfArguments argc } := by
  have hmod : (s.noteArgumentCount argc).module = s.module.modify i fun c =>
      { c with maxNumberOfArguments := max c.maxNumberOfArguments argc } := by
    rw [noteArgumentCount_module]
    unfold modifyContext
    rw [hi]
  constructor
  · unfold noteArgumentCount
    dsimp only
    rw [hi]
    simp only [hc, Option.isSome_some, if_true]
  · rw [hmod, Module.context?_modify, if_pos rfl, hc]
    rfl

end ScanFunctions

namespace ScanFunctions

theorem noted_visitCallExpression (s : ScanFunctions) (base : ExpressionNode)
    (arguments : List ExpressionNode) (i : Nat) (c : Context)
    (hi : s.context = some i) (hc : s.module.context? i = some c) :
    ∃ c', (s.visitCallExpression base arguments).2.noted =
        s.noted ++ [(i, (arguments.length : Int))] ∧
      (s.visitCallExpression base arguments).2.module.context? i = some c' ∧
      c'.maxNumberOfArguments = max c.maxNumberOfArguments arguments.length := by
  have hstep : ∀ t : ScanFunctions, t.context = some i → t.noted = s.noted →
      (∃ d, t.module.context? i = some d ∧ d.maxNumberOfArguments = c.maxNumberOfArguments) →
      ∃ c', (t.noteArgumentCount arguments.length).noted =
          s.noted ++ [(i, (arguments.length : Int))] ∧
        (t.noteArgumentCount arguments.length).module.context? i = some c' ∧
        c'.maxNumberOfArguments = max c.maxNumberOfArguments arguments.length := by
    intro t hti htn ⟨d, hd, hdm⟩
    obtain ⟨h1, h2⟩ := noted_noteArgumentCount t arguments.length i d hti hd
    exact ⟨_, by rw [h1, htn], h2, by show max d.maxNumberOfArguments _ = _; rw [hdm]⟩
  have hk : ∀ t : ScanFunctions, t.context = some i → t.noted = s.noted →
      (∃ d, t.module.context? i = some d ∧ d.maxNumberOfArguments = c.maxNumberOfArguments) →
      ∀ f : Context → Context, (∀ x, (f x).maxNumberOfArguments = x.maxNumberOfArguments) →
      (t.modifyContext f).context = some i ∧ (t.modifyContext f).noted = s.noted ∧
      ∃ d, (t.modifyContext f).module.context? i = some d ∧
        d.maxNumberOfArguments = c.maxNumberOfArguments := by
    intro t hti htn ⟨d, hd, hdm⟩ f hf
    have hkc := keepsCounts_modifyContext t f (fun x _ => hf x)
    obtain ⟨d', hd', hdm'⟩ := hkc.old i d hd
    exact ⟨by rw [context_modifyContext, hti], by rw [hkc.noted, htn], d', hd', hdm'.trans hdm⟩
  unfold visitCallExpression
  dsimp only
  have h0 : s.context = some i ∧ s.noted = s.noted ∧
      ∃ d, s.module.context? i = some d ∧ d.maxNumberOfArguments = c.maxNumberOfArguments :=
    ⟨hi, rfl, c, hc, rfl⟩
  have h2 : ∀ t : ScanFunctions, (t.context = some i ∧ t.noted = s.noted ∧
      ∃ d, t.module.context? i = some d ∧ d.maxNumberOfArguments = c.maxNumberOfArguments) →
      ∃ c', (t.noteArgumentCount arguments.length).noted =
          s.noted ++ [(i, (arguments.length : Int))] ∧
        (t.noteArgumentCount arguments.length).module.context? i = some c' ∧
        c'.maxNumberOfArguments = max c.maxNumberOfArguments arguments.length :=
    fun t ht => hstep t ht.1 ht.2.1 ht.2.2
  apply h2
  have h1 := hk s hi rfl ⟨c, hc, rfl⟩ (fun c =>
      if c.usesArgumentsObject = UsesArgumentsObject.ArgumentsObjectUnknown then
        { c with usesArgumentsObject := .ArgumentsObjectUsed } else c)
      (fun x => by dsimp only; split <;> rfl)
  have heval := hk _ h1.1 h1.2.1 h1.2.2 (fun c => { c with hasDirectEval := true })
    (fun _ => rfl)
  repeat' first
    | exact h0
    | exact heval
    | split

/-- C35 (amended). After the walk over a program, from a state in which no count has
been noted yet, `maxNumberOfArguments` of every context is the maximum of the value it
started with (0 for a context made during the walk) and the counts noted while it was
the current context; so it is not below the value it started with, nor below any of
these counts. What is noted, for the current context: at a call expression and at a
`new` expression the number of arguments; at an array literal the number of elements,
plus the elisions in front of the elements, plus the trailing elisions but the first of
them. Each of these visits sets the value to the maximum of what it was and the count,
and no other step of the walk notes a count. -/
theorem maxNumberOfArguments_is_maximum (s : ScanFunctions) (ast : Program)
    (hnoted : s.noted = []) :
    (∀ i c, (s.acceptProgram ast).module.context? i = some c →
      c.maxNumberOfArguments =
        ((s.acceptProgram ast).notedFor i).foldl max (initialCount s.module i) ∧
      initialCount s.module i ≤ c.maxNumberOfArguments ∧
      ∀ a ∈ (s.acceptProgram ast).notedFor i, a ≤ c.maxNumberOfArguments) ∧
    (∀ (t : ScanFunctions) (i : Nat) (c : Context),
      t.context = some i → t.module.context? i = some c →
      (∀ base arguments, ∃ c',
        (t.visitCallExpression base arguments).2.noted =
          t.noted ++ [(i, (arguments.length : Int))] ∧
        (t.visitCallExpression base arguments).2.module.context? i = some c' ∧
        c'.maxNumberOfArguments = max c.maxNumberOfArguments arguments.length) ∧
      (∀ arguments : List ExpressionNode,
        (t.visitNewMemberExpression arguments).2.noted =
          t.noted ++ [(i, (arguments.length : Int))] ∧
        (t.visitNewMemberExpression arguments).2.module.context? i =
          some { c with
            maxNumberOfArguments := max c.maxNumberOfArguments arguments.length }) ∧
      (∀ elements elision,
        (t.visitArrayPattern elements elision).2.noted =
          t.noted ++ [(i, (arrayPatternSlots elements elision : Int))] ∧
        (t.visitArrayPattern elements elision).2.module.context? i =
          some { c with
            maxNumberOfArguments :=
              max c.maxNumberOfArguments (arrayPatternSlots elements elision) })) ∧
    (∀ elements elision,
      arrayPatternSlots elements elision =
        elements.length + (elements.map fun | .mk e _ => e).sum + (elision - 1)) ∧
    (∀ m : Module, WalkInvariant (CountsNoted m)) := by
  refine ⟨?_, ?_, ?_, countsNoted_walkInvariant⟩
  · intro i c hc
    have h := (countsNoted_acceptProgram s ast hnoted).counts i c hc
    obtain ⟨h1, h2⟩ := le_foldl_max ((s.acceptProgram ast).notedFor i) (initialCount s.module i)
    rw [← h] at h1 h2
    exact ⟨h, h1, h2⟩
  · intro t i c hi hc
    exact ⟨fun base arguments => noted_visitCallExpression t base arguments i c hi hc,
      fun arguments => noted_noteArgumentCount t _ i c hi hc,
      fun elements elision => noted_noteArgumentCount t _ i c hi hc⟩
  · intro elements elision
    unfold arrayPatternSlots
    congr 1
    induction elements with
    | nil => rfl
    | cons e es ih =>
      obtain ⟨k, el⟩ := e
      simp only [List.map_cons, List.sum_cons, List.length_cons, ih]
      omega

end ScanFunctions

/-- C35, witness: the walk over `g(1, 2); [,];` by a fresh scanner notes the counts 2
and 0 for the context of the program, and leaves its `maxNumberOfArguments` at 2. -/
theorem maxNumberOfArguments_is_maximum_witness :
    exFreshScanner.noted = [] ∧
    (exFreshScanner.acceptProgram exProgramCall).notedFor 0 = [2, 0] ∧
    ((exFreshScanner.acceptProgram exProgramCall).module.context? 0).map
      (fun c => c.maxNumberOfArguments) = some 2 := by
  have h := (ScanFunctions.maxNumberOfArguments_is_maximum exFreshScanner exProgramCall rfl).1 0
  have hn : (exFreshScanner.acceptProgram exProgramCall).notedFor 0 = [2, 0] := by decide
  refine ⟨rfl, hn, ?_⟩
  have hs : ((exFreshScanner.acceptProgram exProgramCall).module.context? 0).isSome = true := by
    decide
  cases hc : (exFreshScanner.acceptProgram exProgramCall).module.context? 0 with
  | none => rw [hc] at hs; cases hs
  | some c =>
    have h1 := (h c hc).1
    rw [hn] at h1
    rw [Option.map_some', h1]
    rfl

/-- C35, counterexample: the array literal `[,]` has no element and one elision, so
elements plus elisions make one slot; the visit notes the count 0, and
`maxNumberOfArguments` of the current context stays 0. -/
theorem maxNumberOfArguments_is_maximum_counterexample :
    (ScanFunctions.acceptExpression (.ArrayPattern [] 1)
      (exScanner (exEmptyContext false))).noted = [(0, 0)] ∧
    ((ScanFunctions.acceptExpression (.ArrayPattern [] 1)
      (exScanner (exEmptyContext false))).current.map fun c => c.maxNumberOfArguments) =
        some 0 ∧
    ([] : List PatternElementList).length + 1 = 1 := by
  refine ⟨by decide, by decide, by decide⟩

/-! ## Writes to contexts -/

namespace ScanFunctions

namespace Effect

theorem apply_id (c : Context) : ({} : Effect).apply c = c := by
  cases c
  simp [Effect.apply]

theorem apply_andThen (e e' : Effect) (c : Context) :
    (e.andThen e').apply c = e'.apply (e.apply c) := by
  cases c
  simp only [Effect.apply, Effect.andThen, List.map_map, Bool.or_assoc]
  congr 1
  · apply List.map_congr_left
    intro p _
    simp only [Function.comp, List.mem_append]
    by_cases h1 : p.1 ∈ e.escaping <;> by_cases h2 : p.1 ∈ e'.escaping <;> simp [h1, h2]
  · cases e'.usesArgumentsObject <;> rfl

end Effect

theorem applyWrites_nil (m : Module) : applyWrites [] m = m := rfl

theorem applyWrites_cons (w : Nat × Effect) (ws : List (Nat × Effect)) (m : Module) :
    applyWrites (w :: ws) m = applyWrites ws (m.modify w.1 w.2.apply) := rfl

theorem applyWrites_append (ws ws' : List (Nat × Effect)) (m : Module) :
    applyWrites (ws ++ ws') m = applyWrites ws' (applyWrites ws m) := by
  unfold applyWrites
  rw [List.foldl_append]

theorem applyWrites_frame (ws : List (Nat × Effect)) (m : Module) :
    (applyWrites ws m).contexts.length = m.contexts.length ∧
    (applyWrites ws m).contextMap = m.contextMap ∧
    (applyWrites ws m).debugMode = m.debugMode := by
  induction ws generalizing m with
  | nil => exact ⟨rfl, rfl, rfl⟩
  | cons w ws ih =>
    rw [applyWrites_cons]
    obtain ⟨h1, h2, h3⟩ := ih (m.modify w.1 w.2.apply)
    exact ⟨h1.trans (Module.modify_length _ _ _), h2.trans (Module.modify_contextMap _ _ _),
      h3.trans (Module.modify_debugMode _ _ _)⟩

theorem effectAt_start (ws : List (Nat × Effect)) (x : Nat) (e0 : Effect) (c : Context) :
    (ws.foldl (fun e w => if w.1 = x then e.andThen w.2 else e) e0).apply c =
      (effectAt ws x).apply (e0.apply c) := by
  induction ws generalizing e0 c with
  | nil =>
    simp only [List.foldl_nil, effectAt, Effect.apply_id]
  | cons w ws ih =>
    unfold effectAt
    simp only [List.foldl_cons]
    rw [ih, ih ((if w.1 = x then ({} : Effect).andThen w.2 else {}))]
    split
    · rw [Effect.apply_andThen, Effect.apply_andThen, Effect.apply_id]
    · rw [Effect.apply_id]

theorem effectAt_cons (w : Nat × Effect) (ws : List (Nat × Effect)) (x : Nat) (c : Context) :
    (effectAt (w :: ws) x).apply c =
      (effectAt ws x).apply (if w.1 = x then w.2.apply c else c) := by
  have h := effectAt_start ws x (if w.1 = x then ({} : Effect).andThen w.2 else {}) c
  have h' : (effectAt (w :: ws) x).apply c =
      (ws.foldl (fun e w => if w.1 = x then e.andThen w.2 else e)
        (if w.1 = x then ({} : Effect).andThen w.2 else {})).apply c := rfl
  rw [h', h]
  split
  · rw [Effect.apply_andThen, Effect.apply_id]
  · rw [Effect.apply_id]

theorem effectAt_append (ws ws' : List (Nat × Effect)) (x : Nat) (c : Context) :
    (effectAt (ws ++ ws') x).apply c = (effectAt ws' x).apply ((effectAt ws x).apply c) := by
  induction ws generalizing c with
  | nil =>
    rw [List.nil_append]
    show _ = (effectAt ws' x).apply (({} : Effect).apply c)
    rw [Effect.apply_id]
  | cons w ws ih =>
    rw [List.cons_append, effectAt_cons, effectAt_cons, ih]

theorem context?_applyWrites (ws : List (Nat × Effect)) (m : Module) (x : Nat) :
    (applyWrites ws m).context? x = (m.context? x).map (effectAt ws x).apply := by
  induction ws generalizing m with
  | nil =>
    rw [applyWrites_nil]
    cases m.context? x with
    | none => rfl
    | some c =>
      show some c = some (({} : Effect).apply c)
      rw [Effect.apply_id]
  | cons w ws ih =>
    rw [applyWrites_cons, ih, Module.context?_modify]
    cases hx : m.context? x with
    | none => split <;> rfl
    | some c =>
      rw [Option.map_some', Option.map_some', effectAt_cons]
      split <;> rfl

theorem module_ext {m m' : Module} (hmap : m'.contextMap = m.contextMap)
    (hdebug : m'.debugMode = m.debugMode)
    (hctx : ∀ x, m'.context? x = m.context? x) : m' = m := by
  cases m
  cases m'
  simp only at hmap hdebug
  subst hmap hdebug
  congr 1
  exact List.ext_getElem? hctx

end ScanFunctions

namespace ScanFunctions

theorem markMember_eq (var : String) :
    (fun x : Context => { x.markEscaping var with requiresExecutionContext := true }) =
      Effect.apply { escaping := [var], requiresExecutionContext := true } := by
  funext x
  cases x
  simp [Effect.apply, Context.markEscaping]

theorem markArgument_eq :
    (fun x : Context => { x with argumentsCanEscape := true, requiresExecutionContext := true }) =
      Effect.apply { argumentsCanEscape := true, requiresExecutionContext := true } := by
  funext x
  cases x
  simp [Effect.apply]

theorem orFlags_eq (e w : Bool) :
    (fun x : Context => { x with hasDirectEval := x.hasDirectEval || e,
                                 hasWith := x.hasWith || w }) =
      Effect.apply { hasDirectEval := e, hasWith := w } := by
  funext x
  cases x
  simp [Effect.apply]

theorem setUses_eq (u : UsesArgumentsObject) :
    (fun x : Context => { x with usesArgumentsObject := u }) =
      Effect.apply { usesArgumentsObject := some u } := by
  funext x
  cases x
  simp [Effect.apply]

theorem markUse_eq (inner : Nat) (var : String) (fuel : Nat) (c : Option Nat) (m : Module) :
    markUse inner var fuel c m = applyWrites (targetWrite inner var (markTarget m var fuel c)) m := by
  induction fuel generalizing c with
  | zero => unfold markUse markTarget; rfl
  | succ fuel ih =>
    cases c with
    | none => unfold markUse markTarget; rfl
    | some c =>
      unfold markUse markTarget
      cases hc : m.context? c with
      | none => rfl
      | some ctx =>
        simp only
        by_cases h1 : (ctx.memberInfo var).isSome = true
        · simp only [h1, if_true]
          by_cases hne : c = inner
          · simp only [targetWrite, hne, ne_eq, not_true_eq_false, if_false]
            rfl
          · simp only [targetWrite, ne_eq, hne, not_false_eq_true, if_true]
            rw [markMember_eq]
            rfl
        · simp only [h1, Bool.false_eq_true, if_false]
          by_cases h2 : ctx.findArgument var ≠ -1
          · rw [if_pos h2, if_pos h2]
            by_cases hne : c = inner
            · simp only [targetWrite, hne, ne_eq, not_true_eq_false, if_false]
              rfl
            · simp only [targetWrite, ne_eq, hne, not_false_eq_true, if_true]
              rw [markArgument_eq]
              rfl
          · rw [if_neg h2, if_neg h2]
            exact ih _

theorem context?_none_transfer {m m' : Module} (hrel : Module.Rel Context.Marks m m') {x : Nat}
    (h : m.context? x = none) : m'.context? x = none := by
  unfold Module.context? at h ⊢
  rw [List.getElem?_eq_none_iff] at h ⊢
  rw [hrel.length]
  exact h

theorem markTarget_transfer {m m' : Module} (hrel : Module.Rel Context.Marks m m')
    (var : String) (fuel : Nat) (c : Option Nat) :
    markTarget m' var fuel c = markTarget m var fuel c := by
  induction fuel generalizing c with
  | zero => unfold markTarget; rfl
  | succ fuel ih =>
    cases c with
    | none => unfold markTarget; rfl
    | some c =>
      unfold markTarget
      cases hc : m.context? c with
      | none => rw [context?_none_transfer hrel hc]
      | some ctx =>
        obtain ⟨ctx', hc', hm⟩ := hrel.context c ctx hc
        rw [hc']
        simp only
        rw [Context.marks_memberInfo_isSome hm, hm.grows.parent]
        have : ctx'.findArgument var = ctx.findArgument var := by
          unfold Context.findArgument
          rw [hm.grows.arguments]
        rw [this, ih]

theorem ancestors_transfer {m m' : Module} (hrel : Module.Rel Context.Marks m m')
    (fuel : Nat) (c : Option Nat) : ancestors m' fuel c = ancestors m fuel c := by
  induction fuel generalizing c with
  | zero => unfold ancestors; rfl
  | succ fuel ih =>
    cases c with
    | none => unfold ancestors; rfl
    | some c =>
      unfold ancestors
      cases hc : m.context? c with
      | none => rw [context?_none_transfer hrel hc]
      | some ctx =>
        obtain ⟨ctx', hc', hm⟩ := hrel.context c ctx hc
        rw [hc']
        simp only
        rw [hm.grows.parent, ih]

theorem markWrite_transfer {m m' : Module} (hrel : Module.Rel Context.Marks m m')
    (inner : Nat) (var : String) : markWrite m' inner var = markWrite m inner var := by
  unfold markWrite
  rw [hrel.length, markTarget_transfer hrel]

theorem markUses_eq (inner : Nat) (vars : List String) (m acc : Module)
    (hrel : Module.Rel Context.Marks m acc) :
    vars.foldl (fun acc var => markUse inner var acc.contexts.length (some inner) acc) acc =
      applyWrites (vars.flatMap (markWrite m inner)) acc := by
  induction vars generalizing acc with
  | nil => rfl
  | cons var vars ih =>
    rw [List.foldl_cons, List.flatMap_cons, applyWrites_append,
      ih _ (rel_trans hrel (markUse_rel inner var _ _ acc)), markUse_eq,
      ← markWrite_transfer hrel]
    rfl

end ScanFunctions

namespace ScanFunctions

theorem flags_modify_rel (m : Module) (c : Nat) (e : Effect)
    (he : e.escaping = [] ∧ e.requiresExecutionContext = false ∧ e.argumentsCanEscape = false ∧
      e.usesArgumentsObject = none) :
    Module.Rel Context.Marks m (m.modify c e.apply) := by
  have h : e.apply = fun x : Context =>
      { x with hasDirectEval := x.hasDirectEval || e.hasDirectEval,
               hasWith := x.hasWith || e.hasWith } := by
    rw [orFlags_eq]
    obtain ⟨_, _, _, _, _, _⟩ := e
    simp only at he
    obtain ⟨h1, h2, h3, h4⟩ := he
    subst h1 h2 h3 h4
    rfl
  rw [h]
  exact Module.Rel.rel_modify Context.marks_refl m c _ fun x => Context.marks_flags x _ _

theorem propagateFlags_eq (inner : Nat) (fuel : Nat) (c : Option Nat) (acc : Module)
    (i : Context) (hi : acc.context? inner = some i) :
    propagateFlags inner fuel c acc =
      applyWrites ((ancestors acc fuel c).map fun t =>
        (t, { hasDirectEval := i.hasDirectEval, hasWith := i.hasWith })) acc := by
  induction fuel generalizing c acc i with
  | zero => unfold propagateFlags ancestors; rfl
  | succ fuel ih =>
    cases c with
    | none => unfold propagateFlags ancestors; rfl
    | some c =>
      unfold propagateFlags ancestors
      rw [hi]
      cases hc : acc.context? c with
      | none => rfl
      | some ctx =>
        simp only [List.map_cons]
        rw [applyWrites_cons, orFlags_eq]
        have hrel := flags_modify_rel acc c
          { hasDirectEval := i.hasDirectEval, hasWith := i.hasWith } ⟨rfl, rfl, rfl, rfl⟩
        have hi' : ∃ i', (acc.modify c (Effect.apply
            { hasDirectEval := i.hasDirectEval, hasWith := i.hasWith })).context? inner = some i' ∧
            i'.hasDirectEval = i.hasDirectEval ∧ i'.hasWith = i.hasWith := by
          rw [Module.context?_modify, hi]
          split
          · exact ⟨_, rfl, by simp [Effect.apply], by simp [Effect.apply]⟩
          · exact ⟨i, rfl, rfl, rfl⟩
        obtain ⟨i', h1, h2, h3⟩ := hi'
        rw [ih _ _ i' h1, h2, h3, ancestors_transfer hrel]

theorem liftArgumentsUse_eq (m : Module) (inner : Nat) (ic : Context)
    (hi : m.context? inner = some ic) :
    liftArgumentsUse m inner = applyWrites (liftWrites m inner ic) m := by
  unfold liftArgumentsUse liftWrites
  rw [hi]
  simp only
  split
  · cases enclosingNonBlock m m.contexts.length ic.parent with
    | some f =>
      simp only
      rw [setUses_eq, setUses_eq]
      rfl
    | none => rfl
  · rfl

theorem andThen_id_left (e : Effect) : ({} : Effect).andThen e = e := by
  obtain ⟨_, _, _, _, _, u⟩ := e
  cases u <;> simp [Effect.andThen]

theorem andThen_id_right (e : Effect) : e.andThen {} = e := by
  obtain ⟨_, _, _, _, _, u⟩ := e
  simp [Effect.andThen]

theorem andThen_assoc (a b c : Effect) : (a.andThen b).andThen c = a.andThen (b.andThen c) := by
  obtain ⟨_, _, _, _, _, _⟩ := a
  obtain ⟨_, _, _, _, _, _⟩ := b
  obtain ⟨_, _, _, _, _, u⟩ := c
  cases u <;> simp [Effect.andThen, Bool.or_assoc]

theorem foldl_andThen (ws : List (Nat × Effect)) (x : Nat) (e0 : Effect) :
    ws.foldl (fun e w => if w.1 = x then e.andThen w.2 else e) e0 =
      e0.andThen (effectAt ws x) := by
  induction ws generalizing e0 with
  | nil =>
    show e0 = e0.andThen {}
    rw [andThen_id_right]
  | cons w ws ih =>
    unfold effectAt
    simp only [List.foldl_cons]
    rw [ih, ih (if w.1 = x then ({} : Effect).andThen w.2 else {})]
    split
    · rw [andThen_id_left, andThen_assoc]
    · rw [andThen_id_left]

theorem effectAt_nil (x : Nat) : effectAt [] x = {} := rfl

theorem effectAt_cons_eq (w : Nat × Effect) (ws : List (Nat × Effect)) (x : Nat) :
    effectAt (w :: ws) x = (if w.1 = x then w.2 else {}).andThen (effectAt ws x) := by
  have h : effectAt (w :: ws) x =
      ws.foldl (fun e w => if w.1 = x then e.andThen w.2 else e)
        (if w.1 = x then ({} : Effect).andThen w.2 else {}) := rfl
  rw [h, foldl_andThen]
  split
  · rw [andThen_id_left]
  · rfl

theorem effectAt_append_eq (ws ws' : List (Nat × Effect)) (x : Nat) :
    effectAt (ws ++ ws') x = (effectAt ws x).andThen (effectAt ws' x) := by
  induction ws with
  | nil => rw [List.nil_append, effectAt_nil, andThen_id_left]
  | cons w ws ih => rw [List.cons_append, effectAt_cons_eq, effectAt_cons_eq, ih, andThen_assoc]

end ScanFunctions

namespace ScanFunctions

theorem effectAt_induction (P : Effect → Prop) (h0 : P {})
    (hand : ∀ a b, P a → P b → P (a.andThen b)) (ws : List (Nat × Effect))
    (h : ∀ w ∈ ws, P w.2) (x : Nat) : P (effectAt ws x) := by
  induction ws with
  | nil => exact h0
  | cons w ws ih =>
    rw [effectAt_cons_eq]
    refine hand _ _ ?_ (ih fun w' hw' => h w' (List.mem_cons_of_mem _ hw'))
    split
    · exact h w (List.mem_cons_self _ _)
    · exact h0

theorem isMark_andThen (a b : Effect) (ha : a.IsMark) (hb : b.IsMark) : (a.andThen b).IsMark := by
  obtain ⟨h1, h2, h3⟩ := ha
  obtain ⟨h4, h5, h6⟩ := hb
  refine ⟨?_, ?_, ?_⟩
  · simp [Effect.andThen, h1, h4]
  · simp [Effect.andThen, h2, h5]
  · simp [Effect.andThen, h3, h6]

theorem isFlag_andThen (a b : Effect) (ha : a.IsFlag) (hb : b.IsFlag) : (a.andThen b).IsFlag := by
  obtain ⟨h1, h2, h3, h4⟩ := ha
  obtain ⟨h5, h6, h7, h8⟩ := hb
  refine ⟨?_, ?_, ?_, ?_⟩
  · simp [Effect.andThen, h1, h5]
  · simp [Effect.andThen, h2, h6]
  · simp [Effect.andThen, h3, h7]
  · simp [Effect.andThen, h4, h8]

theorem isLift_andThen (a b : Effect) (ha : a.IsLift) (hb : b.IsLift) : (a.andThen b).IsLift := by
  obtain ⟨h1, h2, h3, h4, h5⟩ := ha
  obtain ⟨h6, h7, h8, h9, h10⟩ := hb
  refine ⟨?_, ?_, ?_, ?_, ?_⟩
  · simp [Effect.andThen, h1, h6]
  · simp [Effect.andThen, h2, h7]
  · simp [Effect.andThen, h3, h8]
  · simp [Effect.andThen, h4, h9]
  · simp [Effect.andThen, h5, h10]

theorem isMark_markWrite (m : Module) (inner : Nat) (var : String) :
    ∀ w ∈ markWrite m inner var, w.2.IsMark := by
  intro w hw
  unfold markWrite targetWrite at hw
  split at hw
  · split at hw
    · rw [List.mem_singleton] at hw
      subst hw
      exact ⟨rfl, rfl, rfl⟩
    · cases hw
  · split at hw
    · rw [List.mem_singleton] at hw
      subst hw
      exact ⟨rfl, rfl, rfl⟩
    · cases hw
  · cases hw

theorem isMark_markWrites (m : Module) (inner : Nat) (vars : List String) :
    ∀ w ∈ vars.flatMap (markWrite m inner), w.2.IsMark := by
  intro w hw
  rw [List.mem_flatMap] at hw
  obtain ⟨var, _, h⟩ := hw
  exact isMark_markWrite m inner var w h

theorem isFlag_flagWrites (l : List Nat) (e : Effect) (he : e.IsFlag) :
    ∀ w ∈ l.map (fun c => (c, e)), w.2.IsFlag := by
  intro w hw
  rw [List.mem_map] at hw
  obtain ⟨c, _, h⟩ := hw
  subst h
  exact he

theorem isLift_liftWrites (m : Module) (inner : Nat) (ic : Context) :
    ∀ w ∈ liftWrites m inner ic, w.2.IsLift := by
  intro w hw
  unfold liftWrites at hw
  split at hw
  · split at hw
    · rw [List.mem_cons, List.mem_singleton] at hw
      rcases hw with hw | hw <;> subst hw <;> exact ⟨rfl, rfl, rfl, rfl, rfl⟩
    · cases hw
  · cases hw

theorem isMark_effectAt (ws : List (Nat × Effect)) (h : ∀ w ∈ ws, w.2.IsMark) (x : Nat) :
    (effectAt ws x).IsMark :=
  effectAt_induction Effect.IsMark ⟨rfl, rfl, rfl⟩ isMark_andThen ws h x

theorem isFlag_effectAt (ws : List (Nat × Effect)) (h : ∀ w ∈ ws, w.2.IsFlag) (x : Nat) :
    (effectAt ws x).IsFlag :=
  effectAt_induction Effect.IsFlag ⟨rfl, rfl, rfl, rfl⟩ isFlag_andThen ws h x

theorem isLift_effectAt (ws : List (Nat × Effect)) (h : ∀ w ∈ ws, w.2.IsLift) (x : Nat) :
    (effectAt ws x).IsLift :=
  effectAt_induction Effect.IsLift ⟨rfl, rfl, rfl, rfl, rfl⟩ isLift_andThen ws h x

theorem sweepInner_eq (m : Module) (inner : Nat) :
    sweepInner m inner = applyWrites (writesOf m inner) m := by
  unfold sweepInner writesOf
  cases hi : m.context? inner with
  | none => rfl
  | some ic =>
    simp only
    have hrel1 := markUses_rel inner ic.usedVariables m
    have h1 := markUses_eq inner ic.usedVariables m m (rel_refl m)
    have hrel2 := propagateFlags_rel inner
      (ic.usedVariables.foldl
        (fun acc var => markUse inner var acc.contexts.length (some inner) acc) m).contexts.length
      ic.parent
      (ic.usedVariables.foldl
        (fun acc var => markUse inner var acc.contexts.length (some inner) acc) m)
    have hrel12 := rel_trans hrel1 hrel2
    have hmark := isMark_effectAt _ (isMark_markWrites m inner ic.usedVariables) inner
    have hi1 : (applyWrites (ic.usedVariables.flatMap (markWrite m inner)) m).context? inner =
        some ((effectAt (ic.usedVariables.flatMap (markWrite m inner)) inner).apply ic) := by
      rw [context?_applyWrites, hi]
      rfl
    have hlen : (ic.usedVariables.foldl
        (fun acc var => markUse inner var acc.contexts.length (some inner) acc) m).contexts.length =
        m.contexts.length := hrel1.length
    rw [hlen] at hrel2 hrel12 ⊢
    have h2 : propagateFlags inner m.contexts.length ic.parent
        (ic.usedVariables.foldl
          (fun acc var => markUse inner var acc.contexts.length (some inner) acc) m) =
        applyWrites (ic.usedVariables.flatMap (markWrite m inner) ++
          (ancestors m m.contexts.length ic.parent).map
            (fun c => (c, { hasDirectEval := ic.hasDirectEval, hasWith := ic.hasWith }))) m := by
      rw [applyWrites_append, ← h1, propagateFlags_eq inner _ _ _ _ (h1 ▸ hi1),
        ancestors_transfer hrel1]
      have e1 : ((effectAt (ic.usedVariables.flatMap (markWrite m inner)) inner).apply
          ic).hasDirectEval = ic.hasDirectEval := by
        simp [Effect.apply, hmark.1]
      have e2 : ((effectAt (ic.usedVariables.flatMap (markWrite m inner)) inner).apply
          ic).hasWith = ic.hasWith := by
        simp [Effect.apply, hmark.2.1]
      rw [e1, e2]
    rw [h2] at hrel12 ⊢
    have hflag := isFlag_effectAt _ (isFlag_flagWrites (ancestors m m.contexts.length ic.parent)
      { hasDirectEval := ic.hasDirectEval, hasWith := ic.hasWith } ⟨rfl, rfl, rfl, rfl⟩) inner
    rw [applyWrites_append _ (liftWrites m inner ic),
      liftArgumentsUse_eq _ inner _ (by rw [context?_applyWrites, hi]; rfl)]
    congr 1
    unfold liftWrites
    rw [hrel12.length, enclosingNonBlock_transfer hrel12]
    have e3 : ((effectAt (ic.usedVariables.flatMap (markWrite m inner) ++
        (ancestors m m.contexts.length ic.parent).map
          (fun c => (c, { hasDirectEval := ic.hasDirectEval, hasWith := ic.hasWith }))) inner).apply
        ic).usesArgumentsObject = ic.usesArgumentsObject := by
      rw [effectAt_append_eq]
      simp [Effect.apply, Effect.andThen, hmark.2.2, hflag.2.2.2]
    rw [e3]
    rfl

end ScanFunctions

namespace ScanFunctions

theorem ancestors_none (m : Module) (fuel : Nat) : ancestors m fuel none = [] := by
  cases fuel <;> rfl

theorem mem_ancestors_path (m : Module) (fuel : Nat) (p : Option Nat) (x : Nat)
    (h : x ∈ ancestors m fuel p) : ∃ q l, p = some q ∧ m.Path q x l := by
  induction fuel generalizing p with
  | zero => unfold ancestors at h; cases h
  | succ fuel ih =>
    cases p with
    | none => unfold ancestors at h; cases h
    | some q =>
      unfold ancestors at h
      cases hq : m.context? q with
      | none => rw [hq] at h; cases h
      | some ctx =>
        rw [hq] at h
        simp only [List.mem_cons] at h
        rcases h with h | h
        · subst h
          exact ⟨x, [x], rfl, Module.Path.here x ctx hq⟩
        · obtain ⟨q', l, hp, hl⟩ := ih _ h
          exact ⟨q, q :: l, rfl, Module.Path.up q q' x ctx l hq hp hl⟩

theorem path_mem_ancestors {m : Module} {q x : Nat} {l : List Nat} (h : m.Path q x l) :
    ∀ fuel, l.length ≤ fuel → x ∈ ancestors m fuel (some q) := by
  induction h with
  | here a ctx ha =>
    intro fuel hf
    cases fuel with
    | zero => simp at hf
    | succ fuel =>
      unfold ancestors
      rw [ha]
      exact List.mem_cons_self _ _
  | up c p a ctx l hc hp _ ih =>
    intro fuel hf
    cases fuel with
    | zero => simp at hf
    | succ fuel =>
      unfold ancestors
      rw [hc]
      simp only [hp]
      exact List.mem_cons_of_mem _ (ih fuel (by simpa using hf))

theorem path_append {m : Module} {p b x q : Nat} {l1 l2 : List Nat} {cb : Context}
    (h1 : m.Path p b l1) (hb : m.context? b = some cb) (hq : cb.parent = some q)
    (h2 : m.Path q x l2) : ∃ l, m.Path p x l := by
  induction h1 generalizing cb with
  | here a ctx ha => exact ⟨a :: l2, Module.Path.up a q x cb l2 hb hq h2⟩
  | up c p' a ctx l hc hp _ ih =>
    obtain ⟨l', hl'⟩ := ih hb hq
    exact ⟨c :: l', Module.Path.up c p' x ctx l' hc hp hl'⟩

theorem ancestors_transitive (m : Module) (pa : Option Nat) (b x : Nat) (cb : Context)
    (hb : m.context? b = some cb) (h1 : b ∈ ancestors m m.contexts.length pa)
    (h2 : x ∈ ancestors m m.contexts.length cb.parent) :
    x ∈ ancestors m m.contexts.length pa := by
  obtain ⟨p, l1, hp, hl1⟩ := mem_ancestors_path m _ pa b h1
  obtain ⟨q, l2, hq, hl2⟩ := mem_ancestors_path m _ cb.parent x h2
  subst hp
  obtain ⟨l, hl⟩ := path_append hl1 hb hq hl2
  obtain ⟨l', hl', hlen⟩ := Module.path_short hl
  exact path_mem_ancestors hl' _ hlen

theorem same_apply {e e' : Effect} (h : e.Same e') (c : Context) : e.apply c = e'.apply c := by
  unfold Effect.apply
  rw [h.requiresExecutionContext, h.argumentsCanEscape, h.hasDirectEval, h.hasWith,
    h.usesArgumentsObject]
  have hm : (c.members.map fun p =>
      (p.1, if p.1 ∈ e.escaping then { p.2 with canEscape := true } else p.2)) =
      (c.members.map fun p =>
      (p.1, if p.1 ∈ e'.escaping then { p.2 with canEscape := true } else p.2)) := by
    apply List.map_congr_left
    intro p _
    by_cases hp : p.1 ∈ e.escaping
    · rw [if_pos hp, if_pos ((h.escaping _).1 hp)]
    · rw [if_neg hp, if_neg (fun h' => hp ((h.escaping _).2 h'))]
  rw [hm]

theorem effectAt_flagWrites (l : List Nat) (d w : Bool) (x : Nat) :
    effectAt (l.map fun c => (c, ({ hasDirectEval := d, hasWith := w } : Effect))) x =
      if x ∈ l then { hasDirectEval := d, hasWith := w } else {} := by
  induction l with
  | nil => rfl
  | cons c l ih =>
    rw [List.map_cons, effectAt_cons_eq, ih]
    by_cases hc : c = x
    · subst hc
      simp only [if_true, List.mem_cons, true_or]
      split <;> simp [Effect.andThen]
    · have hx : ¬ x = c := fun h => hc h.symm
      simp only [hc, if_false, List.mem_cons, hx, false_or]
      rw [andThen_id_left]

theorem effectAt_liftWrites (m : Module) (inner : Nat) (ic : Context) (x : Nat) :
    (effectAt (liftWrites m inner ic) x).usesArgumentsObject =
      if ic.contextType = .Block ∧ ic.usesArgumentsObject = .ArgumentsObjectUsed then
        match enclosingNonBlock m m.contexts.length ic.parent with
        | some f =>
          if inner = x then some .ArgumentsObjectNotUsed
          else if f = x then some .ArgumentsObjectUsed else none
        | none => none
      else none := by
  unfold liftWrites
  split
  · cases enclosingNonBlock m m.contexts.length ic.parent with
    | none => rfl
    | some f =>
      simp only
      rw [effectAt_cons_eq, effectAt_cons_eq, effectAt_nil, andThen_id_right]
      by_cases h1 : inner = x
      · simp [Effect.andThen, h1]
      · by_cases h2 : f = x
        · simp [Effect.andThen, h1, h2]
        · simp [Effect.andThen, h1, h2]
  · rfl

end ScanFunctions

namespace ScanFunctions

theorem lift_uses_some (m : Module) (a : Nat) (ca : Context) (x : Nat) (u : UsesArgumentsObject)
    (h : (effectAt (liftWrites m a ca) x).usesArgumentsObject = some u) :
    ca.contextType = .Block ∧ ∃ f ctx, m.context? f = some ctx ∧ ctx.contextType ≠ .Block ∧
      ((a = x ∧ u = .ArgumentsObjectNotUsed) ∨ (f = x ∧ u = .ArgumentsObjectUsed)) := by
  rw [effectAt_liftWrites] at h
  split at h
  · rename_i hlive
    refine ⟨hlive.1, ?_⟩
    cases he : enclosingNonBlock m m.contexts.length ca.parent with
    | none => rw [he] at h; cases h
    | some f =>
      rw [he] at h
      obtain ⟨ctx, hctx, hty⟩ := enclosingNonBlock_spec m _ _ f he
      refine ⟨f, ctx, hctx, hty, ?_⟩
      simp only at h
      split at h
      · rename_i hax
        cases h
        exact Or.inl ⟨hax, rfl⟩
      · split at h
        · rename_i hfx
          cases h
          exact Or.inr ⟨hfx, rfl⟩
        · cases h
  · cases h

theorem lift_uses_agree (m : Module) (a b : Nat) (ca cb : Context) (hab : a ≠ b)
    (ha : m.context? a = some ca) (hb : m.context? b = some cb) (x : Nat)
    (u u' : UsesArgumentsObject)
    (h : (effectAt (liftWrites m a ca) x).usesArgumentsObject = some u)
    (h' : (effectAt (liftWrites m b cb) x).usesArgumentsObject = some u') : u = u' := by
  obtain ⟨hta, f, ctx, hf, hty, h1⟩ := lift_uses_some m a ca x u h
  obtain ⟨htb, f', ctx', hf', hty', h2⟩ := lift_uses_some m b cb x u' h'
  rcases h1 with ⟨h1, hu⟩ | ⟨h1, hu⟩ <;> rcases h2 with ⟨h2, hu'⟩ | ⟨h2, hu'⟩
  · exact absurd (h1.trans h2.symm) hab
  · exfalso
    rw [h2, ← h1, ha] at hf'
    cases hf'
    exact hty' hta
  · exfalso
    rw [h1, ← h2, hb] at hf
    cases hf
    exact hty htb
  · rw [hu, hu']

theorem lift_uses_at_block (m : Module) (a b : Nat) (ca cb : Context) (hab : a ≠ b)
    (hb : m.context? b = some cb) (hblock : cb.contextType = .Block) :
    (effectAt (liftWrites m a ca) b).usesArgumentsObject = none := by
  cases h : (effectAt (liftWrites m a ca) b).usesArgumentsObject with
  | none => rfl
  | some u =>
    exfalso
    obtain ⟨_, f, ctx, hf, hty, h1⟩ := lift_uses_some m a ca b u h
    rcases h1 with ⟨h1, _⟩ | ⟨h1, _⟩
    · exact hab h1
    · rw [h1, hb] at hf
      cases hf
      exact hty hblock

theorem bool_flags : ∀ (b1 b2 b3 b4 ha hb : Bool), (b2 = true → b3 = true → b1 = true) →
    (b1 = true → b4 = true → b2 = true) →
    (b1 && ha || b2 && (hb || b3 && ha)) = (b2 && hb || b1 && (ha || b4 && hb)) := by
  decide

theorem flag_hasDirectEval (p : Prop) [Decidable p] (d w : Bool) :
    (if p then ({ hasDirectEval := d, hasWith := w } : Effect) else {}).hasDirectEval =
      (decide p && d) := by
  split <;> simp [*]

theorem flag_hasWith (p : Prop) [Decidable p] (d w : Bool) :
    (if p then ({ hasDirectEval := d, hasWith := w } : Effect) else {}).hasWith =
      (decide p && w) := by
  split <;> simp [*]

theorem isFlag_ite (p : Prop) [Decidable p] (d w : Bool) :
    (if p then ({ hasDirectEval := d, hasWith := w } : Effect) else {}).IsFlag := by
  split <;> exact ⟨rfl, rfl, rfl, rfl⟩

theorem same_combine (ma fa la mb fb lb fa' fb' : Effect)
    (hma : ma.IsMark) (hmb : mb.IsMark) (hfa : fa.IsFlag) (hfb : fb.IsFlag)
    (hfa' : fa'.IsFlag) (hfb' : fb'.IsFlag) (hla : la.IsLift) (hlb : lb.IsLift)
    (hd : (fa.hasDirectEval || fb'.hasDirectEval) = (fb.hasDirectEval || fa'.hasDirectEval))
    (hw : (fa.hasWith || fb'.hasWith) = (fb.hasWith || fa'.hasWith))
    (hu : (match lb.usesArgumentsObject with
      | some u => some u
      | none => la.usesArgumentsObject) =
      (match la.usesArgumentsObject with
      | some u => some u
      | none => lb.usesArgumentsObject)) :
    Effect.Same (((ma.andThen fa).andThen la).andThen ((mb.andThen fb').andThen lb))
      (((mb.andThen fb).andThen lb).andThen ((ma.andThen fa').andThen la)) := by
  obtain ⟨e1, r1, a1, d1, w1, u1⟩ := ma
  obtain ⟨e2, r2, a2, d2, w2, u2⟩ := mb
  obtain ⟨e3, r3, a3, d3, w3, u3⟩ := fa
  obtain ⟨e4, r4, a4, d4, w4, u4⟩ := fb
  obtain ⟨e5, r5, a5, d5, w5, u5⟩ := fa'
  obtain ⟨e6, r6, a6, d6, w6, u6⟩ := fb'
  obtain ⟨e7, r7, a7, d7, w7, u7⟩ := la
  obtain ⟨e8, r8, a8, d8, w8, u8⟩ := lb
  simp only [Effect.IsMark, Effect.IsFlag, Effect.IsLift] at hma hmb hfa hfb hfa' hfb' hla hlb
  obtain ⟨h1, h2, h3⟩ := hma
  obtain ⟨h4, h5, h6⟩ := hmb
  obtain ⟨h7, h8, h9, h10⟩ := hfa
  obtain ⟨h11, h12, h13, h14⟩ := hfb
  obtain ⟨h15, h16, h17, h18⟩ := hfa'
  obtain ⟨h19, h20, h21, h22⟩ := hfb'
  obtain ⟨h23, h24, h25, h26, h27⟩ := hla
  obtain ⟨h28, h29, h30, h31, h32⟩ := hlb
  subst h1 h2 h3 h4 h5 h6 h7 h8 h9 h10 h11 h12 h13 h14 h15 h16 h17 h18 h19 h20 h21 h22 h23 h24
    h25 h26 h27 h28 h29 h30 h31 h32
  simp only at hd hw hu
  refine ⟨?_, ?_, ?_, ?_, ?_, ?_⟩
  · intro v
    simp only [Effect.andThen, List.append_nil, List.mem_append]
    exact or_comm
  · simp only [Effect.andThen, Bool.or_false]
    exact Bool.or_comm _ _
  · simp only [Effect.andThen, Bool.or_false]
    exact Bool.or_comm _ _
  · simp only [Effect.andThen, Bool.or_false, Bool.false_or]
    exact hd
  · simp only [Effect.andThen, Bool.or_false, Bool.false_or]
    exact hw
  · cases u7 <;> cases u8 <;> simp_all [Effect.andThen]

end ScanFunctions

namespace ScanFunctions

theorem effectAt_writesOf_flags (m : Module) (a : Nat) (ca : Context)
    (ha : m.context? a = some ca) (x : Nat) :
    (effectAt (writesOf m a) x).hasDirectEval =
        (decide (x ∈ ancestors m m.contexts.length ca.parent) && ca.hasDirectEval) ∧
      (effectAt (writesOf m a) x).hasWith =
        (decide (x ∈ ancestors m m.contexts.length ca.parent) && ca.hasWith) := by
  unfold writesOf
  rw [ha]
  simp only
  have hmark := isMark_effectAt _ (isMark_markWrites m a ca.usedVariables) x
  have hlift := isLift_effectAt _ (isLift_liftWrites m a ca) x
  rw [effectAt_append_eq, effectAt_append_eq, effectAt_flagWrites]
  constructor
  · simp only [Effect.andThen, hmark.1, hlift.2.2.2.1, Bool.or_false, Bool.false_or]
    exact flag_hasDirectEval _ _ _
  · simp only [Effect.andThen, hmark.2.1, hlift.2.2.2.2, Bool.or_false, Bool.false_or]
    exact flag_hasWith _ _ _

theorem effectAt_writesOf_uses (m : Module) (a : Nat) (ca : Context)
    (ha : m.context? a = some ca) (x : Nat) :
    (effectAt (writesOf m a) x).usesArgumentsObject =
      (effectAt (liftWrites m a ca) x).usesArgumentsObject := by
  unfold writesOf
  rw [ha]
  simp only
  have hmark := isMark_effectAt _ (isMark_markWrites m a ca.usedVariables) x
  have hflag := isFlag_effectAt _ (isFlag_flagWrites (ancestors m m.contexts.length ca.parent)
    { hasDirectEval := ca.hasDirectEval, hasWith := ca.hasWith } ⟨rfl, rfl, rfl, rfl⟩) x
  rw [effectAt_append_eq, effectAt_append_eq]
  cases h : (effectAt (liftWrites m a ca) x).usesArgumentsObject <;>
    simp [Effect.andThen, hmark.2.2, hflag.2.2.2, h]

theorem writesOf_after (m : Module) (a b : Nat) (ca cb : Context) (hab : a ≠ b)
    (ha : m.context? a = some ca) (hb : m.context? b = some cb) :
    writesOf (applyWrites (writesOf m a) m) b =
      cb.usedVariables.flatMap (markWrite m b) ++
        (ancestors m m.contexts.length cb.parent).map
          (fun c => (c, ({
            hasDirectEval := cb.hasDirectEval ||
              (decide (b ∈ ancestors m m.contexts.length ca.parent) && ca.hasDirectEval)
            hasWith := cb.hasWith ||
              (decide (b ∈ ancestors m m.contexts.length ca.parent) && ca.hasWith) } : Effect))) ++
        liftWrites m b cb := by
  have hrel : Module.Rel Context.Marks m (applyWrites (writesOf m a) m) := by
    rw [← sweepInner_eq]
    exact sweepInner_rel m a
  have hb' : (applyWrites (writesOf m a) m).context? b =
      some ((effectAt (writesOf m a) b).apply cb) := by
    rw [context?_applyWrites, hb]
    rfl
  obtain ⟨hd, hw⟩ := effectAt_writesOf_flags m a ca ha b
  have hu : ((effectAt (writesOf m a) b).apply cb).contextType = .Block ∧
      ((effectAt (writesOf m a) b).apply cb).usesArgumentsObject = .ArgumentsObjectUsed ↔
      cb.contextType = .Block ∧ cb.usesArgumentsObject = .ArgumentsObjectUsed := by
    have hty : ((effectAt (writesOf m a) b).apply cb).contextType = cb.contextType := rfl
    rw [hty]
    by_cases hblock : cb.contextType = .Block
    · have e : ((effectAt (writesOf m a) b).apply cb).usesArgumentsObject =
          cb.usesArgumentsObject := by
        show (effectAt (writesOf m a) b).usesArgumentsObject.getD cb.usesArgumentsObject = _
        rw [effectAt_writesOf_uses m a ca ha, lift_uses_at_block m a b ca cb hab hb hblock]
        rfl
      rw [e]
    · simp [hblock]
  have hlift : liftWrites (applyWrites (writesOf m a) m) b
      ((effectAt (writesOf m a) b).apply cb) = liftWrites m b cb := by
    unfold liftWrites
    rw [hrel.length, enclosingNonBlock_transfer hrel]
    by_cases hl : cb.contextType = .Block ∧ cb.usesArgumentsObject = .ArgumentsObjectUsed
    · rw [if_pos hl, if_pos (hu.2 hl)]
      rfl
    · rw [if_neg hl, if_neg (fun h => hl (hu.1 h))]
  have hmarks : cb.usedVariables.flatMap (markWrite (applyWrites (writesOf m a) m) b) =
      cb.usedVariables.flatMap (markWrite m b) := by
    congr 1
    funext var
    exact markWrite_transfer hrel b var
  show (match (applyWrites (writesOf m a) m).context? b with
    | none => []
    | some ic =>
      ic.usedVariables.flatMap (markWrite (applyWrites (writesOf m a) m) b) ++
        (ancestors (applyWrites (writesOf m a) m)
          (applyWrites (writesOf m a) m).contexts.length ic.parent).map
          (fun c => (c, ({ hasDirectEval := ic.hasDirectEval, hasWith := ic.hasWith } : Effect))) ++
        liftWrites (applyWrites (writesOf m a) m) b ic) = _
  rw [hb']
  simp only
  rw [hlift, hrel.length, ancestors_transfer hrel]
  have e1 : ((effectAt (writesOf m a) b).apply cb).usedVariables = cb.usedVariables := rfl
  have e2 : ((effectAt (writesOf m a) b).apply cb).parent = cb.parent := rfl
  have e3 : ((effectAt (writesOf m a) b).apply cb).hasDirectEval =
      (cb.hasDirectEval || (effectAt (writesOf m a) b).hasDirectEval) := rfl
  have e4 : ((effectAt (writesOf m a) b).apply cb).hasWith =
      (cb.hasWith || (effectAt (writesOf m a) b).hasWith) := rfl
  rw [e1, e2, e3, e4, hmarks, hd, hw]

end ScanFunctions

namespace ScanFunctions

theorem sweepInner_absent (m : Module) (a : Nat) (ha : m.context? a = none) :
    sweepInner m a = m := by
  unfold sweepInner
  rw [ha]

theorem sweepInner_comm (m : Module) (a b : Nat) :
    sweepInner (sweepInner m a) b = sweepInner (sweepInner m b) a := by
  by_cases hab : a = b
  · subst hab
    rfl
  cases ha : m.context? a with
  | none =>
    rw [sweepInner_absent m a ha,
      sweepInner_absent _ a (context?_none_transfer (sweepInner_rel m b) ha)]
  | some ca =>
    cases hb : m.context? b with
    | none =>
      rw [sweepInner_absent m b hb,
        sweepInner_absent _ b (context?_none_transfer (sweepInner_rel m a) hb)]
    | some cb =>
      have hba : b ≠ a := fun h => hab h.symm
      rw [sweepInner_eq m a, sweepInner_eq m b, sweepInner_eq _ b, sweepInner_eq _ a,
        ← applyWrites_append, ← applyWrites_append]
      apply module_ext
      · rw [(applyWrites_frame _ m).2.1, (applyWrites_frame _ m).2.1]
      · rw [(applyWrites_frame _ m).2.2, (applyWrites_frame _ m).2.2]
      intro x
      rw [context?_applyWrites, context?_applyWrites]
      cases hx : m.context? x with
      | none => rfl
      | some cx =>
        simp only [Option.map_some']
        congr 1
        apply same_apply
        rw [writesOf_after m a b ca cb hab ha hb, writesOf_after m b a cb ca hba hb ha]
        have wa : writesOf m a = ca.usedVariables.flatMap (markWrite m a) ++
            (ancestors m m.contexts.length ca.parent).map
              (fun c => (c, ({ hasDirectEval := ca.hasDirectEval,
                               hasWith := ca.hasWith } : Effect))) ++
            liftWrites m a ca := by
          unfold writesOf
          rw [ha]
        have wb : writesOf m b = cb.usedVariables.flatMap (markWrite m b) ++
            (ancestors m m.contexts.length cb.parent).map
              (fun c => (c, ({ hasDirectEval := cb.hasDirectEval,
                               hasWith := cb.hasWith } : Effect))) ++
            liftWrites m b cb := by
          unfold writesOf
          rw [hb]
        rw [wa, wb]
        simp only [effectAt_append_eq, effectAt_flagWrites]
        have t1 : x ∈ ancestors m m.contexts.length cb.parent →
            b ∈ ancestors m m.contexts.length ca.parent →
            x ∈ ancestors m m.contexts.length ca.parent :=
          fun h2 h1 => ancestors_transitive m ca.parent b x cb hb h1 h2
        have t2 : x ∈ ancestors m m.contexts.length ca.parent →
            a ∈ ancestors m m.contexts.length cb.parent →
            x ∈ ancestors m m.contexts.length cb.parent :=
          fun h2 h1 => ancestors_transitive m cb.parent a x ca ha h1 h2
        refine same_combine _ _ _ _ _ _ _ _
          (isMark_effectAt _ (isMark_markWrites m a ca.usedVariables) x)
          (isMark_effectAt _ (isMark_markWrites m b cb.usedVariables) x)
          (isFlag_ite _ _ _) (isFlag_ite _ _ _) (isFlag_ite _ _ _) (isFlag_ite _ _ _)
          (isLift_effectAt _ (isLift_liftWrites m a ca) x)
          (isLift_effectAt _ (isLift_liftWrites m b cb) x) ?_ ?_ ?_
        · rw [flag_hasDirectEval, flag_hasDirectEval, flag_hasDirectEval, flag_hasDirectEval]
          exact bool_flags _ _ _ _ _ _ (by simpa using t1) (by simpa using t2)
        · rw [flag_hasWith, flag_hasWith, flag_hasWith, flag_hasWith]
          exact bool_flags _ _ _ _ _ _ (by simpa using t1) (by simpa using t2)
        · have hag := fun u u' => lift_uses_agree m a b ca cb hab ha hb x u u'
          generalize (effectAt (liftWrites m a ca) x).usesArgumentsObject = ua at hag ⊢
          generalize (effectAt (liftWrites m b cb) x).usesArgumentsObject = ub at hag ⊢
          cases ua with
          | none => cases ub <;> rfl
          | some u =>
            cases ub with
            | none => rfl
            | some u' =>
              have e := hag u u' rfl rfl
              subst e
              rfl

theorem modify_comm (m : Module) (a b : Nat) (f g : Context → Context) (hab : a ≠ b) :
    (m.modify a f).modify b g = (m.modify b g).modify a f := by
  apply module_ext
  · rw [Module.modify_contextMap, Module.modify_contextMap, Module.modify_contextMap,
      Module.modify_contextMap]
  · rw [Module.modify_debugMode, Module.modify_debugMode, Module.modify_debugMode,
      Module.modify_debugMode]
  intro x
  rw [Module.context?_modify, Module.context?_modify, Module.context?_modify,
    Module.context?_modify]
  by_cases h1 : a = x
  · have h2 : ¬ b = x := fun h => hab (h1.trans h.symm)
    rw [if_pos h1, if_neg h2, if_neg h2, if_pos h1]
  · rw [if_neg h1, if_neg h1]

theorem sweepContext_comm (m : Module) (a b : Nat) :
    sweepContext (sweepContext m a) b = sweepContext (sweepContext m b) a := by
  by_cases hab : a = b
  · subst hab
    rfl
  unfold sweepContext
  rw [Module.modify_debugMode, Module.modify_debugMode]
  exact modify_comm m a b _ _ hab

theorem order_foldl_sweepInner (l : List Nat) (m : Module) :
    (l.foldl sweepInner m).order = m.order := by
  induction l generalizing m with
  | nil => rfl
  | cons a l ih =>
    rw [List.foldl_cons, ih]
    unfold Module.order
    rw [(sweepInner_rel m a).contextMap]

end ScanFunctions

namespace ScanFunctions

/-- C37: the result of `calcEscapingVariables` does not depend on the order in which the
contexts of the context map are iterated: with the first loop run over any arrangement
`l1` of the contexts of the map and the second loop over any arrangement `l2` of them,
the module that results, with every flag of every context and the escape mark of every
member, is the one the sweep gives in the order of the map. -/
theorem calcEscapingVariables_order_independent (m : Module) (l1 l2 : List Nat)
    (h1 : l1.Perm m.order) (h2 : l2.Perm m.order) :
    l2.foldl sweepContext (l1.foldl sweepInner m) = calcEscapingVariables m := by
  unfold calcEscapingVariables
  simp only
  rw [order_foldl_sweepInner,
    h1.foldl_eq' (fun x _ y _ z => sweepInner_comm z x y) m,
    h2.foldl_eq' (fun x _ y _ z => sweepContext_comm z x y)]

end ScanFunctions

/-- C37 at the module `exModule`, with both loops run from the last context of the map to
the first. -/
theorem calcEscapingVariables_order_independent_witness :
    [2, 1, 0].Perm exModule.order ∧
    [2, 1, 0].foldl ScanFunctions.sweepContext ([2, 1, 0].foldl ScanFunctions.sweepInner exModule) =
      ScanFunctions.calcEscapingVariables exModule :=
  ⟨List.reverse_perm [0, 1, 2],
    ScanFunctions.calcEscapingVariables_order_independent exModule [2, 1, 0] [2, 1, 0]
      (List.reverse_perm [0, 1, 2]) (List.reverse_perm [0, 1, 2])⟩

namespace Context

theorem addsMark_refl (p : String × Member) : Member.AddsMark p p := ⟨rfl, Or.inl rfl⟩

theorem addsMark_trans (p q r : String × Member) (h1 : Member.AddsMark p q)
    (h2 : Member.AddsMark q r) : Member.AddsMark p r := by
  obtain ⟨k1, e1⟩ := h1
  obtain ⟨k2, e2⟩ := h2
  refine ⟨k2.trans k1, ?_⟩
  rcases e1 with e1 | e1 <;> rcases e2 with e2 | e2
  · exact Or.inl (e2.trans e1)
  · exact Or.inr (by rw [e2, e1])
  · exact Or.inr (by rw [e2, e1])
  · exact Or.inr (by rw [e2, e1])

theorem forall2_refl (l : List (String × Member)) : List.Forall₂ Member.AddsMark l l := by
  induction l with
  | nil => exact List.Forall₂.nil
  | cons p l ih => exact List.Forall₂.cons (addsMark_refl p) ih

theorem forall2_trans {l1 l2 l3 : List (String × Member)}
    (h1 : List.Forall₂ Member.AddsMark l1 l2) (h2 : List.Forall₂ Member.AddsMark l2 l3) :
    List.Forall₂ Member.AddsMark l1 l3 := by
  induction h1 generalizing l3 with
  | nil => cases h2; exact List.Forall₂.nil
  | cons hp _ ih =>
    cases h2 with
    | cons hq hrest => exact List.Forall₂.cons (addsMark_trans _ _ _ hp hq) (ih hrest)

theorem forall2_map (l : List (String × Member)) (f : String × Member → String × Member)
    (hf : ∀ p, Member.AddsMark p (f p)) : List.Forall₂ Member.AddsMark l (l.map f) := by
  induction l with
  | nil => exact List.Forall₂.nil
  | cons p l ih => exact List.Forall₂.cons (hf p) ih

theorem forall2_keys {l l' : List (String × Member)} (h : List.Forall₂ Member.AddsMark l l') :
    l'.map Prod.fst = l.map Prod.fst := by
  induction h with
  | nil => rfl
  | cons hp _ ih => rw [List.map_cons, List.map_cons, ih, hp.1]

theorem forall2_lookup {l l' : List (String × Member)} (h : List.Forall₂ Member.AddsMark l l')
    (n : String) (mem : Member) (hm : l.lookup n = some mem) :
    ∃ mem', l'.lookup n = some mem' ∧ (mem' = mem ∨ mem' = { mem with canEscape := true }) := by
  induction h with
  | nil => cases hm
  | @cons p p' l l' hp _ ih =>
    obtain ⟨k, v⟩ := p
    obtain ⟨k', v'⟩ := p'
    obtain ⟨hk, hv⟩ := hp
    simp only at hk hv
    subst hk
    by_cases hn : n = k'
    · subst hn
      simp only [List.lookup_cons, beq_self_eq_true] at hm ⊢
      cases hm
      exact ⟨v', rfl, hv⟩
    · have hb : (n == k') = false := by simpa using hn
      simp only [List.lookup_cons, hb] at hm ⊢
      exact ih hm

theorem forall2_lookup_none {l l' : List (String × Member)}
    (h : List.Forall₂ Member.AddsMark l l') (n : String) (hm : l.lookup n = none) :
    l'.lookup n = none := by
  induction h with
  | nil => rfl
  | @cons p p' l l' hp _ ih =>
    obtain ⟨k, v⟩ := p
    obtain ⟨k', v'⟩ := p'
    obtain ⟨hk, hv⟩ := hp
    simp only at hk hv
    subst hk
    by_cases hn : n = k'
    · subst hn
      simp [List.lookup_cons] at hm
    · have hb : (n == k') = false := by simpa using hn
      simp only [List.lookup_cons, hb] at hm ⊢
      exact ih hm

theorem loose_refl (c : Context) : c.Loose c := ⟨rfl, forall2_refl _, fun h => h⟩

theorem loose_trans {a b c : Context} (h1 : a.Loose b) (h2 : b.Loose c) : a.Loose c := by
  refine ⟨?_, forall2_trans h1.members h2.members, fun h => h2.argumentsCanEscape
    (h1.argumentsCanEscape h)⟩
  have e1 := h1.rest
  have e2 := h2.rest
  rw [e2]
  conv_lhs => rw [e1]

theorem addsMarks_loose {c c' : Context} (h : c.AddsMarks c') : c.Loose c' :=
  ⟨h.rest, h.members, h.argumentsCanEscape⟩

theorem addsMarks_refl (c : Context) : c.AddsMarks c := ⟨rfl, forall2_refl _, fun h => h, fun h => h⟩

theorem addsMarks_trans (a b c : Context) (h1 : a.AddsMarks b) (h2 : b.AddsMarks c) :
    a.AddsMarks c :=
  ⟨(loose_trans (addsMarks_loose h1) (addsMarks_loose h2)).rest,
    forall2_trans h1.members h2.members,
    fun h => h2.argumentsCanEscape (h1.argumentsCanEscape h),
    fun h => h2.requiresExecutionContext (h1.requiresExecutionContext h)⟩

end Context

namespace ScanFunctions

theorem applyAllVarsEscape_loose (all : Bool) (c : Context) :
    c.Loose (applyAllVarsEscape all c) := by
  unfold applyAllVarsEscape
  split
  · exact ⟨rfl, Context.forall2_refl _, fun _ => rfl⟩
  · exact Context.loose_refl c

theorem clearGlobalRequirement_loose (c : Context) : c.Loose (clearGlobalRequirement c) := by
  unfold clearGlobalRequirement
  split
  · exact ⟨rfl, Context.forall2_refl _, fun h => h⟩
  · exact Context.loose_refl c

theorem requireStrictEval_loose (c : Context) : c.Loose (requireStrictEval c) := by
  unfold requireStrictEval
  split
  · exact ⟨rfl, Context.forall2_refl _, fun h => h⟩
  · exact Context.loose_refl c

theorem settleArgumentsObject_noop (c : Context)
    (h1 : c.usesArgumentsObject ≠ .ArgumentsObjectUnknown)
    (h2 : c.parent = none → c.usesArgumentsObject = .ArgumentsObjectNotUsed) :
    settleArgumentsObject c = c := by
  unfold settleArgumentsObject
  split
  · rename_i h
    have hu : c.usesArgumentsObject = .ArgumentsObjectNotUsed := by
      rcases h with h | h
      · exact h2 (by simpa using h)
      · exact absurd h h1
    obtain ⟨_, _, _, _, _, _, _, _, _, _, _, _, _, _, _, _, _, _, _⟩ := c
    simp only at hu
    subst hu
    rfl
  · rfl

theorem injectArguments_loose (c : Context)
    (h : c.usesArgumentsObject = .ArgumentsObjectUsed →
      (c.members.lookup "arguments").isSome = true) : c.Loose (injectArguments c) := by
  unfold injectArguments
  split
  · rename_i hu
    have hsome := h hu
    have e : (c.addLocalVar "arguments" .VariableDeclaration .Var).2 = c := by
      unfold Context.addLocalVar
      cases hl : c.members.lookup "arguments" with
      | none => rw [hl] at hsome; cases hsome
      | some mem =>
        simp only
        split <;> rfl
    simp only [e]
    split
    · exact ⟨rfl, Context.forall2_refl _, fun _ => rfl⟩
    · exact Context.loose_refl c
  · exact Context.loose_refl c

theorem escapeAllMembers_loose (all : Bool) (c : Context) : c.Loose (escapeAllMembers all c) := by
  unfold escapeAllMembers
  split
  · exact ⟨rfl, Context.forall2_map _ _ fun p => ⟨rfl, Or.inr rfl⟩, fun h => h⟩
  · exact Context.loose_refl c

theorem loose_uses {c c' : Context} (h : c.Loose c') :
    c'.usesArgumentsObject = c.usesArgumentsObject := by
  have e := congrArg Context.usesArgumentsObject h.rest
  exact e

theorem loose_parent {c c' : Context} (h : c.Loose c') : c'.parent = c.parent := by
  have e := congrArg Context.parent h.rest
  exact e

theorem loose_contextType {c c' : Context} (h : c.Loose c') : c'.contextType = c.contextType := by
  have e := congrArg Context.contextType h.rest
  exact e

theorem loose_isStrict {c c' : Context} (h : c.Loose c') : c'.isStrict = c.isStrict := by
  have e := congrArg Context.isStrict h.rest
  exact e

theorem loose_lookup {c c' : Context} (h : c.Loose c') (n : String)
    (hn : (c.members.lookup n).isSome = true) : (c'.members.lookup n).isSome = true := by
  cases hl : c.members.lookup n with
  | none => rw [hl] at hn; cases hn
  | some mem =>
    obtain ⟨mem', hm, _⟩ := Context.forall2_lookup h.members n mem hl
    rw [hm]
    rfl

theorem finalizeContext_loose (debugMode : Bool) (y : Context)
    (h1 : y.usesArgumentsObject ≠ .ArgumentsObjectUnknown)
    (h2 : y.parent = none → y.usesArgumentsObject = .ArgumentsObjectNotUsed)
    (h3 : y.usesArgumentsObject = .ArgumentsObjectUsed →
      (y.members.lookup "arguments").isSome = true) :
    y.Loose (finalizeContext debugMode y) := by
  unfold finalizeContext
  dsimp only
  have l3 : y.Loose (requireStrictEval (clearGlobalRequirement
      (applyAllVarsEscape (allVarsEscape debugMode y) y))) :=
    Context.loose_trans (Context.loose_trans (applyAllVarsEscape_loose _ y)
      (clearGlobalRequirement_loose _)) (requireStrictEval_loose _)
  rw [settleArgumentsObject_noop _ (by rw [loose_uses l3]; exact h1)
    (by rw [loose_uses l3, loose_parent l3]; exact h2)]
  exact Context.loose_trans (Context.loose_trans l3
    (injectArguments_loose _ (by
      rw [loose_uses l3]
      exact fun hu => loose_lookup l3 _ (h3 hu)))) (escapeAllMembers_loose _ _)

theorem finalizeContext_requires (debugMode : Bool) (y : Context)
    (hreq : y.requiresExecutionContext = true)
    (h1 : y.usesArgumentsObject ≠ .ArgumentsObjectUnknown)
    (h2 : y.parent = none → y.usesArgumentsObject = .ArgumentsObjectNotUsed)
    (hg : y.contextType = .Global →
      y.usesArgumentsObject = .ArgumentsObjectUsed ∧ y.isStrict = false) :
    (finalizeContext debugMode y).requiresExecutionContext = true := by
  unfold finalizeContext
  dsimp only
  have l3 : y.Loose (requireStrictEval (clearGlobalRequirement
      (applyAllVarsEscape (allVarsEscape debugMode y) y))) :=
    Context.loose_trans (Context.loose_trans (applyAllVarsEscape_loose _ y)
      (clearGlobalRequirement_loose _)) (requireStrictEval_loose _)
  rw [settleArgumentsObject_noop _ (by rw [loose_uses l3]; exact h1)
    (by rw [loose_uses l3, loose_parent l3]; exact h2),
    requires_escapeAllMembers, requires_injectArguments, loose_uses l3, loose_isStrict l3]
  by_cases hglobal : y.contextType = .Global
  · rw [if_pos (hg hglobal)]
  · split
    · rfl
    · have r1 : (applyAllVarsEscape (allVarsEscape debugMode y) y).requiresExecutionContext =
          true := by
        unfold applyAllVarsEscape
        split
        · rfl
        · exact hreq
      have r2 : (clearGlobalRequirement
          (applyAllVarsEscape (allVarsEscape debugMode y) y)).requiresExecutionContext = true := by
        unfold clearGlobalRequirement
        rw [if_neg (by rw [loose_contextType (applyAllVarsEscape_loose _ y)]; exact hglobal)]
        exact r1
      unfold requireStrictEval
      split
      · rfl
      · exact r2

theorem finalizeContext_addsMarks (debugMode : Bool) (x y : Context) (hx : x.Finalized)
    (h : x.AddsMarks y) : x.AddsMarks (finalizeContext debugMode y) := by
  have hl := Context.addsMarks_loose h
  have h1 : y.usesArgumentsObject ≠ .ArgumentsObjectUnknown := by
    rw [loose_uses hl]
    exact hx.settled
  have h2 : y.parent = none → y.usesArgumentsObject = .ArgumentsObjectNotUsed := by
    rw [loose_uses hl, loose_parent hl]
    exact hx.root
  have h3 : y.usesArgumentsObject = .ArgumentsObjectUsed →
      (y.members.lookup "arguments").isSome = true := by
    rw [loose_uses hl]
    exact fun hu => loose_lookup hl _ (hx.arguments hu)
  have hl2 := Context.loose_trans hl (finalizeContext_loose debugMode y h1 h2 h3)
  refine ⟨hl2.rest, hl2.members, hl2.argumentsCanEscape, fun hreq => ?_⟩
  refine finalizeContext_requires debugMode y (h.requiresExecutionContext hreq) h1 h2 ?_
  rw [loose_contextType hl, loose_uses hl, loose_isStrict hl]
  exact fun hglobal => hx.global hglobal hreq

theorem finalizeContext_finalized (debugMode : Bool) (z : Context) :
    (finalizeContext debugMode z).Finalized := by
  have hg := finalizeContext_grows debugMode z
  have hu := finalizeContext_uses debugMode z
  have hsettle : (settleArgumentsObject z).usesArgumentsObject ≠ .ArgumentsObjectUnknown ∧
      (z.parent = none →
        (settleArgumentsObject z).usesArgumentsObject = .ArgumentsObjectNotUsed) := by
    unfold settleArgumentsObject
    split
    · exact ⟨by simp, fun _ => rfl⟩
    · rename_i h
      refine ⟨fun hk => h (Or.inr hk), fun hp => absurd (Or.inl ?_) h⟩
      rw [hp]
      rfl
  refine ⟨?_, ?_, ?_, ?_⟩
  · rw [hu]
    exact hsettle.1
  · rw [hu, hg.parent]
    exact hsettle.2
  · intro hused
    cases hm : z.memberInfo "arguments" with
    | none =>
      obtain ⟨mem, h, _⟩ := (finalizeContext_arguments_used debugMode z hused).1 hm
      unfold Context.memberInfo at h
      rw [h]
      rfl
    | some mem =>
      obtain ⟨mem', h, _⟩ := hg.member "arguments" mem hm
      unfold Context.memberInfo at h
      rw [h]
      rfl
  · intro hglobal hreq
    rw [hg.contextType] at hglobal
    rw [hg.isStrict, hu]
    unfold finalizeContext at hreq
    dsimp only at hreq
    rw [requires_escapeAllMembers, requires_injectArguments, uses_settle_after,
      isStrict_settleArgumentsObject, requires_settleArgumentsObject] at hreq
    have l2 : z.Loose (clearGlobalRequirement
        (applyAllVarsEscape (allVarsEscape debugMode z) z)) :=
      Context.loose_trans (applyAllVarsEscape_loose _ z) (clearGlobalRequirement_loose _)
    have l3 := Context.loose_trans l2 (requireStrictEval_loose _)
    rw [loose_isStrict l3] at hreq
    split at hreq
    · rename_i h
      exact h
    · exfalso
      have r2 : (clearGlobalRequirement
          (applyAllVarsEscape (allVarsEscape debugMode z) z)).requiresExecutionContext =
          false := by
        unfold clearGlobalRequirement
        rw [if_pos (by rw [loose_contextType (applyAllVarsEscape_loose _ z)]; exact hglobal)]
      unfold requireStrictEval at hreq
      rw [if_neg (by
        rw [loose_contextType l2, hglobal]
        exact fun h => by cases h.1)] at hreq
      rw [r2] at hreq
      cases hreq

end ScanFunctions

namespace ScanFunctions

theorem addsMarks_marks {c c' : Context} (h : c.AddsMarks c') : c.Marks c' := by
  have hl := Context.addsMarks_loose h
  have e1 := congrArg Context.arguments h.rest
  have e2 := congrArg Context.usedVariables h.rest
  have e3 := congrArg Context.hasTry h.rest
  refine ⟨⟨loose_parent hl, loose_contextType hl, loose_isStrict hl, e1, e2, ?_,
    h.argumentsCanEscape, fun hr _ => h.requiresExecutionContext hr⟩,
    Context.forall2_keys h.members, e3, h.requiresExecutionContext, ?_⟩
  · intro n mem hm
    obtain ⟨mem', h1, h2⟩ := Context.forall2_lookup h.members n mem hm
    refine ⟨mem', h1, fun hc => ?_⟩
    rcases h2 with h2 | h2
    · rw [h2]
      exact hc
    · rw [h2]
  · intro hu
    rw [loose_uses hl] at hu
    exact Or.inl hu

theorem addsMarks_rel_marks {m m' : Module} (h : Module.Rel Context.AddsMarks m m') :
    Module.Rel Context.Marks m m' :=
  Module.Rel.rel_mono (fun _ _ => addsMarks_marks) h

theorem apply_addsMarks (e : Effect) (y : Context)
    (hd : e.hasDirectEval = true → y.hasDirectEval = true)
    (hw : e.hasWith = true → y.hasWith = true) (hu : e.usesArgumentsObject = none) :
    y.AddsMarks (e.apply y) := by
  have h1 : (y.hasDirectEval || e.hasDirectEval) = y.hasDirectEval := by
    cases hy : y.hasDirectEval <;> cases he : e.hasDirectEval <;> simp_all
  have h2 : (y.hasWith || e.hasWith) = y.hasWith := by
    cases hy : y.hasWith <;> cases he : e.hasWith <;> simp_all
  refine ⟨?_, ?_, ?_, ?_⟩
  · simp only [Effect.apply, h1, h2, hu, Option.getD_none]
  · exact Context.forall2_map _ _ fun p => ⟨rfl, by
      dsimp only
      split
      · exact Or.inr rfl
      · exact Or.inl rfl⟩
  · intro h
    simp [Effect.apply, h]
  · intro h
    simp [Effect.apply, h]

theorem ancestors_grows {m m' : Module} (hrel : Module.Rel Context.Grows m m')
    (fuel : Nat) (c : Option Nat) : ancestors m' fuel c = ancestors m fuel c := by
  induction fuel generalizing c with
  | zero => unfold ancestors; rfl
  | succ fuel ih =>
    cases c with
    | none => unfold ancestors; rfl
    | some c =>
      unfold ancestors
      cases hc : m.context? c with
      | none =>
        have : m'.context? c = none := by
          unfold Module.context? at hc ⊢
          rw [List.getElem?_eq_none_iff] at hc ⊢
          rw [hrel.length]
          exact hc
        rw [this]
      | some ctx =>
        obtain ⟨ctx', hc', hm⟩ := hrel.context c ctx hc
        rw [hc']
        simp only
        rw [hm.parent, ih]

theorem enclosingNonBlock_grows {m s : Module} (hrel : Module.Rel Context.Grows m s)
    (fuel : Nat) (p : Option Nat) : enclosingNonBlock s fuel p = enclosingNonBlock m fuel p := by
  induction fuel generalizing p with
  | zero => unfold enclosingNonBlock; rfl
  | succ fuel ih =>
    cases p with
    | none => unfold enclosingNonBlock; rfl
    | some q =>
      unfold enclosingNonBlock
      cases hq : m.context? q with
      | none =>
        have : s.context? q = none := by
          unfold Module.context? at hq ⊢
          rw [List.getElem?_eq_none_iff] at hq ⊢
          rw [hrel.length]
          exact hq
        simp [this]
      | some ctx =>
        obtain ⟨ctx', hq', hm⟩ := hrel.context q ctx hq
        simp only [hq', hm.contextType, hm.parent]
        split
        · exact ih _
        · rfl

theorem ancestor_of_path {m : Module} {q x : Nat} {l : List Nat} (h : m.Path q x l) :
    ∀ (a : Nat) (ctx : Context), m.context? a = some ctx → ctx.parent = some q →
      m.Ancestor a x := by
  induction h with
  | here q ctx' _ =>
    intro a ctx ha hp
    exact Module.Ancestor.parent a q ctx ha hp
  | up c p x ctx' l hc hp' _ ih =>
    intro a ctx ha hp
    exact Module.Ancestor.up a c x ctx ha hp (ih c ctx' hc hp')

theorem ancestor_of_mem_ancestors (m : Module) (fuel : Nat) (a x : Nat) (ca : Context)
    (ha : m.context? a = some ca) (hx : x ∈ ancestors m fuel ca.parent) : m.Ancestor a x := by
  obtain ⟨q, l, hq, hl⟩ := mem_ancestors_path m fuel ca.parent x hx
  exact ancestor_of_path hl a ca ha hq

theorem firstLoop_reaches (m : Module) (c a : Nat) (c0 a0 : Context) (hc : c ∈ m.order)
    (hanc : m.Ancestor c a) (hc0 : m.context? c = some c0) (ha0 : m.context? a = some a0) :
    ∃ a1, (m.order.foldl sweepInner m).context? a = some a1 ∧
      (c0.hasDirectEval = true → a1.hasDirectEval = true) ∧
      (c0.hasWith = true → a1.hasWith = true) := by
  refine foldl_reaches sweepInner (fun m' => Module.Rel Context.Widens m m')
    (fun m' => ∃ a1, m'.context? a = some a1 ∧
      (c0.hasDirectEval = true → a1.hasDirectEval = true) ∧
      (c0.hasWith = true → a1.hasWith = true))
    (fun m' x hq => widens_rel_trans hq (sweepInner_widens m' x)) ?_ c ?_ m.order hc m
    (widens_rel_refl m)
  · intro m' x _ hp
    obtain ⟨a1, ha1, h1, h2⟩ := hp
    obtain ⟨a2, ha2, hw⟩ := (sweepInner_widens m' x).context a a1 ha1
    exact ⟨a2, ha2, fun h => hw.hasDirectEval (h1 h), fun h => hw.hasWith (h2 h)⟩
  · intro m' hq
    exact sweepInner_reaches m m' c a c0 a0 hq hanc hc0 ha0

theorem secondLoop_blockSettled (s : Module) (l : List Nat) (c : Nat)
    (hs : ∃ y, s.context? c = some y ∧ y.BlockSettled) :
    ∃ x, (l.foldl sweepContext s).context? c = some x ∧ x.BlockSettled := by
  refine foldl_invariant sweepContext (fun t => ∃ y, t.context? c = some y ∧ y.BlockSettled)
    l ?_ s hs
  intro t a _ ht
  obtain ⟨y, hy, hb⟩ := ht
  unfold sweepContext
  rw [Module.context?_modify, hy]
  split
  · exact ⟨_, rfl, (finalizeContext_allEscape _ y hb).1⟩
  · exact ⟨y, rfl, hb⟩

theorem secondLoop_finalized (s : Module) (l : List Nat) (c : Nat) (hc : c ∈ l) (x : Context)
    (hx : (l.foldl sweepContext s).context? c = some x) : x.Finalized := by
  have hlt : c < s.contexts.length := by
    rw [← (secondLoop_grows l s).length]
    exact Module.context?_lt hx
  have hy : s.context? c = some s.contexts[c] := by
    unfold Module.context?
    exact List.getElem?_eq_getElem hlt
  obtain ⟨x', hx', hf⟩ := secondLoop_establishes Context.Finalized
    finalizeContext_finalized s l c hc _ hy
  rw [hx] at hx'
  cases hx'
  exact hf

end ScanFunctions

namespace ScanFunctions

theorem calc_widens (m : Module) : Module.Rel Context.Widens m (calcEscapingVariables m) := by
  unfold calcEscapingVariables
  exact widens_rel_trans (firstLoop_widens m.order m)
    (Module.Rel.rel_mono Context.keepsFlags_widens (secondLoop_keepsFlags _ _))

theorem calc_grows (m : Module) : Module.Rel Context.Grows m (calcEscapingVariables m) := by
  unfold calcEscapingVariables
  exact Module.Rel.rel_transitive Context.grows_trans
    (Module.Rel.rel_mono (fun _ _ h => h.grows) (firstLoop_rel m.order m))
    (secondLoop_grows _ _)

theorem calc_order (m : Module) : (calcEscapingVariables m).order = m.order := by
  unfold Module.order
  rw [(calc_grows m).contextMap]

/-- After the sweep the direct-eval and `with` flags of a context of the map are set in
every context above it. -/
theorem calc_closed (m : Module) (a x : Nat) (ca1 cx1 : Context) (ha : a ∈ m.order)
    (hca : (calcEscapingVariables m).context? a = some ca1)
    (hx : x ∈ ancestors (calcEscapingVariables m) (calcEscapingVariables m).contexts.length
      ca1.parent)
    (hcx : (calcEscapingVariables m).context? x = some cx1) :
    (ca1.hasDirectEval = true → cx1.hasDirectEval = true) ∧
    (ca1.hasWith = true → cx1.hasWith = true) := by
  have hG := calc_grows m
  rw [ancestors_grows hG, hG.length] at hx
  obtain ⟨ca0, hca0, ga⟩ := Module.Rel.rel_back hG hca
  obtain ⟨cx0, hcx0, _⟩ := Module.Rel.rel_back hG hcx
  rw [ga.parent] at hx
  have hanc : m.Ancestor a x := ancestor_of_mem_ancestors m _ a x ca0 hca0 hx
  have hK : Module.Rel Context.KeepsFlags (m.order.foldl sweepInner m)
      (calcEscapingVariables m) := by
    unfold calcEscapingVariables
    exact secondLoop_keepsFlags _ _
  obtain ⟨ya, hya, ka⟩ := Module.Rel.rel_back hK hca
  obtain ⟨yx, hyx, kx⟩ := Module.Rel.rel_back hK hcx
  have hstem := firstLoop_stem m m.order m (fun _ h => h) (widens_rel_refl m)
    (Module.flagsStem_refl m) a ya hya
  have reach : ∀ c c0, (c = a ∨ (c ∈ m.order ∧ m.Ancestor c a)) → m.context? c = some c0 →
      (c0.hasDirectEval = true → cx1.hasDirectEval = true) ∧
      (c0.hasWith = true → cx1.hasWith = true) := by
    intro c c0 hc hc0
    have hmem : c ∈ m.order ∧ m.Ancestor c x := by
      rcases hc with hc | hc
      · subst hc
        exact ⟨ha, hanc⟩
      · exact ⟨hc.1, Module.ancestor_trans hc.2 hanc⟩
    obtain ⟨a1, ha1, h1, h2⟩ := firstLoop_reaches m c x c0 cx0 hmem.1 hmem.2 hc0 hcx0
    rw [hyx] at ha1
    cases ha1
    exact ⟨fun h => by rw [kx.hasDirectEval]; exact h1 h,
      fun h => by rw [kx.hasWith]; exact h2 h⟩
  constructor
  · intro h
    rw [ka.hasDirectEval] at h
    obtain ⟨c, c0, hc, hc0, hf⟩ := hstem.1 h
    exact (reach c c0 hc hc0).1 hf
  · intro h
    rw [ka.hasWith] at h
    obtain ⟨c, c0, hc, hc0, hf⟩ := hstem.2 h
    exact (reach c c0 hc hc0).2 hf

/-- After the sweep no block of the map is left to hand the use of the arguments object
over. -/
theorem calc_nolift (m : Module) (a : Nat) (ca1 : Context) (ha : a ∈ m.order)
    (hca : (calcEscapingVariables m).context? a = some ca1) :
    liftWrites (calcEscapingVariables m) a ca1 = [] := by
  unfold liftWrites
  split
  · rename_i live
    cases he : enclosingNonBlock (calcEscapingVariables m)
        (calcEscapingVariables m).contexts.length ca1.parent with
    | none => rfl
    | some f =>
      exfalso
      have hG := calc_grows m
      obtain ⟨ca0, hca0, ga⟩ := Module.Rel.rel_back hG hca
      rw [enclosingNonBlock_grows hG, hG.length, ga.parent] at he
      obtain ⟨y, hy, hb⟩ := firstLoop_blockSettled m a ca0 ha hca0
        (fun _ _ => by rw [he]; rfl)
      obtain ⟨x, hx, hbx⟩ := secondLoop_blockSettled (m.order.foldl sweepInner m)
        (m.order.foldl sweepInner m).order a ⟨y, hy, hb⟩
      have hx' : (calcEscapingVariables m).context? a = some x := hx
      rw [hca] at hx'
      cases hx'
      exact hbx live.1 live.2
  · rfl

/-- One body of the first loop, run on a module that is the swept module `m1` with
further marks, adds marks only. -/
theorem sweepInner_addsMarks (m1 t : Module) (a : Nat)
    (hrel : Module.Rel Context.AddsMarks m1 t)
    (hclosed : ∀ ca1 x cx1, m1.context? a = some ca1 →
      x ∈ ancestors m1 m1.contexts.length ca1.parent → m1.context? x = some cx1 →
      (ca1.hasDirectEval = true → cx1.hasDirectEval = true) ∧
      (ca1.hasWith = true → cx1.hasWith = true))
    (hnolift : ∀ ca1, m1.context? a = some ca1 → liftWrites m1 a ca1 = []) :
    Module.Rel Context.AddsMarks m1 (sweepInner t a) := by
  have hM := addsMarks_rel_marks hrel
  have hS := sweepInner_rel t a
  refine ⟨hS.length.trans hrel.length, hS.contextMap.trans hrel.contextMap,
    hS.debugMode.trans hrel.debugMode, ?_⟩
  intro x x1 hx1
  obtain ⟨y, hy, hxy⟩ := hrel.context x x1 hx1
  rw [sweepInner_eq, context?_applyWrites, hy]
  refine ⟨_, rfl, Context.addsMarks_trans _ _ _ hxy ?_⟩
  cases hat : t.context? a with
  | none =>
    have : writesOf t a = [] := by
      unfold writesOf
      rw [hat]
    rw [this, effectAt_nil, Effect.apply_id]
    exact Context.addsMarks_refl y
  | some cat =>
    obtain ⟨ca1, hca1, haa⟩ := Module.Rel.rel_back hrel hat
    have hla := Context.addsMarks_loose haa
    have e1 := congrArg Context.hasDirectEval haa.rest
    have e2 := congrArg Context.hasWith haa.rest
    have e3 := congrArg Context.hasDirectEval hxy.rest
    have e4 := congrArg Context.hasWith hxy.rest
    obtain ⟨hd, hw⟩ := effectAt_writesOf_flags t a cat hat x
    have hlift : liftWrites t a cat = [] := by
      rw [← hnolift ca1 hca1]
      unfold liftWrites
      rw [hM.length, enclosingNonBlock_transfer hM, loose_contextType hla, loose_uses hla,
        loose_parent hla]
    have hanc : x ∈ ancestors t t.contexts.length cat.parent →
        x ∈ ancestors m1 m1.contexts.length ca1.parent := by
      rw [ancestors_transfer hM, hM.length, loose_parent hla]
      exact fun h => h
    apply apply_addsMarks
    · rw [hd]
      intro h
      simp only [Bool.and_eq_true, decide_eq_true_eq] at h
      have := (hclosed ca1 x x1 hca1 (hanc h.1) hx1).1 (by rw [← e1]; exact h.2)
      exact e3.trans this
    · rw [hw]
      intro h
      simp only [Bool.and_eq_true, decide_eq_true_eq] at h
      have := (hclosed ca1 x x1 hca1 (hanc h.1) hx1).2 (by rw [← e2]; exact h.2)
      exact e4.trans this
    · rw [effectAt_writesOf_uses t a cat hat, hlift]
      rfl

theorem sweepContext_addsMarks (m1 t : Module) (a : Nat)
    (hrel : Module.Rel Context.AddsMarks m1 t)
    (hfin : ∀ ca1, m1.context? a = some ca1 → ca1.Finalized) :
    Module.Rel Context.AddsMarks m1 (sweepContext t a) := by
  unfold sweepContext
  refine ⟨(Module.modify_length _ _ _).trans hrel.length,
    (Module.modify_contextMap _ _ _).trans hrel.contextMap,
    (Module.modify_debugMode _ _ _).trans hrel.debugMode, ?_⟩
  intro x x1 hx1
  obtain ⟨y, hy, hxy⟩ := hrel.context x x1 hx1
  rw [Module.context?_modify, hy]
  split
  · rename_i hax
    subst hax
    exact ⟨_, rfl, finalizeContext_addsMarks _ x1 y (hfin x1 hx1) hxy⟩
  · exact ⟨y, rfl, hxy⟩

theorem addsMarks_rel_refl (m : Module) : Module.Rel Context.AddsMarks m m :=
  Module.Rel.rel_reflexive Context.addsMarks_refl m

end ScanFunctions

namespace ScanFunctions

/-- C38 (amended). A second run of `calcEscapingVariables` on the output of the first
takes nothing back and changes nothing but escape marks: the context map, the debug
mode and the number of contexts stay, and every context is after the second run what it
was after the first, except that members can have their `canEscape` set, and
`argumentsCanEscape` and `requiresExecutionContext` can be set. The members are the same
in the same order, no `canEscape`, `argumentsCanEscape` or `requiresExecutionContext`
that was set is cleared, and `hasDirectEval`, `hasWith`, `hasTry`, `usesArgumentsObject`
and everything else of the context are unchanged. -/
theorem calcEscapingVariables_second_run (m : Module) :
    (calcEscapingVariables (calcEscapingVariables m)).contexts.length =
      (calcEscapingVariables m).contexts.length ∧
    (calcEscapingVariables (calcEscapingVariables m)).contextMap =
      (calcEscapingVariables m).contextMap ∧
    (calcEscapingVariables (calcEscapingVariables m)).debugMode =
      (calcEscapingVariables m).debugMode ∧
    ∀ x x1, (calcEscapingVariables m).context? x = some x1 →
      ∃ x2, (calcEscapingVariables (calcEscapingVariables m)).context? x = some x2 ∧
        x1.AddsMarks x2 := by
  have horder := calc_order m
  have h1 : Module.Rel Context.AddsMarks (calcEscapingVariables m)
      ((calcEscapingVariables m).order.foldl sweepInner (calcEscapingVariables m)) := by
    refine foldl_invariant sweepInner
      (fun t => Module.Rel Context.AddsMarks (calcEscapingVariables m) t) _ ?_ _
      (addsMarks_rel_refl _)
    intro t a ha ht
    rw [horder] at ha
    exact sweepInner_addsMarks _ t a ht
      (fun ca1 x cx1 hca hx hcx => calc_closed m a x ca1 cx1 ha hca hx hcx)
      (fun ca1 hca => calc_nolift m a ca1 ha hca)
  have h2 : Module.Rel Context.AddsMarks (calcEscapingVariables m)
      (calcEscapingVariables (calcEscapingVariables m)) := by
    show Module.Rel Context.AddsMarks (calcEscapingVariables m)
      (((calcEscapingVariables m).order.foldl sweepInner (calcEscapingVariables m)).order.foldl
        sweepContext ((calcEscapingVariables m).order.foldl sweepInner (calcEscapingVariables m)))
    refine foldl_invariant sweepContext
      (fun t => Module.Rel Context.AddsMarks (calcEscapingVariables m) t) _ ?_ _ h1
    intro t a ha ht
    rw [order_foldl_sweepInner, horder] at ha
    refine sweepContext_addsMarks _ t a ht fun ca1 hca => ?_
    exact secondLoop_finalized (m.order.foldl sweepInner m) (m.order.foldl sweepInner m).order a
      (by rw [order_foldl_sweepInner]; exact ha) ca1 hca
  exact ⟨h2.length, h2.contextMap, h2.debugMode, h2.context⟩

end ScanFunctions

/-- C38, counterexample: after the walk over `function f() { { arguments; } }` and one
run of the sweep, the member `arguments` of the function (context 1) does not have
`canEscape` set; a second run of the sweep sets it, so the second run changes a flag
of a member. -/
theorem calcEscapingVariables_second_run_counterexample :
    exSweptBlockArguments = (ScanFunctions.run {} exProgramBlockArguments).module ∧
    ((exSweptBlockArguments.context? 1).bind fun c => c.memberInfo "arguments").map
      (fun mem => mem.canEscape) = some false ∧
    (((ScanFunctions.calcEscapingVariables exSweptBlockArguments).context? 1).bind
      fun c => c.memberInfo "arguments").map (fun mem => mem.canEscape) = some true ∧
    ScanFunctions.calcEscapingVariables exSweptBlockArguments ≠ exSweptBlockArguments := by
  refine ⟨rfl, by decide, by decide, fun h => ?_⟩
  have h1 : (((ScanFunctions.calcEscapingVariables exSweptBlockArguments).context? 1).bind
      fun c => c.memberInfo "arguments").map (fun mem => mem.canEscape) = some true := by
    decide
  rw [h] at h1
  revert h1
  decide

/-- C38, witness: for the module of `function f() { { arguments; } }` as the walk leaves
it, the function (context 1) is after the second run of the sweep what it was after the
first, with further escape marks. -/
theorem calcEscapingVariables_second_run_witness :
    ∃ x1 x2,
      (ScanFunctions.calcEscapingVariables exWalkedBlockArguments).context? 1 = some x1 ∧
      (ScanFunctions.calcEscapingVariables (ScanFunctions.calcEscapingVariables
        exWalkedBlockArguments)).context? 1 = some x2 ∧
      x1.AddsMarks x2 := by
  have hs : ((ScanFunctions.calcEscapingVariables exWalkedBlockArguments).context? 1).isSome =
      true := by decide
  cases hx : (ScanFunctions.calcEscapingVariables exWalkedBlockArguments).context? 1 with
  | none =>
    rw [hx] at hs
    cases hs
  | some x1 =>
    obtain ⟨x2, h2, h3⟩ :=
      (ScanFunctions.calcEscapingVariables_second_run exWalkedBlockArguments).2.2.2 1 x1 hx
    exact ⟨x1, x2, rfl, h2, h3⟩

end Compiler
end QV4
